import Mathlib

/-!
# Yori make: target graph, inference rules and scheduler

A shallow embedding of `make/target.c`.  Pointers are natural-number
identifiers into heaps held by the context (`Target`, `InferenceRule`,
`Scope`); intrusive lists are lists of identifiers (or of dependency records)
held by the owner of the list head.  Memory allocation is taken to succeed.
`ASSERT` is a debug-build check and is not part of the embedding.  Loops whose
termination depends on the shape of the heap take a `fuel` argument and return
`none` when it runs out.
-/

namespace Yori

/-- The characters of a counted string (`YORI_STRING`), without terminator. -/
abbrev YORI_STRING := List Char

/-- A pointer to a `MAKE_TARGET`. -/
abbrev TargetId := Nat

/-- A pointer to a `MAKE_INFERENCE_RULE`. -/
abbrev RuleId := Nat

/-- A pointer to a `MAKE_SCOPE_CONTEXT`. -/
abbrev ScopeId := Nat

/-- One compiled command of a target (`MAKE_CMD_TO_EXEC`). -/
structure MAKE_CMD_TO_EXEC where
  Cmd : YORI_STRING
  DisplayCmd : Bool
  IgnoreErrors : Bool
deriving DecidableEq

/-- A dependency edge (`MAKE_TARGET_DEPENDENCY`); the record is linked into
the `ChildDependents` list of `Parent` and the `ParentDependents` list of
`Child`. -/
structure MAKE_TARGET_DEPENDENCY where
  Parent : TargetId
  Child : TargetId
deriving DecidableEq

/-- A target (`MAKE_TARGET`).  `Key` is `HashEntry.Key`.  The list hooks
`ListEntry`, `RebuildList` and `InferenceRuleNeededList` are represented by
membership in the lists of the context and of the scope. -/
structure MAKE_TARGET where
  Key : YORI_STRING
  ScopeContext : Option ScopeId
  ReferenceCount : Int
  NumberParentsToBuild : Nat
  ExplicitRecipeFound : Bool
  Executed : Bool
  FileExists : Bool
  ExecuteViaShell : Bool
  RebuildRequired : Bool
  DependenciesEvaluated : Bool
  InferenceRulePseudoTarget : Bool
  ModifiedTime : Int
  InferenceRule : Option RuleId
  InferenceRuleParentTarget : Option TargetId
  Recipe : YORI_STRING
  ExecCmds : List MAKE_CMD_TO_EXEC
  ParentDependents : List MAKE_TARGET_DEPENDENCY
  ChildDependents : List MAKE_TARGET_DEPENDENCY
deriving DecidableEq

/-- An inference rule (`MAKE_INFERENCE_RULE`); `Target` is the carrier
pseudo-target holding the recipe. -/
structure MAKE_INFERENCE_RULE where
  SourceExtension : YORI_STRING
  TargetExtension : YORI_STRING
  Target : TargetId
  ScopeContext : ScopeId
  ReferenceCount : Int
deriving DecidableEq

/-- Modelled from the spec: the scope record `MAKE_SCOPE_CONTEXT` is declared
in `make.h`; these are the fields `target.c` reads and writes (working
directory key, parent pointer, rule list newest first, pending list). -/
structure MAKE_SCOPE_CONTEXT where
  Key : YORI_STRING
  ParentScope : Option ScopeId
  InferenceRuleList : List RuleId
  InferenceRuleNeededList : List TargetId
  ReferenceCount : Int
deriving DecidableEq

/-- The scratch string `MakeContext->FileToProbe`: `StartOfString` is the
NUL-terminated text currently in the buffer. -/
structure MAKE_PROBE_BUFFER where
  StartOfString : YORI_STRING
  LengthInChars : Nat
  LengthAllocated : Nat
deriving DecidableEq

/-- The root holder (`MAKE_CONTEXT`).  `Targets` is the hash table as an
association list from canonical path to target. -/
structure MAKE_CONTEXT where
  Target : TargetId → MAKE_TARGET
  InferenceRule : RuleId → MAKE_INFERENCE_RULE
  Scope : ScopeId → MAKE_SCOPE_CONTEXT
  Targets : List (YORI_STRING × TargetId)
  TargetsList : List TargetId
  AllocTarget : Nat
  AllocInferenceRule : Nat
  AllocDependency : Nat
  AllocVariableData : Nat
  FileToProbe : MAKE_PROBE_BUFFER
  ErrorTermination : Bool
  TargetsReady : List TargetId
  TargetsWaiting : List TargetId

/-- What `target.c` calls outside itself: path canonicalisation
(`YoriLibGetFullPathNameRelativeTo`, directory then name), the file probe of
`MakeLookupOrCreateTarget` (`CreateFile` and `GetFileInformationByHandle`,
giving the last write time of a file that can be opened), the probe of the
resolver (`GetFileAttributes`), and the variable expander
`MakeExpandVariables` of the scope module. -/
structure MAKE_ENV where
  YoriLibGetFullPathNameRelativeTo : YORI_STRING → YORI_STRING → Option YORI_STRING
  GetFileInformation : YORI_STRING → Option Int
  GetFileAttributes : YORI_STRING → Bool
  MakeExpandVariables : MAKE_CONTEXT → Option ScopeId → TargetId → YORI_STRING → Option YORI_STRING

/-- Store a target record at a pointer. -/
def MAKE_CONTEXT.setTarget (ctx : MAKE_CONTEXT) (t : TargetId) (v : MAKE_TARGET) : MAKE_CONTEXT :=
  { ctx with Target := Function.update ctx.Target t v }

/-- Store a rule record at a pointer. -/
def MAKE_CONTEXT.setRule (ctx : MAKE_CONTEXT) (r : RuleId) (v : MAKE_INFERENCE_RULE) : MAKE_CONTEXT :=
  { ctx with InferenceRule := Function.update ctx.InferenceRule r v }

/-- Store a scope record at a pointer. -/
def MAKE_CONTEXT.setScope (ctx : MAKE_CONTEXT) (s : ScopeId) (v : MAKE_SCOPE_CONTEXT) : MAKE_CONTEXT :=
  { ctx with Scope := Function.update ctx.Scope s v }

/-! ## Target table -/

/-- Modelled from the spec: `YoriLibHashLookupByKey` of the library, an
equality lookup by canonical path. -/
def YoriLibHashLookupByKey (Targets : List (YORI_STRING × TargetId)) (Key : YORI_STRING) :
    Option TargetId :=
  match Targets with
  | [] => none
  | e :: rest => if e.1 = Key then some e.2 else YoriLibHashLookupByKey rest Key

/-- The record `MakeLookupOrCreateTarget` writes into a newly allocated
target: `probe` is the last write time when the file could be opened. -/
def MakeInitialTarget (FullPath : YORI_STRING) (probe : Option Int) : MAKE_TARGET :=
  { Key := FullPath
    ScopeContext := none
    ReferenceCount := 1
    NumberParentsToBuild := 0
    ExplicitRecipeFound := false
    Executed := false
    FileExists := probe.isSome
    ExecuteViaShell := false
    RebuildRequired := false
    DependenciesEvaluated := false
    InferenceRulePseudoTarget := false
    ModifiedTime := probe.getD 0
    InferenceRule := none
    InferenceRuleParentTarget := none
    Recipe := []
    ExecCmds := []
    ParentDependents := []
    ChildDependents := [] }

/-- `MakeLookupOrCreateTarget`; the result is `none` for `NULL`.  The slab
allocator hands out the pointer `AllocTarget`. -/
def MakeLookupOrCreateTarget (env : MAKE_ENV) (ctx : MAKE_CONTEXT) (ScopeContext : ScopeId)
    (TargetName : YORI_STRING) : Option TargetId × MAKE_CONTEXT :=
  match env.YoriLibGetFullPathNameRelativeTo (ctx.Scope ScopeContext).Key TargetName with
  | none => (none, ctx)
  | some FullPath =>
    match YoriLibHashLookupByKey ctx.Targets FullPath with
    | some Target => (some Target, ctx)
    | none =>
      let Target : TargetId := ctx.AllocTarget
      (some Target,
        { ctx with
          Target := Function.update ctx.Target Target
            (MakeInitialTarget FullPath (env.GetFileInformation FullPath))
          AllocTarget := ctx.AllocTarget + 1
          Targets := ctx.Targets ++ [(FullPath, Target)]
          TargetsList := ctx.TargetsList ++ [Target] })

/-! ## Inference rule registry -/

/-- `MakeCreateInferenceRule`: the new rule goes to the head of the scope's
list.  The allocator hands out the pointer `AllocInferenceRule`. -/
def MakeCreateInferenceRule (ctx : MAKE_CONTEXT) (ScopeContext : ScopeId)
    (SourceExt TargetExt : YORI_STRING) (Target : TargetId) : RuleId × MAKE_CONTEXT :=
  let InferenceRule : RuleId := ctx.AllocInferenceRule
  let ctx1 := { ctx with AllocInferenceRule := ctx.AllocInferenceRule + 1 }
  let ctx2 := ctx1.setTarget Target
    { ctx1.Target Target with ReferenceCount := (ctx1.Target Target).ReferenceCount + 1 }
  let ctx3 := ctx2.setRule InferenceRule
    { SourceExtension := SourceExt
      TargetExtension := TargetExt
      Target := Target
      ScopeContext := ScopeContext
      ReferenceCount := 1 }
  let ctx4 := ctx3.setScope ScopeContext
    { ctx3.Scope ScopeContext with
      InferenceRuleList := InferenceRule :: (ctx3.Scope ScopeContext).InferenceRuleList }
  (InferenceRule, ctx4)

/-- `MakeReferenceInferenceRule`. -/
def MakeReferenceInferenceRule (ctx : MAKE_CONTEXT) (InferenceRule : RuleId) : MAKE_CONTEXT :=
  ctx.setRule InferenceRule
    { ctx.InferenceRule InferenceRule with
      ReferenceCount := (ctx.InferenceRule InferenceRule).ReferenceCount + 1 }

/-- Modelled from the spec: `MakeReferenceScope` of the scope module, which
takes one more reference on a scope. -/
def MakeReferenceScope (ctx : MAKE_CONTEXT) (ScopeContext : ScopeId) : MAKE_CONTEXT :=
  ctx.setScope ScopeContext
    { ctx.Scope ScopeContext with ReferenceCount := (ctx.Scope ScopeContext).ReferenceCount + 1 }

/-- The entry that follows `Previous` in a list in which it is linked. -/
def YoriLibListEntryAfter : List RuleId → RuleId → Option RuleId
  | [], _ => none
  | e :: rest, Previous => if e = Previous then rest.head? else YoriLibListEntryAfter rest Previous

/-- Modelled from the spec: `YoriLibGetNextListEntry` of the library: the
first entry of the list for a `NULL` previous entry, else the entry after the
previous one, `none` (`NULL`) at the end of the list. -/
def YoriLibGetNextListEntry (ListHead : List RuleId) (PreviousEntry : Option RuleId) :
    Option RuleId :=
  match PreviousEntry with
  | none => ListHead.head?
  | some Previous => YoriLibListEntryAfter ListHead Previous

/-- The `while (CurrentScope != NULL)` loop of `MakeGetNextInferenceRule`. -/
def MakeGetNextInferenceRuleWalk (ctx : MAKE_CONTEXT) :
    Nat → Option ScopeId → Option RuleId → Option (Option RuleId)
  | 0, _, _ => none
  | _ + 1, none, _ => some none
  | fuel + 1, some CurrentScope, ListEntry =>
    match YoriLibGetNextListEntry (ctx.Scope CurrentScope).InferenceRuleList ListEntry with
    | some NextRule => some (some NextRule)
    | none => MakeGetNextInferenceRuleWalk ctx fuel (ctx.Scope CurrentScope).ParentScope none

/-- `MakeGetNextInferenceRule`; the outer `none` is fuel exhaustion, the inner
one is `NULL`. -/
def MakeGetNextInferenceRule (fuel : Nat) (ctx : MAKE_CONTEXT) (TopScope : ScopeId)
    (PreviousRule : Option RuleId) : Option (Option RuleId) :=
  match PreviousRule with
  | none => MakeGetNextInferenceRuleWalk ctx fuel (some TopScope) none
  | some Previous =>
    MakeGetNextInferenceRuleWalk ctx fuel (some (ctx.InferenceRule Previous).ScopeContext)
      (some Previous)

/-- Modelled from the spec: `YoriLibUpcaseChar` of the library. -/
def YoriLibUpcaseChar (c : Char) : Char := c.toUpper

/-- Modelled from the spec: `YoriLibCompareStringInsensitive` of the library:
zero exactly when the two strings are equal ignoring case, else the sign of
the first difference. -/
def YoriLibCompareStringInsensitive : YORI_STRING → YORI_STRING → Int
  | [], [] => 0
  | [], _ :: _ => -1
  | _ :: _, [] => 1
  | a :: as, b :: bs =>
    if (YoriLibUpcaseChar a).toNat < (YoriLibUpcaseChar b).toNat then -1
    else if (YoriLibUpcaseChar a).toNat > (YoriLibUpcaseChar b).toNat then 1
    else YoriLibCompareStringInsensitive as bs

/-- The `while (NextRule != NULL)` loop of
`MakeGetNextInferenceRuleTargetExtension`. -/
def MakeGetNextInferenceRuleTargetExtensionLoop (ctx : MAKE_CONTEXT) (TopScope : ScopeId)
    (TargetExt : YORI_STRING) : Nat → Option RuleId → Option (Option RuleId)
  | 0, _ => none
  | _ + 1, none => some none
  | fuel + 1, some NextRule =>
    if YoriLibCompareStringInsensitive TargetExt (ctx.InferenceRule NextRule).TargetExtension = 0 then
      some (some NextRule)
    else
      match MakeGetNextInferenceRule fuel ctx TopScope (some NextRule) with
      | none => none
      | some Next => MakeGetNextInferenceRuleTargetExtensionLoop ctx TopScope TargetExt fuel Next

/-- `MakeGetNextInferenceRuleTargetExtension`. -/
def MakeGetNextInferenceRuleTargetExtension (fuel : Nat) (ctx : MAKE_CONTEXT) (TopScope : ScopeId)
    (TargetExt : YORI_STRING) (PreviousRule : Option RuleId) : Option (Option RuleId) :=
  match MakeGetNextInferenceRule fuel ctx TopScope PreviousRule with
  | none => none
  | some Next => MakeGetNextInferenceRuleTargetExtensionLoop ctx TopScope TargetExt fuel Next

/-! ## Inference resolver -/

/-- `MakeAssignInferenceRuleToTarget`. -/
def MakeAssignInferenceRuleToTarget (env : MAKE_ENV) (ctx : MAKE_CONTEXT) (ScopeContext : ScopeId)
    (Target : TargetId) (InferenceRule : RuleId) (SourceFileName : YORI_STRING) :
    Bool × MAKE_CONTEXT :=
  let found := MakeLookupOrCreateTarget env ctx ScopeContext SourceFileName
  let ctx1 := found.2.setTarget Target
    { found.2.Target Target with InferenceRuleParentTarget := found.1 }
  match found.1 with
  | none => (false, ctx1)
  | some Parent =>
    let ctx2 := ctx1.setTarget Parent
      { ctx1.Target Parent with ReferenceCount := (ctx1.Target Parent).ReferenceCount + 1 }
    let ctx3 := MakeReferenceInferenceRule ctx2 InferenceRule
    let ctx4 := ctx3.setTarget Target { ctx3.Target Target with InferenceRule := some InferenceRule }
    if (ctx4.Target Target).ScopeContext.isNone then
      let ctx5 := MakeReferenceScope ctx4 ScopeContext
      (true, ctx5.setTarget Target { ctx5.Target Target with ScopeContext := some ScopeContext })
    else (true, ctx4)

/-- Modelled from the spec: `YoriLibIsSep` of the library, the path
separators. -/
def YoriLibIsSep (c : Char) : Bool := c = Char.ofNat 92 || c = '/'

/-- The backwards scan of `MakeFindInferenceRuleForTarget` for the file
extension, over the reversed key; `passed` is the text after the scanned
position.  `none` when a separator is met first (the function returns
`TRUE`), otherwise `TargetExt`, empty when the key has no period. -/
def MakeFindTargetExtensionScan : YORI_STRING → YORI_STRING → Option YORI_STRING
  | [], _ => some []
  | c :: rest, passed =>
    if c = '.' then some passed
    else if YoriLibIsSep c then none
    else MakeFindTargetExtensionScan rest (c :: passed)

/-- The extension scan on a key. -/
def MakeFindTargetExtension (Key : YORI_STRING) : Option YORI_STRING :=
  MakeFindTargetExtensionScan Key.reverse []

/-- The loop of `MakeFindInferenceRuleForTarget` that finds the longest source
extension of the rules in scope. -/
def MakeFindLongestSourceExt (ctx : MAKE_CONTEXT) (ScopeContext : ScopeId) :
    Nat → Option RuleId → Nat → Option Nat
  | 0, _, _ => none
  | _ + 1, none, LongestSourceExt => some LongestSourceExt
  | fuel + 1, some InferenceRule, LongestSourceExt =>
    let Longest2 :=
      if (ctx.InferenceRule InferenceRule).SourceExtension.length > LongestSourceExt then
        (ctx.InferenceRule InferenceRule).SourceExtension.length
      else LongestSourceExt
    match MakeGetNextInferenceRule fuel ctx ScopeContext (some InferenceRule) with
    | none => none
    | some Next => MakeFindLongestSourceExt ctx ScopeContext fuel Next Longest2

/-- `YoriLibSPrintf(&FileToProbe->StartOfString[FileToProbe->LengthInChars],
"%y", Ext)`: the text up to `LengthInChars` followed by `Ext` (and the
terminator). -/
def MakeProbeBufferPrint (ctx : MAKE_CONTEXT) (Ext : YORI_STRING) : MAKE_CONTEXT :=
  { ctx with
    FileToProbe :=
      { ctx.FileToProbe with
        StartOfString := ctx.FileToProbe.StartOfString.take ctx.FileToProbe.LengthInChars ++ Ext } }

/-- Assign `FileToProbe->LengthInChars`. -/
def MakeProbeBufferSetLength (ctx : MAKE_CONTEXT) (LengthInChars : Nat) : MAKE_CONTEXT :=
  { ctx with FileToProbe := { ctx.FileToProbe with LengthInChars := LengthInChars } }

/-- The counted string `FileToProbe` as passed to
`MakeAssignInferenceRuleToTarget`. -/
def MakeProbeBufferString (ctx : MAKE_CONTEXT) : YORI_STRING :=
  ctx.FileToProbe.StartOfString.take ctx.FileToProbe.LengthInChars

/-- The first `while (InferenceRule != NULL)` loop of
`MakeFindInferenceRuleForTarget` (one level).  The result is `false` when
the function has returned `FALSE`, then `FoundRuleWithTargetExtension`. -/
def MakeFindInferenceRuleFirstPass (env : MAKE_ENV) (ScopeContext : ScopeId) (Target : TargetId)
    (TargetExt : YORI_STRING) :
    Nat → MAKE_CONTEXT → Option RuleId → Bool → Option (Bool × Bool × MAKE_CONTEXT)
  | 0, _, _, _ => none
  | _ + 1, ctx, none, Found => some (true, Found, ctx)
  | fuel + 1, ctx, some InferenceRule, _ =>
    let ctx1 := MakeProbeBufferPrint ctx (ctx.InferenceRule InferenceRule).SourceExtension
    if env.GetFileAttributes ctx1.FileToProbe.StartOfString then
      let ctx2 := MakeProbeBufferSetLength ctx1
        (ctx1.FileToProbe.LengthInChars + (ctx1.InferenceRule InferenceRule).SourceExtension.length)
      match MakeAssignInferenceRuleToTarget env ctx2 ScopeContext Target InferenceRule
          (MakeProbeBufferString ctx2) with
      | (false, ctx3) => some (false, true, ctx3)
      | (true, ctx3) => some (true, true, ctx3)
    else
      match MakeGetNextInferenceRuleTargetExtension fuel ctx1 ScopeContext TargetExt
          (some InferenceRule) with
      | none => none
      | some Next =>
        MakeFindInferenceRuleFirstPass env ScopeContext Target TargetExt fuel ctx1 Next true

/-- The inner `while (NestedRule != NULL)` loop of the second pass of
`MakeFindInferenceRuleForTarget`.  The result is `false` when the function
has returned `FALSE`. -/
def MakeFindInferenceRuleNested (env : MAKE_ENV) (ScopeContext : ScopeId) (Target : TargetId)
    (InferenceRule : RuleId) : Nat → MAKE_CONTEXT → Option RuleId → Option (Bool × MAKE_CONTEXT)
  | 0, _, _ => none
  | _ + 1, ctx, none => some (true, ctx)
  | fuel + 1, ctx, some NestedRule =>
    let ctx1 := MakeProbeBufferPrint ctx (ctx.InferenceRule NestedRule).SourceExtension
    if env.GetFileAttributes ctx1.FileToProbe.StartOfString then
      let ctx2 := MakeProbeBufferPrint ctx1 (ctx1.InferenceRule InferenceRule).SourceExtension
      let ctx3 := MakeProbeBufferSetLength ctx2
        (ctx2.FileToProbe.LengthInChars + (ctx2.InferenceRule InferenceRule).SourceExtension.length)
      match MakeAssignInferenceRuleToTarget env ctx3 ScopeContext Target InferenceRule
          (MakeProbeBufferString ctx3) with
      | (false, ctx4) => some (false, ctx4)
      | (true, ctx4) =>
        let ctx5 := MakeProbeBufferSetLength ctx4
          (ctx4.FileToProbe.LengthInChars - (ctx4.InferenceRule InferenceRule).SourceExtension.length)
        let ctx6 := MakeProbeBufferPrint ctx5 (ctx5.InferenceRule NestedRule).SourceExtension
        let ctx7 := MakeProbeBufferSetLength ctx6
          (ctx6.FileToProbe.LengthInChars + (ctx6.InferenceRule NestedRule).SourceExtension.length)
        match (ctx7.Target Target).InferenceRuleParentTarget with
        | none => some (false, ctx7)
        | some InferenceRuleParentTarget =>
          match MakeAssignInferenceRuleToTarget env ctx7 ScopeContext InferenceRuleParentTarget
              NestedRule (MakeProbeBufferString ctx7) with
          | (false, ctx8) => some (false, ctx8)
          | (true, ctx8) => some (true, ctx8)
    else
      match MakeGetNextInferenceRuleTargetExtension fuel ctx1 ScopeContext
          (ctx1.InferenceRule InferenceRule).SourceExtension (some NestedRule) with
      | none => none
      | some Next => MakeFindInferenceRuleNested env ScopeContext Target InferenceRule fuel ctx1 Next

/-- The second `while (InferenceRule != NULL)` loop of
`MakeFindInferenceRuleForTarget` (one level deeper). -/
def MakeFindInferenceRuleSecondPass (env : MAKE_ENV) (ScopeContext : ScopeId) (Target : TargetId)
    (TargetExt : YORI_STRING) : Nat → MAKE_CONTEXT → Option RuleId → Option (Bool × MAKE_CONTEXT)
  | 0, _, _ => none
  | _ + 1, ctx, none => some (true, ctx)
  | fuel + 1, ctx, some InferenceRule =>
    match MakeGetNextInferenceRuleTargetExtension fuel ctx ScopeContext
        (ctx.InferenceRule InferenceRule).SourceExtension none with
    | none => none
    | some NestedRule =>
      match MakeFindInferenceRuleNested env ScopeContext Target InferenceRule fuel ctx NestedRule with
      | none => none
      | some (false, ctx1) => some (false, ctx1)
      | some (true, ctx1) =>
        if (ctx1.Target Target).InferenceRule.isSome then some (true, ctx1)
        else
          match MakeGetNextInferenceRuleTargetExtension fuel ctx1 ScopeContext TargetExt
              (some InferenceRule) with
          | none => none
          | some Next =>
            MakeFindInferenceRuleSecondPass env ScopeContext Target TargetExt fuel ctx1 Next

/-- The part of `MakeFindInferenceRuleForTarget` from
`FoundRuleWithTargetExtension = FALSE` on: the first pass, the check that some
rule generates the extension, and the second pass. -/
def MakeFindInferenceRulePasses (env : MAKE_ENV) (ScopeContext : ScopeId) (Target : TargetId)
    (TargetExt : YORI_STRING) (fuel : Nat) (ctx : MAKE_CONTEXT) : Option (Bool × MAKE_CONTEXT) :=
  match MakeGetNextInferenceRuleTargetExtension fuel ctx ScopeContext TargetExt none with
  | none => none
  | some FirstMatch =>
    match MakeFindInferenceRuleFirstPass env ScopeContext Target TargetExt fuel ctx
        FirstMatch false with
    | none => none
    | some (false, _, ctx3) => some (false, ctx3)
    | some (true, false, ctx3) => some (true, ctx3)
    | some (true, true, ctx3) =>
      match MakeGetNextInferenceRuleTargetExtension fuel ctx3 ScopeContext TargetExt none with
      | none => none
      | some Outer =>
        MakeFindInferenceRuleSecondPass env ScopeContext Target TargetExt fuel ctx3 Outer

/-- The probe buffer after `MakeFindInferenceRuleForTarget` has sized it for
`CharsNeeded` characters and copied the base name of the key (with the
period) into it. -/
def MakeFindInferenceRuleProbeBuffer (ctx : MAKE_CONTEXT) (Target : TargetId)
    (TargetExt : YORI_STRING) (LongestSourceExt : Nat) : MAKE_PROBE_BUFFER :=
  let CharsNeeded := (ctx.Target Target).Key.length - TargetExt.length + LongestSourceExt + 1
  let buffer : MAKE_PROBE_BUFFER :=
    if CharsNeeded > ctx.FileToProbe.LengthAllocated then
      { StartOfString := [], LengthInChars := 0, LengthAllocated := CharsNeeded * 2 }
    else ctx.FileToProbe
  { buffer with
    LengthInChars := (ctx.Target Target).Key.length - TargetExt.length
    StartOfString := (ctx.Target Target).Key.take ((ctx.Target Target).Key.length - TargetExt.length) }

/-- `MakeFindInferenceRuleForTarget`; the outer `none` is fuel exhaustion. -/
def MakeFindInferenceRuleForTarget (env : MAKE_ENV) (fuel : Nat) (ctx : MAKE_CONTEXT)
    (ScopeContext : ScopeId) (Target : TargetId) : Option (Bool × MAKE_CONTEXT) :=
  match MakeFindTargetExtension (ctx.Target Target).Key with
  | none => some (true, ctx)
  | some TargetExt =>
    if TargetExt.length = 0 then some (true, ctx)
    else
      match MakeGetNextInferenceRule fuel ctx ScopeContext none with
      | none => none
      | some First =>
        match MakeFindLongestSourceExt ctx ScopeContext fuel First 0 with
        | none => none
        | some LongestSourceExt =>
          if LongestSourceExt = 0 then some (true, ctx)
          else
            let ctx2 : MAKE_CONTEXT :=
              { ctx with
                FileToProbe :=
                  MakeFindInferenceRuleProbeBuffer ctx Target TargetExt LongestSourceExt }
            MakeFindInferenceRulePasses env ScopeContext Target TargetExt fuel ctx2

/-! ## Dependency edges -/

/-- `MakeCreateParentChildDependency`: append a new edge record to the tail of
`Parent->ChildDependents` and of `Child->ParentDependents`. -/
def MakeCreateParentChildDependency (ctx : MAKE_CONTEXT) (Parent Child : TargetId) :
    Bool × MAKE_CONTEXT :=
  let Dependency : MAKE_TARGET_DEPENDENCY := { Parent := Parent, Child := Child }
  let ctx1 := { ctx with AllocDependency := ctx.AllocDependency + 1 }
  let ctx2 := ctx1.setTarget Parent
    { ctx1.Target Parent with
      ChildDependents := (ctx1.Target Parent).ChildDependents ++ [Dependency] }
  let ctx3 := ctx2.setTarget Child
    { ctx2.Target Child with
      ParentDependents := (ctx2.Target Child).ParentDependents ++ [Dependency] }
  (true, ctx3)

/-! ## Recipe compiler -/

/-- The line separator of a recipe. -/
def NewLine : Char := Char.ofNat 10

/-- The inner `while (TRUE)` of `MakeGenerateExecScriptForTarget`: consume
leading `@` (do not display) and `-` (ignore errors) from a line. -/
def MakeStripLineModifiers : YORI_STRING → Bool → Bool → YORI_STRING × Bool × Bool
  | [], DisplayCmd, IgnoreErrors => ([], DisplayCmd, IgnoreErrors)
  | c :: rest, DisplayCmd, IgnoreErrors =>
    if c = '@' then MakeStripLineModifiers rest false IgnoreErrors
    else if c = '-' then MakeStripLineModifiers rest DisplayCmd true
    else (c :: rest, DisplayCmd, IgnoreErrors)

/-- The `for (Index = 0; ...)` loop of `MakeGenerateExecScriptForTarget` over
the rest of the template; `Line` is the text since `StartLineIndex`. -/
def MakeGenerateExecScriptLines (env : MAKE_ENV) (Target : TargetId) :
    YORI_STRING → YORI_STRING → MAKE_CONTEXT → Bool × MAKE_CONTEXT
  | [], _, ctx => (true, ctx)
  | c :: rest, Line, ctx =>
    if c = NewLine then
      let stripped := MakeStripLineModifiers Line true false
      match env.MakeExpandVariables ctx (ctx.Target Target).ScopeContext Target stripped.1 with
      | none => (false, ctx)
      | some Cmd =>
        let CmdToExec : MAKE_CMD_TO_EXEC :=
          { Cmd := Cmd, DisplayCmd := stripped.2.1, IgnoreErrors := stripped.2.2 }
        MakeGenerateExecScriptLines env Target rest []
          (ctx.setTarget Target
            { ctx.Target Target with ExecCmds := (ctx.Target Target).ExecCmds ++ [CmdToExec] })
    else MakeGenerateExecScriptLines env Target rest (Line ++ [c]) ctx

/-- The template chosen by `MakeGenerateExecScriptForTarget` (`SourceString`),
`none` for `NULL`. -/
def MakeExecScriptSourceString (ctx : MAKE_CONTEXT) (Target : TargetId) : Option YORI_STRING :=
  if (ctx.Target Target).Recipe.length > 0 then some (ctx.Target Target).Recipe
  else match (ctx.Target Target).InferenceRule with
    | some InferenceRule => some (ctx.Target (ctx.InferenceRule InferenceRule).Target).Recipe
    | none =>
      if (ctx.Target Target).ExplicitRecipeFound then some (ctx.Target Target).Recipe
      else none

/-- `MakeGenerateExecScriptForTarget`. -/
def MakeGenerateExecScriptForTarget (env : MAKE_ENV) (ctx : MAKE_CONTEXT) (Target : TargetId) :
    Bool × MAKE_CONTEXT :=
  match MakeExecScriptSourceString ctx Target with
  | none => (false, ctx)
  | some SourceString => MakeGenerateExecScriptLines env Target SourceString [] ctx

/-! ## Scheduler -/

/-- `MakeMarkTargetForRebuild`. -/
def MakeMarkTargetForRebuild (env : MAKE_ENV) (ctx : MAKE_CONTEXT) (Target : TargetId) :
    Bool × MAKE_CONTEXT :=
  if (ctx.Target Target).RebuildRequired then (true, ctx)
  else if !(ctx.Target Target).ExplicitRecipeFound && (ctx.Target Target).InferenceRule.isNone then
    (false, { ctx with ErrorTermination := true })
  else
    match MakeGenerateExecScriptForTarget env ctx Target with
    | (false, ctx1) => (false, ctx1)
    | (true, ctx1) =>
      let ctx2 := ctx1.setTarget Target { ctx1.Target Target with RebuildRequired := true }
      if (ctx2.Target Target).NumberParentsToBuild = 0 then
        (true, { ctx2 with TargetsReady := ctx2.TargetsReady ++ [Target] })
      else
        (true, { ctx2 with TargetsWaiting := ctx2.TargetsWaiting ++ [Target] })

/-- The condition under which the walk populates a prerequisite's dependency
from its inference rule. -/
def MakeParentNeedsInferenceDependency (ctx : MAKE_CONTEXT) (Parent : TargetId) : Bool :=
  (ctx.Target Parent).ParentDependents.isEmpty &&
    !(ctx.Target Parent).ExplicitRecipeFound &&
    (ctx.Target Parent).InferenceRuleParentTarget.isSome

/-- The block of the prerequisite loop that populates the dependency of a
prerequisite that uses an inference rule and has no parent dependencies; the
first component is `false` when the function returns `FALSE` there. -/
def MakeDetermineDependenciesPopulateParent (ctx : MAKE_CONTEXT) (Parent : TargetId) :
    Bool × MAKE_CONTEXT :=
  if MakeParentNeedsInferenceDependency ctx Parent then
    match (ctx.Target Parent).InferenceRuleParentTarget with
    | some InferenceRuleParentTarget =>
      MakeCreateParentChildDependency ctx InferenceRuleParentTarget Parent
    | none => (true, ctx)
  else (true, ctx)

/-- The two `if` statements of the prerequisite loop that follow the
recursive call: count a prerequisite that is marked for rebuild, and compare
the timestamps.  The first component is the new `SetRebuildRequired`. -/
def MakeDetermineDependenciesAccountParent (ctx : MAKE_CONTEXT) (Target : TargetId)
    (Dependency : MAKE_TARGET_DEPENDENCY) (SetRebuildRequired : Bool) : Bool × MAKE_CONTEXT :=
  let Parent := Dependency.Parent
  let counted : Bool × MAKE_CONTEXT :=
    if (ctx.Target Dependency.Parent).RebuildRequired then
      (true, ctx.setTarget Target
        { ctx.Target Target with
          NumberParentsToBuild := (ctx.Target Target).NumberParentsToBuild + 1 })
    else (SetRebuildRequired, ctx)
  let ctx1 := counted.2
  if (ctx1.Target Parent).FileExists && (ctx1.Target Target).FileExists &&
      decide ((ctx1.Target Parent).ModifiedTime > (ctx1.Target Target).ModifiedTime) then
    (true, ctx1)
  else (counted.1, ctx1)

/-- The `while (ListEntry != NULL)` loop of
`MakeDetermineDependenciesForTarget`.  `Index` is the position of `ListEntry`
in the live list `Target->ParentDependents`; `recurse` is the recursive call.
The result is the return value of the enclosing function so far (`false` when
it has returned `FALSE`), `SetRebuildRequired`, and the context. -/
def MakeDetermineDependenciesForTargetLoop
    (recurse : MAKE_CONTEXT → TargetId → Option (Bool × MAKE_CONTEXT)) :
    Nat → MAKE_CONTEXT → TargetId → Nat → Bool → Option (Bool × Bool × MAKE_CONTEXT)
  | 0, _, _, _, _ => none
  | fuel + 1, ctx, Target, Index, SetRebuildRequired =>
    match (ctx.Target Target).ParentDependents[Index]? with
    | none => some (true, SetRebuildRequired, ctx)
    | some Dependency =>
      let Parent := Dependency.Parent
      let created := MakeDetermineDependenciesPopulateParent ctx Parent
      if !created.1 then some (false, SetRebuildRequired, created.2)
      else
        match recurse created.2 Parent with
        | none => none
        | some (false, ctx2) => some (false, SetRebuildRequired, ctx2)
        | some (true, ctx2) =>
          let accounted :=
            MakeDetermineDependenciesAccountParent ctx2 Target Dependency SetRebuildRequired
          MakeDetermineDependenciesForTargetLoop recurse fuel accounted.2 Target (Index + 1)
            accounted.1

/-- `MakeDetermineDependenciesForTarget`; `none` when the recursion is deeper,
or a prerequisite list longer, than `fuel`. -/
def MakeDetermineDependenciesForTarget (env : MAKE_ENV) :
    Nat → MAKE_CONTEXT → TargetId → Option (Bool × MAKE_CONTEXT)
  | 0, _, _ => none
  | fuel + 1, ctx, Target =>
    if (ctx.Target Target).DependenciesEvaluated then some (true, ctx)
    else
      match MakeDetermineDependenciesForTargetLoop
          (fun c p => MakeDetermineDependenciesForTarget env fuel c p) (fuel + 1) ctx Target 0 false with
      | none => none
      | some (false, _, ctx1) => some (false, ctx1)
      | some (true, SetRebuildRequired, ctx1) =>
        let ctx2 := ctx1.setTarget Target { ctx1.Target Target with DependenciesEvaluated := true }
        let SetRebuildRequired2 : Bool :=
          if !(ctx2.Target Target).FileExists then true else SetRebuildRequired
        if SetRebuildRequired2 && !(ctx2.Target Target).RebuildRequired then
          match MakeMarkTargetForRebuild env ctx2 Target with
          | (false, ctx3) => some (false, ctx3)
          | (true, ctx3) => some (true, ctx3)
        else some (true, ctx2)

/-- The `while (TRUE)` loop of `MakeDetermineDependencies` over the rest of
`TargetsList`: the first target that is not an inference rule pseudo target,
`none` when `ListEntry` reaches `NULL`. -/
def MakeDetermineDependenciesFirstTarget (ctx : MAKE_CONTEXT) : List TargetId → Option TargetId
  | [] => none
  | Target :: rest =>
    if !(ctx.Target Target).InferenceRulePseudoTarget then some Target
    else MakeDetermineDependenciesFirstTarget ctx rest

/-- `MakeDetermineDependencies`. -/
def MakeDetermineDependencies (env : MAKE_ENV) (fuel : Nat) (ctx : MAKE_CONTEXT) :
    Option (Bool × MAKE_CONTEXT) :=
  match MakeDetermineDependenciesFirstTarget ctx ctx.TargetsList with
  | none => some (false, { ctx with ErrorTermination := true })
  | some Target => MakeDetermineDependenciesForTarget env fuel ctx Target

/-! ## Specification predicates for the scheduler -/

/-- The staleness condition: the target is missing, or a prerequisite is
marked for rebuild, or an existing prerequisite is strictly newer than the
existing target. -/
def Stale (ctx : MAKE_CONTEXT) (t : TargetId) : Prop :=
  (ctx.Target t).FileExists = false ∨
  (∃ d ∈ (ctx.Target t).ParentDependents, (ctx.Target d.Parent).RebuildRequired = true) ∨
  (∃ d ∈ (ctx.Target t).ParentDependents,
    (ctx.Target d.Parent).FileExists = true ∧ (ctx.Target t).FileExists = true ∧
      (ctx.Target d.Parent).ModifiedTime > (ctx.Target t).ModifiedTime)

/-- A context before any scheduling: no target evaluated, marked, counted or
executed, and both queues empty. -/
def FreshContext (ctx : MAKE_CONTEXT) : Prop :=
  (∀ t, (ctx.Target t).DependenciesEvaluated = false ∧ (ctx.Target t).RebuildRequired = false ∧
    (ctx.Target t).NumberParentsToBuild = 0 ∧ (ctx.Target t).Executed = false) ∧
  ctx.TargetsReady = [] ∧ ctx.TargetsWaiting = []

/-- A topological numbering of the dependency graph: every prerequisite, and
every inference parent (which the walk may turn into a prerequisite), has a
smaller rank than its dependent. -/
def RankOK (rank : TargetId → Nat) (ctx : MAKE_CONTEXT) : Prop :=
  (∀ t d, d ∈ (ctx.Target t).ParentDependents → rank d.Parent < rank t) ∧
  (∀ t q, (ctx.Target t).InferenceRuleParentTarget = some q → rank q < rank t)

/-- The dependency graph, with the inference parent bindings counted as
edges, is acyclic: it has a topological numbering. -/
def Acyclic (ctx : MAKE_CONTEXT) : Prop := ∃ rank : TargetId → Nat, RankOK rank ctx

/-- The number of dependency edges into `t` whose prerequisite is marked for
rebuild and not executed. -/
def PendingParentEdges (ctx : MAKE_CONTEXT) (t : TargetId) : Nat :=
  (ctx.Target t).ParentDependents.countP
    (fun d => (ctx.Target d.Parent).RebuildRequired && !(ctx.Target d.Parent).Executed)

/-- The set of prerequisites of `t` that are marked for rebuild and not
executed. -/
def PendingParents (ctx : MAKE_CONTEXT) (t : TargetId) : Finset TargetId :=
  (((ctx.Target t).ParentDependents.map (fun d => d.Parent)).filter
    (fun p => (ctx.Target p).RebuildRequired && !(ctx.Target p).Executed)).toFinset

/-- Target `t` is reached from `d` by following prerequisite edges. -/
def Reaches (ctx : MAKE_CONTEXT) (d t : TargetId) : Prop :=
  Relation.ReflTransGen
    (fun child parent => ∃ e ∈ (ctx.Target child).ParentDependents, e.Parent = parent) d t

/-- The invariant of the dependency walk below rank `R`: marked targets are
evaluated and buildable, the queues hold exactly the marked targets, and
every evaluated target satisfies the staleness rule, has counted its marked
prerequisites, and has only evaluated prerequisites. -/
structure SchedInv (rank : TargetId → Nat) (R : Nat) (ctx : MAKE_CONTEXT) : Prop where
  rankOK : RankOK rank ctx
  rr_eval : ∀ x, (ctx.Target x).RebuildRequired = true → (ctx.Target x).DependenciesEvaluated = true
  rr_build : ∀ x, (ctx.Target x).RebuildRequired = true →
    (ctx.Target x).ExplicitRecipeFound = true ∨ (ctx.Target x).InferenceRule.isSome = true
  ready : ∀ x, ctx.TargetsReady.count x =
    if (ctx.Target x).RebuildRequired = true ∧ (ctx.Target x).NumberParentsToBuild = 0 then 1 else 0
  waiting : ∀ x, ctx.TargetsWaiting.count x =
    if (ctx.Target x).RebuildRequired = true ∧ (ctx.Target x).NumberParentsToBuild ≠ 0 then 1 else 0
  stale : ∀ x, (ctx.Target x).DependenciesEvaluated = true →
    ((ctx.Target x).RebuildRequired = true ↔ Stale ctx x)
  counted : ∀ x, (ctx.Target x).DependenciesEvaluated = true →
    (ctx.Target x).NumberParentsToBuild =
      (ctx.Target x).ParentDependents.countP (fun d => (ctx.Target d.Parent).RebuildRequired)
  parents : ∀ x, (ctx.Target x).DependenciesEvaluated = true →
    ∀ d ∈ (ctx.Target x).ParentDependents, (ctx.Target d.Parent).DependenciesEvaluated = true
  nosynth : ∀ x, (ctx.Target x).DependenciesEvaluated = true → rank x < R →
    MakeParentNeedsInferenceDependency ctx x = false
  executed : ∀ x, (ctx.Target x).Executed = false

/-- The fields of a target that the dependency walk never writes agree in two
contexts. -/
def SchedStatic (ctx ctx' : MAKE_CONTEXT) : Prop :=
  ∀ x, (ctx'.Target x).FileExists = (ctx.Target x).FileExists ∧
    (ctx'.Target x).ModifiedTime = (ctx.Target x).ModifiedTime ∧
    (ctx'.Target x).ExplicitRecipeFound = (ctx.Target x).ExplicitRecipeFound ∧
    (ctx'.Target x).InferenceRule = (ctx.Target x).InferenceRule ∧
    (ctx'.Target x).InferenceRuleParentTarget = (ctx.Target x).InferenceRuleParentTarget ∧
    (ctx'.Target x).Executed = (ctx.Target x).Executed ∧
    (ctx'.Target x).InferenceRulePseudoTarget = (ctx.Target x).InferenceRulePseudoTarget ∧
    (ctx'.Target x).Key = (ctx.Target x).Key

/-- The scheduler fields of `x` are the same in both contexts. -/
def SchedUnchanged (ctx ctx' : MAKE_CONTEXT) (x : TargetId) : Prop :=
  (ctx'.Target x).DependenciesEvaluated = (ctx.Target x).DependenciesEvaluated ∧
  (ctx'.Target x).RebuildRequired = (ctx.Target x).RebuildRequired ∧
  (ctx'.Target x).NumberParentsToBuild = (ctx.Target x).NumberParentsToBuild ∧
  (ctx'.Target x).ParentDependents = (ctx.Target x).ParentDependents

/-- Between the two contexts `x` is either untouched by the scheduler or has
been evaluated. -/
def SchedStep (ctx ctx' : MAKE_CONTEXT) (x : TargetId) : Prop :=
  SchedUnchanged ctx ctx' x ∨
    ((ctx.Target x).DependenciesEvaluated = false ∧ (ctx'.Target x).DependenciesEvaluated = true)

/-- The loop invariant of the prerequisite loop of `Target` at position
`Index`. -/
def LoopInv (ctx : MAKE_CONTEXT) (Target : TargetId) (Index : Nat) (SetRebuildRequired : Bool) :
    Prop :=
  (ctx.Target Target).NumberParentsToBuild =
    ((ctx.Target Target).ParentDependents.take Index).countP
      (fun d => (ctx.Target d.Parent).RebuildRequired) ∧
  (SetRebuildRequired = true ↔
    ∃ d ∈ (ctx.Target Target).ParentDependents.take Index,
      (ctx.Target d.Parent).RebuildRequired = true ∨
      ((ctx.Target d.Parent).FileExists = true ∧ (ctx.Target Target).FileExists = true ∧
        (ctx.Target d.Parent).ModifiedTime > (ctx.Target Target).ModifiedTime)) ∧
  (∀ d ∈ (ctx.Target Target).ParentDependents.take Index,
    (ctx.Target d.Parent).DependenciesEvaluated = true)

/-- What a successful call of the walk on `p` guarantees. -/
structure WalkPost (rank : TargetId → Nat) (R : Nat) (p : TargetId) (ctx ctx' : MAKE_CONTEXT) :
    Prop where
  inv : SchedInv rank R ctx'
  evaluated : (ctx'.Target p).DependenciesEvaluated = true
  step : ∀ x, SchedStep ctx ctx' x
  above : ∀ x, rank p ≤ rank x → x ≠ p → ctx'.Target x = ctx.Target x
  static : SchedStatic ctx ctx'
  mono : ∀ x d, d ∈ (ctx.Target x).ParentDependents → d ∈ (ctx'.Target x).ParentDependents
  own : (ctx.Target p).DependenciesEvaluated = false →
    (ctx'.Target p).ParentDependents = (ctx.Target p).ParentDependents

/-- The contract of the recursive call inside the prerequisite loop. -/
def WalkSpec (rank : TargetId → Nat) (R : Nat)
    (f : MAKE_CONTEXT → TargetId → Option (Bool × MAKE_CONTEXT)) : Prop :=
  ∀ ctx p ctx', SchedInv rank R ctx →
    (∀ x, rank x ≤ rank p → (ctx.Target x).DependenciesEvaluated = false →
      (ctx.Target x).NumberParentsToBuild = 0) →
    rank p ≤ R →
    (rank p < R → (ctx.Target p).DependenciesEvaluated = true ∨
      MakeParentNeedsInferenceDependency ctx p = false) →
    f ctx p = some (true, ctx') → WalkPost rank R p ctx ctx'

/-- What the step that populates the dependency of prerequisite `p` leaves
behind. -/
structure SynthPost (rank : TargetId → Nat) (R : Nat) (p : TargetId) (ctx ctx' : MAKE_CONTEXT) :
    Prop where
  inv : SchedInv rank R ctx'
  static : SchedStatic ctx ctx'
  flags : ∀ x, (ctx'.Target x).DependenciesEvaluated = (ctx.Target x).DependenciesEvaluated ∧
    (ctx'.Target x).RebuildRequired = (ctx.Target x).RebuildRequired ∧
    (ctx'.Target x).NumberParentsToBuild = (ctx.Target x).NumberParentsToBuild
  lists : ∀ x, x ≠ p → (ctx'.Target x).ParentDependents = (ctx.Target x).ParentDependents
  own : (ctx.Target p).DependenciesEvaluated = true →
    (ctx'.Target p).ParentDependents = (ctx.Target p).ParentDependents
  above : ∀ x, rank p ≤ rank x → x ≠ p → ctx'.Target x = ctx.Target x
  ready : (ctx'.Target p).DependenciesEvaluated = true ∨
    MakeParentNeedsInferenceDependency ctx' p = false
  mono : ∀ x d, d ∈ (ctx.Target x).ParentDependents → d ∈ (ctx'.Target x).ParentDependents

/-- What the prerequisite loop of `t` guarantees when it runs to the end of
the list. -/
structure LoopPost (rank : TargetId → Nat) (R : Nat) (t : TargetId) (ctx : MAKE_CONTEXT)
    (S : Bool) (ctx' : MAKE_CONTEXT) : Prop where
  inv : SchedInv rank R ctx'
  unevaluated : (ctx'.Target t).DependenciesEvaluated = false
  own : (ctx'.Target t).ParentDependents = (ctx.Target t).ParentDependents
  static : SchedStatic ctx ctx'
  step : ∀ x, x ≠ t → SchedStep ctx ctx' x
  above : ∀ x, rank t ≤ rank x → x ≠ t → ctx'.Target x = ctx.Target x
  final : LoopInv ctx' t (ctx.Target t).ParentDependents.length S
  mono : ∀ x d, d ∈ (ctx.Target x).ParentDependents → d ∈ (ctx'.Target x).ParentDependents


/-! ## Scenarios -/

/-- An environment over a list of existing files with their last write
times: names are already canonical, and variable expansion leaves a line as
it is. -/
def ScenarioEnv (files : List (YORI_STRING × Int)) : MAKE_ENV :=
  { YoriLibGetFullPathNameRelativeTo := fun _ name => some name
    GetFileInformation := fun path => (files.find? (fun e => e.1 = path)).map (fun e => e.2)
    GetFileAttributes := fun path => (files.find? (fun e => e.1 = path)).isSome
    MakeExpandVariables := fun _ _ _ line => some line }

/-- A context with nothing in it. -/
def ScenarioEmptyContext : MAKE_CONTEXT :=
  { Target := fun _ => MakeInitialTarget [] none
    InferenceRule := fun _ =>
      { SourceExtension := [], TargetExtension := [], Target := 0, ScopeContext := 0,
        ReferenceCount := 0 }
    Scope := fun _ =>
      { Key := [], ParentScope := none, InferenceRuleList := [], InferenceRuleNeededList := [],
        ReferenceCount := 1 }
    Targets := []
    TargetsList := []
    AllocTarget := 0
    AllocInferenceRule := 0
    AllocDependency := 0
    AllocVariableData := 0
    FileToProbe := { StartOfString := [], LengthInChars := 0, LengthAllocated := 0 }
    ErrorTermination := false
    TargetsReady := []
    TargetsWaiting := [] }

/-- Scenario S1: `a.obj` (target 0, last written at 1, with a recipe) depends
on the leaf `a.c` (target 1, last written at 2). -/
def ScenarioS1 : MAKE_CONTEXT :=
  { ScenarioEmptyContext with
    Target := fun t =>
      if t = 0 then
        { MakeInitialTarget "a.obj".toList (some 1) with
          ExplicitRecipeFound := true
          ScopeContext := some 0
          Recipe := "cc $< -o $@".toList ++ [NewLine]
          ParentDependents := [{ Parent := 1, Child := 0 }] }
      else if t = 1 then
        { MakeInitialTarget "a.c".toList (some 2) with
          ChildDependents := [{ Parent := 1, Child := 0 }] }
      else MakeInitialTarget [] none
    Targets := [("a.obj".toList, 0), ("a.c".toList, 1)]
    TargetsList := [0, 1]
    AllocTarget := 2
    AllocDependency := 1 }

/-- The files of scenario S1. -/
def ScenarioS1Env : MAKE_ENV := ScenarioEnv [("a.obj".toList, 1), ("a.c".toList, 2)]

/-- The context after the walk of scenario S1. -/
def ScenarioS1Result : MAKE_CONTEXT :=
  match MakeDetermineDependenciesForTarget ScenarioS1Env 3 ScenarioS1 0 with
  | some r => r.2
  | none => ScenarioS1

/-- A prerequisite attached twice: the missing target 0 (`t`) has two
dependency edges from the missing target 1 (`p`); both have a recipe. -/
def ScenarioDuplicate : MAKE_CONTEXT :=
  { ScenarioEmptyContext with
    Target := fun t =>
      if t = 0 then
        { MakeInitialTarget "t".toList none with
          ExplicitRecipeFound := true
          ScopeContext := some 0
          ParentDependents := [{ Parent := 1, Child := 0 }, { Parent := 1, Child := 0 }] }
      else if t = 1 then
        { MakeInitialTarget "p".toList none with
          ExplicitRecipeFound := true
          ScopeContext := some 0
          ChildDependents := [{ Parent := 1, Child := 0 }, { Parent := 1, Child := 0 }] }
      else MakeInitialTarget [] none
    Targets := [("t".toList, 0), ("p".toList, 1)]
    TargetsList := [0, 1]
    AllocTarget := 2
    AllocDependency := 2 }

/-- The context after scheduling `ScenarioDuplicate` with no file on disk. -/
def ScenarioDuplicateResult : MAKE_CONTEXT :=
  match MakeDetermineDependencies (ScenarioEnv []) 4 ScenarioDuplicate with
  | some r => r.2
  | none => ScenarioDuplicate

/-! ## Termination of the walk on an acyclic graph -/

/-- The walk on `t` keeps the topological numbering, and leaves alone every
other target that is not below `t`, and the prerequisite list of `t`. -/
def WalkFrame (rank : TargetId → Nat) (t : TargetId) (ctx ctx' : MAKE_CONTEXT) : Prop :=
  RankOK rank ctx' ∧ (∀ x, rank t ≤ rank x → x ≠ t → ctx'.Target x = ctx.Target x) ∧
    (ctx'.Target t).ParentDependents = (ctx.Target t).ParentDependents ∧
    (ctx'.Target t).InferenceRuleParentTarget = (ctx.Target t).InferenceRuleParentTarget

/-- A target that cannot be built: the missing target 0 (`all`, with a
recipe) depends on the missing target 1 (`gen.c`), which has neither a recipe
nor an inference rule. -/
def ScenarioUnbuildable : MAKE_CONTEXT :=
  { ScenarioEmptyContext with
    Target := fun t =>
      if t = 0 then
        { MakeInitialTarget "all".toList none with
          ExplicitRecipeFound := true
          ScopeContext := some 0
          ParentDependents := [{ Parent := 1, Child := 0 }] }
      else if t = 1 then
        { MakeInitialTarget "gen.c".toList none with
          ChildDependents := [{ Parent := 1, Child := 0 }] }
      else MakeInitialTarget [] none
    Targets := [("all".toList, 0), ("gen.c".toList, 1)]
    TargetsList := [0, 1]
    AllocTarget := 2
    AllocDependency := 1 }

/-! ## Specification predicates for the rule registry -/

/-- The scopes from `cur` up to the root, following `ParentScope`; `cur` is
`none` past the root. -/
def ScopeChain (ctx : MAKE_CONTEXT) : List ScopeId → Option ScopeId → Prop
  | [], cur => cur = none
  | s :: rest, cur => cur = some s ∧ ScopeChain ctx rest (ctx.Scope s).ParentScope

/-- The rule lists of the scopes of a chain, one after the other. -/
def ScopeChainRules (ctx : MAKE_CONTEXT) : List ScopeId → List RuleId
  | [] => []
  | s :: rest => (ctx.Scope s).InferenceRuleList ++ ScopeChainRules ctx rest

/-- The rule lists are well formed: a rule is linked in the list of its own
scope only, once, and has been allocated. -/
structure RuleListsWF (ctx : MAKE_CONTEXT) : Prop where
  scope : ∀ s r, r ∈ (ctx.Scope s).InferenceRuleList → (ctx.InferenceRule r).ScopeContext = s
  nodup : ∀ s, (ctx.Scope s).InferenceRuleList.Nodup
  allocated : ∀ s r, r ∈ (ctx.Scope s).InferenceRuleList → r < ctx.AllocInferenceRule

/-- The enumeration idiom of `target.c`: call `MakeGetNextInferenceRule` with
`NULL`, then with the previous result, until it returns `NULL`; the result is
the sequence of rules returned. -/
def MakeEnumerateInferenceRules (ctx : MAKE_CONTEXT) (TopScope : ScopeId) :
    Nat → Option RuleId → Option (List RuleId)
  | 0, _ => none
  | fuel + 1, PreviousRule =>
    match MakeGetNextInferenceRule fuel ctx TopScope PreviousRule with
    | none => none
    | some none => some []
    | some (some NextRule) =>
      match MakeEnumerateInferenceRules ctx TopScope fuel (some NextRule) with
      | none => none
      | some rest => some (NextRule :: rest)

/-- The rule `r` can generate the extension `Ext`. -/
def MakeRuleGenerates (ctx : MAKE_CONTEXT) (Ext : YORI_STRING) (r : RuleId) : Bool :=
  decide (YoriLibCompareStringInsensitive Ext (ctx.InferenceRule r).TargetExtension = 0)

/-- Two contexts hold the same rule registry: the same rule lists and parent
pointers of the scopes, and the same extensions and scope of every rule. -/
def SameRules (ctx ctx' : MAKE_CONTEXT) : Prop :=
  (∀ s, (ctx'.Scope s).InferenceRuleList = (ctx.Scope s).InferenceRuleList ∧
    (ctx'.Scope s).ParentScope = (ctx.Scope s).ParentScope ∧
    (ctx'.Scope s).Key = (ctx.Scope s).Key) ∧
  (∀ r, (ctx'.InferenceRule r).ScopeContext = (ctx.InferenceRule r).ScopeContext ∧
    (ctx'.InferenceRule r).SourceExtension = (ctx.InferenceRule r).SourceExtension ∧
    (ctx'.InferenceRule r).TargetExtension = (ctx.InferenceRule r).TargetExtension) ∧
  ctx'.AllocInferenceRule = ctx.AllocInferenceRule

/-- The registry seen from `TopScope`: well-formed rule lists, the scope chain
up to the root, and the rules `all` it enumerates. -/
structure Registry (ctx : MAKE_CONTEXT) (TopScope : ScopeId) (chain : List ScopeId)
    (all : List RuleId) : Prop where
  wf : RuleListsWF ctx
  scopes : ScopeChain ctx chain (some TopScope)
  rules : ScopeChainRules ctx chain = all

/-! ## Specification predicates for the resolver -/

/-- The target table is well formed: every entry names an allocated target
whose key is the entry's key. -/
def TableWF (ctx : MAKE_CONTEXT) : Prop :=
  ∀ e ∈ ctx.Targets, e.2 < ctx.AllocTarget ∧ (ctx.Target e.2).Key = e.1

/-- The context with another content of the probe buffer. -/
def MAKE_CONTEXT.withProbe (ctx : MAKE_CONTEXT) (b : MAKE_PROBE_BUFFER) : MAKE_CONTEXT :=
  { ctx with FileToProbe := b }

/-- The probe buffer holds the base name `stem` up to `LengthInChars`. -/
def ProbeStem (b : MAKE_PROBE_BUFFER) (stem : YORI_STRING) : Prop :=
  b.LengthInChars = stem.length ∧ b.StartOfString.take stem.length = stem

/-- What a chained assignment leaves behind: the intermediate target keyed
`pO` carries the inner rule `I` and has the target keyed `pI` as its inference
parent, and target `T`, when it is not the intermediate target itself,
carries the outer rule `O` and has the intermediate target as its inference
parent. -/
structure ChainedPost (c : MAKE_CONTEXT) (T : TargetId) (O I : RuleId) (pO pI : YORI_STRING)
    (c8 : MAKE_CONTEXT) : Prop where
  chained : ∃ mid src, (c8.Target mid).Key = pO ∧ (c8.Target mid).InferenceRule = some I ∧
    (c8.Target mid).InferenceRuleParentTarget = some src ∧ (c8.Target src).Key = pI ∧
    (T ≠ mid → (c8.Target T).InferenceRule = some O ∧
      (c8.Target T).InferenceRuleParentTarget = some mid)
  assigned : (c8.Target T).InferenceRule.isSome = true
  key : (c8.Target T).Key = (c.Target T).Key
  same : SameRules c c8
  table : TableWF c8

/-- Scenario S4: one scope with the rules `.y` to `.c` (rule 0, carrier
target 0) and `.c` to `.obj` (rule 1, carrier target 1, created later and so
first in the list), the target `a.obj` (target 2) without a recipe, the
target `all` (target 3) and the target `a.txt` (target 4). -/
def ScenarioS4 : MAKE_CONTEXT :=
  { ScenarioEmptyContext with
    Target := fun t =>
      if t = 0 then
        { MakeInitialTarget ".y.c".toList none with
          InferenceRulePseudoTarget := true
          ReferenceCount := 2
          Recipe := "yacc $<".toList ++ [NewLine] }
      else if t = 1 then
        { MakeInitialTarget ".c.obj".toList none with
          InferenceRulePseudoTarget := true
          ReferenceCount := 2
          Recipe := "cc $<".toList ++ [NewLine] }
      else if t = 2 then MakeInitialTarget "a.obj".toList none
      else if t = 3 then MakeInitialTarget "all".toList none
      else if t = 4 then MakeInitialTarget "a.txt".toList none
      else MakeInitialTarget [] none
    InferenceRule := fun r =>
      if r = 0 then
        { SourceExtension := "y".toList, TargetExtension := "c".toList, Target := 0,
          ScopeContext := 0, ReferenceCount := 1 }
      else if r = 1 then
        { SourceExtension := "c".toList, TargetExtension := "obj".toList, Target := 1,
          ScopeContext := 0, ReferenceCount := 1 }
      else
        { SourceExtension := [], TargetExtension := [], Target := 0, ScopeContext := 0,
          ReferenceCount := 0 }
    Scope := fun s =>
      if s = 0 then
        { Key := [], ParentScope := none, InferenceRuleList := [1, 0],
          InferenceRuleNeededList := [], ReferenceCount := 3 }
      else
        { Key := [], ParentScope := none, InferenceRuleList := [],
          InferenceRuleNeededList := [], ReferenceCount := 1 }
    Targets := [(".y.c".toList, 0), (".c.obj".toList, 1), ("a.obj".toList, 2),
      ("all".toList, 3), ("a.txt".toList, 4)]
    TargetsList := [0, 1, 2, 3, 4]
    AllocTarget := 5
    AllocInferenceRule := 2 }

/-- Scenario S5: the root scope 0 defines the rule `.c` to `.obj` with recipe
`OLD` (rule 0, carrier target 0), its child scope 1 defines the rule `.c` to
`.obj` with recipe `NEW` (rule 1, carrier target 1); `a.obj` (target 2) is
declared in the root scope and `sub/b.obj` (target 3) in the child scope. -/
def ScenarioS5 : MAKE_CONTEXT :=
  { ScenarioEmptyContext with
    Target := fun t =>
      if t = 0 then
        { MakeInitialTarget ".c.obj".toList none with
          InferenceRulePseudoTarget := true
          ReferenceCount := 2
          Recipe := "OLD".toList ++ [NewLine] }
      else if t = 1 then
        { MakeInitialTarget "sub/.c.obj".toList none with
          InferenceRulePseudoTarget := true
          ReferenceCount := 2
          Recipe := "NEW".toList ++ [NewLine] }
      else if t = 2 then MakeInitialTarget "a.obj".toList none
      else if t = 3 then MakeInitialTarget "sub/b.obj".toList none
      else MakeInitialTarget [] none
    InferenceRule := fun r =>
      if r = 0 then
        { SourceExtension := "c".toList, TargetExtension := "obj".toList, Target := 0,
          ScopeContext := 0, ReferenceCount := 1 }
      else if r = 1 then
        { SourceExtension := "c".toList, TargetExtension := "obj".toList, Target := 1,
          ScopeContext := 1, ReferenceCount := 1 }
      else
        { SourceExtension := [], TargetExtension := [], Target := 0, ScopeContext := 0,
          ReferenceCount := 0 }
    Scope := fun s =>
      if s = 0 then
        { Key := [], ParentScope := none, InferenceRuleList := [0],
          InferenceRuleNeededList := [], ReferenceCount := 3 }
      else if s = 1 then
        { Key := "sub".toList, ParentScope := some 0, InferenceRuleList := [1],
          InferenceRuleNeededList := [], ReferenceCount := 2 }
      else
        { Key := [], ParentScope := none, InferenceRuleList := [],
          InferenceRuleNeededList := [], ReferenceCount := 1 }
    Targets := [(".c.obj".toList, 0), ("sub/.c.obj".toList, 1), ("a.obj".toList, 2),
      ("sub/b.obj".toList, 3)]
    TargetsList := [0, 1, 2, 3]
    AllocTarget := 4
    AllocInferenceRule := 2 }

/-- The files of scenario S5. -/
def ScenarioS5Env : MAKE_ENV := ScenarioEnv [("a.c".toList, 1), ("sub/b.c".toList, 1)]

/-- The enumeration idiom of `target.c` for one extension: call
`MakeGetNextInferenceRuleTargetExtension` with `NULL`, then with the previous
result, until it returns `NULL`; the result is the sequence of rules
returned. -/
def MakeEnumerateInferenceRulesTargetExtension (ctx : MAKE_CONTEXT) (TopScope : ScopeId)
    (TargetExt : YORI_STRING) : Nat → Option RuleId → Option (List RuleId)
  | 0, _ => none
  | fuel + 1, PreviousRule =>
    match MakeGetNextInferenceRuleTargetExtension fuel ctx TopScope TargetExt PreviousRule with
    | none => none
    | some none => some []
    | some (some NextRule) =>
      match MakeEnumerateInferenceRulesTargetExtension ctx TopScope TargetExt fuel
          (some NextRule) with
      | none => none
      | some rest => some (NextRule :: rest)

/-- The walk of the spec for one extension: the sequence of all rules,
filtered to those whose target extension equals `TargetExt` ignoring case. -/
def FilteredInferenceRules (ctx : MAKE_CONTEXT) (TargetExt : YORI_STRING)
    (rules : List RuleId) : List RuleId :=
  rules.filter (fun r =>
    decide (YoriLibCompareStringInsensitive TargetExt (ctx.InferenceRule r).TargetExtension = 0))

/-! ## Specification predicates for the recipe compiler -/

/-- The template made of the command lines `lines`, each ended by a newline,
followed by the text `tail`. -/
def JoinTemplateLines : List YORI_STRING → YORI_STRING → YORI_STRING
  | [], tail => tail
  | line :: rest, tail => line ++ NewLine :: JoinTemplateLines rest tail

/-- The character is one of the per-line modifiers `@` and `-`. -/
def IsLineModifier (c : Char) : Bool := c = '@' || c = '-'

/-- The context after the commands `cmds` have been appended to
`Target->ExecCmds`. -/
def MAKE_CONTEXT.appendExecCmds (ctx : MAKE_CONTEXT) (Target : TargetId)
    (cmds : List MAKE_CMD_TO_EXEC) : MAKE_CONTEXT :=
  ctx.setTarget Target
    { ctx.Target Target with ExecCmds := (ctx.Target Target).ExecCmds ++ cmds }

/-- A context for the recipe compiler: target 0 has a recipe of three command
lines (the last one empty) followed by text without a newline, target 1 has
an explicit but empty recipe, target 2 has neither recipe nor rule, and
target 3 has no recipe of its own but rule 0, whose carrier is target 0. -/
def ScenarioRecipe : MAKE_CONTEXT :=
  { ScenarioEmptyContext with
    Target := fun t =>
      if t = 0 then
        { MakeInitialTarget "all".toList none with
          ExplicitRecipeFound := true
          ScopeContext := some 0
          Recipe := "@echo a".toList ++ NewLine :: "-@del b".toList ++ [NewLine, NewLine] ++
            "rest".toList }
      else if t = 1 then
        { MakeInitialTarget "clean".toList none with
          ExplicitRecipeFound := true
          ScopeContext := some 0 }
      else if t = 2 then MakeInitialTarget "a.c".toList none
      else if t = 3 then
        { MakeInitialTarget "a.obj".toList none with InferenceRule := some 0 }
      else MakeInitialTarget [] none
    Targets := [("all".toList, 0), ("clean".toList, 1), ("a.c".toList, 2), ("a.obj".toList, 3)]
    TargetsList := [0, 1, 2, 3]
    AllocTarget := 4 }

/-! ## Variable expander -/

/-- Modelled from the spec: `YoriLibCountStringContainingChars` of the
library, the length of the longest prefix of the string made of characters of
`chars`. -/
def YoriLibCountStringContainingChars (Str chars : YORI_STRING) : Nat :=
  (Str.takeWhile (fun c => chars.contains c)).length

/-- Modelled from the spec: `YoriLibCompareStringWithLiteral` of the library:
zero exactly when the string equals the literal, else the sign of the first
difference. -/
def YoriLibCompareStringWithLiteral : YORI_STRING → YORI_STRING → Int
  | [], [] => 0
  | [], _ :: _ => -1
  | _ :: _, [] => 1
  | a :: as, b :: bs =>
    if a.toNat < b.toNat then -1
    else if a.toNat > b.toNat then 1
    else YoriLibCompareStringWithLiteral as bs

/-- Modelled from the spec: `YoriLibCompareStringWithLiteralInsensitive` of
the library, the comparison ignoring case against a literal. -/
def YoriLibCompareStringWithLiteralInsensitive (Str Literal : YORI_STRING) : Int :=
  YoriLibCompareStringInsensitive Str Literal

/-- Writing `data` into a buffer at position `Index` (`memcpy`, or a store
of one character), over what the buffer held there. -/
def YoriLibWriteChars (buf : YORI_STRING) (Index : Nat) (data : YORI_STRING) : YORI_STRING :=
  buf.take Index ++ data ++ buf.drop (Index + data.length)

/-- The backwards `for` loop of the `*` branch of `MakeExpandTargetVariable`,
over the text before `Index` in reverse; the result is `Index` after the
loop. -/
def MakeExpandStemScan (KeyLength : Nat) : YORI_STRING → Nat
  | [] => 0
  | c :: before =>
    if c = '.' then before.length
    else if YoriLibIsSep c then KeyLength
    else MakeExpandStemScan KeyLength before

/-- The test of the `?` branch: the prerequisite counts as newer. -/
def MakeExpandIsNewer (ctx : MAKE_CONTEXT) (Target : TargetId)
    (DependentTarget : MAKE_TARGET_DEPENDENCY) : Bool :=
  !(ctx.Target Target).FileExists ||
    !(ctx.Target DependentTarget.Parent).FileExists ||
    decide ((ctx.Target DependentTarget.Parent).ModifiedTime > (ctx.Target Target).ModifiedTime)

/-- The second `while (ListEntry != NULL)` loop of the `?` branch of
`MakeExpandTargetVariable`, which fills the buffer; the result is the buffer
and `Index`. -/
def MakeExpandNewerParents (ctx : MAKE_CONTEXT) (Target : TargetId) :
    List MAKE_TARGET_DEPENDENCY → YORI_STRING → Nat → YORI_STRING × Nat
  | [], buf, Index => (buf, Index)
  | DependentTarget :: rest, buf, Index =>
    if MakeExpandIsNewer ctx Target DependentTarget then
      let buf1 := YoriLibWriteChars buf Index (ctx.Target DependentTarget.Parent).Key
      let Index1 := Index + (ctx.Target DependentTarget.Parent).Key.length
      let buf2 := YoriLibWriteChars buf1 Index1 [' ']
      MakeExpandNewerParents ctx Target rest buf2 Index1
    else MakeExpandNewerParents ctx Target rest buf Index

/-- The second `while (ListEntry != NULL)` loop of the `**` branch of
`MakeExpandTargetVariable`, which fills the buffer; the result is the buffer
and `Index`. -/
def MakeExpandAllParents (ctx : MAKE_CONTEXT) :
    List MAKE_TARGET_DEPENDENCY → YORI_STRING → Nat → YORI_STRING × Nat
  | [], buf, Index => (buf, Index)
  | DependentTarget :: rest, buf, Index =>
    let buf1 := YoriLibWriteChars buf Index (ctx.Target DependentTarget.Parent).Key
    let Index1 := Index + (ctx.Target DependentTarget.Parent).Key.length
    let buf2 := YoriLibWriteChars buf1 Index1 [' ']
    let Index2 := if rest.isEmpty then Index1 else Index1 + 1
    MakeExpandAllParents ctx rest buf2 Index2

/-- The backwards `for` loop of the `<` branch of `MakeExpandTargetVariable`,
over the text before `Index` in reverse; the result is
`BaseName.LengthInChars`, which stays zero when the key has no period. -/
def MakeExpandSourceScan : YORI_STRING → Nat
  | [] => 0
  | c :: before => if c = '.' then before.length + 1 else MakeExpandSourceScan before

/-- The first part of `MakeExpandTargetVariable`, up to `if (Result ==
FALSE)`: the value of the variable `BaseVariableName` before the file name
part qualifier is applied, `none` when `Result` is `FALSE`.  Allocations
succeed. -/
def MakeExpandTargetVariableValue (ctx : MAKE_CONTEXT) (Target : TargetId)
    (BaseVariableName : YORI_STRING) : Option (YORI_STRING × MAKE_CONTEXT) :=
  let Key := (ctx.Target Target).Key
  if YoriLibCompareStringWithLiteral BaseVariableName "@".toList = 0 then some (Key, ctx)
  else if YoriLibCompareStringWithLiteral BaseVariableName "*".toList = 0 then
    let Index := MakeExpandStemScan Key.length Key.reverse
    let Index1 := if Index = 0 then Key.length else Index
    some (Key.take Index1, ctx)
  else if YoriLibCompareStringWithLiteral BaseVariableName "?".toList = 0 then
    let filled := MakeExpandNewerParents ctx Target (ctx.Target Target).ParentDependents [] 0
    some (filled.1.take filled.2, { ctx with AllocVariableData := ctx.AllocVariableData + 1 })
  else if YoriLibCompareStringWithLiteral BaseVariableName "**".toList = 0 then
    let filled := MakeExpandAllParents ctx (ctx.Target Target).ParentDependents [] 0
    some (filled.1.take filled.2, { ctx with AllocVariableData := ctx.AllocVariableData + 1 })
  else if YoriLibCompareStringWithLiteral BaseVariableName "<".toList = 0 then
    match (ctx.Target Target).InferenceRule with
    | some InferenceRule =>
      let BaseName := Key.take (MakeExpandSourceScan Key.reverse)
      some (BaseName ++ (ctx.InferenceRule InferenceRule).SourceExtension,
        { ctx with AllocVariableData := ctx.AllocVariableData + 1 })
    | none => none
  else none

/-- The backwards `for` loop of the `B` qualifier, over the text before
`Index` in reverse; the result is `Index`, `FinalDotIndex`, `FinalDotFound`
and `FinalSeperatorFound` after the loop. -/
def MakeExpandBaseNameScan : YORI_STRING → Nat → Bool → Nat × Nat × Bool × Bool
  | [], FinalDotIndex, FinalDotFound => (0, FinalDotIndex, FinalDotFound, false)
  | c :: before, FinalDotIndex, FinalDotFound =>
    if FinalDotIndex = 0 ∧ c = '.' then MakeExpandBaseNameScan before before.length true
    else if YoriLibIsSep c then (before.length + 1, FinalDotIndex, FinalDotFound, true)
    else MakeExpandBaseNameScan before FinalDotIndex FinalDotFound

/-- The backwards `for` loop of the `D` and of the `F` qualifier, over the
text before `Index` in reverse; the result is `Index` and
`FinalSeperatorFound` after the loop. -/
def MakeExpandSeparatorScan : YORI_STRING → Nat × Bool
  | [] => (0, false)
  | c :: before =>
    if YoriLibIsSep c then (before.length + 1, true) else MakeExpandSeparatorScan before

/-- The backwards `for` loop of the `R` qualifier, over the text before
`Index` in reverse; the result is `Index` and `FinalDotFound` after the
loop. -/
def MakeExpandRootScan : YORI_STRING → Nat × Bool
  | [] => (0, false)
  | c :: before =>
    if c = '.' then (before.length + 1, true)
    else if YoriLibIsSep c then (before.length + 1, false)
    else MakeExpandRootScan before

/-- The second part of `MakeExpandTargetVariable`: the file name part
qualifier applied to the value, `none` for an unknown qualifier. -/
def MakeExpandFileNamePart (VariableData FileNamePartQualifier : YORI_STRING) :
    Option YORI_STRING :=
  if YoriLibCompareStringWithLiteralInsensitive FileNamePartQualifier "B".toList = 0 then
    let scan := MakeExpandBaseNameScan VariableData.reverse 0 false
    let Index := scan.1
    let LengthInChars := if scan.2.2.1 then scan.2.1 else VariableData.length
    if scan.2.2.2 then some ((VariableData.drop Index).take (LengthInChars - Index))
    else some (VariableData.take LengthInChars)
  else if YoriLibCompareStringWithLiteralInsensitive FileNamePartQualifier "D".toList = 0 then
    let scan := MakeExpandSeparatorScan VariableData.reverse
    if scan.2 then some (VariableData.take (scan.1 - 1)) else some VariableData
  else if FileNamePartQualifier.length = 0 ∨
      YoriLibCompareStringWithLiteralInsensitive FileNamePartQualifier "F".toList = 0 then
    let scan := MakeExpandSeparatorScan VariableData.reverse
    if scan.2 then some (VariableData.drop scan.1) else some VariableData
  else if YoriLibCompareStringWithLiteralInsensitive FileNamePartQualifier "R".toList = 0 then
    let scan := MakeExpandRootScan VariableData.reverse
    if scan.2 then some (VariableData.take (scan.1 - 1)) else some VariableData
  else none

/-- `MakeExpandTargetVariable`: the return value, `VariableData` (empty when
the function fails), and the context. -/
def MakeExpandTargetVariable (ctx : MAKE_CONTEXT) (Target : TargetId)
    (VariableName : YORI_STRING) : Bool × YORI_STRING × MAKE_CONTEXT :=
  let SymbolChars := YoriLibCountStringContainingChars VariableName "@*<?".toList
  if SymbolChars = 0 then (false, [], ctx)
  else
    let BaseVariableName :=
      if VariableName.length > SymbolChars then VariableName.take SymbolChars else VariableName
    let FileNamePartQualifier :=
      if VariableName.length > SymbolChars then VariableName.drop SymbolChars else []
    match MakeExpandTargetVariableValue ctx Target BaseVariableName with
    | none => (false, [], ctx)
    | some (VariableData, ctx1) =>
      match MakeExpandFileNamePart VariableData FileNamePartQualifier with
      | none => (false, [], ctx1)
      | some Value => (true, Value, ctx1)

/-- A context whose target 0 has the key `Key`. -/
def ScenarioKey (Key : YORI_STRING) : MAKE_CONTEXT :=
  ScenarioEmptyContext.setTarget 0 (MakeInitialTarget Key none)

/-! ## Pending targets of a scope -/

/-- `MakeWouldTargetBenefitFromInferenceRule`. -/
def MakeWouldTargetBenefitFromInferenceRule (ctx : MAKE_CONTEXT) (Target : TargetId) : Bool :=
  decide ((ctx.Target Target).Recipe.length = 0) && (ctx.Target Target).InferenceRule.isNone

/-- `MakeFindInferenceRulesForScope`; `none` when the fuel runs out. -/
def MakeFindInferenceRulesForScope (env : MAKE_ENV) :
    Nat → MAKE_CONTEXT → ScopeId → Option (Bool × MAKE_CONTEXT)
  | 0, _, _ => none
  | fuel + 1, ctx, ScopeContext =>
    match (ctx.Scope ScopeContext).InferenceRuleNeededList with
    | [] => some (true, ctx)
    | Target :: rest =>
      let ctx1 := ctx.setScope ScopeContext
        { ctx.Scope ScopeContext with InferenceRuleNeededList := rest }
      if !MakeWouldTargetBenefitFromInferenceRule ctx1 Target then
        MakeFindInferenceRulesForScope env fuel ctx1 ScopeContext
      else
        match MakeFindInferenceRuleForTarget env fuel ctx1 ScopeContext Target with
        | none => none
        | some (false, ctx2) => some (false, ctx2)
        | some (true, ctx2) => MakeFindInferenceRulesForScope env fuel ctx2 ScopeContext

/-- The assertions of `MakeGenerateExecScriptForTarget` on the path it takes:
with the template of an inference rule, `InferenceRuleParentTarget` is set
and `ParentDependents` is not empty; with any template, `ScopeContext` is
set. -/
def MakeGenerateExecScriptAssertions (ctx : MAKE_CONTEXT) (Target : TargetId) : Bool :=
  if (ctx.Target Target).Recipe.length > 0 then (ctx.Target Target).ScopeContext.isSome
  else if (ctx.Target Target).InferenceRule.isSome then
    (ctx.Target Target).InferenceRuleParentTarget.isSome &&
      !(ctx.Target Target).ParentDependents.isEmpty &&
      (ctx.Target Target).ScopeContext.isSome
  else if (ctx.Target Target).ExplicitRecipeFound then (ctx.Target Target).ScopeContext.isSome
  else true

/-- Scenario S3: the rule `.c` to `.obj` (rule 0, carrier target 0) in the
only scope, and the declared target `a.obj` (target 1) without recipe and
without prerequisites, pending in the scope. -/
def ScenarioS3 : MAKE_CONTEXT :=
  { ScenarioEmptyContext with
    Target := fun t =>
      if t = 0 then
        { MakeInitialTarget ".c.obj".toList none with
          InferenceRulePseudoTarget := true
          ExplicitRecipeFound := true
          ScopeContext := some 0
          ReferenceCount := 2
          Recipe := "cc $< -o $@".toList ++ [NewLine] }
      else if t = 1 then MakeInitialTarget "a.obj".toList none
      else MakeInitialTarget [] none
    InferenceRule := fun r =>
      if r = 0 then
        { SourceExtension := "c".toList, TargetExtension := "obj".toList, Target := 0,
          ScopeContext := 0, ReferenceCount := 1 }
      else
        { SourceExtension := [], TargetExtension := [], Target := 0, ScopeContext := 0,
          ReferenceCount := 0 }
    Scope := fun s =>
      if s = 0 then
        { Key := [], ParentScope := none, InferenceRuleList := [0],
          InferenceRuleNeededList := [1], ReferenceCount := 3 }
      else
        { Key := [], ParentScope := none, InferenceRuleList := [],
          InferenceRuleNeededList := [], ReferenceCount := 1 }
    Targets := [(".c.obj".toList, 0), ("a.obj".toList, 1)]
    TargetsList := [0, 1]
    AllocTarget := 2
    AllocInferenceRule := 1 }

/-- The files of scenario S3: `a.c` exists, `a.obj` does not. -/
def ScenarioS3Env : MAKE_ENV := ScenarioEnv [("a.c".toList, 2)]

/-! ## Further invariants of the dependency walk -/

/-- What one round of the prerequisite loop of `t` establishes: `d` is the
edge at position `i`, `ctxs` the context after the dependency of its
prerequisite has been populated, `ctx2` the context after the recursive call
and `ctx3`, `S3` the context and `SetRebuildRequired` after the prerequisite
has been accounted for. -/
structure LoopStep (rank : TargetId → Nat) (R : Nat) (t : TargetId) (ctx : MAKE_CONTEXT)
    (i : Nat) (d : MAKE_TARGET_DEPENDENCY) (ctxs ctx2 ctx3 : MAKE_CONTEXT) (S3 : Bool) :
    Prop where
  edge : d ∈ (ctx.Target t).ParentDependents
  below : rank d.Parent < rank t
  synth : SynthPost rank R d.Parent ctx ctxs
  zero : ∀ x, rank x ≤ rank d.Parent → (ctxs.Target x).DependenciesEvaluated = false →
    (ctxs.Target x).NumberParentsToBuild = 0
  walk : WalkPost rank R d.Parent ctxs ctx2
  unevaluated2 : (ctx2.Target t).DependenciesEvaluated = false
  inv : SchedInv rank R ctx3
  unevaluated : (ctx3.Target t).DependenciesEvaluated = false
  zero3 : ∀ x, rank x < rank t → (ctx3.Target x).DependenciesEvaluated = false →
    (ctx3.Target x).NumberParentsToBuild = 0
  own : (ctx3.Target t).ParentDependents = (ctx.Target t).ParentDependents
  loop : LoopInv ctx3 t (i + 1) S3
  mono : ∀ x e, e ∈ (ctx.Target x).ParentDependents → e ∈ (ctx3.Target x).ParentDependents

/-- The property `X` of contexts, and the property `Pre` of the target being
walked, are kept by every step of the dependency walk below rank `R`:
populating the dependency of a prerequisite, accounting for a prerequisite,
and completing the evaluation of a target (flagging it as evaluated and, when
`b` holds, marking it for rebuild with the commands `cmds`). -/
structure WalkKeeps (rank : TargetId → Nat) (R : Nat) (Pre : TargetId → MAKE_CONTEXT → Prop)
    (X : MAKE_CONTEXT → Prop) : Prop where
  pre_edge : ∀ ctx t d, Pre t ctx → d ∈ (ctx.Target t).ParentDependents → Pre d.Parent ctx
  pre_mono : ∀ ctx ctx' x, Pre x ctx →
    (∀ y e, e ∈ (ctx.Target y).ParentDependents → e ∈ (ctx'.Target y).ParentDependents) →
    Pre x ctx'
  populate : ∀ ctx p, SchedInv rank R ctx → rank p < R → X ctx →
    X (MakeDetermineDependenciesPopulateParent ctx p).2
  account : ∀ ctx t d S, SchedInv rank R ctx → (ctx.Target t).DependenciesEvaluated = false →
    X ctx → X (MakeDetermineDependenciesAccountParent ctx t d S).2
  finish : ∀ ctx ctx' t S b cmds, SchedInv rank R ctx → SchedInv rank R ctx' → Pre t ctx →
    (ctx.Target t).DependenciesEvaluated = false →
    LoopInv ctx t (ctx.Target t).ParentDependents.length S →
    (b = true ↔ ((ctx.Target t).FileExists = false ∨ S = true)) →
    (∀ x, x ≠ t → ctx'.Target x = ctx.Target x) →
    ctx'.Target t =
      { ctx.Target t with DependenciesEvaluated := true, ExecCmds := cmds, RebuildRequired := b } →
    ctx'.TargetsReady =
      (if b = true ∧ (ctx.Target t).NumberParentsToBuild = 0 then ctx.TargetsReady ++ [t]
        else ctx.TargetsReady) →
    ctx'.TargetsWaiting =
      (if b = true ∧ (ctx.Target t).NumberParentsToBuild ≠ 0 then ctx.TargetsWaiting ++ [t]
        else ctx.TargetsWaiting) →
    X ctx → X ctx'

/-- The contract of the recursive call for a kept property. -/
def WalkKeepsSpec (rank : TargetId → Nat) (R : Nat) (Pre : TargetId → MAKE_CONTEXT → Prop)
    (X : MAKE_CONTEXT → Prop)
    (f : MAKE_CONTEXT → TargetId → Option (Bool × MAKE_CONTEXT)) : Prop :=
  ∀ ctx p ctx', SchedInv rank R ctx →
    (∀ x, rank x ≤ rank p → (ctx.Target x).DependenciesEvaluated = false →
      (ctx.Target x).NumberParentsToBuild = 0) →
    rank p ≤ R →
    (rank p < R → (ctx.Target p).DependenciesEvaluated = true ∨
      MakeParentNeedsInferenceDependency ctx p = false) →
    Pre p ctx → X ctx →
    f ctx p = some (true, ctx') → X ctx'

/-- A pseudo target as a prerequisite: the carrier `.c.obj` of an inference
rule (target 0, a pseudo target with a recipe, no such file) is attached as a
prerequisite of the first real target `all` (target 1). -/
def ScenarioPseudoPrerequisite : MAKE_CONTEXT :=
  { ScenarioEmptyContext with
    Target := fun t =>
      if t = 0 then
        { MakeInitialTarget ".c.obj".toList none with
          InferenceRulePseudoTarget := true
          ExplicitRecipeFound := true
          ScopeContext := some 0
          Recipe := "cc $<".toList ++ [NewLine]
          ChildDependents := [{ Parent := 0, Child := 1 }] }
      else if t = 1 then
        { MakeInitialTarget "all".toList none with
          ExplicitRecipeFound := true
          ScopeContext := some 0
          Recipe := "echo done".toList ++ [NewLine]
          ParentDependents := [{ Parent := 0, Child := 1 }] }
      else MakeInitialTarget [] none
    Targets := [(".c.obj".toList, 0), ("all".toList, 1)]
    TargetsList := [0, 1]
    AllocTarget := 2
    AllocDependency := 1 }

/-- The context after scheduling `ScenarioPseudoPrerequisite`. -/
def ScenarioPseudoPrerequisiteResult : MAKE_CONTEXT :=
  match MakeDetermineDependencies (ScenarioEnv []) 4 ScenarioPseudoPrerequisite with
  | some r => r.2
  | none => ScenarioPseudoPrerequisite

/-- The prerequisite lists of `ctx` are those of `ctx0`, except that an empty
list may have become the single edge from the inference parent, which is then
also linked in the list of the inference parent. -/
def SynthShape (ctx0 ctx : MAKE_CONTEXT) : Prop :=
  ∀ x, (ctx.Target x).ParentDependents = (ctx0.Target x).ParentDependents ∨
    ((ctx0.Target x).ParentDependents = [] ∧
      ∃ q, (ctx.Target x).InferenceRuleParentTarget = some q ∧
        (ctx.Target x).ParentDependents = [{ Parent := q, Child := x }] ∧
        { Parent := q, Child := x } ∈ (ctx.Target q).ChildDependents)

/-- The dependency lists and the inference parent of every target are the
same in both contexts. -/
def EdgeFrame (ctx ctx' : MAKE_CONTEXT) : Prop :=
  ∀ x, (ctx'.Target x).ParentDependents = (ctx.Target x).ParentDependents ∧
    (ctx'.Target x).ChildDependents = (ctx.Target x).ChildDependents ∧
    (ctx'.Target x).InferenceRuleParentTarget = (ctx.Target x).InferenceRuleParentTarget

/-- A prerequisite built by an inference rule: `all` (target 1, with a
recipe) depends on `a.obj` (target 2), which has no recipe and no
prerequisites but the rule `.c` to `.obj` (rule 0, carrier target 0) with
`a.c` (target 3, the only existing file) as inference parent. -/
def ScenarioSynth : MAKE_CONTEXT :=
  { ScenarioEmptyContext with
    Target := fun t =>
      if t = 0 then
        { MakeInitialTarget ".c.obj".toList none with
          InferenceRulePseudoTarget := true
          ExplicitRecipeFound := true
          ScopeContext := some 0
          ReferenceCount := 2
          Recipe := "cc $<".toList ++ [NewLine] }
      else if t = 1 then
        { MakeInitialTarget "all".toList none with
          ExplicitRecipeFound := true
          ScopeContext := some 0
          Recipe := "echo done".toList ++ [NewLine]
          ParentDependents := [{ Parent := 2, Child := 1 }] }
      else if t = 2 then
        { MakeInitialTarget "a.obj".toList none with
          ScopeContext := some 0
          InferenceRule := some 0
          InferenceRuleParentTarget := some 3
          ChildDependents := [{ Parent := 2, Child := 1 }] }
      else if t = 3 then
        { MakeInitialTarget "a.c".toList (some 2) with ReferenceCount := 2 }
      else MakeInitialTarget [] none
    InferenceRule := fun r =>
      if r = 0 then
        { SourceExtension := "c".toList, TargetExtension := "obj".toList, Target := 0,
          ScopeContext := 0, ReferenceCount := 2 }
      else
        { SourceExtension := [], TargetExtension := [], Target := 0, ScopeContext := 0,
          ReferenceCount := 0 }
    Targets := [(".c.obj".toList, 0), ("all".toList, 1), ("a.obj".toList, 2),
      ("a.c".toList, 3)]
    TargetsList := [0, 1, 2, 3]
    AllocTarget := 4
    AllocInferenceRule := 1
    AllocDependency := 1 }

/-- The files of `ScenarioSynth`. -/
def ScenarioSynthEnv : MAKE_ENV := ScenarioEnv [("a.c".toList, 2)]

/-- The context after scheduling `ScenarioSynth`. -/
def ScenarioSynthResult : MAKE_CONTEXT :=
  match MakeDetermineDependencies ScenarioSynthEnv 4 ScenarioSynth with
  | some r => r.2
  | none => ScenarioSynth

/-- The list `log` is an order of appends behind the two queues: it holds each
marked target once, `TargetsReady` and `TargetsWaiting` are its sublists of
the targets with no, respectively some, prerequisite to build, and a marked
prerequisite of one of its targets stands before that target. -/
def QueueLog (ctx : MAKE_CONTEXT) (log : List TargetId) : Prop :=
  log.Nodup ∧
  ctx.TargetsReady =
    log.filter (fun x => decide ((ctx.Target x).NumberParentsToBuild = 0)) ∧
  ctx.TargetsWaiting =
    log.filter (fun x => decide ((ctx.Target x).NumberParentsToBuild ≠ 0)) ∧
  (∀ x, x ∈ log ↔ (ctx.Target x).RebuildRequired = true) ∧
  (∀ t ∈ log, ∀ d ∈ (ctx.Target t).ParentDependents,
    (ctx.Target d.Parent).RebuildRequired = true →
    ∃ l1 l2, log = l1 ++ t :: l2 ∧ d.Parent ∈ l1)

/-- Scenario S6: `t` (target 0, last written at 3) has the prerequisites `p1`
(target 1, last written at 5) and `p2` (target 2, last written at `m`),
attached in this order; all three files exist.  The specification has `m` at
1. -/
def ScenarioS6 (m : Int) : MAKE_CONTEXT :=
  { ScenarioEmptyContext with
    Target := fun t =>
      if t = 0 then
        { MakeInitialTarget "t".toList (some 3) with
          ParentDependents := [{ Parent := 1, Child := 0 }, { Parent := 2, Child := 0 }] }
      else if t = 1 then
        { MakeInitialTarget "p1".toList (some 5) with
          ChildDependents := [{ Parent := 1, Child := 0 }] }
      else if t = 2 then
        { MakeInitialTarget "p2".toList (some m) with
          ChildDependents := [{ Parent := 2, Child := 0 }] }
      else MakeInitialTarget [] none
    Targets := [("t".toList, 0), ("p1".toList, 1), ("p2".toList, 2)]
    TargetsList := [0, 1, 2]
    AllocTarget := 3
    AllocDependency := 2 }


/-! ## Target identity -/

/-- A sequence of `MakeLookupOrCreateTarget` calls, each with its scope and
its name, one after the other; the result is the targets returned, in order,
and the final context. -/
def MakeLookupOrCreateTargets (env : MAKE_ENV) :
    MAKE_CONTEXT → List (ScopeId × YORI_STRING) → List (Option TargetId) × MAKE_CONTEXT
  | ctx, [] => ([], ctx)
  | ctx, call :: rest =>
    let found := MakeLookupOrCreateTarget env ctx call.1 call.2
    let others := MakeLookupOrCreateTargets env found.2 rest
    (found.1 :: others.1, others.2)

/-- The target table and the target list are in step: no path has two
entries in the table, the list holds the targets of the table, each once and
in the order they were inserted, every one of them is an allocated target,
and the key of a target is the path it is entered under. -/
def TargetIdentity (ctx : MAKE_CONTEXT) : Prop :=
  (ctx.Targets.map Prod.fst).Nodup ∧
  ctx.Targets.map Prod.snd = ctx.TargetsList ∧
  ctx.TargetsList.Nodup ∧
  (∀ e ∈ ctx.Targets, e.2 < ctx.AllocTarget ∧ (ctx.Target e.2).Key = e.1)


/-! ## Teardown -/

/-- Modelled from the spec: `MakeDereferenceScope` of the scope module, which
gives back one reference on a scope; what the scope module does with a scope
that has no reference left is not part of `target.c`. -/
def MakeDereferenceScope (ctx : MAKE_CONTEXT) (ScopeContext : ScopeId) : MAKE_CONTEXT :=
  ctx.setScope ScopeContext
    { ctx.Scope ScopeContext with ReferenceCount := (ctx.Scope ScopeContext).ReferenceCount - 1 }

mutual

/-- `MakeDereferenceTarget`; `none` when the fuel runs out.  A freed record
stays in the heap with no reference, its recipe and its commands emptied. -/
def MakeDereferenceTarget : Nat → MAKE_CONTEXT → TargetId → Option MAKE_CONTEXT
  | 0, _, _ => none
  | fuel + 1, ctx, Target =>
    let ctx1 := ctx.setTarget Target
      { ctx.Target Target with ReferenceCount := (ctx.Target Target).ReferenceCount - 1 }
    if (ctx1.Target Target).ReferenceCount = 0 then
      let ctx2 := ctx1.setTarget Target { ctx1.Target Target with Recipe := [] }
      let afterRule :=
        match (ctx2.Target Target).InferenceRule with
        | some InferenceRule =>
          match MakeDereferenceInferenceRule fuel ctx2 InferenceRule with
          | none => none
          | some c => some (c.setTarget Target { c.Target Target with InferenceRule := none })
        | none => some ctx2
      match afterRule with
      | none => none
      | some ctx3 =>
        let ctx4 :=
          match (ctx3.Target Target).ScopeContext with
          | some ScopeContext =>
            let c := MakeDereferenceScope ctx3 ScopeContext
            c.setTarget Target { c.Target Target with ScopeContext := none }
          | none => ctx3
        let ctx5 := ctx4.setTarget Target { ctx4.Target Target with ExecCmds := [] }
        match (ctx5.Target Target).InferenceRuleParentTarget with
        | some InferenceRuleParentTarget =>
          match MakeDereferenceTarget fuel ctx5 InferenceRuleParentTarget with
          | none => none
          | some c =>
            some (c.setTarget Target { c.Target Target with InferenceRuleParentTarget := none })
        | none => some ctx5
    else some ctx1

/-- `MakeDereferenceInferenceRule`; `none` when the fuel runs out.  A rule
with no reference left is taken off the rule list of its scope. -/
def MakeDereferenceInferenceRule : Nat → MAKE_CONTEXT → RuleId → Option MAKE_CONTEXT
  | 0, _, _ => none
  | fuel + 1, ctx, InferenceRule =>
    let ctx1 := ctx.setRule InferenceRule
      { ctx.InferenceRule InferenceRule with
        ReferenceCount := (ctx.InferenceRule InferenceRule).ReferenceCount - 1 }
    if (ctx1.InferenceRule InferenceRule).ReferenceCount = 0 then
      let ScopeContext := (ctx1.InferenceRule InferenceRule).ScopeContext
      let ctx2 := ctx1.setScope ScopeContext
        { ctx1.Scope ScopeContext with
          InferenceRuleList := (ctx1.Scope ScopeContext).InferenceRuleList.erase InferenceRule }
      MakeDereferenceTarget fuel ctx2 (ctx2.InferenceRule InferenceRule).Target
    else some ctx1

end

/-- `MakeDeactivateTarget`: the target leaves the target list and the table,
and gives back the reference they held. -/
def MakeDeactivateTarget (fuel : Nat) (ctx : MAKE_CONTEXT) (Target : TargetId) :
    Option MAKE_CONTEXT :=
  MakeDereferenceTarget fuel
    { ctx with
      TargetsList := ctx.TargetsList.erase Target
      Targets := ctx.Targets.filter (fun e => decide (e.2 ≠ Target)) }
    Target

/-- `MakeDeleteDependency`: the record leaves the `ChildDependents` list of
its parent and the `ParentDependents` list of its child. -/
def MakeDeleteDependency (ctx : MAKE_CONTEXT) (Dependency : MAKE_TARGET_DEPENDENCY) :
    MAKE_CONTEXT :=
  let ctx1 := ctx.setTarget Dependency.Parent
    { ctx.Target Dependency.Parent with
      ChildDependents := (ctx.Target Dependency.Parent).ChildDependents.erase Dependency }
  ctx1.setTarget Dependency.Child
    { ctx1.Target Dependency.Child with
      ParentDependents := (ctx1.Target Dependency.Child).ParentDependents.erase Dependency }

/-- The first inner loop of `MakeDeleteAllTargets`: delete the first
dependency of `ParentDependents` until the list is empty. -/
def MakeDeleteAllTargetsParents : Nat → MAKE_CONTEXT → TargetId → Option MAKE_CONTEXT
  | 0, _, _ => none
  | fuel + 1, ctx, Target =>
    match (ctx.Target Target).ParentDependents with
    | [] => some ctx
    | Dependency :: _ =>
      MakeDeleteAllTargetsParents fuel (MakeDeleteDependency ctx Dependency) Target

/-- The second inner loop of `MakeDeleteAllTargets`: delete the first
dependency of `ChildDependents` until the list is empty. -/
def MakeDeleteAllTargetsChildren : Nat → MAKE_CONTEXT → TargetId → Option MAKE_CONTEXT
  | 0, _, _ => none
  | fuel + 1, ctx, Target =>
    match (ctx.Target Target).ChildDependents with
    | [] => some ctx
    | Dependency :: _ =>
      MakeDeleteAllTargetsChildren fuel (MakeDeleteDependency ctx Dependency) Target

/-- The outer loop of `MakeDeleteAllTargets`, from the list entry
`ListEntry`. -/
def MakeDeleteAllTargetsLoop : Nat → MAKE_CONTEXT → Option TargetId → Option MAKE_CONTEXT
  | 0, _, _ => none
  | _ + 1, ctx, none => some ctx
  | fuel + 1, ctx, some Target =>
    match MakeDeleteAllTargetsParents fuel ctx Target with
    | none => none
    | some ctx1 =>
      match MakeDeleteAllTargetsChildren fuel ctx1 Target with
      | none => none
      | some ctx2 =>
        let ListEntry := YoriLibGetNextListEntry ctx2.TargetsList (some Target)
        match MakeDeactivateTarget fuel ctx2 Target with
        | none => none
        | some ctx3 => MakeDeleteAllTargetsLoop fuel ctx3 ListEntry

/-- `MakeDeleteAllTargets`; `none` when the fuel runs out. -/
def MakeDeleteAllTargets (fuel : Nat) (ctx : MAKE_CONTEXT) : Option MAKE_CONTEXT :=
  MakeDeleteAllTargetsLoop fuel ctx (YoriLibGetNextListEntry ctx.TargetsList none)

/-- A call on the dependency edges. -/
inductive MAKE_EDGE_CALL where
  | Create (Parent Child : TargetId)
  | Delete (Dependency : MAKE_TARGET_DEPENDENCY)
  | DeleteAll

/-- A sequence of calls of `MakeCreateParentChildDependency`,
`MakeDeleteDependency` and `MakeDeleteAllTargets`, one after the other; `none`
when the fuel of a `MakeDeleteAllTargets` runs out. -/
def MakeEdgeCalls (fuel : Nat) : MAKE_CONTEXT → List MAKE_EDGE_CALL → Option MAKE_CONTEXT
  | ctx, [] => some ctx
  | ctx, MAKE_EDGE_CALL.Create Parent Child :: rest =>
    MakeEdgeCalls fuel (MakeCreateParentChildDependency ctx Parent Child).2 rest
  | ctx, MAKE_EDGE_CALL.Delete Dependency :: rest =>
    MakeEdgeCalls fuel (MakeDeleteDependency ctx Dependency) rest
  | ctx, MAKE_EDGE_CALL.DeleteAll :: rest =>
    match MakeDeleteAllTargets fuel ctx with
    | none => none
    | some ctx1 => MakeEdgeCalls fuel ctx1 rest

/-- The dependency lists are linked consistently: a record in the
`ChildDependents` list of a target has that target as parent, a record in the
`ParentDependents` list of a target has that target as child, and a record
stands as often in the `ChildDependents` list of its parent as in the
`ParentDependents` list of its child. -/
def EdgeLinked (ctx : MAKE_CONTEXT) : Prop :=
  (∀ t, ∀ d ∈ (ctx.Target t).ChildDependents, d.Parent = t) ∧
  (∀ t, ∀ d ∈ (ctx.Target t).ParentDependents, d.Child = t) ∧
  (∀ d : MAKE_TARGET_DEPENDENCY,
    (ctx.Target d.Parent).ChildDependents.count d =
      (ctx.Target d.Child).ParentDependents.count d)

/-- The references followed by `MakeDereferenceTarget` go down along `rank`:
from a target to its inference parent, and from a target to the carrier of its
inference rule. -/
def DerefRanked (rank : TargetId → Nat) (ctx : MAKE_CONTEXT) : Prop :=
  (∀ t p, (ctx.Target t).InferenceRuleParentTarget = some p → rank p < rank t) ∧
  (∀ t r, (ctx.Target t).InferenceRule = some r → rank (ctx.InferenceRule r).Target < rank t)

/-- What dereferencing leaves alone: the dependency lists, the carriers of
the rules, the target list and the table; the inference parent and the
inference rule of a target stay or are cleared. -/
def DerefFrame (ctx ctx' : MAKE_CONTEXT) : Prop :=
  (∀ t, (ctx'.Target t).ParentDependents = (ctx.Target t).ParentDependents ∧
    (ctx'.Target t).ChildDependents = (ctx.Target t).ChildDependents ∧
    ((ctx'.Target t).InferenceRuleParentTarget = none ∨
      (ctx'.Target t).InferenceRuleParentTarget = (ctx.Target t).InferenceRuleParentTarget) ∧
    ((ctx'.Target t).InferenceRule = none ∨
      (ctx'.Target t).InferenceRule = (ctx.Target t).InferenceRule)) ∧
  (∀ r, (ctx'.InferenceRule r).Target = (ctx.InferenceRule r).Target) ∧
  ctx'.TargetsList = ctx.TargetsList ∧ ctx'.Targets = ctx.Targets


/-- The state in which `MakeDeleteAllTargets` runs to its end with fuel above
the length of the target list plus `E + 2 * R + 1`: the dependency lists are
linked consistently and hold at most `E` records each, the references go down
along `rank`, which is at most `R` on the target list, the target list holds
no target twice and holds every target of the table, and a target that is not
on it has no dependency. -/
structure TeardownInv (rank : TargetId → Nat) (R E : Nat) (ctx : MAKE_CONTEXT) : Prop where
  linked : EdgeLinked ctx
  ranked : DerefRanked rank ctx
  bound : ∀ t, (ctx.Target t).ParentDependents.length ≤ E ∧
    (ctx.Target t).ChildDependents.length ≤ E
  nodup : ctx.TargetsList.Nodup
  table : ∀ e ∈ ctx.Targets, e.2 ∈ ctx.TargetsList
  inactive : ∀ t, t ∉ ctx.TargetsList →
    (ctx.Target t).ParentDependents = [] ∧ (ctx.Target t).ChildDependents = []
  below : ∀ t ∈ ctx.TargetsList, rank t ≤ R


/-- The context after `MakeDeleteAllTargets` on scenario S1. -/
def ScenarioS1Teardown : MAKE_CONTEXT :=
  match MakeDeleteAllTargets 6 ScenarioS1 with
  | some c => c
  | none => ScenarioS1

/-- The context after a second edge from `a.c` to `a.obj` is created in
scenario S1, the first one is deleted, and all targets are deleted. -/
def ScenarioS1EdgeCalls : MAKE_CONTEXT :=
  match MakeEdgeCalls 6 ScenarioS1
      [MAKE_EDGE_CALL.Create 1 0, MAKE_EDGE_CALL.Delete { Parent := 1, Child := 0 },
        MAKE_EDGE_CALL.DeleteAll] with
  | some c => c
  | none => ScenarioS1


/-! ## Draining the pending list -/

/-- Every pending list is the same in both contexts. -/
def PendingFrame (ctx ctx' : MAKE_CONTEXT) : Prop :=
  ∀ s, (ctx'.Scope s).InferenceRuleNeededList = (ctx.Scope s).InferenceRuleNeededList

/-- The context after `MakeFindInferenceRulesForScope` on the scope of
scenario S3. -/
def ScenarioS3Drained : MAKE_CONTEXT :=
  match MakeFindInferenceRulesForScope ScenarioS3Env 8 ScenarioS3 0 with
  | some r => r.2
  | none => ScenarioS3


/-- The files of scenario S3 when `a.obj` exists too, last written at `m`. -/
def ScenarioS3ExistingEnv (m : Int) : MAKE_ENV :=
  ScenarioEnv [("a.c".toList, 2), ("a.obj".toList, m)]

/-- The context after `MakeFindInferenceRulesForScope` on the scope of
scenario S3 when `a.obj` has been found on disk, last written at `m`. -/
def ScenarioS3Existing (m : Int) : MAKE_CONTEXT :=
  match MakeFindInferenceRulesForScope (ScenarioS3ExistingEnv m) 8
      (ScenarioS3.setTarget 1 (MakeInitialTarget "a.obj".toList (some m))) 0 with
  | some r => r.2
  | none => ScenarioS3


/-- Prerequisites in a directory: `t` (target 0, last written at 3) has the
prerequisites `d/p1` (target 1) and `d/p2` (target 2), both last written at
5, attached in this order. -/
def ScenarioDirectory : MAKE_CONTEXT :=
  { ScenarioEmptyContext with
    Target := fun t =>
      if t = 0 then
        { MakeInitialTarget "t".toList (some 3) with
          ParentDependents := [{ Parent := 1, Child := 0 }, { Parent := 2, Child := 0 }] }
      else if t = 1 then
        { MakeInitialTarget "d/p1".toList (some 5) with
          ChildDependents := [{ Parent := 1, Child := 0 }] }
      else if t = 2 then
        { MakeInitialTarget "d/p2".toList (some 5) with
          ChildDependents := [{ Parent := 2, Child := 0 }] }
      else MakeInitialTarget [] none
    Targets := [("t".toList, 0), ("d/p1".toList, 1), ("d/p2".toList, 2)]
    TargetsList := [0, 1, 2]
    AllocTarget := 3
    AllocDependency := 2 }


/-- Two pending targets of different length: one scope with the rules `.yy`
to `.cc` (rule 0, carrier target 0) and `.cc` to `.oo` (rule 1, carrier
target 1, created later and so first in the list), and the targets `a.oo`
(target 2) and `abcde.oo` (target 3), without recipe, pending in the scope
in this order.  Nothing has been probed yet: the probe buffer is not
allocated. -/
def ScenarioProbe : MAKE_CONTEXT :=
  { ScenarioEmptyContext with
    Target := fun t =>
      if t = 0 then
        { MakeInitialTarget ".yy.cc".toList none with
          InferenceRulePseudoTarget := true
          ReferenceCount := 2
          Recipe := "yacc $<".toList ++ [NewLine] }
      else if t = 1 then
        { MakeInitialTarget ".cc.oo".toList none with
          InferenceRulePseudoTarget := true
          ReferenceCount := 2
          Recipe := "cc $<".toList ++ [NewLine] }
      else if t = 2 then MakeInitialTarget "a.oo".toList none
      else if t = 3 then MakeInitialTarget "abcde.oo".toList none
      else MakeInitialTarget [] none
    InferenceRule := fun r =>
      if r = 0 then
        { SourceExtension := "yy".toList, TargetExtension := "cc".toList, Target := 0,
          ScopeContext := 0, ReferenceCount := 1 }
      else if r = 1 then
        { SourceExtension := "cc".toList, TargetExtension := "oo".toList, Target := 1,
          ScopeContext := 0, ReferenceCount := 1 }
      else
        { SourceExtension := [], TargetExtension := [], Target := 0, ScopeContext := 0,
          ReferenceCount := 0 }
    Scope := fun s =>
      if s = 0 then
        { Key := [], ParentScope := none, InferenceRuleList := [1, 0],
          InferenceRuleNeededList := [2, 3], ReferenceCount := 3 }
      else
        { Key := [], ParentScope := none, InferenceRuleList := [],
          InferenceRuleNeededList := [], ReferenceCount := 1 }
    Targets := [(".yy.cc".toList, 0), (".cc.oo".toList, 1), ("a.oo".toList, 2),
      ("abcde.oo".toList, 3)]
    TargetsList := [0, 1, 2, 3]
    AllocTarget := 4
    AllocInferenceRule := 2 }

/-- The files of the scenario: only `abcde.cc` exists. -/
def ScenarioProbeEnv : MAKE_ENV := ScenarioEnv [("abcde.cc".toList, 1)]


/-! ## Dependency cycles -/

/-- A set `U` of targets closed under taking one prerequisite: no member has
been evaluated, and every member has a prerequisite in the set.  Following
such prerequisites from a member never leaves the set, so among finitely many
targets every member depends on a cycle of members. -/
def CycleSet (U : TargetId → Prop) (ctx : MAKE_CONTEXT) : Prop :=
  ∀ u, U u → (ctx.Target u).DependenciesEvaluated = false ∧
    ∃ d ∈ (ctx.Target u).ParentDependents, U d.Parent

/-- The members of `U` have the same flag and the same prerequisites. -/
def CycleFrame (U : TargetId → Prop) (ctx ctx' : MAKE_CONTEXT) : Prop :=
  ∀ u, U u →
    (ctx'.Target u).DependenciesEvaluated = (ctx.Target u).DependenciesEvaluated ∧
    (ctx'.Target u).ParentDependents = (ctx.Target u).ParentDependents

/-- A cycle of two: `a` (target 0) has the prerequisite `b` (target 1) and
`b` has the prerequisite `a`; both have a recipe and neither exists. -/
def ScenarioCycle : MAKE_CONTEXT :=
  { ScenarioEmptyContext with
    Target := fun t =>
      if t = 0 then
        { MakeInitialTarget "a".toList none with
          ExplicitRecipeFound := true
          ScopeContext := some 0
          ParentDependents := [{ Parent := 1, Child := 0 }]
          ChildDependents := [{ Parent := 0, Child := 1 }] }
      else if t = 1 then
        { MakeInitialTarget "b".toList none with
          ExplicitRecipeFound := true
          ScopeContext := some 0
          ParentDependents := [{ Parent := 0, Child := 1 }]
          ChildDependents := [{ Parent := 1, Child := 0 }] }
      else MakeInitialTarget [] none
    Targets := [("a".toList, 0), ("b".toList, 1)]
    TargetsList := [0, 1]
    AllocTarget := 2
    AllocDependency := 2 }

/-- A target that is its own prerequisite: `a` (target 0), with a recipe. -/
def ScenarioSelfCycle : MAKE_CONTEXT :=
  { ScenarioEmptyContext with
    Target := fun t =>
      if t = 0 then
        { MakeInitialTarget "a".toList none with
          ExplicitRecipeFound := true
          ScopeContext := some 0
          ParentDependents := [{ Parent := 0, Child := 0 }]
          ChildDependents := [{ Parent := 0, Child := 0 }] }
      else MakeInitialTarget [] none
    Targets := [("a".toList, 0)]
    TargetsList := [0]
    AllocTarget := 1
    AllocDependency := 1 }


/-! ## Queueing a target for the resolver -/

/-- `MakeMarkTargetInferenceRuleNeededIfNeeded`.  The list hook
`Target->InferenceRuleNeededList` is linked in at most one pending list, so
`YoriLibRemoveListItem` on a linked hook is erasing the target from the
pending lists. -/
def MakeMarkTargetInferenceRuleNeededIfNeeded (ctx : MAKE_CONTEXT) (ScopeContext : ScopeId)
    (Target : TargetId) : MAKE_CONTEXT :=
  let ctx1 : MAKE_CONTEXT :=
    { ctx with
      Scope := fun s =>
        { ctx.Scope s with
          InferenceRuleNeededList := (ctx.Scope s).InferenceRuleNeededList.erase Target } }
  if MakeWouldTargetBenefitFromInferenceRule ctx1 Target then
    ctx1.setScope ScopeContext
      { ctx1.Scope ScopeContext with
        InferenceRuleNeededList := (ctx1.Scope ScopeContext).InferenceRuleNeededList ++ [Target] }
  else ctx1

/-- The state of the list hooks `InferenceRuleNeededList` of the targets: a
hook is linked in one list at one place, so no pending list holds a target
twice and no target is on the pending lists of two scopes. -/
def PendingLinked (ctx : MAKE_CONTEXT) : Prop :=
  (∀ s, (ctx.Scope s).InferenceRuleNeededList.Nodup) ∧
  ∀ s1 s2 T, T ∈ (ctx.Scope s1).InferenceRuleNeededList →
    T ∈ (ctx.Scope s2).InferenceRuleNeededList → s1 = s2

/-- A target with recipe text on the pending list: one scope with the rules
`.y` to `.c` (rule 0, carrier target 0) and `.c` to `.obj` (rule 1, carrier
target 1, created later and so first in the list); `a.obj` (target 2) without
recipe; `a.c` (target 3), queued when it was declared and since given the
recipe text `gen a.c`; `b.obj` (target 4), declared with a recipe that has no
text.  The pending list holds `a.c`, `a.obj`, `b.obj`. -/
def ScenarioPending : MAKE_CONTEXT :=
  { ScenarioEmptyContext with
    Target := fun t =>
      if t = 0 then
        { MakeInitialTarget ".y.c".toList none with
          InferenceRulePseudoTarget := true
          ReferenceCount := 2
          Recipe := "yacc $<".toList ++ [NewLine] }
      else if t = 1 then
        { MakeInitialTarget ".c.obj".toList none with
          InferenceRulePseudoTarget := true
          ReferenceCount := 2
          Recipe := "cc $<".toList ++ [NewLine] }
      else if t = 2 then MakeInitialTarget "a.obj".toList none
      else if t = 3 then
        { MakeInitialTarget "a.c".toList none with
          ExplicitRecipeFound := true
          ScopeContext := some 0
          Recipe := "gen a.c".toList ++ [NewLine] }
      else if t = 4 then
        { MakeInitialTarget "b.obj".toList none with
          ExplicitRecipeFound := true
          ScopeContext := some 0 }
      else MakeInitialTarget [] none
    InferenceRule := fun r =>
      if r = 0 then
        { SourceExtension := "y".toList, TargetExtension := "c".toList, Target := 0,
          ScopeContext := 0, ReferenceCount := 1 }
      else if r = 1 then
        { SourceExtension := "c".toList, TargetExtension := "obj".toList, Target := 1,
          ScopeContext := 0, ReferenceCount := 1 }
      else
        { SourceExtension := [], TargetExtension := [], Target := 0, ScopeContext := 0,
          ReferenceCount := 0 }
    Scope := fun s =>
      if s = 0 then
        { Key := [], ParentScope := none, InferenceRuleList := [1, 0],
          InferenceRuleNeededList := [3, 2, 4], ReferenceCount := 5 }
      else
        { Key := [], ParentScope := none, InferenceRuleList := [],
          InferenceRuleNeededList := [], ReferenceCount := 1 }
    Targets := [(".y.c".toList, 0), (".c.obj".toList, 1), ("a.obj".toList, 2),
      ("a.c".toList, 3), ("b.obj".toList, 4)]
    TargetsList := [0, 1, 2, 3, 4]
    AllocTarget := 5
    AllocInferenceRule := 2 }

/-- The files of the scenario: `a.y` and `b.c` exist, `a.c` does not. -/
def ScenarioPendingEnv : MAKE_ENV := ScenarioEnv [("a.y".toList, 1), ("b.c".toList, 1)]

/-- The target `X` keeps its inference rule and its inference parent, and no
target record is released. -/
def RuleFrame (X : TargetId) (ctx ctx' : MAKE_CONTEXT) : Prop :=
  ctx.AllocTarget ≤ ctx'.AllocTarget ∧
  (ctx'.Target X).InferenceRule = (ctx.Target X).InferenceRule ∧
  (ctx'.Target X).InferenceRuleParentTarget = (ctx.Target X).InferenceRuleParentTarget

/-- The target `X` keeps its inference rule, and no target record is
released. -/
def RuleKept (X : TargetId) (ctx ctx' : MAKE_CONTEXT) : Prop :=
  ctx.AllocTarget ≤ ctx'.AllocTarget ∧
  (ctx'.Target X).InferenceRule = (ctx.Target X).InferenceRule


/-! ## The walk with a log of the targets it evaluates -/

/-- The prerequisite loop `MakeDetermineDependenciesForTargetLoop` over a
recursive call that also reports a log: the logs of the calls are
concatenated in the order of the calls. -/
def MakeDetermineDependenciesForTargetLoopLog
    (recurse : MAKE_CONTEXT → TargetId → Option ((Bool × MAKE_CONTEXT) × List TargetId)) :
    Nat → MAKE_CONTEXT → TargetId → Nat → Bool →
      Option ((Bool × Bool × MAKE_CONTEXT) × List TargetId)
  | 0, _, _, _, _ => none
  | fuel + 1, ctx, Target, Index, SetRebuildRequired =>
    match (ctx.Target Target).ParentDependents[Index]? with
    | none => some ((true, SetRebuildRequired, ctx), [])
    | some Dependency =>
      let Parent := Dependency.Parent
      let created := MakeDetermineDependenciesPopulateParent ctx Parent
      if !created.1 then some ((false, SetRebuildRequired, created.2), [])
      else
        match recurse created.2 Parent with
        | none => none
        | some ((false, ctx2), log) => some ((false, SetRebuildRequired, ctx2), log)
        | some ((true, ctx2), log) =>
          let accounted :=
            MakeDetermineDependenciesAccountParent ctx2 Target Dependency SetRebuildRequired
          match MakeDetermineDependenciesForTargetLoopLog recurse fuel accounted.2 Target
              (Index + 1) accounted.1 with
          | none => none
          | some (res, log2) => some (res, log ++ log2)

/-- `MakeDetermineDependenciesForTarget` with a log: every invocation that
gets past the test of `DependenciesEvaluated`, and so runs the prerequisite
loop of its target, puts the target on the log, before the targets its loop
evaluates. -/
def MakeDetermineDependenciesForTargetLog (env : MAKE_ENV) :
    Nat → MAKE_CONTEXT → TargetId → Option ((Bool × MAKE_CONTEXT) × List TargetId)
  | 0, _, _ => none
  | fuel + 1, ctx, Target =>
    if (ctx.Target Target).DependenciesEvaluated then some ((true, ctx), [])
    else
      match MakeDetermineDependenciesForTargetLoopLog
          (fun c p => MakeDetermineDependenciesForTargetLog env fuel c p) (fuel + 1) ctx Target 0
          false with
      | none => none
      | some ((false, _, ctx1), log) => some ((false, ctx1), Target :: log)
      | some ((true, SetRebuildRequired, ctx1), log) =>
        let ctx2 := ctx1.setTarget Target { ctx1.Target Target with DependenciesEvaluated := true }
        let SetRebuildRequired2 : Bool :=
          if !(ctx2.Target Target).FileExists then true else SetRebuildRequired
        if SetRebuildRequired2 && !(ctx2.Target Target).RebuildRequired then
          match MakeMarkTargetForRebuild env ctx2 Target with
          | (false, ctx3) => some ((false, ctx3), Target :: log)
          | (true, ctx3) => some ((true, ctx3), Target :: log)
        else some ((true, ctx2), Target :: log)

/-- A diamond: `t` (target 0) has the prerequisites `p1` (target 1) and `p2`
(target 2), each of which has the prerequisite `q` (target 3); no file
exists and every target has a recipe. -/
def ScenarioDiamond : MAKE_CONTEXT :=
  { ScenarioEmptyContext with
    Target := fun t =>
      if t = 0 then
        { MakeInitialTarget "t".toList none with
          ExplicitRecipeFound := true
          ScopeContext := some 0
          ParentDependents := [{ Parent := 1, Child := 0 }, { Parent := 2, Child := 0 }] }
      else if t = 1 then
        { MakeInitialTarget "p1".toList none with
          ExplicitRecipeFound := true
          ScopeContext := some 0
          ParentDependents := [{ Parent := 3, Child := 1 }]
          ChildDependents := [{ Parent := 1, Child := 0 }] }
      else if t = 2 then
        { MakeInitialTarget "p2".toList none with
          ExplicitRecipeFound := true
          ScopeContext := some 0
          ParentDependents := [{ Parent := 3, Child := 2 }]
          ChildDependents := [{ Parent := 2, Child := 0 }] }
      else if t = 3 then
        { MakeInitialTarget "q".toList none with
          ExplicitRecipeFound := true
          ScopeContext := some 0
          ChildDependents := [{ Parent := 3, Child := 1 }, { Parent := 3, Child := 2 }] }
      else MakeInitialTarget [] none
    Targets := [("t".toList, 0), ("p1".toList, 1), ("p2".toList, 2), ("q".toList, 3)]
    TargetsList := [0, 1, 2, 3]
    AllocTarget := 4
    AllocDependency := 4 }

/-- Every target that has been evaluated in `ctx` is still evaluated in
`ctx'`. -/
def EvaluatedKept (ctx ctx' : MAKE_CONTEXT) : Prop :=
  ∀ x, (ctx.Target x).DependenciesEvaluated = true →
    (ctx'.Target x).DependenciesEvaluated = true

/-- What a run of the logged walk on `p` from `ctx` guarantees: no target is
logged twice; every logged target was unevaluated in `ctx` and is not above
`p` in the numbering; and when the run succeeds the numbering still holds, no
flag has been cleared, and every logged target is evaluated. -/
def LogPost (rank : TargetId → Nat) (p : TargetId) (ctx : MAKE_CONTEXT)
    (res : Bool × MAKE_CONTEXT) (log : List TargetId) : Prop :=
  log.Nodup ∧
  (∀ x ∈ log, (ctx.Target x).DependenciesEvaluated = false ∧ rank x ≤ rank p) ∧
  (res.1 = true → RankOK rank res.2 ∧ EvaluatedKept ctx res.2 ∧
    ∀ x ∈ log, (res.2.Target x).DependenciesEvaluated = true)


/-- Scenario S5 with two more rules in the root scope, created after the
rule `.c` to `.obj` of that scope: `.y` to `.x` (rule 2, carrier target 4)
and `.x` to `.obj` with recipe `OTHER` (rule 3, carrier target 5).  The rule
list of the root scope, newest first, is `[3, 2, 0]`. -/
def ScenarioS5Newer : MAKE_CONTEXT :=
  { ScenarioS5 with
    Target := fun t =>
      if t = 4 then
        { MakeInitialTarget ".y.x".toList none with
          InferenceRulePseudoTarget := true
          ReferenceCount := 2
          Recipe := "GEN".toList ++ [NewLine] }
      else if t = 5 then
        { MakeInitialTarget ".x.obj".toList none with
          InferenceRulePseudoTarget := true
          ReferenceCount := 2
          Recipe := "OTHER".toList ++ [NewLine] }
      else ScenarioS5.Target t
    InferenceRule := fun r =>
      if r = 2 then
        { SourceExtension := "y".toList, TargetExtension := "x".toList, Target := 4,
          ScopeContext := 0, ReferenceCount := 1 }
      else if r = 3 then
        { SourceExtension := "x".toList, TargetExtension := "obj".toList, Target := 5,
          ScopeContext := 0, ReferenceCount := 1 }
      else ScenarioS5.InferenceRule r
    Scope := fun s =>
      if s = 0 then
        { Key := [], ParentScope := none, InferenceRuleList := [3, 2, 0],
          InferenceRuleNeededList := [], ReferenceCount := 5 }
      else ScenarioS5.Scope s
    Targets := ScenarioS5.Targets ++ [(".y.x".toList, 4), (".x.obj".toList, 5)]
    TargetsList := [0, 1, 2, 3, 4, 5]
    AllocTarget := 6
    AllocInferenceRule := 4 }

/-- The files of scenario `ScenarioS5Newer`: the sources `a.c` and `sub/b.c`,
and a file `a.cy`. -/
def ScenarioS5NewerEnv : MAKE_ENV :=
  ScenarioEnv [("a.c".toList, 1), ("sub/b.c".toList, 1), ("a.cy".toList, 1)]

/-- Scenario S5 with one more rule in the child scope, created after the rule
`.c` to `.obj` of that scope: `.y` to `.c` with recipe `YACC` (rule 2,
carrier target 4).  The rule list of the child scope, newest first, is
`[2, 1]`. -/
def ScenarioS5Yacc : MAKE_CONTEXT :=
  { ScenarioS5 with
    Target := fun t =>
      if t = 4 then
        { MakeInitialTarget "sub/.y.c".toList none with
          InferenceRulePseudoTarget := true
          ReferenceCount := 2
          Recipe := "YACC".toList ++ [NewLine] }
      else ScenarioS5.Target t
    InferenceRule := fun r =>
      if r = 2 then
        { SourceExtension := "y".toList, TargetExtension := "c".toList, Target := 4,
          ScopeContext := 1, ReferenceCount := 1 }
      else ScenarioS5.InferenceRule r
    Scope := fun s =>
      if s = 1 then
        { Key := "sub".toList, ParentScope := some 0, InferenceRuleList := [2, 1],
          InferenceRuleNeededList := [], ReferenceCount := 3 }
      else ScenarioS5.Scope s
    Targets := ScenarioS5.Targets ++ [("sub/.y.c".toList, 4)]
    TargetsList := [0, 1, 2, 3, 4]
    AllocTarget := 5
    AllocInferenceRule := 3 }

/-- The files of scenario `ScenarioS5Yacc`: the sources `a.c` and `sub/b.c`,
and a file `sub/b.cy`. -/
def ScenarioS5YaccEnv : MAKE_ENV :=
  ScenarioEnv [("a.c".toList, 1), ("sub/b.c".toList, 1), ("sub/b.cy".toList, 1)]

/-- Scenario `ScenarioS5Yacc` with the extension `cc` in the place of `obj`:
both scopes define a rule `.c` to `.cc` (rule 0 with recipe `OLD` in the
root scope, rule 1 with recipe `NEW` in the child scope), the child scope
also the rule `.y` to `.c`; the targets are `a.cc` (target 2) and `sub/b.cc`
(target 3). -/
def ScenarioS5Double : MAKE_CONTEXT :=
  { ScenarioS5Yacc with
    Target := fun t =>
      if t = 0 then { ScenarioS5Yacc.Target 0 with Key := ".c.cc".toList }
      else if t = 1 then { ScenarioS5Yacc.Target 1 with Key := "sub/.c.cc".toList }
      else if t = 2 then MakeInitialTarget "a.cc".toList none
      else if t = 3 then MakeInitialTarget "sub/b.cc".toList none
      else ScenarioS5Yacc.Target t
    InferenceRule := fun r =>
      if r = 0 ∨ r = 1 then
        { ScenarioS5Yacc.InferenceRule r with TargetExtension := "cc".toList }
      else ScenarioS5Yacc.InferenceRule r
    Targets := [(".c.cc".toList, 0), ("sub/.c.cc".toList, 1), ("a.cc".toList, 2),
      ("sub/b.cc".toList, 3), ("sub/.y.c".toList, 4)] }

/-- What the resolver leaves on a target: the recipe of the carrier target of
the assigned rule and the key of the inference parent. -/
def ScenarioResolved (r : Option (Bool × MAKE_CONTEXT)) (T : TargetId) :
    Option (Bool × Option YORI_STRING × Option YORI_STRING) :=
  r.map (fun x =>
    (x.1,
      (x.2.Target T).InferenceRule.map (fun i => (x.2.Target (x.2.InferenceRule i).Target).Recipe),
      (x.2.Target T).InferenceRuleParentTarget.map (fun p => (x.2.Target p).Key)))

/-- Read on the context before the walk from `root`: the walk finds target
`x` out of date.  Either `x` is missing; or an existing prerequisite of `x` is
strictly newer than the existing `x`; or a prerequisite of `x` is itself found
out of date, so that it is marked for rebuild when the loop of `x` tests it;
or `x` is not `root`, has no prerequisite and no explicit recipe but the
inference parent `q`, so that the walk populates the edge from `q`, and one of
the last two holds of `q`. -/
inductive MustRebuild (ctx : MAKE_CONTEXT) (root : TargetId) : TargetId → Prop
  | missing (x : TargetId) : (ctx.Target x).FileExists = false → MustRebuild ctx root x
  | newer (x : TargetId) (e : MAKE_TARGET_DEPENDENCY) :
    e ∈ (ctx.Target x).ParentDependents → (ctx.Target e.Parent).FileExists = true →
    (ctx.Target x).FileExists = true →
    (ctx.Target e.Parent).ModifiedTime > (ctx.Target x).ModifiedTime → MustRebuild ctx root x
  | parent (x : TargetId) (e : MAKE_TARGET_DEPENDENCY) :
    e ∈ (ctx.Target x).ParentDependents → MustRebuild ctx root e.Parent → MustRebuild ctx root x
  | inferred_newer (x q : TargetId) :
    x ≠ root → (ctx.Target x).ParentDependents = [] →
    (ctx.Target x).ExplicitRecipeFound = false →
    (ctx.Target x).InferenceRuleParentTarget = some q →
    (ctx.Target q).FileExists = true → (ctx.Target x).FileExists = true →
    (ctx.Target q).ModifiedTime > (ctx.Target x).ModifiedTime → MustRebuild ctx root x
  | inferred_parent (x q : TargetId) :
    x ≠ root → (ctx.Target x).ParentDependents = [] →
    (ctx.Target x).ExplicitRecipeFound = false →
    (ctx.Target x).InferenceRuleParentTarget = some q →
    MustRebuild ctx root q → MustRebuild ctx root x

/-- A target that cannot be built and exists: the missing target 0 (`all`,
with a recipe) depends on target 1 (`gen.c`, last written at 5), which has
neither a recipe nor an inference rule and depends on the missing target 2
(`gen.y`, with a recipe). -/
def ScenarioUnbuildableChain : MAKE_CONTEXT :=
  { ScenarioEmptyContext with
    Target := fun t =>
      if t = 0 then
        { MakeInitialTarget "all".toList none with
          ExplicitRecipeFound := true
          ScopeContext := some 0
          ParentDependents := [{ Parent := 1, Child := 0 }] }
      else if t = 1 then
        { MakeInitialTarget "gen.c".toList (some 5) with
          ParentDependents := [{ Parent := 2, Child := 1 }]
          ChildDependents := [{ Parent := 1, Child := 0 }] }
      else if t = 2 then
        { MakeInitialTarget "gen.y".toList none with
          ExplicitRecipeFound := true
          ScopeContext := some 0
          ChildDependents := [{ Parent := 2, Child := 1 }] }
      else MakeInitialTarget [] none
    Targets := [("all".toList, 0), ("gen.c".toList, 1), ("gen.y".toList, 2)]
    TargetsList := [0, 1, 2]
    AllocTarget := 3
    AllocDependency := 2 }

/-! ## The walk with a log of the appends to the queues -/

/-- `MakeMarkTargetForRebuild` with a log of its appends: the target, when the
call gets to `YoriLibAppendList` (on `TargetsReady` or on `TargetsWaiting`),
and nothing when it returns before. -/
def MakeMarkTargetForRebuildLog (env : MAKE_ENV) (ctx : MAKE_CONTEXT) (Target : TargetId) :
    (Bool × MAKE_CONTEXT) × List TargetId :=
  if (ctx.Target Target).RebuildRequired then ((true, ctx), [])
  else if !(ctx.Target Target).ExplicitRecipeFound && (ctx.Target Target).InferenceRule.isNone then
    ((false, { ctx with ErrorTermination := true }), [])
  else
    match MakeGenerateExecScriptForTarget env ctx Target with
    | (false, ctx1) => ((false, ctx1), [])
    | (true, ctx1) =>
      let ctx2 := ctx1.setTarget Target { ctx1.Target Target with RebuildRequired := true }
      if (ctx2.Target Target).NumberParentsToBuild = 0 then
        ((true, { ctx2 with TargetsReady := ctx2.TargetsReady ++ [Target] }), [Target])
      else
        ((true, { ctx2 with TargetsWaiting := ctx2.TargetsWaiting ++ [Target] }), [Target])

/-- `MakeDetermineDependenciesForTarget` with a log of the appends to the
queues, in the order in which they are made: the logs of the recursive calls
of the prerequisite loop, in the order of the calls, followed by the log of
the call of `MakeMarkTargetForRebuild` on the target itself. -/
def MakeDetermineDependenciesForTargetAppends (env : MAKE_ENV) :
    Nat → MAKE_CONTEXT → TargetId → Option ((Bool × MAKE_CONTEXT) × List TargetId)
  | 0, _, _ => none
  | fuel + 1, ctx, Target =>
    if (ctx.Target Target).DependenciesEvaluated then some ((true, ctx), [])
    else
      match MakeDetermineDependenciesForTargetLoopLog
          (fun c p => MakeDetermineDependenciesForTargetAppends env fuel c p) (fuel + 1) ctx
          Target 0 false with
      | none => none
      | some ((false, _, ctx1), log) => some ((false, ctx1), log)
      | some ((true, SetRebuildRequired, ctx1), log) =>
        let ctx2 := ctx1.setTarget Target { ctx1.Target Target with DependenciesEvaluated := true }
        let SetRebuildRequired2 : Bool :=
          if !(ctx2.Target Target).FileExists then true else SetRebuildRequired
        if SetRebuildRequired2 && !(ctx2.Target Target).RebuildRequired then
          match MakeMarkTargetForRebuildLog env ctx2 Target with
          | ((false, ctx3), log2) => some ((false, ctx3), log ++ log2)
          | ((true, ctx3), log2) => some ((true, ctx3), log ++ log2)
        else some ((true, ctx2), log)

/-- `MakeDetermineDependencies` with the log of the appends to the queues. -/
def MakeDetermineDependenciesAppends (env : MAKE_ENV) (fuel : Nat) (ctx : MAKE_CONTEXT) :
    Option ((Bool × MAKE_CONTEXT) × List TargetId) :=
  match MakeDetermineDependenciesFirstTarget ctx ctx.TargetsList with
  | none => some ((false, { ctx with ErrorTermination := true }), [])
  | some Target => MakeDetermineDependenciesForTargetAppends env fuel ctx Target

/-- The context after `MakeDetermineDependencies` on the diamond. -/
def ScenarioDiamondResult : MAKE_CONTEXT :=
  match MakeDetermineDependencies (ScenarioEnv []) 6 ScenarioDiamond with
  | some r => r.2
  | none => ScenarioDiamond

/-! # Theorems -/

/-! ## Heap updates -/

@[simp] theorem setTarget_Target (ctx : MAKE_CONTEXT) (t : TargetId) (v : MAKE_TARGET)
    (x : TargetId) : (ctx.setTarget t v).Target x = if x = t then v else ctx.Target x := by
  simp [MAKE_CONTEXT.setTarget, Function.update_apply]

@[simp] theorem setTarget_TargetsReady (ctx : MAKE_CONTEXT) (t : TargetId) (v : MAKE_TARGET) :
    (ctx.setTarget t v).TargetsReady = ctx.TargetsReady := rfl

@[simp] theorem setTarget_TargetsWaiting (ctx : MAKE_CONTEXT) (t : TargetId) (v : MAKE_TARGET) :
    (ctx.setTarget t v).TargetsWaiting = ctx.TargetsWaiting := rfl

@[simp] theorem setTarget_ErrorTermination (ctx : MAKE_CONTEXT) (t : TargetId) (v : MAKE_TARGET) :
    (ctx.setTarget t v).ErrorTermination = ctx.ErrorTermination := rfl

@[simp] theorem setTarget_InferenceRule (ctx : MAKE_CONTEXT) (t : TargetId) (v : MAKE_TARGET) :
    (ctx.setTarget t v).InferenceRule = ctx.InferenceRule := rfl

@[simp] theorem setTarget_Scope (ctx : MAKE_CONTEXT) (t : TargetId) (v : MAKE_TARGET) :
    (ctx.setTarget t v).Scope = ctx.Scope := rfl

@[simp] theorem setTarget_TargetsList (ctx : MAKE_CONTEXT) (t : TargetId) (v : MAKE_TARGET) :
    (ctx.setTarget t v).TargetsList = ctx.TargetsList := rfl

@[simp] theorem setTarget_Targets (ctx : MAKE_CONTEXT) (t : TargetId) (v : MAKE_TARGET) :
    (ctx.setTarget t v).Targets = ctx.Targets := rfl

@[simp] theorem setTarget_FileToProbe (ctx : MAKE_CONTEXT) (t : TargetId) (v : MAKE_TARGET) :
    (ctx.setTarget t v).FileToProbe = ctx.FileToProbe := rfl

@[simp] theorem setTarget_AllocTarget (ctx : MAKE_CONTEXT) (t : TargetId) (v : MAKE_TARGET) :
    (ctx.setTarget t v).AllocTarget = ctx.AllocTarget := rfl

theorem setTarget_self (ctx : MAKE_CONTEXT) (t : TargetId) : ctx.setTarget t (ctx.Target t) = ctx := by
  cases ctx
  simp [MAKE_CONTEXT.setTarget]

theorem setTarget_setTarget (ctx : MAKE_CONTEXT) (t : TargetId) (a b : MAKE_TARGET) :
    (ctx.setTarget t a).setTarget t b = ctx.setTarget t b := by
  cases ctx
  simp [MAKE_CONTEXT.setTarget]

/-! ## The recipe compiler only appends commands to its target -/

theorem MakeGenerateExecScriptLines_frame (env : MAKE_ENV) (t : TargetId) :
    ∀ (src line : YORI_STRING) (ctx : MAKE_CONTEXT),
      ∃ cmds, (MakeGenerateExecScriptLines env t src line ctx).2 =
        ctx.setTarget t { ctx.Target t with ExecCmds := cmds } := by
  intro src
  induction src with
  | nil =>
    intro line ctx
    exact ⟨(ctx.Target t).ExecCmds, (setTarget_self ctx t).symm⟩
  | cons c rest ih =>
    intro line ctx
    unfold MakeGenerateExecScriptLines
    by_cases hc : c = NewLine
    · simp only [hc, if_true]
      cases hx : env.MakeExpandVariables ctx (ctx.Target t).ScopeContext t
          (MakeStripLineModifiers line true false).1 with
      | none => exact ⟨(ctx.Target t).ExecCmds, (setTarget_self ctx t).symm⟩
      | some Cmd =>
        simp only
        obtain ⟨cmds, h⟩ := ih [] (ctx.setTarget t
          { ctx.Target t with ExecCmds := (ctx.Target t).ExecCmds ++
            [{ Cmd := Cmd, DisplayCmd := (MakeStripLineModifiers line true false).2.1,
               IgnoreErrors := (MakeStripLineModifiers line true false).2.2 }] })
        refine ⟨cmds, ?_⟩
        rw [h, setTarget_setTarget]
        simp
    · simp only [hc, if_false]
      exact ih _ ctx

theorem MakeGenerateExecScriptForTarget_frame (env : MAKE_ENV) (ctx : MAKE_CONTEXT) (t : TargetId) :
    ∃ cmds, (MakeGenerateExecScriptForTarget env ctx t).2 =
      ctx.setTarget t { ctx.Target t with ExecCmds := cmds } := by
  unfold MakeGenerateExecScriptForTarget
  cases MakeExecScriptSourceString ctx t with
  | none => exact ⟨(ctx.Target t).ExecCmds, (setTarget_self ctx t).symm⟩
  | some src => exact MakeGenerateExecScriptLines_frame env t src [] ctx

/-- The context after a successful `MakeMarkTargetForRebuild` with commands
`cmds`. -/
theorem MakeMarkTargetForRebuild_success (env : MAKE_ENV) (ctx ctx' : MAKE_CONTEXT) (t : TargetId)
    (hrr : (ctx.Target t).RebuildRequired = false)
    (h : MakeMarkTargetForRebuild env ctx t = (true, ctx')) :
    ((ctx.Target t).ExplicitRecipeFound = true ∨ (ctx.Target t).InferenceRule.isSome = true) ∧
    ∃ cmds, ctx' =
      { ctx.setTarget t { ctx.Target t with ExecCmds := cmds, RebuildRequired := true } with
        TargetsReady :=
          if (ctx.Target t).NumberParentsToBuild = 0 then ctx.TargetsReady ++ [t]
          else ctx.TargetsReady
        TargetsWaiting :=
          if (ctx.Target t).NumberParentsToBuild = 0 then ctx.TargetsWaiting
          else ctx.TargetsWaiting ++ [t] } := by
  unfold MakeMarkTargetForRebuild at h
  simp only [hrr, Bool.false_eq_true, if_false] at h
  by_cases hb : (!(ctx.Target t).ExplicitRecipeFound && (ctx.Target t).InferenceRule.isNone) = true
  · simp [hb] at h
  · simp only [hb, if_false] at h
    have hbuild : (ctx.Target t).ExplicitRecipeFound = true ∨
        (ctx.Target t).InferenceRule.isSome = true := by
      cases h1 : (ctx.Target t).ExplicitRecipeFound <;>
        cases h2 : (ctx.Target t).InferenceRule <;> simp_all
    refine ⟨hbuild, ?_⟩
    obtain ⟨cmds, hg⟩ := MakeGenerateExecScriptForTarget_frame env ctx t
    cases hgen : MakeGenerateExecScriptForTarget env ctx t with
    | mk ok ctx1 =>
      rw [hgen] at h hg
      simp only at hg
      cases ok with
      | false => simp at h
      | true =>
        simp only at h
        refine ⟨cmds, ?_⟩
        subst hg
        by_cases hn : (ctx.Target t).NumberParentsToBuild = 0
        · simp [hn, setTarget_setTarget] at h ⊢
          rw [← h]
        · simp [hn, setTarget_setTarget] at h ⊢
          rw [← h]

/-! ## Frames of the dependency walk -/

theorem SchedStatic_refl (ctx : MAKE_CONTEXT) : SchedStatic ctx ctx := by
  intro x; simp

theorem SchedStatic_trans {a b c : MAKE_CONTEXT} (h1 : SchedStatic a b) (h2 : SchedStatic b c) :
    SchedStatic a c := by
  intro x
  obtain ⟨a1, a2, a3, a4, a5, a6, a7, a8⟩ := h1 x
  obtain ⟨b1, b2, b3, b4, b5, b6, b7, b8⟩ := h2 x
  exact ⟨b1.trans a1, b2.trans a2, b3.trans a3, b4.trans a4, b5.trans a5, b6.trans a6,
    b7.trans a7, b8.trans a8⟩

theorem SchedUnchanged_refl (ctx : MAKE_CONTEXT) (x : TargetId) : SchedUnchanged ctx ctx x :=
  ⟨rfl, rfl, rfl, rfl⟩

theorem SchedUnchanged_of_eq {a b : MAKE_CONTEXT} {x : TargetId} (h : b.Target x = a.Target x) :
    SchedUnchanged a b x := by
  simp [SchedUnchanged, h]

theorem SchedStep_trans {a b c : MAKE_CONTEXT} {x : TargetId} (h1 : SchedStep a b x)
    (h2 : SchedStep b c x) : SchedStep a c x := by
  rcases h1 with ⟨a1, a2, a3, a4⟩ | ⟨a1, a2⟩
  · rcases h2 with ⟨b1, b2, b3, b4⟩ | ⟨b1, b2⟩
    · exact Or.inl ⟨b1.trans a1, b2.trans a2, b3.trans a3, b4.trans a4⟩
    · exact Or.inr ⟨a1 ▸ b1, b2⟩
  · rcases h2 with ⟨b1, b2, b3, b4⟩ | ⟨b1, b2⟩
    · exact Or.inr ⟨a1, b1.trans a2⟩
    · rw [a2] at b1; cases b1

theorem SchedStep_unchanged_of_evaluated {a b : MAKE_CONTEXT} {x : TargetId} (h : SchedStep a b x)
    (he : (a.Target x).DependenciesEvaluated = true) : SchedUnchanged a b x := by
  rcases h with h | ⟨h1, _⟩
  · exact h
  · rw [he] at h1; cases h1

/-- The invariant survives any change that leaves the queues, the static
fields and the evaluated and marked flags alone and touches the counter and
the prerequisite list of unevaluated targets only. -/
theorem SchedInv_transfer {rank : TargetId → Nat} {R : Nat} {ctx ctx' : MAKE_CONTEXT}
    (h : SchedInv rank R ctx) (hrank : RankOK rank ctx') (hst : SchedStatic ctx ctx')
    (he : ∀ x, (ctx'.Target x).DependenciesEvaluated = (ctx.Target x).DependenciesEvaluated)
    (hr : ∀ x, (ctx'.Target x).RebuildRequired = (ctx.Target x).RebuildRequired)
    (hn : ∀ x, (ctx.Target x).DependenciesEvaluated = true →
      (ctx'.Target x).NumberParentsToBuild = (ctx.Target x).NumberParentsToBuild ∧
      (ctx'.Target x).ParentDependents = (ctx.Target x).ParentDependents)
    (hq1 : ctx'.TargetsReady = ctx.TargetsReady) (hq2 : ctx'.TargetsWaiting = ctx.TargetsWaiting) :
    SchedInv rank R ctx' := by
  have hnr : ∀ x, (ctx.Target x).RebuildRequired = true →
      (ctx'.Target x).NumberParentsToBuild = (ctx.Target x).NumberParentsToBuild :=
    fun x hx => (hn x (h.rr_eval x hx)).1
  refine ⟨hrank, ?_, ?_, ?_, ?_, ?_, ?_, ?_, ?_, ?_⟩
  · intro x hx
    rw [he]; rw [hr] at hx; exact h.rr_eval x hx
  · intro x hx
    rw [hr] at hx
    rw [(hst x).2.2.1, (hst x).2.2.2.1]; exact h.rr_build x hx
  · intro x
    rw [hq1, h.ready x, hr]
    by_cases hx : (ctx.Target x).RebuildRequired = true
    · rw [hnr x hx]
    · simp [hx]
  · intro x
    rw [hq2, h.waiting x, hr]
    by_cases hx : (ctx.Target x).RebuildRequired = true
    · rw [hnr x hx]
    · simp [hx]
  · intro x hx
    rw [he] at hx
    rw [hr, h.stale x hx]
    unfold Stale
    rw [(hn x hx).2, (hst x).1, (hst x).2.1]
    simp only [hr, fun y => (hst y).1, fun y => (hst y).2.1]
  · intro x hx
    rw [he] at hx
    rw [(hn x hx).1, (hn x hx).2, h.counted x hx]
    simp only [hr]
  · intro x hx d hd
    rw [he] at hx ⊢
    rw [(hn x hx).2] at hd
    exact h.parents x hx d hd
  · intro x hx hR
    rw [he] at hx
    have := h.nosynth x hx hR
    unfold MakeParentNeedsInferenceDependency at this ⊢
    rw [(hn x hx).2, (hst x).2.2.1, (hst x).2.2.2.2.1]
    exact this
  · intro x
    rw [(hst x).2.2.2.2.2.1]; exact h.executed x

/-! ## Populating a prerequisite's dependency from its inference rule -/

theorem MakeCreateParentChildDependency_Target (ctx : MAKE_CONTEXT) (q p x : TargetId)
    (hqp : q ≠ p) :
    (MakeCreateParentChildDependency ctx q p).2.Target x =
      if x = p then
        { ctx.Target p with
          ParentDependents := (ctx.Target p).ParentDependents ++ [{ Parent := q, Child := p }] }
      else if x = q then
        { ctx.Target q with
          ChildDependents := (ctx.Target q).ChildDependents ++ [{ Parent := q, Child := p }] }
      else ctx.Target x := by
  unfold MakeCreateParentChildDependency
  by_cases h1 : x = p
  · subst h1
    simp [Ne.symm hqp]
  · by_cases h2 : x = q
    · subst h2; simp [h1]
    · simp [h1, h2]

theorem MakeCreateParentChildDependency_queues (ctx : MAKE_CONTEXT) (q p : TargetId) :
    (MakeCreateParentChildDependency ctx q p).2.TargetsReady = ctx.TargetsReady ∧
    (MakeCreateParentChildDependency ctx q p).2.TargetsWaiting = ctx.TargetsWaiting := by
  simp [MakeCreateParentChildDependency]

theorem SynthPost_of_create {rank : TargetId → Nat} {R : Nat} {ctx : MAKE_CONTEXT}
    (h : SchedInv rank R ctx) (p q : TargetId)
    (hneed : MakeParentNeedsInferenceDependency ctx p = true)
    (hq : (ctx.Target p).InferenceRuleParentTarget = some q) (hR : rank p < R) :
    SynthPost rank R p ctx (MakeCreateParentChildDependency ctx q p).2 := by
  have hrq : rank q < rank p := h.rankOK.2 p q hq
  have hqp : q ≠ p := fun e => by rw [e] at hrq; exact lt_irrefl _ hrq
  have hpe : (ctx.Target p).DependenciesEvaluated = false := by
    cases hE : (ctx.Target p).DependenciesEvaluated
    · rfl
    · rw [h.nosynth p hE hR] at hneed; cases hneed
  have hempty : (ctx.Target p).ParentDependents = [] := by
    unfold MakeParentNeedsInferenceDependency at hneed
    simp only [Bool.and_eq_true, List.isEmpty_iff] at hneed
    exact hneed.1.1
  have hT := MakeCreateParentChildDependency_Target ctx q p
  have hflags : ∀ x, ((MakeCreateParentChildDependency ctx q p).2.Target x).DependenciesEvaluated
        = (ctx.Target x).DependenciesEvaluated ∧
      ((MakeCreateParentChildDependency ctx q p).2.Target x).RebuildRequired
        = (ctx.Target x).RebuildRequired ∧
      ((MakeCreateParentChildDependency ctx q p).2.Target x).NumberParentsToBuild
        = (ctx.Target x).NumberParentsToBuild := by
    intro x
    rw [hT x hqp]
    by_cases h1 : x = p
    · subst h1; simp
    · by_cases h2 : x = q
      · subst h2; simp [h1]
      · simp [h1, h2]
  have hstatic : SchedStatic ctx (MakeCreateParentChildDependency ctx q p).2 := by
    intro x
    rw [hT x hqp]
    by_cases h1 : x = p
    · subst h1; simp
    · by_cases h2 : x = q
      · subst h2; simp [h1]
      · simp [h1, h2]
  have hlists : ∀ x, x ≠ p → ((MakeCreateParentChildDependency ctx q p).2.Target x).ParentDependents
      = (ctx.Target x).ParentDependents := by
    intro x h1
    rw [hT x hqp]
    by_cases h2 : x = q
    · subst h2; simp [h1]
    · simp [h1, h2]
  have hown : ((MakeCreateParentChildDependency ctx q p).2.Target p).ParentDependents
      = [{ Parent := q, Child := p }] := by
    rw [hT p hqp]; simp [hempty]
  have hrank : RankOK rank (MakeCreateParentChildDependency ctx q p).2 := by
    constructor
    · intro t d hd
      by_cases h1 : t = p
      · subst h1
        rw [hown] at hd
        simp only [List.mem_singleton] at hd
        subst hd
        exact hrq
      · rw [hlists t h1] at hd
        exact h.rankOK.1 t d hd
    · intro t q2 hq2
      rw [(hstatic t).2.2.2.2.1] at hq2
      exact h.rankOK.2 t q2 hq2
  refine ⟨?_, hstatic, hflags, hlists, ?_, ?_, ?_, ?_⟩
  · refine SchedInv_transfer h hrank hstatic (fun x => (hflags x).1) (fun x => (hflags x).2.1) ?_
      (MakeCreateParentChildDependency_queues ctx q p).1
      (MakeCreateParentChildDependency_queues ctx q p).2
    intro x hx
    refine ⟨(hflags x).2.2, hlists x ?_⟩
    intro e; subst e; rw [hpe] at hx; cases hx
  · intro he; rw [hpe] at he; cases he
  · intro x hx h1
    rw [hT x hqp]
    have h2 : x ≠ q := fun e => by
      subst e; exact absurd hrq (not_lt.mpr hx)
    simp [h1, h2]
  · right
    unfold MakeParentNeedsInferenceDependency
    rw [hown]; simp
  · intro x d hd
    by_cases h1 : x = p
    · subst h1; rw [hempty] at hd; cases hd
    · rw [hlists x h1]; exact hd

theorem SynthPost_of_none {rank : TargetId → Nat} {R : Nat} {ctx : MAKE_CONTEXT}
    (h : SchedInv rank R ctx) (p : TargetId)
    (hneed : MakeParentNeedsInferenceDependency ctx p = false) :
    SynthPost rank R p ctx ctx :=
  ⟨h, SchedStatic_refl ctx, fun _ => ⟨rfl, rfl, rfl⟩, fun _ _ => rfl, fun _ => rfl,
    fun _ _ _ => rfl, Or.inr hneed, fun _ _ hd => hd⟩

theorem MakeDetermineDependenciesPopulateParent_fst (ctx : MAKE_CONTEXT) (p : TargetId) :
    (MakeDetermineDependenciesPopulateParent ctx p).1 = true := by
  unfold MakeDetermineDependenciesPopulateParent
  split
  · split <;> rfl
  · rfl

theorem MakeDetermineDependenciesPopulateParent_post {rank : TargetId → Nat} {R : Nat}
    {ctx : MAKE_CONTEXT} (h : SchedInv rank R ctx) (p : TargetId) (hR : rank p < R) :
    SynthPost rank R p ctx (MakeDetermineDependenciesPopulateParent ctx p).2 := by
  unfold MakeDetermineDependenciesPopulateParent
  cases hneed : MakeParentNeedsInferenceDependency ctx p with
  | false => simpa using SynthPost_of_none h p hneed
  | true =>
    cases hq : (ctx.Target p).InferenceRuleParentTarget with
    | none =>
      unfold MakeParentNeedsInferenceDependency at hneed
      simp [hq] at hneed
    | some q =>
      simpa using SynthPost_of_create h p q hneed hq hR

/-! ## Accounting for one prerequisite -/

theorem SchedInv_bump {rank : TargetId → Nat} {R : Nat} {ctx : MAKE_CONTEXT}
    (h : SchedInv rank R ctx) (t : TargetId)
    (ht : (ctx.Target t).DependenciesEvaluated = false) (n : Nat) :
    SchedInv rank R (ctx.setTarget t { ctx.Target t with NumberParentsToBuild := n }) := by
  have hne : ∀ x, (ctx.Target x).DependenciesEvaluated = true → x ≠ t := by
    intro x hx e; subst e; rw [ht] at hx; cases hx
  refine SchedInv_transfer h ?_ ?_ ?_ ?_ ?_ rfl rfl
  · constructor
    · intro x d hd
      by_cases e : x = t
      · subst e; simp at hd; exact h.rankOK.1 _ d hd
      · simp [e] at hd; exact h.rankOK.1 _ d hd
    · intro x q hq
      by_cases e : x = t
      · subst e; simp at hq; exact h.rankOK.2 _ q hq
      · simp [e] at hq; exact h.rankOK.2 _ q hq
  · intro x
    by_cases e : x = t
    · subst e; simp
    · simp [e]
  · intro x
    by_cases e : x = t
    · subst e; simp
    · simp [e]
  · intro x
    by_cases e : x = t
    · subst e; simp
    · simp [e]
  · intro x hx
    simp [hne x hx]

/-- What accounting for the prerequisite of edge `d` does to the context and
to `SetRebuildRequired`. -/
theorem MakeDetermineDependenciesAccountParent_post {rank : TargetId → Nat} {R : Nat}
    {ctx : MAKE_CONTEXT} (h : SchedInv rank R ctx) (t : TargetId) (d : MAKE_TARGET_DEPENDENCY)
    (S : Bool) (ht : (ctx.Target t).DependenciesEvaluated = false) :
    SchedInv rank R (MakeDetermineDependenciesAccountParent ctx t d S).2 ∧
    (∀ x, x ≠ t →
      (MakeDetermineDependenciesAccountParent ctx t d S).2.Target x = ctx.Target x) ∧
    (∃ n, (MakeDetermineDependenciesAccountParent ctx t d S).2.Target t =
      { ctx.Target t with NumberParentsToBuild := n }) ∧
    ((MakeDetermineDependenciesAccountParent ctx t d S).2.Target t).NumberParentsToBuild =
      (ctx.Target t).NumberParentsToBuild +
        (if (ctx.Target d.Parent).RebuildRequired = true then 1 else 0) ∧
    ((MakeDetermineDependenciesAccountParent ctx t d S).1 = true ↔
      (S = true ∨ (ctx.Target d.Parent).RebuildRequired = true ∨
        ((ctx.Target d.Parent).FileExists = true ∧ (ctx.Target t).FileExists = true ∧
          (ctx.Target d.Parent).ModifiedTime > (ctx.Target t).ModifiedTime))) := by
  unfold MakeDetermineDependenciesAccountParent
  cases hr : (ctx.Target d.Parent).RebuildRequired with
  | true =>
    simp only [if_true]
    refine ⟨?_, ?_, ?_, ?_, ?_⟩
    · split <;> exact SchedInv_bump h t ht _
    · intro x hx
      split <;> simp [hx]
    · refine ⟨(ctx.Target t).NumberParentsToBuild + 1, ?_⟩
      split <;> simp
    · split <;> simp
    · split <;> simp
  | false =>
    simp only [Bool.false_eq_true, if_false]
    refine ⟨?_, ?_, ?_, ?_, ?_⟩
    · split <;> exact h
    · intro x _
      split <;> rfl
    · refine ⟨(ctx.Target t).NumberParentsToBuild, ?_⟩
      split <;> rfl
    · split <;> simp
    · split
      · rename_i hc
        simp only [Bool.and_eq_true, decide_eq_true_eq] at hc
        simp [hc.1.1, hc.1.2, hc.2]
      · rename_i hc
        simp only [Bool.and_eq_true, decide_eq_true_eq] at hc
        constructor
        · intro hS; exact Or.inl hS
        · rintro (hS | hS | ⟨h1, h2, h3⟩)
          · exact hS
          · cases hS
          · exact absurd ⟨⟨h1, h2⟩, h3⟩ hc

/-! ## The prerequisite loop -/

theorem MakeDetermineDependenciesForTargetLoop_spec {rank : TargetId → Nat} {R : Nat}
    {recurse : MAKE_CONTEXT → TargetId → Option (Bool × MAKE_CONTEXT)}
    (hrec : WalkSpec rank R recurse) (t : TargetId) (hR : rank t ≤ R) :
    ∀ (fuel : Nat) (ctx : MAKE_CONTEXT) (i : Nat) (S S' : Bool) (ctx' : MAKE_CONTEXT),
      SchedInv rank R ctx → (ctx.Target t).DependenciesEvaluated = false →
      (∀ x, rank x < rank t → (ctx.Target x).DependenciesEvaluated = false →
        (ctx.Target x).NumberParentsToBuild = 0) →
      LoopInv ctx t i S →
      MakeDetermineDependenciesForTargetLoop recurse fuel ctx t i S = some (true, S', ctx') →
      LoopPost rank R t ctx S' ctx' := by
  intro fuel
  induction fuel with
  | zero =>
    intro ctx i S S' ctx' _ _ _ _ h
    simp [MakeDetermineDependenciesForTargetLoop] at h
  | succ n ih =>
    intro ctx i S S' ctx' hinv ht hzero hloop h
    rw [MakeDetermineDependenciesForTargetLoop] at h
    cases hget : (ctx.Target t).ParentDependents[i]? with
    | none =>
      simp only [hget, Option.some.injEq, Prod.mk.injEq, true_and] at h
      obtain ⟨rfl, rfl⟩ := h
      have hlen := List.getElem?_eq_none_iff.mp hget
      refine ⟨hinv, ht, rfl, SchedStatic_refl _, fun x _ => Or.inl (SchedUnchanged_refl _ _),
        fun _ _ _ => rfl, ?_, fun _ _ hd => hd⟩
      unfold LoopInv at hloop ⊢
      rw [List.take_of_length_le hlen] at hloop
      rw [List.take_length]
      exact hloop
    | some d =>
      have hd : d ∈ (ctx.Target t).ParentDependents := List.getElem?_mem hget
      have hrp : rank d.Parent < rank t := hinv.rankOK.1 t d hd
      have hpt : d.Parent ≠ t := fun e => by rw [e] at hrp; exact lt_irrefl _ hrp
      have hpR : rank d.Parent < R := lt_of_lt_of_le hrp hR
      have hfst := MakeDetermineDependenciesPopulateParent_fst ctx d.Parent
      have P := MakeDetermineDependenciesPopulateParent_post hinv d.Parent hpR
      simp only [hget, hfst, Bool.not_true, Bool.false_eq_true, if_false] at h
      generalize (MakeDetermineDependenciesPopulateParent ctx d.Parent).2 = ctxs at h P
      cases hr : recurse ctxs d.Parent with
      | none => simp [hr] at h
      | some res =>
        obtain ⟨ok, ctx2⟩ := res
        cases ok with
        | false => simp [hr] at h
        | true =>
          simp only [hr] at h
          have W : WalkPost rank R d.Parent ctxs ctx2 := by
            refine hrec ctxs d.Parent ctx2 P.inv ?_ (le_of_lt hpR) (fun _ => P.ready) hr
            intro x hx hxe
            rw [(P.flags x).1] at hxe
            rw [(P.flags x).2.2]
            exact hzero x (lt_of_le_of_lt hx hrp) hxe
          have ht2 : ctx2.Target t = ctxs.Target t := W.above t (le_of_lt hrp) (Ne.symm hpt)
          have hte2 : (ctx2.Target t).DependenciesEvaluated = false := by
            rw [ht2, (P.flags t).1]; exact ht
          obtain ⟨A1, A2, ⟨k, A3⟩, A4, A5⟩ :=
            MakeDetermineDependenciesAccountParent_post W.inv t d S hte2
          generalize hacc : MakeDetermineDependenciesAccountParent ctx2 t d S = acc at h A1 A2 A3 A4 A5
          obtain ⟨S2, ctx3⟩ := acc
          simp only at h A1 A2 A3 A4 A5
          -- facts relating `ctx` and `ctx3`
          have hpd3 : (ctx3.Target t).ParentDependents = (ctx.Target t).ParentDependents := by
            rw [A3]; simp only; rw [ht2]; exact P.lists t (Ne.symm hpt)
          have hte3 : (ctx3.Target t).DependenciesEvaluated = false := by
            rw [A3]; exact hte2
          have hst23 : SchedStatic ctx2 ctx3 := by
            intro x
            by_cases e : x = t
            · subst e; rw [A3]; simp
            · rw [A2 x e]; simp
          have hst3 : SchedStatic ctx ctx3 := SchedStatic_trans (SchedStatic_trans P.static W.static) hst23
          have hstep3 : ∀ x, x ≠ t → SchedStep ctx ctx3 x := by
            intro x hx
            have h23 : SchedStep ctx2 ctx3 x := Or.inl (SchedUnchanged_of_eq (A2 x hx))
            by_cases hxp : x = d.Parent
            · subst hxp
              cases hE : (ctx.Target d.Parent).DependenciesEvaluated with
              | false =>
                right
                refine ⟨hE, ?_⟩
                rw [A2 _ hx]; exact W.evaluated
              | true =>
                have h01 : SchedStep ctx ctxs d.Parent :=
                  Or.inl ⟨(P.flags _).1, (P.flags _).2.1, (P.flags _).2.2, P.own hE⟩
                exact SchedStep_trans (SchedStep_trans h01 (W.step _)) h23
            · have h01 : SchedStep ctx ctxs x :=
                Or.inl ⟨(P.flags _).1, (P.flags _).2.1, (P.flags _).2.2, P.lists x hxp⟩
              exact SchedStep_trans (SchedStep_trans h01 (W.step _)) h23
          have hold : ∀ y, (ctx.Target y).DependenciesEvaluated = true →
              (ctx3.Target y).RebuildRequired = (ctx.Target y).RebuildRequired ∧
              (ctx3.Target y).DependenciesEvaluated = true := by
            intro y hy
            have hyt : y ≠ t := fun e => by subst e; rw [ht] at hy; cases hy
            obtain ⟨u1, u2, _, _⟩ := SchedStep_unchanged_of_evaluated (hstep3 y hyt) hy
            exact ⟨u2, u1.trans hy⟩
          have hp3 : (ctx3.Target d.Parent).RebuildRequired = (ctx2.Target d.Parent).RebuildRequired ∧
              (ctx3.Target d.Parent).DependenciesEvaluated = true := by
            rw [A2 _ hpt]; exact ⟨rfl, W.evaluated⟩
          have hnpb3 : (ctx3.Target t).NumberParentsToBuild = (ctx.Target t).NumberParentsToBuild +
              (if (ctx2.Target d.Parent).RebuildRequired = true then 1 else 0) := by
            rw [A4, ht2, (P.flags t).2.2]
          have hzero3 : ∀ x, rank x < rank t → (ctx3.Target x).DependenciesEvaluated = false →
              (ctx3.Target x).NumberParentsToBuild = 0 := by
            intro x hx hxe
            have hxt : x ≠ t := fun e => by rw [e] at hx; exact lt_irrefl _ hx
            rcases hstep3 x hxt with ⟨u1, _, u3, _⟩ | ⟨_, u2⟩
            · rw [u3]; rw [u1] at hxe; exact hzero x hx hxe
            · rw [u2] at hxe; cases hxe
          have hloop3 : LoopInv ctx3 t (i + 1) S2 := by
            obtain ⟨L1, L2, L3⟩ := hloop
            unfold LoopInv
            rw [hpd3, List.take_succ, hget]
            simp only [Option.toList_some]
            refine ⟨?_, ?_, ?_⟩
            · rw [List.countP_append, List.countP_singleton, hnpb3, L1, hp3.1]
              congr 1
              apply List.countP_congr
              intro y hy
              rw [(hold y.Parent (L3 y hy)).1]
            · rw [A5]
              simp only [List.mem_append, List.mem_singleton]
              constructor
              · rintro (hS | hS | ⟨n1, n2, n3⟩)
                · obtain ⟨y, hy, hy2⟩ := L2.mp hS
                  refine ⟨y, Or.inl hy, ?_⟩
                  rcases hy2 with hy2 | ⟨m1, m2, m3⟩
                  · left; rw [(hold y.Parent (L3 y hy)).1]; exact hy2
                  · right
                    simp only [fun x => (hst3 x).1, fun x => (hst3 x).2.1]
                    exact ⟨m1, m2, m3⟩
                · exact ⟨d, Or.inr rfl, Or.inl (hp3.1.trans hS)⟩
                · refine ⟨d, Or.inr rfl, Or.inr ?_⟩
                  simp only [fun x => (hst23 x).1, fun x => (hst23 x).2.1]
                  exact ⟨n1, n2, n3⟩
              · rintro ⟨y, hy | hy, hy2⟩
                · left
                  refine L2.mpr ⟨y, hy, ?_⟩
                  rcases hy2 with hy2 | ⟨m1, m2, m3⟩
                  · left; rw [← (hold y.Parent (L3 y hy)).1]; exact hy2
                  · right
                    simp only [fun x => (hst3 x).1, fun x => (hst3 x).2.1] at m1 m2 m3
                    exact ⟨m1, m2, m3⟩
                · subst hy
                  right
                  rcases hy2 with hy2 | ⟨m1, m2, m3⟩
                  · left; rw [← hp3.1]; exact hy2
                  · right
                    simp only [fun x => (hst23 x).1, fun x => (hst23 x).2.1] at m1 m2 m3
                    exact ⟨m1, m2, m3⟩
            · intro y hy
              simp only [List.mem_append, List.mem_singleton] at hy
              rcases hy with hy | hy
              · exact (hold y.Parent (L3 y hy)).2
              · subst hy; exact hp3.2
          have Q := ih ctx3 (i + 1) S2 S' ctx' A1 hte3 hzero3 hloop3 h
          refine ⟨Q.inv, Q.unevaluated, Q.own.trans hpd3, SchedStatic_trans hst3 Q.static,
            fun x hx => SchedStep_trans (hstep3 x hx) (Q.step x hx), ?_, ?_, ?_⟩
          · intro x hx hxt
            rw [Q.above x hx hxt, A2 x hxt]
            have hxp : x ≠ d.Parent := fun e => by
              rw [e] at hx; exact absurd hrp (not_lt.mpr hx)
            rw [W.above x (le_trans (le_of_lt hrp) hx) hxp]
            exact P.above x (le_trans (le_of_lt hrp) hx) hxp
          · have := Q.final
            rw [hpd3] at this
            exact this
          · intro x y hy
            apply Q.mono
            have h2 : y ∈ (ctx2.Target x).ParentDependents := W.mono x y (P.mono x y hy)
            by_cases e : x = t
            · subst e; rw [A3]; exact h2
            · rw [A2 x e]; exact h2

/-! ## Completing the evaluation of a target -/

/-- The invariant after the prerequisite loop of `t` has finished, `t` has
been flagged as evaluated and, when `b` holds, marked for rebuild. -/
theorem SchedInv_finish {rank : TargetId → Nat} {R : Nat} {ctx ctx' : MAKE_CONTEXT}
    (h : SchedInv rank R ctx) (t : TargetId) (S b : Bool) (cmds : List MAKE_CMD_TO_EXEC)
    (ht : (ctx.Target t).DependenciesEvaluated = false)
    (hL : LoopInv ctx t (ctx.Target t).ParentDependents.length S)
    (hns : rank t < R → MakeParentNeedsInferenceDependency ctx t = false)
    (hb : b = true ↔ ((ctx.Target t).FileExists = false ∨ S = true))
    (hbuild : b = true →
      (ctx.Target t).ExplicitRecipeFound = true ∨ (ctx.Target t).InferenceRule.isSome = true)
    (hT : ∀ x, x ≠ t → ctx'.Target x = ctx.Target x)
    (hTt : ctx'.Target t =
      { ctx.Target t with DependenciesEvaluated := true, ExecCmds := cmds, RebuildRequired := b })
    (hq1 : ctx'.TargetsReady =
      if b = true ∧ (ctx.Target t).NumberParentsToBuild = 0 then ctx.TargetsReady ++ [t]
      else ctx.TargetsReady)
    (hq2 : ctx'.TargetsWaiting =
      if b = true ∧ (ctx.Target t).NumberParentsToBuild ≠ 0 then ctx.TargetsWaiting ++ [t]
      else ctx.TargetsWaiting) :
    SchedInv rank R ctx' := by
  have hrr : (ctx.Target t).RebuildRequired = false := by
    cases hr : (ctx.Target t).RebuildRequired
    · rfl
    · rw [h.rr_eval t hr] at ht; cases ht
  have hpar : ∀ d ∈ (ctx.Target t).ParentDependents, d.Parent ≠ t := by
    intro d hd e
    have := h.rankOK.1 t d hd
    rw [e] at this; exact lt_irrefl _ this
  have hev : ∀ x, (ctx.Target x).DependenciesEvaluated = true → x ≠ t := by
    intro x hx e; subst e; rw [ht] at hx; cases hx
  have hpd : ∀ x, (ctx'.Target x).ParentDependents = (ctx.Target x).ParentDependents := by
    intro x
    by_cases e : x = t
    · subst e; rw [hTt]
    · rw [hT x e]
  have hst : SchedStatic ctx ctx' := by
    intro x
    by_cases e : x = t
    · subst e; rw [hTt]; simp
    · rw [hT x e]; simp
  unfold LoopInv at hL
  simp only [List.take_length] at hL
  obtain ⟨L1, L2, L3⟩ := hL
  refine ⟨⟨?_, ?_⟩, ?_, ?_, ?_, ?_, ?_, ?_, ?_, ?_, ?_⟩
  · intro x d hd
    rw [hpd] at hd; exact h.rankOK.1 x d hd
  · intro x q hq
    rw [(hst x).2.2.2.2.1] at hq; exact h.rankOK.2 x q hq
  · intro x hx
    by_cases e : x = t
    · subst e; rw [hTt]
    · rw [hT x e] at hx ⊢; exact h.rr_eval x hx
  · intro x hx
    rw [(hst x).2.2.1, (hst x).2.2.2.1]
    by_cases e : x = t
    · subst e; rw [hTt] at hx; exact hbuild hx
    · rw [hT x e] at hx; exact h.rr_build x hx
  · intro x
    by_cases e : x = t
    · subst e
      have h0 := h.ready x
      simp only [hrr, Bool.false_eq_true, false_and, if_false] at h0
      rw [hq1, hTt]
      by_cases hc : b = true ∧ (ctx.Target x).NumberParentsToBuild = 0
      · simp [hc, h0]
      · simp only [hc, if_false, h0]
    · rw [hT x e, hq1, ← h.ready x]
      split
      · rw [List.count_append, List.count_singleton]
        simp [Ne.symm e]
      · rfl
  · intro x
    by_cases e : x = t
    · subst e
      have h0 := h.waiting x
      simp only [hrr, Bool.false_eq_true, false_and, if_false] at h0
      rw [hq2, hTt]
      by_cases hc : b = true ∧ (ctx.Target x).NumberParentsToBuild ≠ 0
      · simp [hc, h0]
      · simp only [hc, if_false, h0]
    · rw [hT x e, hq2, ← h.waiting x]
      split
      · rw [List.count_append, List.count_singleton]
        simp [Ne.symm e]
      · rfl
  · intro x hx
    unfold Stale
    rw [hpd x]
    simp only [fun y => (hst y).1, fun y => (hst y).2.1]
    by_cases e : x = t
    · subst e
      have hR : ∀ d ∈ (ctx.Target x).ParentDependents,
          (ctx'.Target d.Parent).RebuildRequired = (ctx.Target d.Parent).RebuildRequired :=
        fun d hd => by rw [hT _ (hpar d hd)]
      rw [hTt]
      simp only
      rw [hb, L2]
      constructor
      · rintro (h1 | ⟨d, hd, h2 | h2⟩)
        · exact Or.inl h1
        · exact Or.inr (Or.inl ⟨d, hd, (hR d hd).trans h2⟩)
        · exact Or.inr (Or.inr ⟨d, hd, h2⟩)
      · rintro (h1 | ⟨d, hd, h2⟩ | ⟨d, hd, h2⟩)
        · exact Or.inl h1
        · exact Or.inr ⟨d, hd, Or.inl ((hR d hd).symm.trans h2)⟩
        · exact Or.inr ⟨d, hd, Or.inr h2⟩
    · rw [hT x e] at hx ⊢
      have hR : ∀ d ∈ (ctx.Target x).ParentDependents,
          (ctx'.Target d.Parent).RebuildRequired = (ctx.Target d.Parent).RebuildRequired :=
        fun d hd => by rw [hT _ (hev _ (h.parents x hx d hd))]
      rw [h.stale x hx]
      unfold Stale
      constructor
      · rintro (h1 | ⟨d, hd, h2⟩ | ⟨d, hd, h2⟩)
        · exact Or.inl h1
        · exact Or.inr (Or.inl ⟨d, hd, (hR d hd).trans h2⟩)
        · exact Or.inr (Or.inr ⟨d, hd, h2⟩)
      · rintro (h1 | ⟨d, hd, h2⟩ | ⟨d, hd, h2⟩)
        · exact Or.inl h1
        · exact Or.inr (Or.inl ⟨d, hd, (hR d hd).symm.trans h2⟩)
        · exact Or.inr (Or.inr ⟨d, hd, h2⟩)
  · intro x hx
    rw [hpd x]
    by_cases e : x = t
    · subst e
      rw [hTt]
      simp only
      rw [L1]
      apply List.countP_congr
      intro d hd
      rw [hT _ (hpar d hd)]
    · rw [hT x e] at hx ⊢
      rw [h.counted x hx]
      apply List.countP_congr
      intro d hd
      rw [hT _ (hev _ (h.parents x hx d hd))]
  · intro x hx d hd
    rw [hpd x] at hd
    by_cases e : x = t
    · subst e
      rw [hT _ (hpar d hd)]; exact L3 d hd
    · rw [hT x e] at hx
      rw [hT _ (hev _ (h.parents x hx d hd))]
      exact h.parents x hx d hd
  · intro x hx hR
    unfold MakeParentNeedsInferenceDependency
    rw [hpd x, (hst x).2.2.1, (hst x).2.2.2.2.1]
    by_cases e : x = t
    · subst e; exact hns hR
    · rw [hT x e] at hx; exact h.nosynth x hx hR
  · intro x
    rw [(hst x).2.2.2.2.2.1]; exact h.executed x

/-! ## The walk -/

theorem MakeDetermineDependenciesForTarget_spec (env : MAKE_ENV) (rank : TargetId → Nat)
    (R : Nat) :
    ∀ fuel, WalkSpec rank R (fun c p => MakeDetermineDependenciesForTarget env fuel c p) := by
  intro fuel
  induction fuel with
  | zero =>
    intro ctx p ctx' _ _ _ _ h
    simp [MakeDetermineDependenciesForTarget] at h
  | succ n ih =>
    intro ctx p ctx' hinv hzero hR hns h
    simp only at h
    rw [MakeDetermineDependenciesForTarget] at h
    cases he : (ctx.Target p).DependenciesEvaluated with
    | true =>
      simp only [he, if_true, Option.some.injEq, Prod.mk.injEq, true_and] at h
      subst h
      exact ⟨hinv, he, fun x => Or.inl (SchedUnchanged_refl _ _), fun _ _ _ => rfl,
        SchedStatic_refl _, fun _ _ hd => hd, fun _ => rfl⟩
    | false =>
      simp only [he, Bool.false_eq_true, if_false] at h
      have hns2 : rank p < R → MakeParentNeedsInferenceDependency ctx p = false := by
        intro hlt
        rcases hns hlt with h1 | h1
        · rw [he] at h1; cases h1
        · exact h1
      have hloop0 : LoopInv ctx p 0 false := by
        refine ⟨?_, ?_, ?_⟩
        · simpa using hzero p (le_refl _) he
        · simp
        · simp
      cases hl : MakeDetermineDependenciesForTargetLoop
          (fun c p => MakeDetermineDependenciesForTarget env n c p) (n + 1) ctx p 0 false with
      | none => simp [hl] at h
      | some res =>
        obtain ⟨ok, S, ctx1⟩ := res
        cases ok with
        | false => simp [hl] at h
        | true =>
          simp only [hl] at h
          have Q := MakeDetermineDependenciesForTargetLoop_spec ih p hR (n + 1) ctx 0 false S ctx1
            hinv he (fun x hx => hzero x (le_of_lt hx)) hloop0 hl
          have hrr1 : (ctx1.Target p).RebuildRequired = false := by
            cases hr : (ctx1.Target p).RebuildRequired
            · rfl
            · have := Q.inv.rr_eval p hr
              rw [Q.unevaluated] at this; cases this
          have hfinal := Q.final
          rw [← Q.own] at hfinal
          have hns1 : rank p < R → MakeParentNeedsInferenceDependency ctx1 p = false := by
            intro hlt
            have := hns2 hlt
            unfold MakeParentNeedsInferenceDependency at this ⊢
            rw [Q.own, (Q.static p).2.2.1, (Q.static p).2.2.2.2.1]
            exact this
          -- the context in which the target is flagged as evaluated
          have key : ∀ (b : Bool) (cmds : List MAKE_CMD_TO_EXEC),
              (b = true ↔ ((ctx1.Target p).FileExists = false ∨ S = true)) →
              (b = true → (ctx1.Target p).ExplicitRecipeFound = true ∨
                (ctx1.Target p).InferenceRule.isSome = true) →
              (∀ x, x ≠ p → ctx'.Target x = ctx1.Target x) →
              ctx'.Target p = { ctx1.Target p with
                DependenciesEvaluated := true, ExecCmds := cmds, RebuildRequired := b } →
              ctx'.TargetsReady =
                (if b = true ∧ (ctx1.Target p).NumberParentsToBuild = 0 then
                  ctx1.TargetsReady ++ [p] else ctx1.TargetsReady) →
              ctx'.TargetsWaiting =
                (if b = true ∧ (ctx1.Target p).NumberParentsToBuild ≠ 0 then
                  ctx1.TargetsWaiting ++ [p] else ctx1.TargetsWaiting) →
              WalkPost rank R p ctx ctx' := by
            intro b cmds hb hbuild hT hTt hq1 hq2
            have hinv' := SchedInv_finish Q.inv p S b cmds Q.unevaluated hfinal hns1 hb hbuild hT hTt hq1 hq2
            have hst1 : SchedStatic ctx1 ctx' := by
              intro x
              by_cases e : x = p
              · subst e; rw [hTt]; simp
              · rw [hT x e]; simp
            have hpd1 : ∀ x, (ctx'.Target x).ParentDependents = (ctx1.Target x).ParentDependents := by
              intro x
              by_cases e : x = p
              · subst e; rw [hTt]
              · rw [hT x e]
            refine ⟨hinv', by rw [hTt], ?_, ?_, SchedStatic_trans Q.static hst1, ?_, ?_⟩
            · intro x
              by_cases e : x = p
              · subst e; exact Or.inr ⟨he, by rw [hTt]⟩
              · exact SchedStep_trans (Q.step x e) (Or.inl (SchedUnchanged_of_eq (hT x e)))
            · intro x hx e
              rw [hT x e]; exact Q.above x hx e
            · intro x d hd
              rw [hpd1]; exact Q.mono x d hd
            · intro _
              rw [hpd1]; exact Q.own
          by_cases hmark : (!(ctx1.Target p).FileExists || S) = true
          · -- the target is marked for rebuild
            have hcond : ((if (!(ctx1.Target p).FileExists) = true then true else S) &&
                !(ctx1.Target p).RebuildRequired) = true := by
              cases hfe : (ctx1.Target p).FileExists <;> simp_all
            simp only [setTarget_Target, if_true, hcond] at h
            cases hm : MakeMarkTargetForRebuild env
                (ctx1.setTarget p { ctx1.Target p with DependenciesEvaluated := true }) p with
            | mk ok ctx3 =>
              rw [hm] at h
              cases ok with
              | false => simp at h
              | true =>
                simp only [Option.some.injEq, Prod.mk.injEq, true_and] at h
                subst h
                obtain ⟨hbuild, cmds, hctx⟩ := MakeMarkTargetForRebuild_success env _ _ p
                  (by simpa using hrr1) hm
                simp only [setTarget_Target, if_true, setTarget_setTarget, setTarget_TargetsReady,
                  setTarget_TargetsWaiting] at hctx hbuild
                refine key true cmds ?_ (fun _ => hbuild) ?_ ?_ ?_ ?_
                · simp only [true_iff]
                  cases hfe : (ctx1.Target p).FileExists <;> simp_all
                · intro x e; rw [hctx]; simp [e]
                · rw [hctx]; simp
                · rw [hctx]; simp
                · rw [hctx]
                  by_cases hz : (ctx1.Target p).NumberParentsToBuild = 0 <;> simp [hz]
          · -- the target is up to date
            have hcond : ((if (!(ctx1.Target p).FileExists) = true then true else S) &&
                !(ctx1.Target p).RebuildRequired) = false := by
              cases hfe : (ctx1.Target p).FileExists <;> simp_all
            simp only [setTarget_Target, if_true, hcond, Bool.false_eq_true, if_false,
              Option.some.injEq, Prod.mk.injEq, true_and] at h
            subst h
            refine key false (ctx1.Target p).ExecCmds ?_ (fun hb => by cases hb) ?_ ?_ ?_ ?_
            · constructor
              · intro hb; cases hb
              · intro hb
                exfalso; apply hmark
                cases hfe : (ctx1.Target p).FileExists <;> simp_all
            · intro x e; simp [e]
            · simp [hrr1.symm]
            · simp
            · simp

/-! ## The scheduler from a fresh context -/

theorem SchedInv_of_fresh {rank : TargetId → Nat} {ctx : MAKE_CONTEXT} (R : Nat)
    (hfresh : FreshContext ctx) (hrank : RankOK rank ctx) : SchedInv rank R ctx := by
  obtain ⟨hT, hq1, hq2⟩ := hfresh
  refine ⟨hrank, ?_, ?_, ?_, ?_, ?_, ?_, ?_, ?_, fun x => (hT x).2.2.2⟩
  · intro x hx; rw [(hT x).2.1] at hx; cases hx
  · intro x hx; rw [(hT x).2.1] at hx; cases hx
  · intro x; simp [hq1, (hT x).2.1]
  · intro x; simp [hq2, (hT x).2.1]
  · intro x hx; rw [(hT x).1] at hx; cases hx
  · intro x hx; rw [(hT x).1] at hx; cases hx
  · intro x hx; rw [(hT x).1] at hx; cases hx
  · intro x hx; rw [(hT x).1] at hx; cases hx

/-- A successful walk from a fresh context establishes the invariant and
evaluates exactly the targets that satisfy it. -/
theorem MakeDetermineDependenciesForTarget_fresh (env : MAKE_ENV) (rank : TargetId → Nat)
    (fuel : Nat) (ctx ctx' : MAKE_CONTEXT) (root : TargetId)
    (hfresh : FreshContext ctx) (hrank : RankOK rank ctx)
    (h : MakeDetermineDependenciesForTarget env fuel ctx root = some (true, ctx')) :
    WalkPost rank (rank root) root ctx ctx' :=
  MakeDetermineDependenciesForTarget_spec env rank (rank root) fuel ctx root ctx'
    (SchedInv_of_fresh _ hfresh hrank) (fun x _ _ => (hfresh.1 x).2.2.1) (le_refl _)
    (fun hlt => absurd hlt (lt_irrefl _)) h

theorem MakeDetermineDependenciesFirstTarget_spec (ctx : MAKE_CONTEXT) :
    ∀ (l : List TargetId),
      (MakeDetermineDependenciesFirstTarget ctx l = none ∧
        ∀ y ∈ l, (ctx.Target y).InferenceRulePseudoTarget = true) ∨
      (∃ l1 t l2, l = l1 ++ t :: l2 ∧
        (∀ y ∈ l1, (ctx.Target y).InferenceRulePseudoTarget = true) ∧
        (ctx.Target t).InferenceRulePseudoTarget = false ∧
        MakeDetermineDependenciesFirstTarget ctx l = some t) := by
  intro l
  induction l with
  | nil => left; simp [MakeDetermineDependenciesFirstTarget]
  | cons a rest ih =>
    unfold MakeDetermineDependenciesFirstTarget
    cases ha : (ctx.Target a).InferenceRulePseudoTarget with
    | false =>
      right
      exact ⟨[], a, rest, rfl, by simp, ha, by simp⟩
    | true =>
      simp only [Bool.not_true, Bool.false_eq_true, if_false]
      rcases ih with ⟨h1, h2⟩ | ⟨l1, t, l2, h1, h2, h3, h4⟩
      · left
        refine ⟨h1, ?_⟩
        intro y hy
        rcases List.mem_cons.mp hy with e | e
        · rw [e]; exact ha
        · exact h2 y e
      · right
        refine ⟨a :: l1, t, l2, by rw [h1]; rfl, ?_, h3, h4⟩
        intro y hy
        rcases List.mem_cons.mp hy with e | e
        · rw [e]; exact ha
        · exact h2 y e

theorem MakeDetermineDependencies_success (env : MAKE_ENV) (fuel : Nat) (ctx ctx' : MAKE_CONTEXT)
    (h : MakeDetermineDependencies env fuel ctx = some (true, ctx')) :
    ∃ root, MakeDetermineDependenciesForTarget env fuel ctx root = some (true, ctx') := by
  unfold MakeDetermineDependencies at h
  cases hf : MakeDetermineDependenciesFirstTarget ctx ctx.TargetsList with
  | none => simp [hf] at h
  | some t => rw [hf] at h; exact ⟨t, h⟩

theorem countP_pending_eq_card (ctx : MAKE_CONTEXT) (l : List MAKE_TARGET_DEPENDENCY)
    (hnodup : (l.map (fun d => d.Parent)).Nodup) :
    l.countP (fun d => (ctx.Target d.Parent).RebuildRequired && !(ctx.Target d.Parent).Executed) =
      (((l.map (fun d => d.Parent)).filter
        (fun p => (ctx.Target p).RebuildRequired && !(ctx.Target p).Executed)).toFinset).card := by
  rw [List.toFinset_card_of_nodup (hnodup.filter _), List.countP_eq_length_filter,
    List.filter_map, List.length_map]
  rfl

/-! ## Claims about the scheduler -/

/-- C1: staleness rule.  After a successful `MakeDetermineDependenciesForTarget`
from a fresh context on an acyclic graph, every evaluated target is marked
for rebuild exactly when it is missing, or a prerequisite is marked, or an
existing prerequisite is strictly newer than the existing target.  So an
existing target with one existing, newer leaf prerequisite is on
`TargetsReady` (S1), a missing target is marked whatever the timestamps (S2),
and a target whose prerequisites are unmarked and not newer is not marked. -/
theorem MakeDetermineDependenciesForTarget_staleness (env : MAKE_ENV) (fuel : Nat)
    (ctx ctx' : MAKE_CONTEXT) (root : TargetId) (hfresh : FreshContext ctx) (hacyc : Acyclic ctx)
    (h : MakeDetermineDependenciesForTarget env fuel ctx root = some (true, ctx')) :
    (∀ t, (ctx'.Target t).DependenciesEvaluated = true →
      ((ctx'.Target t).RebuildRequired = true ↔ Stale ctx' t)) ∧
    (∀ t d, (ctx'.Target t).DependenciesEvaluated = true → (ctx'.Target t).FileExists = true →
      (ctx'.Target t).ParentDependents = [d] → (ctx'.Target d.Parent).FileExists = true →
      (ctx'.Target d.Parent).ParentDependents = [] →
      (ctx'.Target d.Parent).ModifiedTime > (ctx'.Target t).ModifiedTime →
      t ∈ ctx'.TargetsReady) ∧
    (∀ t, (ctx'.Target t).DependenciesEvaluated = true → (ctx'.Target t).FileExists = false →
      (ctx'.Target t).RebuildRequired = true) ∧
    (∀ t, (ctx'.Target t).DependenciesEvaluated = true → (ctx'.Target t).FileExists = true →
      (∀ d ∈ (ctx'.Target t).ParentDependents, (ctx'.Target d.Parent).RebuildRequired = false ∧
        (ctx'.Target d.Parent).ModifiedTime ≤ (ctx'.Target t).ModifiedTime) →
      (ctx'.Target t).RebuildRequired = false) := by
  obtain ⟨rank, hrank⟩ := hacyc
  have W := MakeDetermineDependenciesForTarget_fresh env rank fuel ctx ctx' root hfresh hrank h
  refine ⟨W.inv.stale, ?_, ?_, ?_⟩
  · intro t d ht hfe hpd hpfe hppd hnewer
    have hpe : (ctx'.Target d.Parent).DependenciesEvaluated = true :=
      W.inv.parents t ht d (by rw [hpd]; exact List.mem_singleton.mpr rfl)
    have hprr : (ctx'.Target d.Parent).RebuildRequired = false := by
      cases hr : (ctx'.Target d.Parent).RebuildRequired
      · rfl
      · rcases (W.inv.stale d.Parent hpe).mp hr with h1 | ⟨e, he, _⟩ | ⟨e, he, _⟩
        · rw [hpfe] at h1; cases h1
        · rw [hppd] at he; cases he
        · rw [hppd] at he; cases he
    have hrr : (ctx'.Target t).RebuildRequired = true :=
      (W.inv.stale t ht).mpr (Or.inr (Or.inr ⟨d, by rw [hpd]; exact List.mem_singleton.mpr rfl,
        hpfe, hfe, hnewer⟩))
    have hn : (ctx'.Target t).NumberParentsToBuild = 0 := by
      rw [W.inv.counted t ht, hpd]
      simp [hprr]
    have hc := W.inv.ready t
    rw [if_pos ⟨hrr, hn⟩] at hc
    exact List.count_pos_iff.mp (by rw [hc]; exact Nat.one_pos)
  · intro t ht hfe
    exact (W.inv.stale t ht).mpr (Or.inl hfe)
  · intro t ht hfe hall
    cases hr : (ctx'.Target t).RebuildRequired
    · rfl
    · rcases (W.inv.stale t ht).mp hr with h1 | ⟨e, he, h2⟩ | ⟨e, he, _, _, h2⟩
      · rw [hfe] at h1; cases h1
      · rw [(hall e he).1] at h2; cases h2
      · exact absurd h2 (not_lt.mpr (hall e he).2)

theorem ScenarioS1_fresh : FreshContext ScenarioS1 := by
  refine ⟨?_, rfl, rfl⟩
  intro t
  by_cases h0 : t = 0
  · subst h0; exact ⟨rfl, rfl, rfl, rfl⟩
  · by_cases h1 : t = 1
    · subst h1; exact ⟨rfl, rfl, rfl, rfl⟩
    · simp [ScenarioS1, h0, h1, MakeInitialTarget]

theorem ScenarioS1_acyclic : Acyclic ScenarioS1 := by
  refine ⟨fun t => if t = 0 then 1 else 0, ?_, ?_⟩
  · intro t d hd
    by_cases h0 : t = 0
    · subst h0
      simp [ScenarioS1, MakeInitialTarget] at hd
      subst hd
      simp
    · by_cases h1 : t = 1
      · subst h1; simp [ScenarioS1, MakeInitialTarget] at hd
      · simp [ScenarioS1, h0, h1, MakeInitialTarget] at hd
  · intro t q hq
    by_cases h0 : t = 0
    · subst h0; simp [ScenarioS1, MakeInitialTarget] at hq
    · by_cases h1 : t = 1
      · subst h1; simp [ScenarioS1, MakeInitialTarget] at hq
      · simp [ScenarioS1, h0, h1, MakeInitialTarget] at hq

theorem ScenarioS1_run :
    MakeDetermineDependenciesForTarget ScenarioS1Env 3 ScenarioS1 0 =
      some (true, ScenarioS1Result) := by
  rfl

/-- Witness of C1 on scenario S1: `a.obj` ends on `TargetsReady`. -/
theorem MakeDetermineDependenciesForTarget_staleness_witness :
    FreshContext ScenarioS1 ∧ Acyclic ScenarioS1 ∧
    MakeDetermineDependenciesForTarget ScenarioS1Env 3 ScenarioS1 0 =
      some (true, ScenarioS1Result) ∧
    0 ∈ ScenarioS1Result.TargetsReady :=
  ⟨ScenarioS1_fresh, ScenarioS1_acyclic, ScenarioS1_run,
    (MakeDetermineDependenciesForTarget_staleness ScenarioS1Env 3 ScenarioS1 ScenarioS1Result 0
      ScenarioS1_fresh ScenarioS1_acyclic ScenarioS1_run).2.1 0 { Parent := 1, Child := 0 }
      rfl rfl rfl rfl rfl (by decide)⟩

theorem ScenarioS1_schedule :
    MakeDetermineDependencies ScenarioS1Env 3 ScenarioS1 = some (true, ScenarioS1Result) := by
  rfl

/-- C2: queue invariant.  After a successful `MakeDetermineDependencies` from
a fresh context on an acyclic graph, a target is on `TargetsReady` exactly
when it is marked for rebuild with no prerequisite to build, on
`TargetsWaiting` exactly when it is marked with some prerequisite to build,
and the two queues together hold each marked target once and nothing else. -/
theorem MakeDetermineDependencies_queues (env : MAKE_ENV) (fuel : Nat) (ctx ctx' : MAKE_CONTEXT)
    (hfresh : FreshContext ctx) (hacyc : Acyclic ctx)
    (h : MakeDetermineDependencies env fuel ctx = some (true, ctx')) :
    ∀ t,
      (t ∈ ctx'.TargetsReady ↔
        (ctx'.Target t).RebuildRequired = true ∧ (ctx'.Target t).NumberParentsToBuild = 0) ∧
      (t ∈ ctx'.TargetsWaiting ↔
        (ctx'.Target t).RebuildRequired = true ∧ 0 < (ctx'.Target t).NumberParentsToBuild) ∧
      (ctx'.TargetsReady.count t + ctx'.TargetsWaiting.count t =
        if (ctx'.Target t).RebuildRequired = true then 1 else 0) := by
  obtain ⟨rank, hrank⟩ := hacyc
  obtain ⟨root, hroot⟩ := MakeDetermineDependencies_success env fuel ctx ctx' h
  have W := MakeDetermineDependenciesForTarget_fresh env rank fuel ctx ctx' root hfresh hrank hroot
  intro t
  have h1 := W.inv.ready t
  have h2 := W.inv.waiting t
  refine ⟨?_, ?_, ?_⟩
  · rw [← List.count_pos_iff, h1]
    split <;> simp_all
  · rw [← List.count_pos_iff, h2, Nat.pos_iff_ne_zero]
    split
    · rename_i hc
      simp [hc.1, Nat.pos_iff_ne_zero, hc.2]
    · rename_i hc
      simp only [ne_eq, not_true_eq_false, false_iff, not_and, Nat.pos_iff_ne_zero]
      intro hr hn
      exact hc ⟨hr, hn⟩
  · rw [h1, h2]
    by_cases hr : (ctx'.Target t).RebuildRequired = true
    · by_cases hn : (ctx'.Target t).NumberParentsToBuild = 0 <;> simp [hr, hn]
    · simp [hr]

/-- Witness of C2 on scenario S1. -/
theorem MakeDetermineDependencies_queues_witness :
    FreshContext ScenarioS1 ∧ Acyclic ScenarioS1 ∧
    MakeDetermineDependencies ScenarioS1Env 3 ScenarioS1 = some (true, ScenarioS1Result) ∧
    (ScenarioS1Result.TargetsReady.count 0 + ScenarioS1Result.TargetsWaiting.count 0 =
      if (ScenarioS1Result.Target 0).RebuildRequired = true then 1 else 0) :=
  ⟨ScenarioS1_fresh, ScenarioS1_acyclic, ScenarioS1_schedule,
    (MakeDetermineDependencies_queues ScenarioS1Env 3 ScenarioS1 ScenarioS1Result
      ScenarioS1_fresh ScenarioS1_acyclic ScenarioS1_schedule 0).2.2⟩

theorem ScenarioDuplicate_fresh : FreshContext ScenarioDuplicate := by
  refine ⟨?_, rfl, rfl⟩
  intro t
  by_cases h0 : t = 0
  · subst h0; exact ⟨rfl, rfl, rfl, rfl⟩
  · by_cases h1 : t = 1
    · subst h1; exact ⟨rfl, rfl, rfl, rfl⟩
    · simp [ScenarioDuplicate, h0, h1, MakeInitialTarget]

theorem ScenarioDuplicate_acyclic : Acyclic ScenarioDuplicate := by
  refine ⟨fun t => if t = 0 then 1 else 0, ?_, ?_⟩
  · intro t d hd
    by_cases h0 : t = 0
    · subst h0
      simp [ScenarioDuplicate, MakeInitialTarget] at hd
      subst hd
      simp
    · by_cases h1 : t = 1
      · subst h1; simp [ScenarioDuplicate, MakeInitialTarget] at hd
      · simp [ScenarioDuplicate, h0, h1, MakeInitialTarget] at hd
  · intro t q hq
    by_cases h0 : t = 0
    · subst h0; simp [ScenarioDuplicate, MakeInitialTarget] at hq
    · by_cases h1 : t = 1
      · subst h1; simp [ScenarioDuplicate, MakeInitialTarget] at hq
      · simp [ScenarioDuplicate, h0, h1, MakeInitialTarget] at hq

theorem ScenarioDuplicate_schedule :
    MakeDetermineDependencies (ScenarioEnv []) 4 ScenarioDuplicate =
      some (true, ScenarioDuplicateResult) := by
  rfl

/-- C3 as stated fails: with the prerequisite `p` attached to `t` by two
dependency edges, scheduling from a fresh acyclic context succeeds and marks
`t`, whose `NumberParentsToBuild` is 2 while the set of its prerequisites
that are marked and not executed has one element. -/
theorem MakeDetermineDependencies_parents_set_counterexample :
    FreshContext ScenarioDuplicate ∧ Acyclic ScenarioDuplicate ∧
    MakeDetermineDependencies (ScenarioEnv []) 4 ScenarioDuplicate =
      some (true, ScenarioDuplicateResult) ∧
    (ScenarioDuplicateResult.Target 0).RebuildRequired = true ∧
    (ScenarioDuplicateResult.Target 0).NumberParentsToBuild = 2 ∧
    (PendingParents ScenarioDuplicateResult 0).card = 1 ∧
    (ScenarioDuplicateResult.Target 0).NumberParentsToBuild ≠
      (PendingParents ScenarioDuplicateResult 0).card :=
  ⟨ScenarioDuplicate_fresh, ScenarioDuplicate_acyclic, ScenarioDuplicate_schedule, rfl, rfl,
    by decide, by decide⟩

/-- C3 (amended): after a successful `MakeDetermineDependencies` from a fresh
context on an acyclic graph, `NumberParentsToBuild` of every marked target is
the number of its dependency edges, each edge counted, whose prerequisite is
marked for rebuild and not executed; when no prerequisite is attached twice
this is the cardinality of the set of such prerequisites. -/
theorem MakeDetermineDependencies_parents_to_build (env : MAKE_ENV) (fuel : Nat)
    (ctx ctx' : MAKE_CONTEXT) (hfresh : FreshContext ctx) (hacyc : Acyclic ctx)
    (h : MakeDetermineDependencies env fuel ctx = some (true, ctx')) :
    ∀ t, (ctx'.Target t).RebuildRequired = true →
      (ctx'.Target t).NumberParentsToBuild = PendingParentEdges ctx' t ∧
      (((ctx'.Target t).ParentDependents.map (fun d => d.Parent)).Nodup →
        (ctx'.Target t).NumberParentsToBuild = (PendingParents ctx' t).card) := by
  obtain ⟨rank, hrank⟩ := hacyc
  obtain ⟨root, hroot⟩ := MakeDetermineDependencies_success env fuel ctx ctx' h
  have W := MakeDetermineDependenciesForTarget_fresh env rank fuel ctx ctx' root hfresh hrank hroot
  intro t ht
  have hc : (ctx'.Target t).NumberParentsToBuild = PendingParentEdges ctx' t := by
    rw [W.inv.counted t (W.inv.rr_eval t ht)]
    unfold PendingParentEdges
    apply List.countP_congr
    intro d _
    simp [W.inv.executed d.Parent]
  refine ⟨hc, ?_⟩
  intro hnodup
  rw [hc]
  exact countP_pending_eq_card ctx' _ hnodup

/-- Witness of C3 (amended) on scenario S1. -/
theorem MakeDetermineDependencies_parents_to_build_witness :
    FreshContext ScenarioS1 ∧ Acyclic ScenarioS1 ∧
    MakeDetermineDependencies ScenarioS1Env 3 ScenarioS1 = some (true, ScenarioS1Result) ∧
    (ScenarioS1Result.Target 0).RebuildRequired = true ∧
    (ScenarioS1Result.Target 0).NumberParentsToBuild = PendingParentEdges ScenarioS1Result 0 :=
  ⟨ScenarioS1_fresh, ScenarioS1_acyclic, ScenarioS1_schedule, rfl,
    ((MakeDetermineDependencies_parents_to_build ScenarioS1Env 3 ScenarioS1 ScenarioS1Result
      ScenarioS1_fresh ScenarioS1_acyclic ScenarioS1_schedule) 0 rfl).1⟩

/-- C4: default target selection.  `MakeDetermineDependencies` either finds
the first target of `TargetsList` that is not an inference rule pseudo target
and is `MakeDetermineDependenciesForTarget` on it, or every target of the list
is a pseudo target (the list may be empty) and it fails, setting
`ErrorTermination` and changing nothing else. -/
theorem MakeDetermineDependencies_default_target (env : MAKE_ENV) (fuel : Nat)
    (ctx : MAKE_CONTEXT) :
    (∃ l1 t l2, ctx.TargetsList = l1 ++ t :: l2 ∧
      (∀ y ∈ l1, (ctx.Target y).InferenceRulePseudoTarget = true) ∧
      (ctx.Target t).InferenceRulePseudoTarget = false ∧
      MakeDetermineDependencies env fuel ctx =
        MakeDetermineDependenciesForTarget env fuel ctx t) ∨
    ((∀ y ∈ ctx.TargetsList, (ctx.Target y).InferenceRulePseudoTarget = true) ∧
      MakeDetermineDependencies env fuel ctx =
        some (false, { ctx with ErrorTermination := true })) := by
  unfold MakeDetermineDependencies
  rcases MakeDetermineDependenciesFirstTarget_spec ctx ctx.TargetsList with
    ⟨h1, h2⟩ | ⟨l1, t, l2, h1, h2, h3, h4⟩
  · right
    exact ⟨h2, by rw [h1]⟩
  · left
    exact ⟨l1, t, l2, h1, h2, h3, by rw [h4]⟩

/-! ## Termination of the walk on an acyclic graph -/

theorem MakeDetermineDependenciesPopulateParent_frame {rank : TargetId → Nat}
    {ctx : MAKE_CONTEXT} (h : RankOK rank ctx) (p : TargetId) :
    RankOK rank (MakeDetermineDependenciesPopulateParent ctx p).2 ∧
    (∀ x, rank p ≤ rank x → x ≠ p →
      (MakeDetermineDependenciesPopulateParent ctx p).2.Target x = ctx.Target x) := by
  unfold MakeDetermineDependenciesPopulateParent
  cases hneed : MakeParentNeedsInferenceDependency ctx p with
  | false => exact ⟨by simpa using h, fun _ _ _ => by simp⟩
  | true =>
    cases hq : (ctx.Target p).InferenceRuleParentTarget with
    | none => exact ⟨by simpa using h, fun _ _ _ => by simp⟩
    | some q =>
      simp only [if_true]
      have hrq : rank q < rank p := h.2 p q hq
      have hqp : q ≠ p := fun e => by rw [e] at hrq; exact lt_irrefl _ hrq
      have hempty : (ctx.Target p).ParentDependents = [] := by
        unfold MakeParentNeedsInferenceDependency at hneed
        simp only [Bool.and_eq_true, List.isEmpty_iff] at hneed
        exact hneed.1.1
      have hT := MakeCreateParentChildDependency_Target ctx q p
      refine ⟨⟨?_, ?_⟩, ?_⟩
      · intro t d hd
        rw [hT t hqp] at hd
        by_cases h1 : t = p
        · subst h1
          simp [hempty] at hd
          subst hd
          exact hrq
        · by_cases h2 : t = q
          · subst h2; simp [h1] at hd; exact h.1 _ d hd
          · simp [h1, h2] at hd; exact h.1 _ d hd
      · intro t q2 hq2
        rw [hT t hqp] at hq2
        by_cases h1 : t = p
        · subst h1; simp at hq2; exact h.2 _ q2 hq2
        · by_cases h2 : t = q
          · subst h2; simp [h1] at hq2; exact h.2 _ q2 hq2
          · simp [h1, h2] at hq2; exact h.2 _ q2 hq2
      · intro x hx h1
        rw [hT x hqp]
        have h2 : x ≠ q := fun e => by subst e; exact absurd hrq (not_lt.mpr hx)
        simp [h1, h2]

theorem MakeDetermineDependenciesAccountParent_frame (ctx : MAKE_CONTEXT) (t : TargetId)
    (d : MAKE_TARGET_DEPENDENCY) (S : Bool) :
    (∀ x, x ≠ t → (MakeDetermineDependenciesAccountParent ctx t d S).2.Target x = ctx.Target x) ∧
    ∃ n, (MakeDetermineDependenciesAccountParent ctx t d S).2.Target t =
      { ctx.Target t with NumberParentsToBuild := n } := by
  unfold MakeDetermineDependenciesAccountParent
  cases hr : (ctx.Target d.Parent).RebuildRequired with
  | true =>
    simp only [if_true]
    refine ⟨?_, (ctx.Target t).NumberParentsToBuild + 1, ?_⟩
    · intro x hx
      split <;> simp [hx]
    · split <;> simp
  | false =>
    simp only [Bool.false_eq_true, if_false]
    refine ⟨?_, (ctx.Target t).NumberParentsToBuild, ?_⟩
    · intro x _
      split <;> rfl
    · split <;> rfl

theorem RankOK_of_lists {rank : TargetId → Nat} {ctx ctx' : MAKE_CONTEXT} (h : RankOK rank ctx)
    (h1 : ∀ x, (ctx'.Target x).ParentDependents = (ctx.Target x).ParentDependents)
    (h2 : ∀ x, (ctx'.Target x).InferenceRuleParentTarget =
      (ctx.Target x).InferenceRuleParentTarget) : RankOK rank ctx' :=
  ⟨fun t d hd => h.1 t d (by rw [← h1]; exact hd), fun t q hq => h.2 t q (by rw [← h2]; exact hq)⟩

theorem MakeMarkTargetForRebuild_lists (env : MAKE_ENV) (ctx : MAKE_CONTEXT) (t : TargetId) :
    ∀ x, ((MakeMarkTargetForRebuild env ctx t).2.Target x).ParentDependents =
        (ctx.Target x).ParentDependents ∧
      ((MakeMarkTargetForRebuild env ctx t).2.Target x).InferenceRuleParentTarget =
        (ctx.Target x).InferenceRuleParentTarget ∧
      (x ≠ t → (MakeMarkTargetForRebuild env ctx t).2.Target x = ctx.Target x) := by
  intro x
  unfold MakeMarkTargetForRebuild
  split
  · exact ⟨rfl, rfl, fun _ => rfl⟩
  · split
    · exact ⟨rfl, rfl, fun _ => rfl⟩
    · obtain ⟨cmds, hg⟩ := MakeGenerateExecScriptForTarget_frame env ctx t
      cases hgen : MakeGenerateExecScriptForTarget env ctx t with
      | mk ok ctx1 =>
        rw [hgen] at hg
        simp only at hg
        subst hg
        cases ok with
        | false =>
          by_cases e : x = t
          · subst e; simp
          · simp [e]
        | true =>
          simp only
          split
          · by_cases e : x = t
            · subst e; simp
            · simp [e]
          · by_cases e : x = t
            · subst e; simp
            · simp [e]

theorem MakeDetermineDependenciesForTargetLoop_frame {rank : TargetId → Nat}
    {recurse : MAKE_CONTEXT → TargetId → Option (Bool × MAKE_CONTEXT)}
    (hrec : ∀ ctx p ctx', RankOK rank ctx → recurse ctx p = some (true, ctx') →
      WalkFrame rank p ctx ctx') (t : TargetId) :
    ∀ (fuel : Nat) (ctx : MAKE_CONTEXT) (i : Nat) (S S' : Bool) (ctx' : MAKE_CONTEXT),
      RankOK rank ctx →
      MakeDetermineDependenciesForTargetLoop recurse fuel ctx t i S = some (true, S', ctx') →
      WalkFrame rank t ctx ctx' ∧ ∃ n, ctx'.Target t =
        { ctx.Target t with NumberParentsToBuild := n } := by
  intro fuel
  induction fuel with
  | zero =>
    intro ctx i S S' ctx' _ h
    simp [MakeDetermineDependenciesForTargetLoop] at h
  | succ n ih =>
    intro ctx i S S' ctx' hrank h
    rw [MakeDetermineDependenciesForTargetLoop] at h
    cases hget : (ctx.Target t).ParentDependents[i]? with
    | none =>
      simp only [hget, Option.some.injEq, Prod.mk.injEq, true_and] at h
      obtain ⟨rfl, rfl⟩ := h
      exact ⟨⟨hrank, fun _ _ _ => rfl, rfl, rfl⟩, (ctx.Target t).NumberParentsToBuild, rfl⟩
    | some d =>
      have hd : d ∈ (ctx.Target t).ParentDependents := List.getElem?_mem hget
      have hrp : rank d.Parent < rank t := hrank.1 t d hd
      have hpt : d.Parent ≠ t := fun e => by rw [e] at hrp; exact lt_irrefl _ hrp
      have hfst := MakeDetermineDependenciesPopulateParent_fst ctx d.Parent
      obtain ⟨P1, P2⟩ := MakeDetermineDependenciesPopulateParent_frame hrank d.Parent
      simp only [hget, hfst, Bool.not_true, Bool.false_eq_true, if_false] at h
      generalize (MakeDetermineDependenciesPopulateParent ctx d.Parent).2 = ctxs at h P1 P2
      cases hr : recurse ctxs d.Parent with
      | none => simp [hr] at h
      | some res =>
        obtain ⟨ok, ctx2⟩ := res
        cases ok with
        | false => simp [hr] at h
        | true =>
          simp only [hr] at h
          obtain ⟨W1, W2, _, _⟩ := hrec ctxs d.Parent ctx2 P1 hr
          obtain ⟨A2, k, A3⟩ := MakeDetermineDependenciesAccountParent_frame ctx2 t d S
          generalize MakeDetermineDependenciesAccountParent ctx2 t d S = acc at h A2 A3
          obtain ⟨S2, ctx3⟩ := acc
          simp only at h A2 A3
          have ht2 : ctx2.Target t = ctx.Target t := by
            rw [W2 t (le_of_lt hrp) (Ne.symm hpt), P2 t (le_of_lt hrp) (Ne.symm hpt)]
          have hrank3 : RankOK rank ctx3 := by
            apply RankOK_of_lists W1
            · intro x
              by_cases e : x = t
              · subst e; rw [A3]
              · rw [A2 x e]
            · intro x
              by_cases e : x = t
              · subst e; rw [A3]
              · rw [A2 x e]
          obtain ⟨⟨Q1, Q2, Q3, Q4⟩, m, Q5⟩ := ih ctx3 (i + 1) S2 S' ctx' hrank3 h
          refine ⟨⟨Q1, ?_, ?_, ?_⟩, m, ?_⟩
          · intro x hx hxt
            have hxp : x ≠ d.Parent := fun e => by
              rw [e] at hx; exact absurd hrp (not_lt.mpr hx)
            rw [Q2 x hx hxt, A2 x hxt, W2 x (le_trans (le_of_lt hrp) hx) hxp,
              P2 x (le_trans (le_of_lt hrp) hx) hxp]
          · rw [Q3, A3, ht2]
          · rw [Q4, A3, ht2]
          · rw [Q5, A3, ht2]

theorem MakeDetermineDependenciesForTarget_frame (env : MAKE_ENV) (rank : TargetId → Nat) :
    ∀ (fuel : Nat) (ctx : MAKE_CONTEXT) (t : TargetId) (ctx' : MAKE_CONTEXT),
      RankOK rank ctx → MakeDetermineDependenciesForTarget env fuel ctx t = some (true, ctx') →
      WalkFrame rank t ctx ctx' := by
  intro fuel
  induction fuel with
  | zero =>
    intro ctx t ctx' _ h
    simp [MakeDetermineDependenciesForTarget] at h
  | succ n ih =>
    intro ctx t ctx' hrank h
    rw [MakeDetermineDependenciesForTarget] at h
    cases he : (ctx.Target t).DependenciesEvaluated with
    | true =>
      simp only [he, if_true, Option.some.injEq, Prod.mk.injEq, true_and] at h
      subst h
      exact ⟨hrank, fun _ _ _ => rfl, rfl, rfl⟩
    | false =>
      simp only [he, Bool.false_eq_true, if_false] at h
      cases hl : MakeDetermineDependenciesForTargetLoop
          (fun c p => MakeDetermineDependenciesForTarget env n c p) (n + 1) ctx t 0 false with
      | none => simp [hl] at h
      | some res =>
        obtain ⟨ok, S, ctx1⟩ := res
        cases ok with
        | false => simp [hl] at h
        | true =>
          simp only [hl] at h
          obtain ⟨⟨Q1, Q2, Q3, Q4⟩, m, Q5⟩ :=
            MakeDetermineDependenciesForTargetLoop_frame (fun c p c' hc hcp => ih c p c' hc hcp) t
              (n + 1) ctx 0 false S ctx1 hrank hl
          have key : ∀ c : MAKE_CONTEXT,
              (∀ x, (c.Target x).ParentDependents = (ctx1.Target x).ParentDependents ∧
                (c.Target x).InferenceRuleParentTarget =
                  (ctx1.Target x).InferenceRuleParentTarget ∧
                (x ≠ t → c.Target x = ctx1.Target x)) → WalkFrame rank t ctx c := by
            intro c hc
            refine ⟨RankOK_of_lists Q1 (fun x => (hc x).1) (fun x => (hc x).2.1), ?_, ?_, ?_⟩
            · intro x hx hxt
              rw [(hc x).2.2 hxt]; exact Q2 x hx hxt
            · rw [(hc t).1]; exact Q3
            · rw [(hc t).2.1]; exact Q4
          have hflag : ∀ x,
              ((ctx1.setTarget t { ctx1.Target t with DependenciesEvaluated := true }).Target
                  x).ParentDependents = (ctx1.Target x).ParentDependents ∧
              ((ctx1.setTarget t { ctx1.Target t with DependenciesEvaluated := true }).Target
                  x).InferenceRuleParentTarget = (ctx1.Target x).InferenceRuleParentTarget ∧
              (x ≠ t → (ctx1.setTarget t { ctx1.Target t with DependenciesEvaluated := true }).Target
                  x = ctx1.Target x) := by
            intro x
            by_cases e : x = t
            · subst e; simp
            · simp [e]
          simp only [setTarget_Target, if_true] at h
          by_cases hcond : ((if (!(ctx1.Target t).FileExists) = true then true else S) &&
              !(ctx1.Target t).RebuildRequired) = true
          · simp only [hcond, if_true] at h
            have hm := MakeMarkTargetForRebuild_lists env
              (ctx1.setTarget t { ctx1.Target t with DependenciesEvaluated := true }) t
            cases hmk : MakeMarkTargetForRebuild env
                (ctx1.setTarget t { ctx1.Target t with DependenciesEvaluated := true }) t with
            | mk ok ctx3 =>
              rw [hmk] at h hm
              cases ok with
              | false => simp at h
              | true =>
                simp only [Option.some.injEq, Prod.mk.injEq, true_and] at h
                subst h
                apply key
                intro x
                refine ⟨(hm x).1.trans (hflag x).1, (hm x).2.1.trans (hflag x).2.1, ?_⟩
                intro e
                rw [(hm x).2.2 e]; exact (hflag x).2.2 e
          · simp only [hcond, Bool.false_eq_true, if_false, Option.some.injEq, Prod.mk.injEq,
              true_and] at h
            subst h
            exact key _ hflag

theorem MakeDetermineDependenciesForTargetLoop_done
    (recurse : MAKE_CONTEXT → TargetId → Option (Bool × MAKE_CONTEXT)) (fuel : Nat)
    (ctx : MAKE_CONTEXT) (t : TargetId) (i : Nat) (S : Bool)
    (hget : (ctx.Target t).ParentDependents[i]? = none) :
    MakeDetermineDependenciesForTargetLoop recurse (fuel + 1) ctx t i S = some (true, S, ctx) := by
  rw [MakeDetermineDependenciesForTargetLoop]
  simp only [hget]

theorem MakeDetermineDependenciesForTargetLoop_abort
    (recurse : MAKE_CONTEXT → TargetId → Option (Bool × MAKE_CONTEXT)) (fuel : Nat)
    (ctx : MAKE_CONTEXT) (t : TargetId) (i : Nat) (S : Bool) (d : MAKE_TARGET_DEPENDENCY)
    (ctx2 : MAKE_CONTEXT) (hget : (ctx.Target t).ParentDependents[i]? = some d)
    (hr : recurse (MakeDetermineDependenciesPopulateParent ctx d.Parent).2 d.Parent =
      some (false, ctx2)) :
    MakeDetermineDependenciesForTargetLoop recurse (fuel + 1) ctx t i S =
      some (false, S, ctx2) := by
  rw [MakeDetermineDependenciesForTargetLoop]
  simp only [hget, MakeDetermineDependenciesPopulateParent_fst, Bool.not_true,
    Bool.false_eq_true, if_false, hr]

theorem MakeDetermineDependenciesForTargetLoop_next
    (recurse : MAKE_CONTEXT → TargetId → Option (Bool × MAKE_CONTEXT)) (fuel : Nat)
    (ctx : MAKE_CONTEXT) (t : TargetId) (i : Nat) (S : Bool) (d : MAKE_TARGET_DEPENDENCY)
    (ctx2 : MAKE_CONTEXT) (hget : (ctx.Target t).ParentDependents[i]? = some d)
    (hr : recurse (MakeDetermineDependenciesPopulateParent ctx d.Parent).2 d.Parent =
      some (true, ctx2)) :
    MakeDetermineDependenciesForTargetLoop recurse (fuel + 1) ctx t i S =
      MakeDetermineDependenciesForTargetLoop recurse fuel
        (MakeDetermineDependenciesAccountParent ctx2 t d S).2 t (i + 1)
        (MakeDetermineDependenciesAccountParent ctx2 t d S).1 := by
  rw [MakeDetermineDependenciesForTargetLoop]
  simp only [hget, MakeDetermineDependenciesPopulateParent_fst, Bool.not_true,
    Bool.false_eq_true, if_false, hr]

theorem MakeDetermineDependenciesForTargetLoop_mono
    {r1 r2 : MAKE_CONTEXT → TargetId → Option (Bool × MAKE_CONTEXT)}
    (hr : ∀ c p res, r1 c p = some res → r2 c p = some res) :
    ∀ (m : Nat) (ctx : MAKE_CONTEXT) (t : TargetId) (i : Nat) (S : Bool)
      (res : Bool × Bool × MAKE_CONTEXT),
      MakeDetermineDependenciesForTargetLoop r1 m ctx t i S = some res →
      ∀ m', m ≤ m' → MakeDetermineDependenciesForTargetLoop r2 m' ctx t i S = some res := by
  intro m
  induction m with
  | zero =>
    intro ctx t i S res h
    simp [MakeDetermineDependenciesForTargetLoop] at h
  | succ n ih =>
    intro ctx t i S res h m' hm
    obtain ⟨k, rfl⟩ : ∃ k, m' = k + 1 := ⟨m' - 1, by omega⟩
    have hk : n ≤ k := by omega
    cases hget : (ctx.Target t).ParentDependents[i]? with
    | none =>
      rw [MakeDetermineDependenciesForTargetLoop_done _ _ _ _ _ _ hget] at h ⊢
      exact h
    | some d =>
      cases h1 : r1 (MakeDetermineDependenciesPopulateParent ctx d.Parent).2 d.Parent with
      | none =>
        rw [MakeDetermineDependenciesForTargetLoop] at h
        simp [hget, MakeDetermineDependenciesPopulateParent_fst, h1] at h
      | some x =>
        obtain ⟨ok, ctx2⟩ := x
        have h2 := hr _ _ _ h1
        cases ok with
        | false =>
          rw [MakeDetermineDependenciesForTargetLoop_abort _ _ _ _ _ _ _ _ hget h1] at h
          rw [MakeDetermineDependenciesForTargetLoop_abort _ _ _ _ _ _ _ _ hget h2]
          exact h
        | true =>
          rw [MakeDetermineDependenciesForTargetLoop_next _ _ _ _ _ _ _ _ hget h1] at h
          rw [MakeDetermineDependenciesForTargetLoop_next _ _ _ _ _ _ _ _ hget h2]
          exact ih _ _ _ _ _ h k hk

/-- More fuel does not change a result of the walk. -/
theorem MakeDetermineDependenciesForTarget_mono (env : MAKE_ENV) :
    ∀ (fuel : Nat) (ctx : MAKE_CONTEXT) (t : TargetId) (res : Bool × MAKE_CONTEXT),
      MakeDetermineDependenciesForTarget env fuel ctx t = some res →
      ∀ fuel', fuel ≤ fuel' → MakeDetermineDependenciesForTarget env fuel' ctx t = some res := by
  intro fuel
  induction fuel with
  | zero =>
    intro ctx t res h
    simp [MakeDetermineDependenciesForTarget] at h
  | succ n ih =>
    intro ctx t res h fuel' hf
    obtain ⟨k, rfl⟩ : ∃ k, fuel' = k + 1 := ⟨fuel' - 1, by omega⟩
    have hk : n ≤ k := by omega
    rw [MakeDetermineDependenciesForTarget] at h ⊢
    cases he : (ctx.Target t).DependenciesEvaluated with
    | true => simpa [he] using h
    | false =>
      simp only [he, Bool.false_eq_true, if_false] at h ⊢
      cases hl : MakeDetermineDependenciesForTargetLoop
          (fun c p => MakeDetermineDependenciesForTarget env n c p) (n + 1) ctx t 0 false with
      | none => simp [hl] at h
      | some x =>
        have h2 := @MakeDetermineDependenciesForTargetLoop_mono
          (fun c p => MakeDetermineDependenciesForTarget env n c p)
          (fun c p => MakeDetermineDependenciesForTarget env k c p)
          (fun c p res hc => ih c p res hc k hk) (n + 1) ctx t 0 false x hl (k + 1) (by omega)
        rw [hl] at h
        rw [h2]
        exact h

theorem MakeDetermineDependenciesForTargetLoop_terminates (env : MAKE_ENV)
    (rank : TargetId → Nat) (t : TargetId)
    (hpar : ∀ p, rank p < rank t → ∀ ctx, RankOK rank ctx →
      ∃ N, ∀ fuel, N ≤ fuel → ∃ res, MakeDetermineDependenciesForTarget env fuel ctx p = some res) :
    ∀ (k : Nat) (ctx : MAKE_CONTEXT) (i : Nat) (S : Bool), RankOK rank ctx →
      (ctx.Target t).ParentDependents.length ≤ i + k →
      ∃ N, ∀ n, N ≤ n → ∀ m, N ≤ m → ∃ res,
        MakeDetermineDependenciesForTargetLoop
          (fun c p => MakeDetermineDependenciesForTarget env n c p) m ctx t i S = some res := by
  intro k
  induction k with
  | zero =>
    intro ctx i S _ hlen
    refine ⟨1, fun n _ m hm => ?_⟩
    obtain ⟨m', rfl⟩ : ∃ m', m = m' + 1 := ⟨m - 1, by omega⟩
    exact ⟨_, MakeDetermineDependenciesForTargetLoop_done _ _ _ _ _ _
      (List.getElem?_eq_none_iff.mpr (by omega))⟩
  | succ k ih =>
    intro ctx i S hrank hlen
    cases hget : (ctx.Target t).ParentDependents[i]? with
    | none =>
      refine ⟨1, fun n _ m hm => ?_⟩
      obtain ⟨m', rfl⟩ : ∃ m', m = m' + 1 := ⟨m - 1, by omega⟩
      exact ⟨_, MakeDetermineDependenciesForTargetLoop_done _ _ _ _ _ _ hget⟩
    | some d =>
      have hd : d ∈ (ctx.Target t).ParentDependents := List.getElem?_mem hget
      have hrp : rank d.Parent < rank t := hrank.1 t d hd
      have hpt : d.Parent ≠ t := fun e => by rw [e] at hrp; exact lt_irrefl _ hrp
      obtain ⟨P1, P2⟩ := MakeDetermineDependenciesPopulateParent_frame hrank d.Parent
      obtain ⟨N1, hN1⟩ := hpar d.Parent hrp _ P1
      obtain ⟨res1, hres1⟩ := hN1 N1 (le_refl _)
      obtain ⟨ok, ctx2⟩ := res1
      cases ok with
      | false =>
        refine ⟨N1 + 1, fun n hn m hm => ?_⟩
        obtain ⟨m', rfl⟩ : ∃ m', m = m' + 1 := ⟨m - 1, by omega⟩
        have h2 := MakeDetermineDependenciesForTarget_mono env N1 _ _ _ hres1 n (by omega)
        exact ⟨_, MakeDetermineDependenciesForTargetLoop_abort
          (fun c p => MakeDetermineDependenciesForTarget env n c p) _ _ _ _ _ _ _ hget h2⟩
      | true =>
        obtain ⟨W1, W2, _, _⟩ := MakeDetermineDependenciesForTarget_frame env rank N1 _ _ _ P1 hres1
        obtain ⟨A2, j, A3⟩ := MakeDetermineDependenciesAccountParent_frame ctx2 t d S
        have ht2 : ctx2.Target t = ctx.Target t := by
          rw [W2 t (le_of_lt hrp) (Ne.symm hpt), P2 t (le_of_lt hrp) (Ne.symm hpt)]
        have hrank3 : RankOK rank (MakeDetermineDependenciesAccountParent ctx2 t d S).2 := by
          apply RankOK_of_lists W1
          · intro x
            by_cases e : x = t
            · subst e; rw [A3]
            · rw [A2 x e]
          · intro x
            by_cases e : x = t
            · subst e; rw [A3]
            · rw [A2 x e]
        have hlen3 : ((MakeDetermineDependenciesAccountParent ctx2 t d S).2.Target
            t).ParentDependents.length ≤ (i + 1) + k := by
          rw [A3]
          simp only
          rw [ht2]; omega
        obtain ⟨N2, hN2⟩ := ih _ (i + 1) (MakeDetermineDependenciesAccountParent ctx2 t d S).1
          hrank3 hlen3
        refine ⟨N1 + N2 + 1, fun n hn m hm => ?_⟩
        obtain ⟨m', rfl⟩ : ∃ m', m = m' + 1 := ⟨m - 1, by omega⟩
        have h2 := MakeDetermineDependenciesForTarget_mono env N1 _ _ _ hres1 n (by omega)
        rw [MakeDetermineDependenciesForTargetLoop_next
          (fun c p => MakeDetermineDependenciesForTarget env n c p) _ _ _ _ _ _ _ hget h2]
        exact hN2 n (by omega) m' (by omega)

/-- On a graph with a topological numbering the walk returns once the fuel
is large enough. -/
theorem MakeDetermineDependenciesForTarget_terminates (env : MAKE_ENV) (rank : TargetId → Nat) :
    ∀ (r : Nat) (t : TargetId), rank t < r → ∀ ctx, RankOK rank ctx →
      ∃ N, ∀ fuel, N ≤ fuel → ∃ res, MakeDetermineDependenciesForTarget env fuel ctx t = some res := by
  intro r
  induction r with
  | zero => intro t ht; exact absurd ht (Nat.not_lt_zero _)
  | succ r ih =>
    intro t ht ctx hrank
    obtain ⟨N0, hN0⟩ := MakeDetermineDependenciesForTargetLoop_terminates env rank t
      (fun p hp => ih p (by omega)) (ctx.Target t).ParentDependents.length ctx 0 false hrank
      (by omega)
    refine ⟨N0 + 1, fun fuel hf => ?_⟩
    obtain ⟨n, rfl⟩ : ∃ n, fuel = n + 1 := ⟨fuel - 1, by omega⟩
    rw [MakeDetermineDependenciesForTarget]
    obtain ⟨res, hres⟩ := hN0 n (by omega) (n + 1) (by omega)
    rw [hres]
    obtain ⟨ok, S, ctx1⟩ := res
    have tail : ∀ (b : Bool) (c : MAKE_CONTEXT), ∃ res : Bool × MAKE_CONTEXT,
        (if b = true then
          (match MakeMarkTargetForRebuild env c t with
            | (false, ctx3) => some (false, ctx3)
            | (true, ctx3) => some (true, ctx3))
        else some (true, c)) = some res := by
      intro b c
      cases b with
      | false => exact ⟨_, rfl⟩
      | true =>
        simp only [if_true]
        cases MakeMarkTargetForRebuild env c t with
        | mk ok c3 => cases ok <;> exact ⟨_, rfl⟩
    cases ok with
    | false => split <;> simp
    | true =>
      simp only
      split
      · exact ⟨_, rfl⟩
      · exact tail _ _

/-! ## Targets that cannot be built -/

theorem WalkPost_reaches {rank : TargetId → Nat} {R : Nat} {root : TargetId}
    {ctx ctx' : MAKE_CONTEXT} (W : WalkPost rank R root ctx ctx') (t : TargetId)
    (hreach : Reaches ctx root t) : (ctx'.Target t).DependenciesEvaluated = true := by
  unfold Reaches at hreach
  induction hreach with
  | refl => exact W.evaluated
  | tail _ hstep ih =>
    obtain ⟨e, he, rfl⟩ := hstep
    exact W.inv.parents _ ih e (W.mono _ e he)

theorem ScenarioUnbuildable_fresh : FreshContext ScenarioUnbuildable := by
  refine ⟨?_, rfl, rfl⟩
  intro t
  by_cases h0 : t = 0
  · subst h0; exact ⟨rfl, rfl, rfl, rfl⟩
  · by_cases h1 : t = 1
    · subst h1; exact ⟨rfl, rfl, rfl, rfl⟩
    · simp [ScenarioUnbuildable, h0, h1, MakeInitialTarget]

theorem ScenarioUnbuildable_acyclic : Acyclic ScenarioUnbuildable := by
  refine ⟨fun t => if t = 0 then 1 else 0, ?_, ?_⟩
  · intro t d hd
    by_cases h0 : t = 0
    · subst h0
      simp [ScenarioUnbuildable, MakeInitialTarget] at hd
      subst hd
      simp
    · by_cases h1 : t = 1
      · subst h1; simp [ScenarioUnbuildable, MakeInitialTarget] at hd
      · simp [ScenarioUnbuildable, h0, h1, MakeInitialTarget] at hd
  · intro t q hq
    by_cases h0 : t = 0
    · subst h0; simp [ScenarioUnbuildable, MakeInitialTarget] at hq
    · by_cases h1 : t = 1
      · subst h1; simp [ScenarioUnbuildable, MakeInitialTarget] at hq
      · simp [ScenarioUnbuildable, h0, h1, MakeInitialTarget] at hq

/-! ## Enumeration of inference rules -/

theorem YoriLibListEntryAfter_split (pre post : List RuleId) (p : RuleId) (hp : p ∉ pre) :
    YoriLibListEntryAfter (pre ++ p :: post) p = post.head? := by
  induction pre with
  | nil => simp [YoriLibListEntryAfter]
  | cons a pre ih =>
    have ha : a ≠ p := fun e => hp (by rw [e]; exact List.mem_cons_self _ _)
    have hp2 : p ∉ pre := fun e => hp (List.mem_cons_of_mem _ e)
    simp [YoriLibListEntryAfter, ha, ih hp2]

theorem ScopeChain_unique (ctx : MAKE_CONTEXT) :
    ∀ (c1 c2 : List ScopeId) (cur : Option ScopeId),
      ScopeChain ctx c1 cur → ScopeChain ctx c2 cur → c1 = c2 := by
  intro c1
  induction c1 with
  | nil =>
    intro c2 cur h1 h2
    cases c2 with
    | nil => rfl
    | cons s rest =>
      simp only [ScopeChain] at h1 h2
      rw [h1] at h2; cases h2.1
  | cons s rest ih =>
    intro c2 cur h1 h2
    cases c2 with
    | nil =>
      simp only [ScopeChain] at h1 h2
      rw [h2] at h1; cases h1.1
    | cons s2 rest2 =>
      simp only [ScopeChain] at h1 h2
      have e : s = s2 := by
        have := h1.1.symm.trans h2.1
        exact Option.some.inj this
      subst e
      rw [ih rest2 _ h1.2 h2.2]

theorem ScopeChain_suffix (ctx : MAKE_CONTEXT) :
    ∀ (A : List ScopeId) (s : ScopeId) (rest : List ScopeId) (cur : Option ScopeId),
      ScopeChain ctx (A ++ s :: rest) cur → ScopeChain ctx (s :: rest) (some s) := by
  intro A
  induction A with
  | nil =>
    intro s rest cur h
    simp only [List.nil_append, ScopeChain] at h ⊢
    exact ⟨trivial, h.2⟩
  | cons a A ih =>
    intro s rest cur h
    simp only [List.cons_append, ScopeChain] at h
    exact ih s rest _ h.2

theorem ScopeChain_nodup (ctx : MAKE_CONTEXT) :
    ∀ (chain : List ScopeId) (cur : Option ScopeId), ScopeChain ctx chain cur → chain.Nodup := by
  intro chain
  induction chain with
  | nil => intro _ _; exact List.nodup_nil
  | cons s rest ih =>
    intro cur h
    have h2 := h
    simp only [ScopeChain] at h
    refine List.nodup_cons.mpr ⟨?_, ih _ h.2⟩
    intro hmem
    obtain ⟨A, B, hAB⟩ := List.append_of_mem hmem
    have hs1 : ScopeChain ctx (s :: B) (some s) := by
      have := h.2
      rw [hAB] at this
      exact ScopeChain_suffix ctx A s B _ this
    have hs2 : ScopeChain ctx (s :: rest) (some s) := by
      simp only [ScopeChain]
      exact ⟨trivial, h.2⟩
    have := ScopeChain_unique ctx _ _ _ hs1 hs2
    have hlen := congrArg List.length this
    rw [hAB] at hlen
    simp at hlen
    omega

theorem ScopeChainRules_append (ctx : MAKE_CONTEXT) (A B : List ScopeId) :
    ScopeChainRules ctx (A ++ B) = ScopeChainRules ctx A ++ ScopeChainRules ctx B := by
  induction A with
  | nil => rfl
  | cons a A ih => simp [ScopeChainRules, ih]

theorem mem_ScopeChainRules (ctx : MAKE_CONTEXT) (chain : List ScopeId) (r : RuleId) :
    r ∈ ScopeChainRules ctx chain ↔ ∃ s ∈ chain, r ∈ (ctx.Scope s).InferenceRuleList := by
  induction chain with
  | nil => simp [ScopeChainRules]
  | cons a rest ih => simp [ScopeChainRules, ih]

theorem ScopeChainRules_nodup (ctx : MAKE_CONTEXT) (hwf : RuleListsWF ctx) :
    ∀ (chain : List ScopeId), chain.Nodup → (ScopeChainRules ctx chain).Nodup := by
  intro chain
  induction chain with
  | nil => intro _; exact List.nodup_nil
  | cons s rest ih =>
    intro h
    have hs := List.nodup_cons.mp h
    simp only [ScopeChainRules]
    refine List.nodup_append.mpr ⟨hwf.nodup s, ih hs.2, ?_⟩
    intro r hr1 hr2
    obtain ⟨s2, hs2, hr3⟩ := (mem_ScopeChainRules ctx rest r).mp hr2
    have e1 := hwf.scope s r hr1
    have e2 := hwf.scope s2 r hr3
    rw [e1] at e2
    subst e2
    exact hs.1 hs2

/-- Starting at the head of the list of `cur`, the walk returns the first rule
of the chain. -/
theorem MakeGetNextInferenceRuleWalk_head (ctx : MAKE_CONTEXT) :
    ∀ (chain : List ScopeId) (cur : Option ScopeId) (fuel : Nat), ScopeChain ctx chain cur →
      chain.length < fuel →
      MakeGetNextInferenceRuleWalk ctx fuel cur none = some (ScopeChainRules ctx chain).head? := by
  intro chain
  induction chain with
  | nil =>
    intro cur fuel h hf
    simp only [ScopeChain] at h
    subst h
    obtain ⟨n, rfl⟩ : ∃ n, fuel = n + 1 := ⟨fuel - 1, by simp at hf; omega⟩
    simp [MakeGetNextInferenceRuleWalk, ScopeChainRules]
  | cons s rest ih =>
    intro cur fuel h hf
    simp only [ScopeChain] at h
    obtain ⟨rfl, h2⟩ := h
    obtain ⟨n, rfl⟩ : ∃ n, fuel = n + 1 := ⟨fuel - 1, by simp at hf; omega⟩
    simp only [List.length_cons] at hf
    rw [MakeGetNextInferenceRuleWalk]
    simp only [YoriLibGetNextListEntry, ScopeChainRules]
    cases hl : (ctx.Scope s).InferenceRuleList with
    | nil =>
      simp only [List.head?_nil, List.nil_append]
      exact ih _ n h2 (by omega)
    | cons a l => simp

/-- The rule returned after `p`, which stands in the list of scope `s` of the
chain: the rule that follows `p` in the enumeration. -/
theorem MakeGetNextInferenceRule_after (ctx : MAKE_CONTEXT) (hwf : RuleListsWF ctx)
    (TopScope : ScopeId) (A : List ScopeId) (s : ScopeId) (rest : List ScopeId)
    (pre post : List RuleId) (p : RuleId) (fuel : Nat)
    (hchain : ScopeChain ctx (A ++ s :: rest) (some TopScope))
    (hlist : (ctx.Scope s).InferenceRuleList = pre ++ p :: post)
    (hf : (A ++ s :: rest).length < fuel) :
    MakeGetNextInferenceRule fuel ctx TopScope (some p) =
      some (post ++ ScopeChainRules ctx rest).head? := by
  have hps : (ctx.InferenceRule p).ScopeContext = s := hwf.scope s p (by rw [hlist]; simp)
  have hnd := hwf.nodup s
  rw [hlist] at hnd
  have hp : p ∉ pre := by
    intro hmem
    have := (List.nodup_append.mp hnd).2.2 hmem (List.mem_cons_self _ _)
    exact this
  have hs := ScopeChain_suffix ctx A s rest _ hchain
  simp only [ScopeChain] at hs
  obtain ⟨n, rfl⟩ : ∃ n, fuel = n + 1 := ⟨fuel - 1, by omega⟩
  simp only [List.length_append, List.length_cons] at hf
  unfold MakeGetNextInferenceRule
  simp only [hps]
  rw [MakeGetNextInferenceRuleWalk]
  simp only [YoriLibGetNextListEntry, hlist, YoriLibListEntryAfter_split pre post p hp]
  cases post with
  | nil =>
    simp only [List.head?_nil, List.nil_append]
    exact MakeGetNextInferenceRuleWalk_head ctx rest _ n hs.2 (by omega)
  | cons a l => simp

theorem MakeGetNextInferenceRule_first (ctx : MAKE_CONTEXT) (TopScope : ScopeId)
    (chain : List ScopeId) (fuel : Nat) (hchain : ScopeChain ctx chain (some TopScope))
    (hf : chain.length < fuel) :
    MakeGetNextInferenceRule fuel ctx TopScope none =
      some (ScopeChainRules ctx chain).head? := by
  unfold MakeGetNextInferenceRule
  exact MakeGetNextInferenceRuleWalk_head ctx chain _ fuel hchain hf

theorem ScopeChainRules_split (ctx : MAKE_CONTEXT) :
    ∀ (chain : List ScopeId) (L1 : List RuleId) (p : RuleId) (L2 : List RuleId),
      ScopeChainRules ctx chain = L1 ++ p :: L2 →
      ∃ A s rest pre post, chain = A ++ s :: rest ∧
        (ctx.Scope s).InferenceRuleList = pre ++ p :: post ∧
        L2 = post ++ ScopeChainRules ctx rest := by
  intro chain
  induction chain with
  | nil =>
    intro L1 p L2 h
    simp [ScopeChainRules] at h
  | cons s rest ih =>
    intro L1 p L2 h
    simp only [ScopeChainRules] at h
    rcases List.append_eq_append_iff.mp h with ⟨a', h1, h2⟩ | ⟨c', h1, h2⟩
    · obtain ⟨A, s2, rest2, pre, post, e1, e2, e3⟩ := ih a' p L2 h2
      exact ⟨s :: A, s2, rest2, pre, post, by rw [e1]; rfl, e2, e3⟩
    · cases c' with
      | nil =>
        simp only [List.nil_append] at h2
        obtain ⟨A, s2, rest2, pre, post, e1, e2, e3⟩ := ih [] p L2 h2.symm
        exact ⟨s :: A, s2, rest2, pre, post, by rw [e1]; rfl, e2, e3⟩
      | cons c c'' =>
        simp only [List.cons_append, List.cons.injEq] at h2
        obtain ⟨rfl, e⟩ := h2
        exact ⟨[], s, rest, L1, c'', rfl, h1, e⟩

/-- The rule returned after `p`: the one that follows `p` in the rules of the
chain. -/
theorem MakeGetNextInferenceRule_next (ctx : MAKE_CONTEXT) (hwf : RuleListsWF ctx)
    (TopScope : ScopeId) (chain : List ScopeId) (L1 L2 : List RuleId) (p : RuleId) (fuel : Nat)
    (hchain : ScopeChain ctx chain (some TopScope))
    (hsplit : ScopeChainRules ctx chain = L1 ++ p :: L2) (hf : chain.length < fuel) :
    MakeGetNextInferenceRule fuel ctx TopScope (some p) = some L2.head? := by
  obtain ⟨A, s, rest, pre, post, e1, e2, e3⟩ := ScopeChainRules_split ctx chain L1 p L2 hsplit
  subst e1 e3
  exact MakeGetNextInferenceRule_after ctx hwf TopScope A s rest pre post p fuel hchain e2 hf

theorem getLast?_concat_rule (d : List RuleId) (p : RuleId) : (d ++ [p]).getLast? = some p := by
  simp [List.getLast?_append, Option.or]

/-- The cursor that stands after the rules `done` of the chain. -/
theorem MakeGetNextInferenceRule_cursor (ctx : MAKE_CONTEXT) (hwf : RuleListsWF ctx)
    (TopScope : ScopeId) (chain : List ScopeId) (done todo : List RuleId) (fuel : Nat)
    (hchain : ScopeChain ctx chain (some TopScope))
    (hsplit : ScopeChainRules ctx chain = done ++ todo) (hf : chain.length < fuel) :
    MakeGetNextInferenceRule fuel ctx TopScope done.getLast? = some todo.head? := by
  rcases List.eq_nil_or_concat done with rfl | ⟨d, p, rfl⟩
  · simp only [List.getLast?_nil]
    rw [MakeGetNextInferenceRule_first ctx TopScope chain fuel hchain hf, hsplit]
    simp
  · rw [List.concat_eq_append] at hsplit ⊢
    rw [getLast?_concat_rule]
    apply MakeGetNextInferenceRule_next ctx hwf TopScope chain d todo p fuel hchain _ hf
    rw [hsplit]; simp

theorem MakeEnumerateInferenceRules_cursor (ctx : MAKE_CONTEXT) (hwf : RuleListsWF ctx)
    (TopScope : ScopeId) (chain : List ScopeId)
    (hchain : ScopeChain ctx chain (some TopScope)) :
    ∀ (todo done : List RuleId) (fuel : Nat), ScopeChainRules ctx chain = done ++ todo →
      todo.length + chain.length + 1 < fuel →
      MakeEnumerateInferenceRules ctx TopScope fuel done.getLast? = some todo := by
  intro todo
  induction todo with
  | nil =>
    intro done fuel hsplit hf
    obtain ⟨n, rfl⟩ : ∃ n, fuel = n + 1 := ⟨fuel - 1, by omega⟩
    rw [MakeEnumerateInferenceRules,
      MakeGetNextInferenceRule_cursor ctx hwf TopScope chain done [] n hchain hsplit
        (by simp at hf; omega)]
    simp
  | cons r todo ih =>
    intro done fuel hsplit hf
    obtain ⟨n, rfl⟩ : ∃ n, fuel = n + 1 := ⟨fuel - 1, by omega⟩
    simp only [List.length_cons] at hf
    rw [MakeEnumerateInferenceRules,
      MakeGetNextInferenceRule_cursor ctx hwf TopScope chain done (r :: todo) n hchain hsplit
        (by omega)]
    simp only [List.head?_cons]
    have := ih (done ++ [r]) n (by rw [hsplit]; simp) (by omega)
    rw [getLast?_concat_rule] at this
    rw [this]

theorem MakeCreateInferenceRule_lists (ctx : MAKE_CONTEXT) (s : ScopeId)
    (SourceExt TargetExt : YORI_STRING) (Carrier : TargetId) (hwf : RuleListsWF ctx) :
    (MakeCreateInferenceRule ctx s SourceExt TargetExt Carrier).1 = ctx.AllocInferenceRule ∧
    ((MakeCreateInferenceRule ctx s SourceExt TargetExt Carrier).2.Scope s).InferenceRuleList =
      (MakeCreateInferenceRule ctx s SourceExt TargetExt Carrier).1 ::
        (ctx.Scope s).InferenceRuleList ∧
    (∀ s2, s2 ≠ s →
      (MakeCreateInferenceRule ctx s SourceExt TargetExt Carrier).2.Scope s2 = ctx.Scope s2) ∧
    (∀ s2, ((MakeCreateInferenceRule ctx s SourceExt TargetExt Carrier).2.Scope s2).ParentScope =
      (ctx.Scope s2).ParentScope) ∧
    RuleListsWF (MakeCreateInferenceRule ctx s SourceExt TargetExt Carrier).2 := by
  have hS : ∀ s2, (MakeCreateInferenceRule ctx s SourceExt TargetExt Carrier).2.Scope s2 =
      if s2 = s then { ctx.Scope s with
        InferenceRuleList := ctx.AllocInferenceRule :: (ctx.Scope s).InferenceRuleList }
      else ctx.Scope s2 := by
    intro s2
    simp [MakeCreateInferenceRule, MAKE_CONTEXT.setScope, MAKE_CONTEXT.setRule,
      MAKE_CONTEXT.setTarget, Function.update_apply]
  have hR : ∀ r, (MakeCreateInferenceRule ctx s SourceExt TargetExt Carrier).2.InferenceRule r =
      if r = ctx.AllocInferenceRule then
        { SourceExtension := SourceExt, TargetExtension := TargetExt, Target := Carrier,
          ScopeContext := s, ReferenceCount := 1 }
      else ctx.InferenceRule r := by
    intro r
    simp [MakeCreateInferenceRule, MAKE_CONTEXT.setScope, MAKE_CONTEXT.setRule,
      MAKE_CONTEXT.setTarget, Function.update_apply]
  have hA : (MakeCreateInferenceRule ctx s SourceExt TargetExt Carrier).2.AllocInferenceRule =
      ctx.AllocInferenceRule + 1 := by
    simp [MakeCreateInferenceRule, MAKE_CONTEXT.setScope, MAKE_CONTEXT.setRule,
      MAKE_CONTEXT.setTarget]
  have hmem : ∀ s2 r, r ∈ ((MakeCreateInferenceRule ctx s SourceExt TargetExt
      Carrier).2.Scope s2).InferenceRuleList →
      (r = ctx.AllocInferenceRule ∧ s2 = s) ∨
        (r ∈ (ctx.Scope s2).InferenceRuleList ∧ r ≠ ctx.AllocInferenceRule) := by
    intro s2 r hr
    rw [hS] at hr
    by_cases e : s2 = s
    · subst e
      simp only [if_true, List.mem_cons] at hr
      rcases hr with hr | hr
      · exact Or.inl ⟨hr, rfl⟩
      · exact Or.inr ⟨hr, Nat.ne_of_lt (hwf.allocated _ r hr)⟩
    · simp only [e, if_false] at hr
      exact Or.inr ⟨hr, Nat.ne_of_lt (hwf.allocated _ r hr)⟩
  refine ⟨rfl, ?_, ?_, ?_, ⟨?_, ?_, ?_⟩⟩
  · rw [hS]; simp; rfl
  · intro s2 e; rw [hS]; simp [e]
  · intro s2; rw [hS]; by_cases e : s2 = s
    · subst e; simp
    · simp [e]
  · intro s2 r hr
    rw [hR]
    rcases hmem s2 r hr with ⟨e1, e2⟩ | ⟨h1, h2⟩
    · simp [e1, e2]
    · simp [h2]; exact hwf.scope s2 r h1
  · intro s2
    rw [hS]
    by_cases e : s2 = s
    · subst e
      simp only [if_true]
      refine List.nodup_cons.mpr ⟨?_, hwf.nodup s2⟩
      intro hm
      exact absurd (hwf.allocated _ _ hm) (lt_irrefl _)
    · simp only [e, if_false]; exact hwf.nodup s2
  · intro s2 r hr
    rw [hA]
    rcases hmem s2 r hr with ⟨e1, _⟩ | ⟨h1, _⟩
    · rw [e1]; exact Nat.lt_succ_self _
    · exact Nat.lt_succ_of_lt (hwf.allocated s2 r h1)

/-- C10: rule enumeration order.  On a well-formed registry and a scope chain
from `TopScope` up to the root, calling `MakeGetNextInferenceRule` with
`NULL` and then with the previous result returns, and then ends with `NULL`
after, the rule list of `TopScope`, then that of its parent, and so on up to
the root, each rule once; and `MakeCreateInferenceRule` puts the new rule at
the head of the list of its scope, so that each list is newest first. -/
theorem MakeGetNextInferenceRule_enumeration (ctx : MAKE_CONTEXT) (TopScope : ScopeId)
    (chain : List ScopeId) (hwf : RuleListsWF ctx)
    (hchain : ScopeChain ctx chain (some TopScope)) :
    (∃ N, ∀ fuel, N ≤ fuel →
      MakeEnumerateInferenceRules ctx TopScope fuel none = some (ScopeChainRules ctx chain)) ∧
    (ScopeChainRules ctx chain).Nodup ∧
    (∀ (s : ScopeId) (SourceExt TargetExt : YORI_STRING) (Carrier : TargetId),
      ((MakeCreateInferenceRule ctx s SourceExt TargetExt Carrier).2.Scope s).InferenceRuleList =
        (MakeCreateInferenceRule ctx s SourceExt TargetExt Carrier).1 ::
          (ctx.Scope s).InferenceRuleList ∧
      (∀ s2, s2 ≠ s →
        (MakeCreateInferenceRule ctx s SourceExt TargetExt Carrier).2.Scope s2 = ctx.Scope s2) ∧
      (∀ s2, ((MakeCreateInferenceRule ctx s SourceExt TargetExt Carrier).2.Scope s2).ParentScope =
        (ctx.Scope s2).ParentScope) ∧
      RuleListsWF (MakeCreateInferenceRule ctx s SourceExt TargetExt Carrier).2) := by
  refine ⟨⟨(ScopeChainRules ctx chain).length + chain.length + 2, fun fuel hf => ?_⟩, ?_, ?_⟩
  · have := MakeEnumerateInferenceRules_cursor ctx hwf TopScope chain hchain
      (ScopeChainRules ctx chain) [] fuel rfl (by omega)
    simpa using this
  · exact ScopeChainRules_nodup ctx hwf chain (ScopeChain_nodup ctx chain _ hchain)
  · intro s SourceExt TargetExt Carrier
    exact (MakeCreateInferenceRule_lists ctx s SourceExt TargetExt Carrier hwf).2

/-! ## The registry under changes of other parts of the context -/

theorem SameRules_refl (ctx : MAKE_CONTEXT) : SameRules ctx ctx :=
  ⟨fun _ => ⟨rfl, rfl, rfl⟩, fun _ => ⟨rfl, rfl, rfl⟩, rfl⟩

theorem SameRules_trans {a b c : MAKE_CONTEXT} (h1 : SameRules a b) (h2 : SameRules b c) :
    SameRules a c :=
  ⟨fun s => ⟨(h2.1 s).1.trans (h1.1 s).1, (h2.1 s).2.1.trans (h1.1 s).2.1,
      (h2.1 s).2.2.trans (h1.1 s).2.2⟩,
    fun r => ⟨(h2.2.1 r).1.trans (h1.2.1 r).1, (h2.2.1 r).2.1.trans (h1.2.1 r).2.1,
      (h2.2.1 r).2.2.trans (h1.2.1 r).2.2⟩,
    h2.2.2.trans h1.2.2⟩

theorem ScopeChain_transfer {ctx ctx' : MAKE_CONTEXT} (h : SameRules ctx ctx') :
    ∀ (chain : List ScopeId) (cur : Option ScopeId),
      ScopeChain ctx chain cur → ScopeChain ctx' chain cur := by
  intro chain
  induction chain with
  | nil => intro cur hc; exact hc
  | cons s rest ih =>
    intro cur hc
    simp only [ScopeChain] at hc ⊢
    refine ⟨hc.1, ?_⟩
    rw [(h.1 s).2.1]
    exact ih _ hc.2

theorem ScopeChainRules_transfer {ctx ctx' : MAKE_CONTEXT} (h : SameRules ctx ctx')
    (chain : List ScopeId) : ScopeChainRules ctx' chain = ScopeChainRules ctx chain := by
  induction chain with
  | nil => rfl
  | cons s rest ih => simp only [ScopeChainRules, ih, (h.1 s).1]

theorem MakeRuleGenerates_transfer {ctx ctx' : MAKE_CONTEXT} (h : SameRules ctx ctx')
    (Ext : YORI_STRING) : MakeRuleGenerates ctx' Ext = MakeRuleGenerates ctx Ext := by
  funext r
  simp only [MakeRuleGenerates, (h.2.1 r).2.2]

theorem Registry_transfer {ctx ctx' : MAKE_CONTEXT} {TopScope : ScopeId} {chain : List ScopeId}
    {all : List RuleId} (h : SameRules ctx ctx') (R : Registry ctx TopScope chain all) :
    Registry ctx' TopScope chain all := by
  refine ⟨⟨?_, ?_, ?_⟩, ScopeChain_transfer h chain _ R.scopes, ?_⟩
  · intro s r hr
    rw [(h.1 s).1] at hr
    rw [(h.2.1 r).1]
    exact R.wf.scope s r hr
  · intro s
    rw [(h.1 s).1]
    exact R.wf.nodup s
  · intro s r hr
    rw [(h.1 s).1] at hr
    rw [h.2.2]
    exact R.wf.allocated s r hr
  · rw [ScopeChainRules_transfer h]; exact R.rules

/-! ## Cursors over the rules that generate an extension -/

theorem MakeGetNextInferenceRuleTargetExtensionLoop_cursor {ctx : MAKE_CONTEXT}
    {TopScope : ScopeId} {chain : List ScopeId} {all : List RuleId}
    (R : Registry ctx TopScope chain all) (Ext : YORI_STRING) :
    ∀ (todo done : List RuleId) (fuel : Nat), all = done ++ todo →
      todo.length + chain.length < fuel →
      MakeGetNextInferenceRuleTargetExtensionLoop ctx TopScope Ext fuel todo.head? =
        some (todo.find? (MakeRuleGenerates ctx Ext)) := by
  intro todo
  induction todo with
  | nil =>
    intro done fuel _ hf
    obtain ⟨n, rfl⟩ : ∃ n, fuel = n + 1 := ⟨fuel - 1, by omega⟩
    simp [MakeGetNextInferenceRuleTargetExtensionLoop]
  | cons r todo ih =>
    intro done fuel hsplit hf
    obtain ⟨n, rfl⟩ : ∃ n, fuel = n + 1 := ⟨fuel - 1, by omega⟩
    simp only [List.length_cons] at hf
    simp only [List.head?_cons, MakeGetNextInferenceRuleTargetExtensionLoop, List.find?_cons]
    by_cases hm : YoriLibCompareStringInsensitive Ext (ctx.InferenceRule r).TargetExtension = 0
    · simp [hm, MakeRuleGenerates]
    · have hg : MakeRuleGenerates ctx Ext r = false := by simp [MakeRuleGenerates, hm]
      simp only [hm, if_false, hg]
      rw [MakeGetNextInferenceRule_next ctx R.wf TopScope chain done todo r n R.scopes
        (by rw [R.rules, hsplit]) (by omega)]
      exact ih (done ++ [r]) n (by rw [hsplit]; simp) (by omega)

/-- The next rule that generates `Ext` after the rules `done`. -/
theorem MakeGetNextInferenceRuleTargetExtension_cursor {ctx : MAKE_CONTEXT}
    {TopScope : ScopeId} {chain : List ScopeId} {all : List RuleId}
    (R : Registry ctx TopScope chain all) (Ext : YORI_STRING) (done todo : List RuleId)
    (fuel : Nat) (hsplit : all = done ++ todo) (hf : todo.length + chain.length < fuel) :
    MakeGetNextInferenceRuleTargetExtension fuel ctx TopScope Ext done.getLast? =
      some (todo.find? (MakeRuleGenerates ctx Ext)) := by
  unfold MakeGetNextInferenceRuleTargetExtension
  rw [MakeGetNextInferenceRule_cursor ctx R.wf TopScope chain done todo fuel R.scopes
    (by rw [R.rules, hsplit]) (by omega)]
  exact MakeGetNextInferenceRuleTargetExtensionLoop_cursor R Ext todo done fuel hsplit hf

theorem MakeFindLongestSourceExt_cursor {ctx : MAKE_CONTEXT} {TopScope : ScopeId}
    {chain : List ScopeId} {all : List RuleId} (R : Registry ctx TopScope chain all) :
    ∀ (todo done : List RuleId) (fuel : Nat) (L : Nat), all = done ++ todo →
      todo.length + chain.length < fuel →
      ∃ L', MakeFindLongestSourceExt ctx TopScope fuel todo.head? L = some L' ∧ L ≤ L' ∧
        ∀ r ∈ todo, (ctx.InferenceRule r).SourceExtension.length ≤ L' := by
  intro todo
  induction todo with
  | nil =>
    intro done fuel L _ hf
    obtain ⟨n, rfl⟩ : ∃ n, fuel = n + 1 := ⟨fuel - 1, by omega⟩
    exact ⟨L, by simp [MakeFindLongestSourceExt], le_refl _, by simp⟩
  | cons r todo ih =>
    intro done fuel L hsplit hf
    obtain ⟨n, rfl⟩ : ∃ n, fuel = n + 1 := ⟨fuel - 1, by omega⟩
    simp only [List.length_cons] at hf
    simp only [List.head?_cons, MakeFindLongestSourceExt]
    rw [MakeGetNextInferenceRule_next ctx R.wf TopScope chain done todo r n R.scopes
      (by rw [R.rules, hsplit]) (by omega)]
    obtain ⟨L', h1, h2, h3⟩ := ih (done ++ [r]) n
      (if (ctx.InferenceRule r).SourceExtension.length > L then
        (ctx.InferenceRule r).SourceExtension.length else L) (by rw [hsplit]; simp) (by omega)
    refine ⟨L', h1, ?_, ?_⟩
    · split at h2 <;> omega
    · intro x hx
      rcases List.mem_cons.mp hx with e | e
      · subst e; split at h2 <;> omega
      · exact h3 x e

/-! ## Interning a path and assigning a rule -/

@[simp] theorem withProbe_Target (ctx : MAKE_CONTEXT) (b : MAKE_PROBE_BUFFER) :
    (ctx.withProbe b).Target = ctx.Target := rfl

@[simp] theorem withProbe_InferenceRule (ctx : MAKE_CONTEXT) (b : MAKE_PROBE_BUFFER) :
    (ctx.withProbe b).InferenceRule = ctx.InferenceRule := rfl

@[simp] theorem withProbe_Scope (ctx : MAKE_CONTEXT) (b : MAKE_PROBE_BUFFER) :
    (ctx.withProbe b).Scope = ctx.Scope := rfl

@[simp] theorem withProbe_FileToProbe (ctx : MAKE_CONTEXT) (b : MAKE_PROBE_BUFFER) :
    (ctx.withProbe b).FileToProbe = b := rfl

@[simp] theorem withProbe_withProbe (ctx : MAKE_CONTEXT) (a b : MAKE_PROBE_BUFFER) :
    (ctx.withProbe a).withProbe b = ctx.withProbe b := rfl

theorem withProbe_self (ctx : MAKE_CONTEXT) : ctx.withProbe ctx.FileToProbe = ctx := rfl

theorem SameRules_withProbe (ctx : MAKE_CONTEXT) (b : MAKE_PROBE_BUFFER) :
    SameRules ctx (ctx.withProbe b) :=
  ⟨fun _ => ⟨rfl, rfl, rfl⟩, fun _ => ⟨rfl, rfl, rfl⟩, rfl⟩

theorem MakeLookupOrCreateTarget_withProbe (env : MAKE_ENV) (ctx : MAKE_CONTEXT)
    (b : MAKE_PROBE_BUFFER) (S : ScopeId) (name : YORI_STRING) :
    MakeLookupOrCreateTarget env (ctx.withProbe b) S name =
      ((MakeLookupOrCreateTarget env ctx S name).1,
        (MakeLookupOrCreateTarget env ctx S name).2.withProbe b) := by
  unfold MakeLookupOrCreateTarget
  simp only [withProbe_Scope]
  cases env.YoriLibGetFullPathNameRelativeTo (ctx.Scope S).Key name with
  | none => rfl
  | some path =>
    simp only
    have : (ctx.withProbe b).Targets = ctx.Targets := rfl
    rw [this]
    cases YoriLibHashLookupByKey ctx.Targets path with
    | none => rfl
    | some t => rfl

@[simp] theorem MakeReferenceInferenceRule_Target (ctx : MAKE_CONTEXT) (r : RuleId) :
    (MakeReferenceInferenceRule ctx r).Target = ctx.Target := rfl

@[simp] theorem MakeReferenceScope_Target (ctx : MAKE_CONTEXT) (s : ScopeId) :
    (MakeReferenceScope ctx s).Target = ctx.Target := rfl

theorem YoriLibHashLookupByKey_some (Targets : List (YORI_STRING × TargetId)) (Key : YORI_STRING)
    (t : TargetId) (h : YoriLibHashLookupByKey Targets Key = some t) : (Key, t) ∈ Targets := by
  induction Targets with
  | nil => simp [YoriLibHashLookupByKey] at h
  | cons e rest ih =>
    unfold YoriLibHashLookupByKey at h
    by_cases he : e.1 = Key
    · simp only [he, if_true, Option.some.injEq] at h
      rw [← he, ← h]
      exact List.mem_cons_self _ _
    · simp only [he, if_false] at h
      exact List.mem_cons_of_mem _ (ih h)

/-- What interning a path that resolves to `path` gives. -/
theorem MakeLookupOrCreateTarget_post (env : MAKE_ENV) (ctx : MAKE_CONTEXT) (S : ScopeId)
    (name path : YORI_STRING)
    (hres : env.YoriLibGetFullPathNameRelativeTo (ctx.Scope S).Key name = some path)
    (htab : TableWF ctx) :
    ∃ id ctx', MakeLookupOrCreateTarget env ctx S name = (some id, ctx') ∧
      (ctx'.Target id).Key = path ∧ id < ctx'.AllocTarget ∧
      ctx.AllocTarget ≤ ctx'.AllocTarget ∧ TableWF ctx' ∧
      (∀ x, x < ctx.AllocTarget → ctx'.Target x = ctx.Target x) ∧
      ctx'.InferenceRule = ctx.InferenceRule ∧ ctx'.Scope = ctx.Scope ∧
      ctx'.AllocInferenceRule = ctx.AllocInferenceRule ∧ ctx'.FileToProbe = ctx.FileToProbe := by
  unfold MakeLookupOrCreateTarget
  simp only [hres]
  cases hl : YoriLibHashLookupByKey ctx.Targets path with
  | some t =>
    have hmem := YoriLibHashLookupByKey_some _ _ _ hl
    exact ⟨t, ctx, rfl, (htab _ hmem).2, (htab _ hmem).1, le_refl _, htab, fun _ _ => rfl,
      rfl, rfl, rfl, rfl⟩
  | none =>
    refine ⟨ctx.AllocTarget, _, rfl, ?_, ?_, ?_, ?_, ?_, rfl, rfl, rfl, rfl⟩
    · simp [MakeInitialTarget]
    · simp
    · simp
    · intro e he
      simp only [List.mem_append, List.mem_singleton] at he
      rcases he with he | he
      · have := htab e he
        refine ⟨Nat.lt_succ_of_lt this.1, ?_⟩
        simp only [Function.update_apply, Nat.ne_of_lt this.1, if_false]
        exact this.2
      · subst he
        simp [MakeInitialTarget]
    · intro x hx
      simp [Function.update_apply, Nat.ne_of_lt hx]

/-- What assigning `rule` to target `T` with a source path that resolves to
`path` gives. -/
theorem MakeAssignInferenceRuleToTarget_post (env : MAKE_ENV) (ctx : MAKE_CONTEXT) (S : ScopeId)
    (T : TargetId) (rule : RuleId) (name path : YORI_STRING)
    (hres : env.YoriLibGetFullPathNameRelativeTo (ctx.Scope S).Key name = some path)
    (htab : TableWF ctx) (hT : T < ctx.AllocTarget) :
    ∃ pid ctx', MakeAssignInferenceRuleToTarget env ctx S T rule name = (true, ctx') ∧
      (ctx'.Target T).InferenceRule = some rule ∧
      (ctx'.Target T).InferenceRuleParentTarget = some pid ∧
      (ctx'.Target pid).Key = path ∧ pid < ctx'.AllocTarget ∧
      ctx.AllocTarget ≤ ctx'.AllocTarget ∧ TableWF ctx' ∧ SameRules ctx ctx' ∧
      ctx'.FileToProbe = ctx.FileToProbe ∧
      (∀ x, x < ctx.AllocTarget → (ctx'.Target x).Key = (ctx.Target x).Key) ∧
      (∀ x, x < ctx.AllocTarget → x ≠ T →
        (ctx'.Target x).InferenceRule = (ctx.Target x).InferenceRule ∧
        (ctx'.Target x).InferenceRuleParentTarget = (ctx.Target x).InferenceRuleParentTarget) := by
  obtain ⟨pid, c1, h1, hkey, hpid, hle, htab1, hold, hR, hSc, hA, hF⟩ :=
    MakeLookupOrCreateTarget_post env ctx S name path hres htab
  have hT1 : T < c1.AllocTarget := lt_of_lt_of_le hT hle
  unfold MakeAssignInferenceRuleToTarget
  rw [h1]
  simp only
  -- the fields of every target after the assignment
  have key : ∀ c : MAKE_CONTEXT,
      (∀ x, (c.Target x).Key = (c1.Target x).Key) →
      (∀ x, (c.Target x).InferenceRule = if x = T then some rule else (c1.Target x).InferenceRule) →
      (∀ x, (c.Target x).InferenceRuleParentTarget =
        if x = T then some pid else (c1.Target x).InferenceRuleParentTarget) →
      c.Targets = c1.Targets → c.AllocTarget = c1.AllocTarget →
      SameRules c1 c → c.FileToProbe = c1.FileToProbe →
      (c.Target T).InferenceRule = some rule ∧
      (c.Target T).InferenceRuleParentTarget = some pid ∧
      (c.Target pid).Key = path ∧ pid < c.AllocTarget ∧
      ctx.AllocTarget ≤ c.AllocTarget ∧ TableWF c ∧ SameRules ctx c ∧
      c.FileToProbe = ctx.FileToProbe ∧
      (∀ x, x < ctx.AllocTarget → (c.Target x).Key = (ctx.Target x).Key) ∧
      (∀ x, x < ctx.AllocTarget → x ≠ T →
        (c.Target x).InferenceRule = (ctx.Target x).InferenceRule ∧
        (c.Target x).InferenceRuleParentTarget = (ctx.Target x).InferenceRuleParentTarget) := by
    intro c hK hI hP hTab hAl hSame hProbe
    refine ⟨by rw [hI]; simp, by rw [hP]; simp, by rw [hK]; exact hkey, by rw [hAl]; exact hpid,
      by rw [hAl]; exact hle, ?_, ?_, hProbe.trans hF, ?_, ?_⟩
    · intro e he
      rw [hTab] at he
      rw [hAl, hK]
      exact htab1 e he
    · refine SameRules_trans ?_ hSame
      exact ⟨fun s => by rw [hSc]; exact ⟨rfl, rfl, rfl⟩, fun r => by rw [hR]; exact ⟨rfl, rfl, rfl⟩,
        hA⟩
    · intro x hx
      rw [hK, hold x hx]
    · intro x hx hxT
      rw [hI, hP, hold x hx]
      simp [hxT]
  split
  · refine ⟨pid, _, rfl, key _ ?_ ?_ ?_ ?_ ?_ ?_ ?_⟩
    · intro x
      by_cases e1 : x = T
      · subst e1
        by_cases e2 : x = pid
        · subst e2; simp
        · simp [e2]
      · by_cases e2 : x = pid
        · subst e2; simp [e1]
        · simp [e1, e2]
    · intro x
      by_cases e1 : x = T
      · subst e1
        by_cases e2 : x = pid
        · subst e2; simp
        · simp [e2]
      · by_cases e2 : x = pid
        · subst e2; simp [e1]
        · simp [e1, e2]
    · intro x
      by_cases e1 : x = T
      · subst e1
        by_cases e2 : x = pid
        · subst e2; simp
        · simp [e2]
      · by_cases e2 : x = pid
        · subst e2; simp [e1]
        · simp [e1, e2]
    · rfl
    · rfl
    · refine ⟨fun s => ?_, fun r => ?_, rfl⟩
      · by_cases e : s = S
        · subst e
          simp [MakeReferenceScope, MakeReferenceInferenceRule, MAKE_CONTEXT.setScope,
            MAKE_CONTEXT.setRule, MAKE_CONTEXT.setTarget]
        · simp [MakeReferenceScope, MakeReferenceInferenceRule, MAKE_CONTEXT.setScope,
            MAKE_CONTEXT.setRule, MAKE_CONTEXT.setTarget, Function.update_apply, e]
      · by_cases e : r = rule
        · subst e
          simp [MakeReferenceScope, MakeReferenceInferenceRule, MAKE_CONTEXT.setScope,
            MAKE_CONTEXT.setRule, MAKE_CONTEXT.setTarget]
        · simp [MakeReferenceScope, MakeReferenceInferenceRule, MAKE_CONTEXT.setScope,
            MAKE_CONTEXT.setRule, MAKE_CONTEXT.setTarget, Function.update_apply, e]
    · rfl
  · refine ⟨pid, _, rfl, key _ ?_ ?_ ?_ ?_ ?_ ?_ ?_⟩
    · intro x
      by_cases e1 : x = T
      · subst e1
        by_cases e2 : x = pid
        · subst e2; simp
        · simp [e2]
      · by_cases e2 : x = pid
        · subst e2; simp [e1]
        · simp [e1, e2]
    · intro x
      by_cases e1 : x = T
      · subst e1
        by_cases e2 : x = pid
        · subst e2; simp
        · simp [e2]
      · by_cases e2 : x = pid
        · subst e2; simp [e1]
        · simp [e1, e2]
    · intro x
      by_cases e1 : x = T
      · subst e1
        by_cases e2 : x = pid
        · subst e2; simp
        · simp [e2]
      · by_cases e2 : x = pid
        · subst e2; simp [e1]
        · simp [e1, e2]
    · rfl
    · rfl
    · refine ⟨fun s => ?_, fun r => ?_, rfl⟩
      · by_cases e : s = S
        · subst e
          simp [MakeReferenceScope, MakeReferenceInferenceRule, MAKE_CONTEXT.setScope,
            MAKE_CONTEXT.setRule, MAKE_CONTEXT.setTarget]
        · simp [MakeReferenceScope, MakeReferenceInferenceRule, MAKE_CONTEXT.setScope,
            MAKE_CONTEXT.setRule, MAKE_CONTEXT.setTarget, Function.update_apply, e]
      · by_cases e : r = rule
        · subst e
          simp [MakeReferenceScope, MakeReferenceInferenceRule, MAKE_CONTEXT.setScope,
            MAKE_CONTEXT.setRule, MAKE_CONTEXT.setTarget]
        · simp [MakeReferenceScope, MakeReferenceInferenceRule, MAKE_CONTEXT.setScope,
            MAKE_CONTEXT.setRule, MAKE_CONTEXT.setTarget, Function.update_apply, e]
    · rfl

/-! ## The probe buffer -/

theorem MakeProbeBufferPrint_withProbe (c : MAKE_CONTEXT) (b : MAKE_PROBE_BUFFER)
    (stem Ext : YORI_STRING) (hb : ProbeStem b stem) :
    MakeProbeBufferPrint (c.withProbe b) Ext =
      c.withProbe { b with StartOfString := stem ++ Ext } := by
  unfold MakeProbeBufferPrint MAKE_CONTEXT.withProbe
  simp only [hb.1, hb.2]

theorem ProbeStem_print (b : MAKE_PROBE_BUFFER) (stem Ext : YORI_STRING) (hb : ProbeStem b stem) :
    ProbeStem { b with StartOfString := stem ++ Ext } stem :=
  ⟨hb.1, by simp⟩

theorem MakeRuleGenerates_withProbe (c : MAKE_CONTEXT) (b : MAKE_PROBE_BUFFER)
    (Ext : YORI_STRING) : MakeRuleGenerates (c.withProbe b) Ext = MakeRuleGenerates c Ext := rfl

theorem Registry_withProbe {c : MAKE_CONTEXT} {TopScope : ScopeId} {chain : List ScopeId}
    {all : List RuleId} (R : Registry c TopScope chain all) (b : MAKE_PROBE_BUFFER) :
    Registry (c.withProbe b) TopScope chain all :=
  Registry_transfer (SameRules_withProbe c b) R

/-- The next rule that generates `Ext` after rule `r`, which follows the
rules `done` in the enumeration. -/
theorem MakeGetNextInferenceRuleTargetExtension_after {c : MAKE_CONTEXT} {TopScope : ScopeId}
    {chain : List ScopeId} {all : List RuleId} (R : Registry c TopScope chain all)
    (b : MAKE_PROBE_BUFFER) (Ext : YORI_STRING) (done : List RuleId) (r : RuleId)
    (todo : List RuleId) (fuel : Nat) (hsplit : all = done ++ r :: todo)
    (hf : todo.length + chain.length < fuel) :
    MakeGetNextInferenceRuleTargetExtension fuel (c.withProbe b) TopScope Ext (some r) =
      some (todo.find? (MakeRuleGenerates c Ext)) := by
  have := MakeGetNextInferenceRuleTargetExtension_cursor (Registry_withProbe R b) Ext
    (done ++ [r]) todo fuel (by rw [hsplit]; simp) hf
  rw [getLast?_concat_rule] at this
  exact this

theorem MakeGetNextInferenceRuleTargetExtension_first {c : MAKE_CONTEXT} {TopScope : ScopeId}
    {chain : List ScopeId} {all : List RuleId} (R : Registry c TopScope chain all)
    (b : MAKE_PROBE_BUFFER) (Ext : YORI_STRING) (fuel : Nat)
    (hf : all.length + chain.length < fuel) :
    MakeGetNextInferenceRuleTargetExtension fuel (c.withProbe b) TopScope Ext none =
      some (all.find? (MakeRuleGenerates c Ext)) := by
  have := MakeGetNextInferenceRuleTargetExtension_cursor (Registry_withProbe R b) Ext
    [] all fuel rfl hf
  exact this

/-! ## The first pass of the resolver -/

theorem MakeFindInferenceRuleFirstPass_miss (env : MAKE_ENV) (S : ScopeId) (T : TargetId)
    (E : YORI_STRING) (c : MAKE_CONTEXT) (b : MAKE_PROBE_BUFFER) (stem : YORI_STRING)
    (r : RuleId) (Found : Bool) (n : Nat) (hb : ProbeStem b stem)
    (hmiss : env.GetFileAttributes (stem ++ (c.InferenceRule r).SourceExtension) = false) :
    MakeFindInferenceRuleFirstPass env S T E (n + 1) (c.withProbe b) (some r) Found =
      match MakeGetNextInferenceRuleTargetExtension n
          (c.withProbe { b with StartOfString := stem ++ (c.InferenceRule r).SourceExtension })
          S E (some r) with
      | none => none
      | some Next =>
        MakeFindInferenceRuleFirstPass env S T E n
          (c.withProbe { b with StartOfString := stem ++ (c.InferenceRule r).SourceExtension })
          Next true := by
  rw [MakeFindInferenceRuleFirstPass]
  simp only [withProbe_InferenceRule, MakeProbeBufferPrint_withProbe c b stem _ hb,
    withProbe_FileToProbe, hmiss, Bool.false_eq_true, if_false]

theorem MakeFindInferenceRuleFirstPass_hit (env : MAKE_ENV) (S : ScopeId) (T : TargetId)
    (E : YORI_STRING) (c : MAKE_CONTEXT) (b : MAKE_PROBE_BUFFER) (stem : YORI_STRING)
    (r : RuleId) (Found : Bool) (n : Nat) (hb : ProbeStem b stem)
    (hhit : env.GetFileAttributes (stem ++ (c.InferenceRule r).SourceExtension) = true) :
    MakeFindInferenceRuleFirstPass env S T E (n + 1) (c.withProbe b) (some r) Found =
      match MakeAssignInferenceRuleToTarget env
          (c.withProbe
            { b with
              StartOfString := stem ++ (c.InferenceRule r).SourceExtension
              LengthInChars := stem.length + (c.InferenceRule r).SourceExtension.length })
          S T r (stem ++ (c.InferenceRule r).SourceExtension) with
      | (false, ctx3) => some (false, true, ctx3)
      | (true, ctx3) => some (true, true, ctx3) := by
  rw [MakeFindInferenceRuleFirstPass]
  simp only [withProbe_InferenceRule, MakeProbeBufferPrint_withProbe c b stem _ hb,
    withProbe_FileToProbe, hhit, if_true]
  have h1 : MakeProbeBufferSetLength
      (c.withProbe { b with StartOfString := stem ++ (c.InferenceRule r).SourceExtension })
      (b.LengthInChars + (c.InferenceRule r).SourceExtension.length) =
      c.withProbe
        { b with
          StartOfString := stem ++ (c.InferenceRule r).SourceExtension
          LengthInChars := stem.length + (c.InferenceRule r).SourceExtension.length } := by
    simp only [MakeProbeBufferSetLength, MAKE_CONTEXT.withProbe, hb.1]
  rw [h1]
  have h2 : MakeProbeBufferString
      (c.withProbe
        { b with
          StartOfString := stem ++ (c.InferenceRule r).SourceExtension
          LengthInChars := stem.length + (c.InferenceRule r).SourceExtension.length }) =
      stem ++ (c.InferenceRule r).SourceExtension := by
    simp only [MakeProbeBufferString, withProbe_FileToProbe]
    rw [← List.length_append]
    exact List.take_length _
  rw [h2]

/-- The first pass over rules none of whose source files exists changes only
the probe buffer, and reports whether some rule generates the extension. -/
theorem MakeFindInferenceRuleFirstPass_none (env : MAKE_ENV) {c : MAKE_CONTEXT} {S : ScopeId}
    {chain : List ScopeId} {all : List RuleId} (R : Registry c S chain all) (T : TargetId)
    (E stem : YORI_STRING) :
    ∀ (todo done : List RuleId) (fuel : Nat) (b : MAKE_PROBE_BUFFER) (Found : Bool),
      all = done ++ todo → ProbeStem b stem →
      (∀ r ∈ todo, MakeRuleGenerates c E r = true →
        env.GetFileAttributes (stem ++ (c.InferenceRule r).SourceExtension) = false) →
      todo.length + chain.length < fuel →
      ∃ b', MakeFindInferenceRuleFirstPass env S T E fuel (c.withProbe b)
            (todo.find? (MakeRuleGenerates c E)) Found =
          some (true, Found || todo.any (MakeRuleGenerates c E), c.withProbe b') ∧
        ProbeStem b' stem := by
  intro todo
  induction todo with
  | nil =>
    intro done fuel b Found _ hb _ hf
    obtain ⟨n, rfl⟩ : ∃ n, fuel = n + 1 := ⟨fuel - 1, by omega⟩
    exact ⟨b, by simp [MakeFindInferenceRuleFirstPass], hb⟩
  | cons r todo ih =>
    intro done fuel b Found hsplit hb hmiss hf
    obtain ⟨n, rfl⟩ : ∃ n, fuel = n + 1 := ⟨fuel - 1, by omega⟩
    simp only [List.length_cons] at hf
    cases hg : MakeRuleGenerates c E r with
    | false =>
      simp only [List.find?_cons, hg, List.any_cons, Bool.false_or]
      exact ih (done ++ [r]) (n + 1) b Found (by rw [hsplit]; simp) hb
        (fun x hx => hmiss x (List.mem_cons_of_mem _ hx)) (by omega)
    | true =>
      simp only [List.find?_cons, hg, List.any_cons, Bool.true_or, Bool.or_true]
      rw [MakeFindInferenceRuleFirstPass_miss env S T E c b stem r Found n hb
        (hmiss r (List.mem_cons_self _ _) hg),
        MakeGetNextInferenceRuleTargetExtension_after R _ E done r todo n hsplit (by omega)]
      simp only
      obtain ⟨b', h1, h2⟩ := ih (done ++ [r]) n
        { b with StartOfString := stem ++ (c.InferenceRule r).SourceExtension } true
        (by rw [hsplit]; simp) (ProbeStem_print b stem _ hb)
        (fun x hx => hmiss x (List.mem_cons_of_mem _ hx)) (by omega)
      exact ⟨b', by rw [h1]; simp, h2⟩

/-! ## The extension of a key -/

theorem MakeFindTargetExtensionScan_skip :
    ∀ (l rest passed : YORI_STRING), (∀ ch ∈ l, ch ≠ '.' ∧ YoriLibIsSep ch = false) →
      MakeFindTargetExtensionScan (l ++ rest) passed =
        MakeFindTargetExtensionScan rest (l.reverse ++ passed) := by
  intro l
  induction l with
  | nil => intro rest passed _; rfl
  | cons c l ih =>
    intro rest passed h
    have hc := h c (List.mem_cons_self _ _)
    rw [List.cons_append, MakeFindTargetExtensionScan]
    simp only [hc.1, hc.2, if_false, Bool.false_eq_true]
    rw [ih rest (c :: passed) (fun x hx => h x (List.mem_cons_of_mem _ hx))]
    simp

/-- The text after the last period of the file name is the extension. -/
theorem MakeFindTargetExtension_of_period (pre E : YORI_STRING)
    (hE : ∀ ch ∈ E, ch ≠ '.' ∧ YoriLibIsSep ch = false) :
    MakeFindTargetExtension (pre ++ '.' :: E) = some E := by
  unfold MakeFindTargetExtension
  have : (pre ++ '.' :: E).reverse = E.reverse ++ '.' :: pre.reverse := by simp
  rw [this, MakeFindTargetExtensionScan_skip E.reverse _ []
    (fun ch hch => hE ch (List.mem_reverse.mp hch))]
  simp [MakeFindTargetExtensionScan]

theorem MakeFindTargetExtensionScan_noperiod :
    ∀ (l rest passed : YORI_STRING), (∀ ch ∈ l, ch ≠ '.') →
      (∀ passed2, MakeFindTargetExtensionScan rest passed2 = none ∨
        MakeFindTargetExtensionScan rest passed2 = some []) →
      MakeFindTargetExtensionScan (l ++ rest) passed = none ∨
        MakeFindTargetExtensionScan (l ++ rest) passed = some [] := by
  intro l
  induction l with
  | nil => intro rest passed _ h; exact h passed
  | cons c l ih =>
    intro rest passed h hrest
    have hc := h c (List.mem_cons_self _ _)
    rw [List.cons_append, MakeFindTargetExtensionScan]
    simp only [hc, if_false]
    split
    · exact Or.inl rfl
    · exact ih rest _ (fun x hx => h x (List.mem_cons_of_mem _ hx)) hrest

/-- A key with no period after its last separator, or with nothing after its
last period, has no extension. -/
theorem MakeFindTargetExtension_none (Key : YORI_STRING)
    (h : (∃ pre post, Key = pre ++ post ∧ (∀ ch ∈ post, ch ≠ '.') ∧
        (pre = [] ∨ ∃ p s, pre = p ++ [s] ∧ YoriLibIsSep s = true)) ∨
      (∃ pre, Key = pre ++ ['.'])) :
    MakeFindTargetExtension Key = none ∨ MakeFindTargetExtension Key = some [] := by
  unfold MakeFindTargetExtension
  rcases h with ⟨pre, post, rfl, hpost, hpre⟩ | ⟨pre, rfl⟩
  · rw [List.reverse_append]
    apply MakeFindTargetExtensionScan_noperiod post.reverse _ []
      (fun ch hch => hpost ch (List.mem_reverse.mp hch))
    intro passed2
    rcases hpre with rfl | ⟨p, s, rfl, hs⟩
    · right; rfl
    · left
      have hs2 : s ≠ '.' := by
        intro e; rw [e] at hs; revert hs; decide
      simp [MakeFindTargetExtensionScan, hs, hs2]
  · right
    simp [MakeFindTargetExtensionScan]

theorem MakeFindTargetExtensionScan_suffix :
    ∀ (rev passed E : YORI_STRING), MakeFindTargetExtensionScan rev passed = some E → E ≠ [] →
      ∃ pre, rev.reverse ++ passed = pre ++ E := by
  intro rev
  induction rev with
  | nil =>
    intro passed E h hne
    simp only [MakeFindTargetExtensionScan, Option.some.injEq] at h
    exact absurd h.symm hne
  | cons c rest ih =>
    intro passed E h hne
    simp only [MakeFindTargetExtensionScan] at h
    by_cases hc : c = '.'
    · simp only [hc, if_true, Option.some.injEq] at h
      subst h
      exact ⟨(c :: rest).reverse, rfl⟩
    · simp only [hc, if_false] at h
      by_cases hs : YoriLibIsSep c = true
      · simp [hs] at h
      · simp only [hs, if_false] at h
        obtain ⟨pre, hpre⟩ := ih _ E h hne
        exact ⟨pre, by rw [← hpre]; simp⟩

/-- The extension found is the end of the key. -/
theorem MakeFindTargetExtension_suffix (Key E : YORI_STRING)
    (h : MakeFindTargetExtension Key = some E) :
    Key = Key.take (Key.length - E.length) ++ E := by
  by_cases hne : E = []
  · subst hne; simp
  · obtain ⟨pre, hpre⟩ := MakeFindTargetExtensionScan_suffix _ _ _ h hne
    simp only [List.reverse_reverse, List.append_nil] at hpre
    rw [hpre]
    simp

/-! ## The resolver up to its passes -/

theorem MakeFindInferenceRuleProbeBuffer_stem (ctx : MAKE_CONTEXT) (T : TargetId)
    (E : YORI_STRING) (L : Nat) :
    ProbeStem (MakeFindInferenceRuleProbeBuffer ctx T E L)
      ((ctx.Target T).Key.take ((ctx.Target T).Key.length - E.length)) := by
  unfold MakeFindInferenceRuleProbeBuffer ProbeStem
  simp only [List.length_take]
  refine ⟨by omega, ?_⟩
  rw [List.take_take]
  congr 1
  omega

/-- With an extension `E` and enough fuel the resolver finds the longest
source extension `L` and, unless it is zero, runs the passes on the sized
probe buffer. -/
theorem MakeFindInferenceRuleForTarget_setup (env : MAKE_ENV) {ctx : MAKE_CONTEXT} {S : ScopeId}
    {chain : List ScopeId} {all : List RuleId} (R : Registry ctx S chain all) (T : TargetId)
    (E : YORI_STRING) (hE : MakeFindTargetExtension (ctx.Target T).Key = some E) (hne : E ≠ [])
    (fuel : Nat) (hf : all.length + chain.length < fuel) :
    ∃ L, (∀ r ∈ all, (ctx.InferenceRule r).SourceExtension.length ≤ L) ∧
      MakeFindInferenceRuleForTarget env fuel ctx S T =
        if L = 0 then some (true, ctx)
        else MakeFindInferenceRulePasses env S T E fuel
          (ctx.withProbe (MakeFindInferenceRuleProbeBuffer ctx T E L)) := by
  obtain ⟨L, h1, _, h3⟩ := MakeFindLongestSourceExt_cursor R all [] fuel 0 rfl hf
  refine ⟨L, h3, ?_⟩
  unfold MakeFindInferenceRuleForTarget
  have hlen : E.length ≠ 0 := fun e => hne (List.length_eq_zero.mp e)
  simp only [hE, hlen, if_false]
  rw [MakeGetNextInferenceRule_first ctx S chain fuel R.scopes (by omega), R.rules]
  simp only [h1]
  rfl

theorem MakeFindInferenceRulePasses_nomatch (env : MAKE_ENV) {ctx : MAKE_CONTEXT} {S : ScopeId}
    {chain : List ScopeId} {all : List RuleId} (R : Registry ctx S chain all) (T : TargetId)
    (E : YORI_STRING) (b : MAKE_PROBE_BUFFER)
    (hno : ∀ r ∈ all, MakeRuleGenerates ctx E r = false) (fuel : Nat)
    (hf : all.length + chain.length < fuel) :
    MakeFindInferenceRulePasses env S T E fuel (ctx.withProbe b) =
      some (true, ctx.withProbe b) := by
  unfold MakeFindInferenceRulePasses
  rw [MakeGetNextInferenceRuleTargetExtension_first R b E fuel hf]
  have hfind : all.find? (MakeRuleGenerates ctx E) = none := by
    rw [List.find?_eq_none]
    intro r hr
    rw [hno r hr]; simp
  obtain ⟨n, rfl⟩ : ∃ n, fuel = n + 1 := ⟨fuel - 1, by omega⟩
  simp only [hfind, MakeFindInferenceRuleFirstPass]

/-- C9: resolver no-op cases.  When the key has no extension (no period after
its last separator, or nothing after its last period)
`MakeFindInferenceRuleForTarget` returns success and leaves the context as it
is.  When it has an extension that no rule reachable from the scope
generates, it returns success having changed at most the probe buffer: no
target field, table entry, rule, scope or reference count changes and no
target is created. -/
theorem MakeFindInferenceRuleForTarget_noop (env : MAKE_ENV) (ctx : MAKE_CONTEXT) (S : ScopeId)
    (T : TargetId) (chain : List ScopeId) (all : List RuleId) (R : Registry ctx S chain all) :
    (((∃ pre post, (ctx.Target T).Key = pre ++ post ∧ (∀ ch ∈ post, ch ≠ '.') ∧
          (pre = [] ∨ ∃ p s, pre = p ++ [s] ∧ YoriLibIsSep s = true)) ∨
        (∃ pre, (ctx.Target T).Key = pre ++ ['.'])) →
      ∀ fuel, MakeFindInferenceRuleForTarget env fuel ctx S T = some (true, ctx)) ∧
    (∀ pre E, (ctx.Target T).Key = pre ++ '.' :: E →
      (∀ ch ∈ E, ch ≠ '.' ∧ YoriLibIsSep ch = false) →
      (∀ r ∈ all,
        YoriLibCompareStringInsensitive E (ctx.InferenceRule r).TargetExtension ≠ 0) →
      ∃ N, ∀ fuel, N ≤ fuel → ∃ b,
        MakeFindInferenceRuleForTarget env fuel ctx S T = some (true, ctx.withProbe b)) := by
  constructor
  · intro h fuel
    unfold MakeFindInferenceRuleForTarget
    rcases MakeFindTargetExtension_none _ h with h1 | h1
    · simp [h1]
    · simp [h1]
  · intro pre E hkey hE hno
    refine ⟨all.length + chain.length + 1, fun fuel hf => ?_⟩
    have hext : MakeFindTargetExtension (ctx.Target T).Key = some E := by
      rw [hkey]; exact MakeFindTargetExtension_of_period pre E hE
    by_cases hne : E = []
    · exact ⟨ctx.FileToProbe, by
        unfold MakeFindInferenceRuleForTarget
        simp [hext, hne, withProbe_self]⟩
    · obtain ⟨L, _, hL⟩ := MakeFindInferenceRuleForTarget_setup env R T E hext hne fuel (by omega)
      rw [hL]
      by_cases h0 : L = 0
      · exact ⟨ctx.FileToProbe, by simp [h0, withProbe_self]⟩
      · refine ⟨MakeFindInferenceRuleProbeBuffer ctx T E L, ?_⟩
        simp only [h0, if_false]
        apply MakeFindInferenceRulePasses_nomatch env R T E _ _ fuel (by omega)
        intro r hr
        simp [MakeRuleGenerates, hno r hr]

/-! ## The second pass of the resolver -/

theorem MakeFindInferenceRuleNested_miss (env : MAKE_ENV) (S : ScopeId) (T : TargetId)
    (O : RuleId) (c : MAKE_CONTEXT) (b : MAKE_PROBE_BUFFER) (stem : YORI_STRING)
    (I : RuleId) (n : Nat) (hb : ProbeStem b stem)
    (hmiss : env.GetFileAttributes (stem ++ (c.InferenceRule I).SourceExtension) = false) :
    MakeFindInferenceRuleNested env S T O (n + 1) (c.withProbe b) (some I) =
      match MakeGetNextInferenceRuleTargetExtension n
          (c.withProbe { b with StartOfString := stem ++ (c.InferenceRule I).SourceExtension })
          S (c.InferenceRule O).SourceExtension (some I) with
      | none => none
      | some Next =>
        MakeFindInferenceRuleNested env S T O n
          (c.withProbe { b with StartOfString := stem ++ (c.InferenceRule I).SourceExtension })
          Next := by
  rw [MakeFindInferenceRuleNested]
  simp only [withProbe_InferenceRule, MakeProbeBufferPrint_withProbe c b stem _ hb,
    withProbe_FileToProbe, hmiss, Bool.false_eq_true, if_false]

/-- The nested loop over rules none of whose source files exists changes only
the probe buffer. -/
theorem MakeFindInferenceRuleNested_none (env : MAKE_ENV) {c : MAKE_CONTEXT} {S : ScopeId}
    {chain : List ScopeId} {all : List RuleId} (R : Registry c S chain all) (T : TargetId)
    (O : RuleId) (stem : YORI_STRING) :
    ∀ (todo done : List RuleId) (fuel : Nat) (b : MAKE_PROBE_BUFFER),
      all = done ++ todo → ProbeStem b stem →
      (∀ r ∈ todo, MakeRuleGenerates c (c.InferenceRule O).SourceExtension r = true →
        env.GetFileAttributes (stem ++ (c.InferenceRule r).SourceExtension) = false) →
      todo.length + chain.length < fuel →
      ∃ b', MakeFindInferenceRuleNested env S T O fuel (c.withProbe b)
            (todo.find? (MakeRuleGenerates c (c.InferenceRule O).SourceExtension)) =
          some (true, c.withProbe b') ∧ ProbeStem b' stem := by
  intro todo
  induction todo with
  | nil =>
    intro done fuel b _ hb _ hf
    obtain ⟨n, rfl⟩ : ∃ n, fuel = n + 1 := ⟨fuel - 1, by omega⟩
    exact ⟨b, by simp [MakeFindInferenceRuleNested], hb⟩
  | cons r todo ih =>
    intro done fuel b hsplit hb hmiss hf
    obtain ⟨n, rfl⟩ : ∃ n, fuel = n + 1 := ⟨fuel - 1, by omega⟩
    simp only [List.length_cons] at hf
    cases hg : MakeRuleGenerates c (c.InferenceRule O).SourceExtension r with
    | false =>
      simp only [List.find?_cons, hg]
      exact ih (done ++ [r]) (n + 1) b (by rw [hsplit]; simp) hb
        (fun x hx => hmiss x (List.mem_cons_of_mem _ hx)) (by omega)
    | true =>
      simp only [List.find?_cons, hg]
      rw [MakeFindInferenceRuleNested_miss env S T O c b stem r n hb
        (hmiss r (List.mem_cons_self _ _) hg),
        MakeGetNextInferenceRuleTargetExtension_after R _ _ done r todo n hsplit (by omega)]
      simp only
      exact ih (done ++ [r]) n _ (by rw [hsplit]; simp) (ProbeStem_print b stem _ hb)
        (fun x hx => hmiss x (List.mem_cons_of_mem _ hx)) (by omega)

theorem MakeProbeBufferSetLength_withProbe (c : MAKE_CONTEXT) (b : MAKE_PROBE_BUFFER) (n : Nat) :
    MakeProbeBufferSetLength (c.withProbe b) n = c.withProbe { b with LengthInChars := n } := rfl

theorem MakeProbeBufferPrint_gen (c : MAKE_CONTEXT) (b : MAKE_PROBE_BUFFER) (Ext : YORI_STRING) :
    MakeProbeBufferPrint (c.withProbe b) Ext =
      c.withProbe { b with StartOfString := b.StartOfString.take b.LengthInChars ++ Ext } := rfl

theorem MakeProbeBufferString_withProbe (c : MAKE_CONTEXT) (b : MAKE_PROBE_BUFFER) :
    MakeProbeBufferString (c.withProbe b) = b.StartOfString.take b.LengthInChars := rfl

/-- Assigning a rule in a context with probe buffer `b`. -/
theorem MakeAssignInferenceRuleToTarget_probe (env : MAKE_ENV) (c : MAKE_CONTEXT)
    (b : MAKE_PROBE_BUFFER) (S : ScopeId) (T : TargetId) (rule : RuleId)
    (name path : YORI_STRING)
    (hres : env.YoriLibGetFullPathNameRelativeTo (c.Scope S).Key name = some path)
    (htab : TableWF c) (hT : T < c.AllocTarget) :
    ∃ pid c', MakeAssignInferenceRuleToTarget env (c.withProbe b) S T rule name =
        (true, c'.withProbe b) ∧
      (c'.Target T).InferenceRule = some rule ∧
      (c'.Target T).InferenceRuleParentTarget = some pid ∧
      (c'.Target pid).Key = path ∧ pid < c'.AllocTarget ∧
      c.AllocTarget ≤ c'.AllocTarget ∧ TableWF c' ∧ SameRules c c' ∧
      (∀ x, x < c.AllocTarget → (c'.Target x).Key = (c.Target x).Key) ∧
      (∀ x, x < c.AllocTarget → x ≠ T →
        (c'.Target x).InferenceRule = (c.Target x).InferenceRule ∧
        (c'.Target x).InferenceRuleParentTarget = (c.Target x).InferenceRuleParentTarget) := by
  obtain ⟨pid, c4, h1, h2, h3, h4, h5, h6, h7, h8, h9, h10, h11⟩ :=
    MakeAssignInferenceRuleToTarget_post env (c.withProbe b) S T rule name path hres htab hT
  refine ⟨pid, c4, ?_, h2, h3, h4, h5, h6, h7, h8, h10, h11⟩
  rw [h1]
  have : c4.withProbe b = c4 := by
    have hb : b = c4.FileToProbe := h9.symm
    rw [hb]
    rfl
  rw [this]

/-- The nested loop at an inner rule `I` whose source file exists assigns the
outer rule to the target and the inner rule to the intermediate target. -/
theorem MakeFindInferenceRuleNested_hit (env : MAKE_ENV) (S : ScopeId) (T : TargetId)
    (O I : RuleId) (c : MAKE_CONTEXT) (b : MAKE_PROBE_BUFFER) (stem pO pI : YORI_STRING)
    (n : Nat) (hb : ProbeStem b stem)
    (hhit : env.GetFileAttributes (stem ++ (c.InferenceRule I).SourceExtension) = true)
    (hresO : env.YoriLibGetFullPathNameRelativeTo (c.Scope S).Key
      (stem ++ (c.InferenceRule O).SourceExtension) = some pO)
    (hresI : env.YoriLibGetFullPathNameRelativeTo (c.Scope S).Key
      (stem ++ (c.InferenceRule I).SourceExtension) = some pI)
    (htab : TableWF c) (hT : T < c.AllocTarget) :
    ∃ c8, MakeFindInferenceRuleNested env S T O (n + 1) (c.withProbe b) (some I) =
        some (true, c8) ∧ ChainedPost c T O I pO pI c8 := by
  obtain ⟨hlen, htake⟩ := hb
  -- the first assignment
  obtain ⟨mid, c4, hA1, h4rule, h4par, h4key, h4mid, h4le, h4tab, h4same, h4keys, h4old⟩ :=
    MakeAssignInferenceRuleToTarget_probe env c
      { b with
        StartOfString := stem ++ (c.InferenceRule O).SourceExtension
        LengthInChars := stem.length + (c.InferenceRule O).SourceExtension.length }
      S T O (stem ++ (c.InferenceRule O).SourceExtension) pO hresO htab hT
  have hO4 : (c4.InferenceRule O).SourceExtension = (c.InferenceRule O).SourceExtension :=
    (h4same.2.1 O).2.1
  have hI4 : (c4.InferenceRule I).SourceExtension = (c.InferenceRule I).SourceExtension :=
    (h4same.2.1 I).2.1
  -- the second assignment
  have hresI4 : env.YoriLibGetFullPathNameRelativeTo (c4.Scope S).Key
      (stem ++ (c.InferenceRule I).SourceExtension) = some pI := by
    rw [(h4same.1 S).2.2]; exact hresI
  obtain ⟨src, c8, hA2, h8rule, h8par, h8key, h8src, h8le, h8tab, h8same, h8keys, h8old⟩ :=
    MakeAssignInferenceRuleToTarget_probe env c4
      { b with
        StartOfString := stem ++ (c.InferenceRule I).SourceExtension
        LengthInChars := stem.length + (c.InferenceRule I).SourceExtension.length }
      S mid I (stem ++ (c.InferenceRule I).SourceExtension) pI hresI4 h4tab h4mid
  refine ⟨c8.withProbe
      { b with
        StartOfString := stem ++ (c.InferenceRule I).SourceExtension
        LengthInChars := stem.length + (c.InferenceRule I).SourceExtension.length }, ?_, ?_⟩
  · have e1 : List.take (stem.length + (c.InferenceRule O).SourceExtension.length)
        (stem ++ (c.InferenceRule O).SourceExtension) =
        stem ++ (c.InferenceRule O).SourceExtension := by
      rw [← List.length_append]; exact List.take_length _
    have e2 : List.take (stem.length + (c.InferenceRule I).SourceExtension.length)
        (stem ++ (c.InferenceRule I).SourceExtension) =
        stem ++ (c.InferenceRule I).SourceExtension := by
      rw [← List.length_append]; exact List.take_length _
    rw [MakeFindInferenceRuleNested]
    simp only [MakeProbeBufferPrint_gen, MakeProbeBufferSetLength_withProbe,
      MakeProbeBufferString_withProbe, withProbe_FileToProbe, withProbe_InferenceRule, hlen,
      htake, hhit, if_true, List.take_left, e1]
    rw [hA1]
    simp only [MakeProbeBufferPrint_gen, MakeProbeBufferSetLength_withProbe,
      MakeProbeBufferString_withProbe, withProbe_FileToProbe, withProbe_InferenceRule,
      withProbe_Target, hO4, hI4, Nat.add_sub_cancel, List.take_left, h4par, e2]
    rw [hA2]
  · have hT4 : T < c4.AllocTarget := lt_of_lt_of_le hT h4le
    refine ⟨⟨mid, src, ?_, h8rule, h8par, h8key, ?_⟩, ?_, ?_, SameRules_trans h4same h8same, h8tab⟩
    · show ((c8.withProbe _).Target mid).Key = pO
      rw [withProbe_Target, h8keys mid h4mid]; exact h4key
    · intro hne
      show ((c8.withProbe _).Target T).InferenceRule = some O ∧
        ((c8.withProbe _).Target T).InferenceRuleParentTarget = some mid
      rw [withProbe_Target, (h8old T hT4 hne).1, (h8old T hT4 hne).2]
      exact ⟨h4rule, h4par⟩
    · show ((c8.withProbe _).Target T).InferenceRule.isSome = true
      rw [withProbe_Target]
      by_cases hne : T = mid
      · rw [hne, h8rule]; rfl
      · rw [(h8old T hT4 hne).1, h4rule]; rfl
    · show ((c8.withProbe _).Target T).Key = (c.Target T).Key
      rw [withProbe_Target, h8keys T hT4, h4keys T hT]

/-- The nested loop stops at the first rule generating the source extension
of `O` whose source file exists, and chains the two assignments. -/
theorem MakeFindInferenceRuleNested_found (env : MAKE_ENV) {c : MAKE_CONTEXT} {S : ScopeId}
    {chain : List ScopeId} {all : List RuleId} (R : Registry c S chain all) (T : TargetId)
    (O I : RuleId) (stem pO pI : YORI_STRING) (B2 : List RuleId)
    (hI : MakeRuleGenerates c (c.InferenceRule O).SourceExtension I = true)
    (hhit : env.GetFileAttributes (stem ++ (c.InferenceRule I).SourceExtension) = true)
    (hresO : env.YoriLibGetFullPathNameRelativeTo (c.Scope S).Key
      (stem ++ (c.InferenceRule O).SourceExtension) = some pO)
    (hresI : env.YoriLibGetFullPathNameRelativeTo (c.Scope S).Key
      (stem ++ (c.InferenceRule I).SourceExtension) = some pI)
    (htab : TableWF c) (hT : T < c.AllocTarget) :
    ∀ (todo done : List RuleId) (fuel : Nat) (b : MAKE_PROBE_BUFFER),
      all = done ++ (todo ++ I :: B2) → ProbeStem b stem →
      (∀ r ∈ todo, MakeRuleGenerates c (c.InferenceRule O).SourceExtension r = true →
        env.GetFileAttributes (stem ++ (c.InferenceRule r).SourceExtension) = false) →
      (todo ++ I :: B2).length + chain.length < fuel →
      ∃ c8, MakeFindInferenceRuleNested env S T O fuel (c.withProbe b)
            ((todo ++ I :: B2).find? (MakeRuleGenerates c (c.InferenceRule O).SourceExtension)) =
          some (true, c8) ∧ ChainedPost c T O I pO pI c8 := by
  intro todo
  induction todo with
  | nil =>
    intro done fuel b _ hb _ hf
    obtain ⟨n, rfl⟩ : ∃ n, fuel = n + 1 := ⟨fuel - 1, by omega⟩
    simp only [List.nil_append, List.find?_cons, hI]
    exact MakeFindInferenceRuleNested_hit env S T O I c b stem pO pI n hb hhit hresO hresI htab hT
  | cons r todo ih =>
    intro done fuel b hsplit hb hmiss hf
    obtain ⟨n, rfl⟩ : ∃ n, fuel = n + 1 := ⟨fuel - 1, by omega⟩
    simp only [List.cons_append, List.length_cons] at hf
    cases hg : MakeRuleGenerates c (c.InferenceRule O).SourceExtension r with
    | false =>
      simp only [List.cons_append, List.find?_cons, hg]
      exact ih (done ++ [r]) (n + 1) b (by rw [hsplit]; simp) hb
        (fun x hx => hmiss x (List.mem_cons_of_mem _ hx)) (by omega)
    | true =>
      simp only [List.cons_append, List.find?_cons, hg]
      rw [MakeFindInferenceRuleNested_miss env S T O c b stem r n hb
        (hmiss r (List.mem_cons_self _ _) hg),
        MakeGetNextInferenceRuleTargetExtension_after R _ _ done r (todo ++ I :: B2) n
          (by rw [hsplit]; simp) (by omega)]
      simp only
      exact ih (done ++ [r]) n
        { b with StartOfString := stem ++ (c.InferenceRule r).SourceExtension }
        (by rw [hsplit]; simp) (ProbeStem_print b stem _ hb)
        (fun x hx => hmiss x (List.mem_cons_of_mem _ hx)) (by omega)

/-- The second pass skips the outer rules none of whose inner rules has its
source file, and stops at the first outer rule with such an inner rule. -/
theorem MakeFindInferenceRuleSecondPass_found (env : MAKE_ENV) {c : MAKE_CONTEXT} {S : ScopeId}
    {chain : List ScopeId} {all : List RuleId} (R : Registry c S chain all) (T : TargetId)
    (E : YORI_STRING) (O I : RuleId) (stem pO pI : YORI_STRING) (B A2 B2 : List RuleId)
    (hsplit2 : all = A2 ++ I :: B2)
    (hO : MakeRuleGenerates c E O = true)
    (hI : MakeRuleGenerates c (c.InferenceRule O).SourceExtension I = true)
    (hhit : env.GetFileAttributes (stem ++ (c.InferenceRule I).SourceExtension) = true)
    (hfirstI : ∀ r ∈ A2, MakeRuleGenerates c (c.InferenceRule O).SourceExtension r = true →
      env.GetFileAttributes (stem ++ (c.InferenceRule r).SourceExtension) = false)
    (hresO : env.YoriLibGetFullPathNameRelativeTo (c.Scope S).Key
      (stem ++ (c.InferenceRule O).SourceExtension) = some pO)
    (hresI : env.YoriLibGetFullPathNameRelativeTo (c.Scope S).Key
      (stem ++ (c.InferenceRule I).SourceExtension) = some pI)
    (htab : TableWF c) (hT : T < c.AllocTarget)
    (hnone : (c.Target T).InferenceRule = none) :
    ∀ (todo done : List RuleId) (fuel : Nat) (b : MAKE_PROBE_BUFFER),
      all = done ++ (todo ++ O :: B) → ProbeStem b stem →
      (∀ o ∈ todo, MakeRuleGenerates c E o = true →
        ∀ i ∈ all, MakeRuleGenerates c (c.InferenceRule o).SourceExtension i = true →
          env.GetFileAttributes (stem ++ (c.InferenceRule i).SourceExtension) = false) →
      all.length + chain.length + todo.length + 1 < fuel →
      ∃ c8, MakeFindInferenceRuleSecondPass env S T E fuel (c.withProbe b)
            ((todo ++ O :: B).find? (MakeRuleGenerates c E)) =
          some (true, c8) ∧ ChainedPost c T O I pO pI c8 := by
  intro todo
  induction todo with
  | nil =>
    intro done fuel b _ hb _ hf
    obtain ⟨n, rfl⟩ : ∃ n, fuel = n + 1 := ⟨fuel - 1, by omega⟩
    simp only [List.nil_append, List.find?_cons, hO]
    rw [MakeFindInferenceRuleSecondPass]
    simp only [withProbe_InferenceRule]
    rw [MakeGetNextInferenceRuleTargetExtension_first R b _ n (by omega)]
    simp only
    have hall : all = A2 ++ I :: B2 := hsplit2
    obtain ⟨c8, h1, h2⟩ := MakeFindInferenceRuleNested_found env R T O I stem pO pI B2 hI hhit
      hresO hresI htab hT A2 [] n b (by simpa using hall) hb hfirstI
      (by rw [← hall]; omega)
    rw [← hall] at h1
    rw [h1]
    simp only [h2.assigned, if_true]
    exact ⟨c8, rfl, h2⟩
  | cons r todo ih =>
    intro done fuel b hsplit hb hmiss hf
    obtain ⟨n, rfl⟩ : ∃ n, fuel = n + 1 := ⟨fuel - 1, by omega⟩
    simp only [List.length_cons] at hf
    cases hg : MakeRuleGenerates c E r with
    | false =>
      simp only [List.cons_append, List.find?_cons, hg]
      exact ih (done ++ [r]) (n + 1) b (by rw [hsplit]; simp) hb
        (fun x hx => hmiss x (List.mem_cons_of_mem _ hx)) (by omega)
    | true =>
      simp only [List.cons_append, List.find?_cons, hg]
      rw [MakeFindInferenceRuleSecondPass]
      simp only [withProbe_InferenceRule]
      rw [MakeGetNextInferenceRuleTargetExtension_first R b _ n (by omega)]
      simp only
      obtain ⟨b', h1, h2⟩ := MakeFindInferenceRuleNested_none env R T r stem all [] n b
        (by simp) hb (hmiss r (List.mem_cons_self _ _) hg) (by omega)
      rw [h1]
      simp only [withProbe_Target, hnone, Option.isSome_none, Bool.false_eq_true, if_false]
      rw [MakeGetNextInferenceRuleTargetExtension_after R b' E done r (todo ++ O :: B) n
        (by rw [hsplit]; simp) (by rw [hsplit] at hf; simp at hf ⊢; omega)]
      simp only
      exact ih (done ++ [r]) n b' (by rw [hsplit]; simp) h2
        (fun x hx => hmiss x (List.mem_cons_of_mem _ hx)) (by omega)

/-! ## Chained resolution -/

/-- C7: depth-2 (chained) resolution.  The key of target `T`, which has no
rule yet, is `pre.E` with a non-empty extension `E`, and the names `pre.x` are
canonical.  No rule generating `E` has its source file `pre.src`.  `O` is the
first rule in the enumeration that generates `E` and has an inner rule (one
generating the source extension of `O`) whose source file exists, and `I` is
the first such inner rule for `O`.  Then with enough fuel
`MakeFindInferenceRuleForTarget` returns success, and afterwards `T` carries
rule `O` with the target keyed `pre.srcO` as inference parent, and that
intermediate target carries rule `I` with the target keyed `pre.srcI` as
inference parent. -/
theorem MakeFindInferenceRuleForTarget_chained (env : MAKE_ENV) (ctx : MAKE_CONTEXT)
    (S : ScopeId) (T : TargetId) (chain : List ScopeId) (all : List RuleId)
    (R : Registry ctx S chain all) (htab : TableWF ctx) (hT : T < ctx.AllocTarget)
    (hnone : (ctx.Target T).InferenceRule = none)
    (pre E : YORI_STRING) (hkey : (ctx.Target T).Key = pre ++ '.' :: E)
    (hE : ∀ ch ∈ E, ch ≠ '.' ∧ YoriLibIsSep ch = false) (hne : E ≠ [])
    (hcanon : ∀ r ∈ all, env.YoriLibGetFullPathNameRelativeTo (ctx.Scope S).Key
      (pre ++ '.' :: (ctx.InferenceRule r).SourceExtension) =
        some (pre ++ '.' :: (ctx.InferenceRule r).SourceExtension))
    (hno1 : ∀ r ∈ all, MakeRuleGenerates ctx E r = true →
      env.GetFileAttributes (pre ++ '.' :: (ctx.InferenceRule r).SourceExtension) = false)
    (A B A2 B2 : List RuleId) (O I : RuleId)
    (hA : all = A ++ O :: B) (hA2 : all = A2 ++ I :: B2)
    (hO : MakeRuleGenerates ctx E O = true)
    (hI : MakeRuleGenerates ctx (ctx.InferenceRule O).SourceExtension I = true)
    (hfile : env.GetFileAttributes (pre ++ '.' :: (ctx.InferenceRule I).SourceExtension) = true)
    (hfirstO : ∀ o ∈ A, MakeRuleGenerates ctx E o = true →
      ∀ i ∈ all, MakeRuleGenerates ctx (ctx.InferenceRule o).SourceExtension i = true →
        env.GetFileAttributes (pre ++ '.' :: (ctx.InferenceRule i).SourceExtension) = false)
    (hfirstI : ∀ i ∈ A2, MakeRuleGenerates ctx (ctx.InferenceRule O).SourceExtension i = true →
      env.GetFileAttributes (pre ++ '.' :: (ctx.InferenceRule i).SourceExtension) = false) :
    ∃ N, ∀ fuel, N ≤ fuel → ∃ ctx' mid src,
      MakeFindInferenceRuleForTarget env fuel ctx S T = some (true, ctx') ∧
      (ctx'.Target T).InferenceRule = some O ∧
      (ctx'.Target T).InferenceRuleParentTarget = some mid ∧
      (ctx'.Target mid).Key = pre ++ '.' :: (ctx.InferenceRule O).SourceExtension ∧
      (ctx'.Target mid).InferenceRule = some I ∧
      (ctx'.Target mid).InferenceRuleParentTarget = some src ∧
      (ctx'.Target src).Key = pre ++ '.' :: (ctx.InferenceRule I).SourceExtension := by
  refine ⟨2 * all.length + chain.length + 2, fun fuel hf => ?_⟩
  have hOmem : O ∈ all := by rw [hA]; simp
  have hImem : I ∈ all := by rw [hA2]; simp
  have hAlen : A.length < all.length := by rw [hA]; simp
  have hext : MakeFindTargetExtension (ctx.Target T).Key = some E := by
    rw [hkey]; exact MakeFindTargetExtension_of_period pre E hE
  have hstem : (ctx.Target T).Key.take ((ctx.Target T).Key.length - E.length) = pre ++ ['.'] := by
    rw [hkey]
    have : (pre ++ '.' :: E).length - E.length = (pre ++ ['.']).length := by simp; omega
    rw [this, show pre ++ '.' :: E = (pre ++ ['.']) ++ E by simp, List.take_left]
  have happ : ∀ x : YORI_STRING, (pre ++ ['.']) ++ x = pre ++ '.' :: x := fun x => by simp
  obtain ⟨L, hLmax, hL⟩ := MakeFindInferenceRuleForTarget_setup env R T E hext hne fuel (by omega)
  have h0 : L ≠ 0 := by
    intro h0
    have e1 : (ctx.InferenceRule O).SourceExtension = [] :=
      List.length_eq_zero.mp (Nat.le_zero.mp (h0 ▸ hLmax O hOmem))
    have e2 : (ctx.InferenceRule I).SourceExtension = [] :=
      List.length_eq_zero.mp (Nat.le_zero.mp (h0 ▸ hLmax I hImem))
    have := hno1 O hOmem hO
    rw [e1] at this
    rw [e2, this] at hfile
    exact Bool.false_ne_true hfile
  rw [hL]
  simp only [h0, if_false]
  have hb0 := MakeFindInferenceRuleProbeBuffer_stem ctx T E L
  rw [hstem] at hb0
  generalize MakeFindInferenceRuleProbeBuffer ctx T E L = b0 at hb0
  unfold MakeFindInferenceRulePasses
  rw [MakeGetNextInferenceRuleTargetExtension_first R b0 E fuel (by omega)]
  simp only
  obtain ⟨b1, h1, hb1⟩ := MakeFindInferenceRuleFirstPass_none env R T E (pre ++ ['.']) all []
    fuel b0 false (by simp) hb0 (fun r hr hg => by rw [happ]; exact hno1 r hr hg) (by omega)
  have hany : all.any (MakeRuleGenerates ctx E) = true :=
    List.any_eq_true.mpr ⟨O, hOmem, hO⟩
  rw [h1]
  simp only [hany, Bool.false_or]
  rw [MakeGetNextInferenceRuleTargetExtension_first R b1 E fuel (by omega)]
  simp only
  obtain ⟨c8, h2, P⟩ := MakeFindInferenceRuleSecondPass_found env R T E O I (pre ++ ['.'])
    (pre ++ '.' :: (ctx.InferenceRule O).SourceExtension)
    (pre ++ '.' :: (ctx.InferenceRule I).SourceExtension) B A2 B2 hA2 hO hI
    (by rw [happ]; exact hfile)
    (fun r hr hg => by rw [happ]; exact hfirstI r hr hg)
    (by rw [happ]; exact hcanon O hOmem) (by rw [happ]; exact hcanon I hImem) htab hT hnone
    A [] fuel b1 (by simpa using hA) hb1
    (fun o ho hg i hi hgi => by rw [happ]; exact hfirstO o ho hg i hi hgi) (by omega)
  rw [← hA] at h2
  obtain ⟨mid, src, k1, k2, k3, k4, k5⟩ := P.chained
  have hTmid : T ≠ mid := by
    intro e
    have hk : (c8.Target T).Key = pre ++ '.' :: E := P.key.trans hkey
    rw [e, k1] at hk
    have hEO : (ctx.InferenceRule O).SourceExtension = E := by
      have := List.append_cancel_left hk
      exact List.tail_eq_of_cons_eq this
    rw [hEO] at hI
    have := hno1 I hImem hI
    rw [this] at hfile
    exact Bool.false_ne_true hfile
  exact ⟨c8, mid, src, h2, (k5 hTmid).1, (k5 hTmid).2, k1, k2, k3, k4⟩

/-! ## Scenario S4 -/

theorem ScenarioS4_registry : Registry ScenarioS4 0 [0] [1, 0] := by
  refine ⟨⟨?_, ?_, ?_⟩, ⟨rfl, rfl⟩, rfl⟩
  · intro s r h
    by_cases hs : s = 0
    · subst hs
      simp only [ScenarioS4, if_true, List.mem_cons, List.mem_singleton, List.not_mem_nil,
        or_false] at h
      rcases h with rfl | rfl <;> rfl
    · simp [ScenarioS4, hs] at h
  · intro s
    by_cases hs : s = 0
    · subst hs; simp [ScenarioS4]
    · simp [ScenarioS4, hs]
  · intro s r h
    by_cases hs : s = 0
    · subst hs
      simp only [ScenarioS4, if_true, List.mem_cons, List.mem_singleton, List.not_mem_nil,
        or_false] at h
      rcases h with rfl | rfl <;> decide
    · simp [ScenarioS4, hs] at h

theorem ScenarioS4_table : TableWF ScenarioS4 := by
  intro e he
  simp only [ScenarioS4, List.mem_cons, List.mem_singleton, List.not_mem_nil, or_false] at he
  rcases he with rfl | rfl | rfl | rfl | rfl <;> exact ⟨by decide, rfl⟩

theorem MakeFindInferenceRuleForTarget_chained_witness :
    ∃ N, ∀ fuel, N ≤ fuel → ∃ ctx' mid src,
      MakeFindInferenceRuleForTarget (ScenarioEnv [("a.y".toList, 1)]) fuel ScenarioS4 0 2 =
        some (true, ctx') ∧
      (ctx'.Target 2).InferenceRule = some 1 ∧
      (ctx'.Target 2).InferenceRuleParentTarget = some mid ∧
      (ctx'.Target mid).Key = "a.c".toList ∧
      (ctx'.Target mid).InferenceRule = some 0 ∧
      (ctx'.Target mid).InferenceRuleParentTarget = some src ∧
      (ctx'.Target src).Key = "a.y".toList :=
  MakeFindInferenceRuleForTarget_chained (ScenarioEnv [("a.y".toList, 1)]) ScenarioS4 0 2 [0]
    [1, 0] ScenarioS4_registry ScenarioS4_table (by decide) rfl "a".toList "obj".toList rfl
    (by decide) (by decide) (fun _ _ => rfl) (by decide) [] [0] [1] [] 1 0 rfl rfl
    (by decide) (by decide) (by decide) (by decide) (by decide)

/-! ## Direct resolution -/

theorem MakeRuleGenerates_same {c c' : MAKE_CONTEXT} (h : SameRules c c') (Ext : YORI_STRING)
    (r : RuleId) : MakeRuleGenerates c' Ext r = MakeRuleGenerates c Ext r := by
  unfold MakeRuleGenerates
  rw [(h.2.1 r).2.2]

/-- The first pass skips the rules whose source file is missing and assigns
the first rule generating the extension whose source file exists; the probe
buffer then holds the name of that source file in full. -/
theorem MakeFindInferenceRuleFirstPass_found (env : MAKE_ENV) {c : MAKE_CONTEXT} {S : ScopeId}
    {chain : List ScopeId} {all : List RuleId} (R : Registry c S chain all) (T : TargetId)
    (E stem path : YORI_STRING) (H : RuleId) (B : List RuleId)
    (hH : MakeRuleGenerates c E H = true)
    (hhit : env.GetFileAttributes (stem ++ (c.InferenceRule H).SourceExtension) = true)
    (hres : env.YoriLibGetFullPathNameRelativeTo (c.Scope S).Key
      (stem ++ (c.InferenceRule H).SourceExtension) = some path)
    (htab : TableWF c) (hT : T < c.AllocTarget) :
    ∀ (todo done : List RuleId) (fuel : Nat) (b : MAKE_PROBE_BUFFER) (Found : Bool),
      all = done ++ (todo ++ H :: B) → ProbeStem b stem →
      (∀ r ∈ todo, MakeRuleGenerates c E r = true →
        env.GetFileAttributes (stem ++ (c.InferenceRule r).SourceExtension) = false) →
      (todo ++ H :: B).length + chain.length < fuel →
      ∃ pid c4 b4, MakeFindInferenceRuleFirstPass env S T E fuel (c.withProbe b)
            ((todo ++ H :: B).find? (MakeRuleGenerates c E)) Found =
          some (true, true, c4.withProbe b4) ∧
        ProbeStem b4 (stem ++ (c.InferenceRule H).SourceExtension) ∧
        (c4.Target T).InferenceRule = some H ∧
        (c4.Target T).InferenceRuleParentTarget = some pid ∧
        (c4.Target pid).Key = path ∧ TableWF c4 ∧ SameRules c c4 := by
  intro todo
  induction todo with
  | nil =>
    intro done fuel b Found _ hb _ hf
    obtain ⟨n, rfl⟩ : ∃ n, fuel = n + 1 := ⟨fuel - 1, by omega⟩
    simp only [List.nil_append, List.find?_cons, hH]
    rw [MakeFindInferenceRuleFirstPass_hit env S T E c b stem H Found n hb hhit]
    obtain ⟨pid, c4, h1, h2, h3, h4, _, _, h7, h8, _, _⟩ :=
      MakeAssignInferenceRuleToTarget_probe env c
        { b with
          StartOfString := stem ++ (c.InferenceRule H).SourceExtension
          LengthInChars := stem.length + (c.InferenceRule H).SourceExtension.length }
        S T H _ path hres htab hT
    rw [h1]
    refine ⟨pid, c4, _, rfl, ⟨?_, ?_⟩, h2, h3, h4, h7, h8⟩
    · simp
    · simp
  | cons r todo ih =>
    intro done fuel b Found hsplit hb hmiss hf
    obtain ⟨n, rfl⟩ : ∃ n, fuel = n + 1 := ⟨fuel - 1, by omega⟩
    simp only [List.cons_append, List.length_cons] at hf
    cases hg : MakeRuleGenerates c E r with
    | false =>
      simp only [List.cons_append, List.find?_cons, hg]
      exact ih (done ++ [r]) (n + 1) b Found (by rw [hsplit]; simp) hb
        (fun x hx => hmiss x (List.mem_cons_of_mem _ hx)) (by omega)
    | true =>
      simp only [List.cons_append, List.find?_cons, hg]
      rw [MakeFindInferenceRuleFirstPass_miss env S T E c b stem r Found n hb
        (hmiss r (List.mem_cons_self _ _) hg),
        MakeGetNextInferenceRuleTargetExtension_after R _ E done r (todo ++ H :: B) n
          (by rw [hsplit]; simp) (by omega)]
      simp only
      exact ih (done ++ [r]) n
        { b with StartOfString := stem ++ (c.InferenceRule r).SourceExtension } true
        (by rw [hsplit]; simp) (ProbeStem_print b stem _ hb)
        (fun x hx => hmiss x (List.mem_cons_of_mem _ hx)) (by omega)

/-- The second pass on a target that already carries a rule, when none of
the names it probes exists, changes only the probe buffer. -/
theorem MakeFindInferenceRuleSecondPass_quiet (env : MAKE_ENV) {c : MAKE_CONTEXT} {S : ScopeId}
    {chain : List ScopeId} {all : List RuleId} (R : Registry c S chain all) (T : TargetId)
    (E stem : YORI_STRING) (hset : (c.Target T).InferenceRule.isSome = true)
    (b : MAKE_PROBE_BUFFER) (hb : ProbeStem b stem)
    (quiet : ∀ o, all.find? (MakeRuleGenerates c E) = some o →
      ∀ i ∈ all, MakeRuleGenerates c (c.InferenceRule o).SourceExtension i = true →
        env.GetFileAttributes (stem ++ (c.InferenceRule i).SourceExtension) = false)
    (fuel : Nat) (hf : all.length + chain.length + 1 < fuel) :
    ∃ b', MakeFindInferenceRuleSecondPass env S T E fuel (c.withProbe b)
        (all.find? (MakeRuleGenerates c E)) = some (true, c.withProbe b') := by
  obtain ⟨n, rfl⟩ : ∃ n, fuel = n + 1 := ⟨fuel - 1, by omega⟩
  cases hfind : all.find? (MakeRuleGenerates c E) with
  | none => exact ⟨b, by rw [MakeFindInferenceRuleSecondPass]⟩
  | some o =>
    rw [MakeFindInferenceRuleSecondPass]
    simp only [withProbe_InferenceRule]
    rw [MakeGetNextInferenceRuleTargetExtension_first R b _ n (by omega)]
    simp only
    obtain ⟨b', h1, _⟩ := MakeFindInferenceRuleNested_none env R T o stem all [] n b
      (by simp) hb (quiet o hfind) (by omega)
    rw [h1]
    simp only [withProbe_Target, hset, if_true]
    exact ⟨b', rfl⟩

/-- Direct resolution: `H` is the first rule in the enumeration that
generates the extension `E` of the key `pre.E` of `T` and whose source file
`pre.srcH` exists, and none of the names `pre.srcH` followed by a further
source extension, which the second pass probes, exists.  Then with enough
fuel the resolver returns success with rule `H` on `T` and the target keyed
`pre.srcH` as its inference parent. -/
theorem MakeFindInferenceRuleForTarget_direct (env : MAKE_ENV) (ctx : MAKE_CONTEXT)
    (S : ScopeId) (T : TargetId) (chain : List ScopeId) (all : List RuleId)
    (R : Registry ctx S chain all) (htab : TableWF ctx) (hT : T < ctx.AllocTarget)
    (pre E : YORI_STRING) (hkey : (ctx.Target T).Key = pre ++ '.' :: E)
    (hE : ∀ ch ∈ E, ch ≠ '.' ∧ YoriLibIsSep ch = false) (hne : E ≠ [])
    (A B : List RuleId) (H : RuleId) (hA : all = A ++ H :: B)
    (hH : MakeRuleGenerates ctx E H = true)
    (hsrc : (ctx.InferenceRule H).SourceExtension ≠ [])
    (hfile : env.GetFileAttributes (pre ++ '.' :: (ctx.InferenceRule H).SourceExtension) = true)
    (hcanon : env.YoriLibGetFullPathNameRelativeTo (ctx.Scope S).Key
      (pre ++ '.' :: (ctx.InferenceRule H).SourceExtension) =
        some (pre ++ '.' :: (ctx.InferenceRule H).SourceExtension))
    (hfirst : ∀ r ∈ A, MakeRuleGenerates ctx E r = true →
      env.GetFileAttributes (pre ++ '.' :: (ctx.InferenceRule r).SourceExtension) = false)
    (quiet : ∀ o, all.find? (MakeRuleGenerates ctx E) = some o →
      ∀ i ∈ all, MakeRuleGenerates ctx (ctx.InferenceRule o).SourceExtension i = true →
        env.GetFileAttributes (pre ++ '.' :: (ctx.InferenceRule H).SourceExtension ++
          (ctx.InferenceRule i).SourceExtension) = false) :
    ∃ N, ∀ fuel, N ≤ fuel → ∃ ctx' p,
      MakeFindInferenceRuleForTarget env fuel ctx S T = some (true, ctx') ∧
      (ctx'.Target T).InferenceRule = some H ∧
      (ctx'.Target T).InferenceRuleParentTarget = some p ∧
      (ctx'.Target p).Key = pre ++ '.' :: (ctx.InferenceRule H).SourceExtension := by
  refine ⟨all.length + chain.length + 2, fun fuel hf => ?_⟩
  have hHmem : H ∈ all := by rw [hA]; simp
  have hext : MakeFindTargetExtension (ctx.Target T).Key = some E := by
    rw [hkey]; exact MakeFindTargetExtension_of_period pre E hE
  have hstem : (ctx.Target T).Key.take ((ctx.Target T).Key.length - E.length) = pre ++ ['.'] := by
    rw [hkey]
    have : (pre ++ '.' :: E).length - E.length = (pre ++ ['.']).length := by simp; omega
    rw [this, show pre ++ '.' :: E = (pre ++ ['.']) ++ E by simp, List.take_left]
  have happ : ∀ x : YORI_STRING, (pre ++ ['.']) ++ x = pre ++ '.' :: x := fun x => by simp
  obtain ⟨L, hLmax, hL⟩ := MakeFindInferenceRuleForTarget_setup env R T E hext hne fuel (by omega)
  have h0 : L ≠ 0 := by
    intro h0
    exact hsrc (List.length_eq_zero.mp (Nat.le_zero.mp (h0 ▸ hLmax H hHmem)))
  rw [hL]
  simp only [h0, if_false]
  have hb0 := MakeFindInferenceRuleProbeBuffer_stem ctx T E L
  rw [hstem] at hb0
  generalize MakeFindInferenceRuleProbeBuffer ctx T E L = b0 at hb0
  unfold MakeFindInferenceRulePasses
  rw [MakeGetNextInferenceRuleTargetExtension_first R b0 E fuel (by omega)]
  simp only
  obtain ⟨pid, c4, b4, h1, hb4, k1, k2, k3, htab4, hsame⟩ :=
    MakeFindInferenceRuleFirstPass_found env R T E (pre ++ ['.'])
      (pre ++ '.' :: (ctx.InferenceRule H).SourceExtension) H B hH
      (by rw [happ]; exact hfile) (by rw [happ]; exact hcanon) htab hT
      A [] fuel b0 false (by simpa using hA) hb0
      (fun r hr hg => by rw [happ]; exact hfirst r hr hg) (by rw [← hA]; omega)
  rw [← hA] at h1
  rw [h1]
  simp only
  have R4 : Registry c4 S chain all := Registry_transfer hsame R
  rw [MakeGetNextInferenceRuleTargetExtension_first R4 b4 E fuel (by omega)]
  simp only
  obtain ⟨b5, h5⟩ := MakeFindInferenceRuleSecondPass_quiet env R4 T E
    (pre ++ ['.'] ++ (ctx.InferenceRule H).SourceExtension) (by rw [k1]; rfl) b4 hb4
    (fun o ho i hi hgi => by
      have hfun : MakeRuleGenerates c4 E = MakeRuleGenerates ctx E :=
        funext (MakeRuleGenerates_same hsame E)
      rw [hfun] at ho
      rw [(hsame.2.1 o).2.1, MakeRuleGenerates_same hsame] at hgi
      rw [(hsame.2.1 i).2.1, happ]
      exact quiet o ho i hi hgi) fuel (by omega)
  rw [h5]
  exact ⟨c4.withProbe b5, pid, rfl, k1, k2, k3⟩

/-! ## Scope override -/

theorem find?_first {α : Type} (p : α → Bool) (A B : List α) (x : α)
    (hA : ∀ r ∈ A, p r = false) (hx : p x = true) : (A ++ x :: B).find? p = some x := by
  induction A with
  | nil => simp [hx]
  | cons a A ih =>
    simp only [List.cons_append, List.find?_cons, hA a (List.mem_cons_self _ _)]
    exact ih (fun r hr => hA r (List.mem_cons_of_mem _ hr))

/-- The registry seen from a child of the top scope of a registry. -/
theorem Registry_child {ctx : MAKE_CONTEXT} {Parent : ScopeId} {chainP : List ScopeId}
    {allP : List RuleId} (RP : Registry ctx Parent chainP allP) (Child : ScopeId)
    (hpar : (ctx.Scope Child).ParentScope = some Parent) :
    Registry ctx Child (Child :: chainP) ((ctx.Scope Child).InferenceRuleList ++ allP) := by
  refine ⟨RP.wf, ⟨rfl, ?_⟩, ?_⟩
  · rw [hpar]; exact RP.scopes
  · rw [ScopeChainRules, RP.rules]

/-- The enumeration from a scope starts with the rule list of that scope. -/
theorem Registry_head {ctx : MAKE_CONTEXT} {Parent : ScopeId} {chainP : List ScopeId}
    {allP : List RuleId} (RP : Registry ctx Parent chainP allP) :
    ∃ rest, allP = (ctx.Scope Parent).InferenceRuleList ++ rest := by
  have hs := RP.scopes
  have hr := RP.rules
  cases chainP with
  | nil => simp [ScopeChain] at hs
  | cons s rest =>
    have e : s = Parent := by
      have := hs.1
      exact (Option.some.inj this).symm
    subst e
    exact ⟨ScopeChainRules ctx rest, hr.symm⟩

/-- Scope override when the second pass finds no file.  Scope `Child` has
scope `Parent` as its parent.  The
first rule generating the extension `E` in the list of `Child` is `rNew`, the
first one in the list of `Parent` is `rOld`, both with the non-empty source
extension `X`.  Target `TC` is keyed `preC.E` and target `TP` is keyed
`preP.E`; the source files `preC.X` and `preP.X` exist, their names are
canonical, and no name the second pass probes exists.  Then resolving `TC`
through `Child` assigns `rNew`, resolving `TP` through `Parent` assigns
`rOld`, each with the target keyed by the source file as inference parent,
and the enumeration from `Parent` returns the rules reachable from `Parent`,
none of which is in the list of `Child`. -/
theorem MakeFindInferenceRuleForTarget_scope_override (env : MAKE_ENV) (ctx : MAKE_CONTEXT)
    (Child Parent : ScopeId) (chainP : List ScopeId) (allP : List RuleId)
    (RP : Registry ctx Parent chainP allP)
    (hpar : (ctx.Scope Child).ParentScope = some Parent) (htab : TableWF ctx)
    (TC TP : TargetId) (hTC : TC < ctx.AllocTarget) (hTP : TP < ctx.AllocTarget)
    (preC preP E X : YORI_STRING)
    (hkeyC : (ctx.Target TC).Key = preC ++ '.' :: E)
    (hkeyP : (ctx.Target TP).Key = preP ++ '.' :: E)
    (hE : ∀ ch ∈ E, ch ≠ '.' ∧ YoriLibIsSep ch = false) (hne : E ≠ []) (hX : X ≠ [])
    (AC BC AP BP : List RuleId) (rNew rOld : RuleId)
    (hchild : (ctx.Scope Child).InferenceRuleList = AC ++ rNew :: BC)
    (hparent : (ctx.Scope Parent).InferenceRuleList = AP ++ rOld :: BP)
    (hAC : ∀ r ∈ AC, MakeRuleGenerates ctx E r = false)
    (hAP : ∀ r ∈ AP, MakeRuleGenerates ctx E r = false)
    (hgN : MakeRuleGenerates ctx E rNew = true) (hgO : MakeRuleGenerates ctx E rOld = true)
    (hsN : (ctx.InferenceRule rNew).SourceExtension = X)
    (hsO : (ctx.InferenceRule rOld).SourceExtension = X)
    (hfileC : env.GetFileAttributes (preC ++ '.' :: X) = true)
    (hfileP : env.GetFileAttributes (preP ++ '.' :: X) = true)
    (hcanonC : env.YoriLibGetFullPathNameRelativeTo (ctx.Scope Child).Key (preC ++ '.' :: X) =
      some (preC ++ '.' :: X))
    (hcanonP : env.YoriLibGetFullPathNameRelativeTo (ctx.Scope Parent).Key (preP ++ '.' :: X) =
      some (preP ++ '.' :: X))
    (quietC : ∀ i ∈ (ctx.Scope Child).InferenceRuleList ++ allP,
      MakeRuleGenerates ctx X i = true →
        env.GetFileAttributes (preC ++ '.' :: X ++ (ctx.InferenceRule i).SourceExtension) = false)
    (quietP : ∀ i ∈ allP, MakeRuleGenerates ctx X i = true →
        env.GetFileAttributes (preP ++ '.' :: X ++ (ctx.InferenceRule i).SourceExtension) =
          false) :
    (∃ N, ∀ fuel, N ≤ fuel → ∃ ctx' p,
      MakeFindInferenceRuleForTarget env fuel ctx Child TC = some (true, ctx') ∧
      (ctx'.Target TC).InferenceRule = some rNew ∧
      (ctx'.Target TC).InferenceRuleParentTarget = some p ∧
      (ctx'.Target p).Key = preC ++ '.' :: X) ∧
    (∃ N, ∀ fuel, N ≤ fuel → ∃ ctx' p,
      MakeFindInferenceRuleForTarget env fuel ctx Parent TP = some (true, ctx') ∧
      (ctx'.Target TP).InferenceRule = some rOld ∧
      (ctx'.Target TP).InferenceRuleParentTarget = some p ∧
      (ctx'.Target p).Key = preP ++ '.' :: X) ∧
    (∃ N, ∀ fuel, N ≤ fuel →
      MakeEnumerateInferenceRules ctx Parent fuel none = some allP) ∧
    (∀ r ∈ (ctx.Scope Child).InferenceRuleList, r ∉ allP) := by
  have RC := Registry_child RP Child hpar
  obtain ⟨rest, hrest⟩ := Registry_head RP
  refine ⟨?_, ?_, ?_, ?_⟩
  · have hsplit : (ctx.Scope Child).InferenceRuleList ++ allP = AC ++ rNew :: (BC ++ allP) := by
      rw [hchild]; simp
    have hfind : ((ctx.Scope Child).InferenceRuleList ++ allP).find? (MakeRuleGenerates ctx E) =
        some rNew := by
      rw [hsplit]; exact find?_first _ AC _ rNew hAC hgN
    have := MakeFindInferenceRuleForTarget_direct env ctx Child TC (Child :: chainP) _ RC htab
      hTC preC E hkeyC hE hne AC (BC ++ allP) rNew hsplit hgN (by rw [hsN]; exact hX)
      (by rw [hsN]; exact hfileC) (by rw [hsN]; exact hcanonC)
      (fun r hr hg => by rw [hAC r hr] at hg; exact absurd hg Bool.false_ne_true)
      (fun o ho i hi hgi => by
        rw [hfind] at ho
        have e := Option.some.inj ho
        subst e
        rw [hsN] at hgi ⊢
        exact quietC i hi hgi)
    rw [hsN] at this
    exact this
  · have hsplit : allP = AP ++ rOld :: (BP ++ rest) := by
      rw [hrest, hparent]; simp
    have hfind : allP.find? (MakeRuleGenerates ctx E) = some rOld := by
      rw [hsplit]; exact find?_first _ AP _ rOld hAP hgO
    have := MakeFindInferenceRuleForTarget_direct env ctx Parent TP chainP _ RP htab
      hTP preP E hkeyP hE hne AP (BP ++ rest) rOld hsplit hgO (by rw [hsO]; exact hX)
      (by rw [hsO]; exact hfileP) (by rw [hsO]; exact hcanonP)
      (fun r hr hg => by rw [hAP r hr] at hg; exact absurd hg Bool.false_ne_true)
      (fun o ho i hi hgi => by
        rw [hfind] at ho
        have e := Option.some.inj ho
        subst e
        rw [hsO] at hgi ⊢
        exact quietP i hi hgi)
    rw [hsO] at this
    exact this
  · refine ⟨allP.length + chainP.length + 2, fun fuel hf => ?_⟩
    have := MakeEnumerateInferenceRules_cursor ctx RP.wf Parent chainP RP.scopes allP [] fuel
      (by rw [RP.rules]; rfl) (by omega)
    simpa using this
  · intro r hr hin
    have hnd : ((ctx.Scope Child).InferenceRuleList ++ allP).Nodup := by
      have := ScopeChainRules_nodup ctx RC.wf (Child :: chainP)
        (ScopeChain_nodup ctx (Child :: chainP) _ RC.scopes)
      rw [RC.rules] at this
      exact this
    exact (List.nodup_append.mp hnd).2.2 hr hin

/-! ## Scenario S5 -/

theorem ScenarioS5_registry : Registry ScenarioS5 0 [0] [0] := by
  refine ⟨⟨?_, ?_, ?_⟩, ⟨rfl, rfl⟩, rfl⟩
  · intro s r h
    by_cases h0 : s = 0
    · subst h0
      simp only [ScenarioS5, if_true, List.mem_singleton] at h
      subst h; rfl
    · by_cases h1 : s = 1
      · subst h1
        simp [ScenarioS5] at h
        subst h; rfl
      · simp [ScenarioS5, h0, h1] at h
  · intro s
    by_cases h0 : s = 0
    · subst h0; simp [ScenarioS5]
    · by_cases h1 : s = 1
      · subst h1; simp [ScenarioS5]
      · simp [ScenarioS5, h0, h1]
  · intro s r h
    by_cases h0 : s = 0
    · subst h0
      simp only [ScenarioS5, if_true, List.mem_singleton] at h
      subst h; decide
    · by_cases h1 : s = 1
      · subst h1
        simp [ScenarioS5] at h
        subst h; decide
      · simp [ScenarioS5, h0, h1] at h

theorem ScenarioS5_table : TableWF ScenarioS5 := by
  intro e he
  simp only [ScenarioS5, List.mem_cons, List.mem_singleton, List.not_mem_nil, or_false] at he
  rcases he with rfl | rfl | rfl | rfl <;> exact ⟨by decide, rfl⟩

theorem MakeFindInferenceRuleForTarget_scope_override_witness :
    ((∃ N, ∀ fuel, N ≤ fuel → ∃ ctx' p,
      MakeFindInferenceRuleForTarget ScenarioS5Env fuel ScenarioS5 1 3 = some (true, ctx') ∧
      (ctx'.Target 3).InferenceRule = some 1 ∧
      (ctx'.Target 3).InferenceRuleParentTarget = some p ∧
      (ctx'.Target p).Key = "sub/b.c".toList) ∧
    (∃ N, ∀ fuel, N ≤ fuel → ∃ ctx' p,
      MakeFindInferenceRuleForTarget ScenarioS5Env fuel ScenarioS5 0 2 = some (true, ctx') ∧
      (ctx'.Target 2).InferenceRule = some 0 ∧
      (ctx'.Target 2).InferenceRuleParentTarget = some p ∧
      (ctx'.Target p).Key = "a.c".toList) ∧
    (∃ N, ∀ fuel, N ≤ fuel → MakeEnumerateInferenceRules ScenarioS5 0 fuel none = some [0]) ∧
    (∀ r ∈ [1], r ∉ [0])) ∧
    (match MakeFindInferenceRuleForTarget ScenarioS5Env 8 ScenarioS5 1 3 with
      | some (true, c) =>
        (c.Target 3).InferenceRule.map (fun r => (c.Target (c.InferenceRule r).Target).Recipe)
      | _ => none) = some ("NEW".toList ++ [NewLine]) ∧
    (match MakeFindInferenceRuleForTarget ScenarioS5Env 8 ScenarioS5 0 2 with
      | some (true, c) =>
        (c.Target 2).InferenceRule.map (fun r => (c.Target (c.InferenceRule r).Target).Recipe)
      | _ => none) = some ("OLD".toList ++ [NewLine]) :=
  ⟨MakeFindInferenceRuleForTarget_scope_override ScenarioS5Env ScenarioS5 1 0 [0] [0]
    ScenarioS5_registry rfl ScenarioS5_table 3 2 (by decide) (by decide)
    "sub/b".toList "a".toList "obj".toList "c".toList rfl rfl (by decide) (by decide)
    (by decide) [] [] [] [] 1 0 rfl rfl (by decide) (by decide) (by decide) (by decide)
    rfl rfl (by decide) (by decide) rfl rfl (by decide) (by decide), rfl, rfl⟩

/-! ## The second pass after a direct hit -/

/-- C6: the second pass runs after a depth-1 hit.  In scenario S4 with the
files `a.c` and `a.cy`, resolving `a.obj` first assigns the rule `.c` to
`.obj` with the new target `a.c` (target 5) as inference parent; the second
pass then probes `a.cy` from the lengthened buffer, finds it, and assigns
again: `a.obj` ends with the target keyed `a.cc` (target 6) as inference
parent, which carries the rule `.y` to `.c` with `a.cy` (target 7) as
inference parent. -/
theorem MakeFindInferenceRuleForTarget_second_pass_after_hit :
    (MakeFindInferenceRuleForTarget (ScenarioEnv [("a.c".toList, 2), ("a.cy".toList, 1)]) 8
        ScenarioS4 0 2).map
      (fun x => (x.1, (x.2.Target 2).InferenceRule,
        (x.2.Target 2).InferenceRuleParentTarget.map (fun p => (p, (x.2.Target p).Key)),
        (x.2.Target 5).Key,
        (x.2.Target 6).InferenceRule,
        (x.2.Target 6).InferenceRuleParentTarget.map (fun p => (p, (x.2.Target p).Key)))) =
      some (true, some 1, some (6, "a.cc".toList), "a.c".toList, some 0,
        some (7, "a.cy".toList)) := by
  rfl

theorem MakeFindInferenceRuleForTarget_noop_witness :
    (∀ fuel, MakeFindInferenceRuleForTarget (ScenarioEnv []) fuel ScenarioS4 0 3 =
      some (true, ScenarioS4)) ∧
    (∃ N, ∀ fuel, N ≤ fuel → ∃ b,
      MakeFindInferenceRuleForTarget (ScenarioEnv []) fuel ScenarioS4 0 4 =
        some (true, ScenarioS4.withProbe b)) :=
  ⟨(MakeFindInferenceRuleForTarget_noop (ScenarioEnv []) ScenarioS4 0 3 [0] [1, 0]
      ScenarioS4_registry).1 (Or.inl ⟨[], "all".toList, rfl, by decide, Or.inl rfl⟩),
    (MakeFindInferenceRuleForTarget_noop (ScenarioEnv []) ScenarioS4 0 4 [0] [1, 0]
      ScenarioS4_registry).2 "a".toList "txt".toList rfl (by decide) (by decide)⟩

theorem MakeGetNextInferenceRule_enumeration_witness :
    (∃ N, ∀ fuel, N ≤ fuel →
      MakeEnumerateInferenceRules ScenarioS5 1 fuel none = some [1, 0]) ∧
    ((MakeCreateInferenceRule ScenarioS5 1 "y".toList "c".toList 0).2.Scope 1).InferenceRuleList =
      [2, 1] :=
  ⟨(MakeGetNextInferenceRule_enumeration ScenarioS5 1 [1, 0] ScenarioS5_registry.wf
      ⟨rfl, rfl, rfl⟩).1,
    ((MakeGetNextInferenceRule_enumeration ScenarioS5 1 [1, 0] ScenarioS5_registry.wf
      ⟨rfl, rfl, rfl⟩).2.2 1 "y".toList "c".toList 0).1⟩

/-! ## Enumeration of the rules that generate an extension -/

theorem MakeEnumerateInferenceRulesTargetExtension_cursor {ctx : MAKE_CONTEXT}
    {TopScope : ScopeId} {chain : List ScopeId} {all : List RuleId}
    (R : Registry ctx TopScope chain all) (Ext : YORI_STRING) :
    ∀ (fuel : Nat) (todo done : List RuleId), all = done ++ todo →
      todo.length + chain.length + 1 < fuel →
      MakeEnumerateInferenceRulesTargetExtension ctx TopScope Ext fuel done.getLast? =
        some (todo.filter (MakeRuleGenerates ctx Ext)) := by
  intro fuel
  induction fuel with
  | zero => intro todo done _ hf; omega
  | succ n ih =>
    intro todo done hsplit hf
    rw [MakeEnumerateInferenceRulesTargetExtension,
      MakeGetNextInferenceRuleTargetExtension_cursor R Ext done todo n hsplit (by omega)]
    cases hfind : todo.find? (MakeRuleGenerates ctx Ext) with
    | none =>
      simp only
      rw [List.find?_eq_none] at hfind
      rw [List.filter_eq_nil_iff.mpr hfind]
    | some r =>
      simp only
      obtain ⟨hr, A, B, hAB, hA⟩ := List.find?_eq_some.mp hfind
      have hfA : A.filter (MakeRuleGenerates ctx Ext) = [] :=
        List.filter_eq_nil_iff.mpr (fun a ha => by simpa using hA a ha)
      have hlen : todo.length = A.length + (B.length + 1) := by rw [hAB]; simp
      have := ih B (done ++ A ++ [r]) (by rw [hsplit, hAB]; simp) (by omega)
      rw [getLast?_concat_rule] at this
      rw [this, hAB, List.filter_append, hfA, List.filter_cons, hr]
      simp

/-- C11: the per-extension enumeration is the filtered enumeration.  On a
well-formed registry and a scope chain from `TopScope` up to the root, with
enough fuel the sequence enumerated by
`MakeGetNextInferenceRuleTargetExtension` for `TargetExt` is the sequence
enumerated by `MakeGetNextInferenceRule`, filtered in the same order to the
rules whose target extension equals `TargetExt` ignoring case. -/
theorem MakeGetNextInferenceRuleTargetExtension_filtered (ctx : MAKE_CONTEXT)
    (TopScope : ScopeId) (chain : List ScopeId) (TargetExt : YORI_STRING)
    (hwf : RuleListsWF ctx) (hchain : ScopeChain ctx chain (some TopScope)) :
    ∃ N, ∀ fuel, N ≤ fuel →
      MakeEnumerateInferenceRules ctx TopScope fuel none = some (ScopeChainRules ctx chain) ∧
      MakeEnumerateInferenceRulesTargetExtension ctx TopScope TargetExt fuel none =
        some (FilteredInferenceRules ctx TargetExt (ScopeChainRules ctx chain)) := by
  refine ⟨(ScopeChainRules ctx chain).length + chain.length + 2, fun fuel hf => ⟨?_, ?_⟩⟩
  · have := MakeEnumerateInferenceRules_cursor ctx hwf TopScope chain hchain
      (ScopeChainRules ctx chain) [] fuel rfl (by omega)
    simpa using this
  · have R : Registry ctx TopScope chain (ScopeChainRules ctx chain) := ⟨hwf, hchain, rfl⟩
    have := MakeEnumerateInferenceRulesTargetExtension_cursor R TargetExt fuel
      (ScopeChainRules ctx chain) [] rfl (by omega)
    simpa [FilteredInferenceRules, MakeRuleGenerates] using this

theorem MakeGetNextInferenceRuleTargetExtension_filtered_witness :
    ∃ N, ∀ fuel, N ≤ fuel →
      MakeEnumerateInferenceRules ScenarioS4 0 fuel none = some [1, 0] ∧
      MakeEnumerateInferenceRulesTargetExtension ScenarioS4 0 "OBJ".toList fuel none =
        some [1] :=
  MakeGetNextInferenceRuleTargetExtension_filtered ScenarioS4 0 [0] "OBJ".toList
    ScenarioS4_registry.wf ⟨rfl, rfl⟩

/-! ## The recipe compiler -/

/-- C16: template choice.  `MakeGenerateExecScriptForTarget` compiles the
recipe of the target when it is not empty; otherwise the recipe of the
carrier target of the inference rule when a rule is set; otherwise, when an
explicit recipe was found, it succeeds and adds no command; otherwise it
fails and leaves the context, and so the commands of the target, as they
are. -/
theorem MakeGenerateExecScriptForTarget_template (env : MAKE_ENV) (ctx : MAKE_CONTEXT)
    (T : TargetId) :
    ((ctx.Target T).Recipe ≠ [] →
      MakeGenerateExecScriptForTarget env ctx T =
        MakeGenerateExecScriptLines env T (ctx.Target T).Recipe [] ctx) ∧
    ((ctx.Target T).Recipe = [] → ∀ r, (ctx.Target T).InferenceRule = some r →
      MakeGenerateExecScriptForTarget env ctx T =
        MakeGenerateExecScriptLines env T (ctx.Target (ctx.InferenceRule r).Target).Recipe []
          ctx) ∧
    ((ctx.Target T).Recipe = [] → (ctx.Target T).InferenceRule = none →
      (ctx.Target T).ExplicitRecipeFound = true →
      MakeGenerateExecScriptForTarget env ctx T = (true, ctx)) ∧
    ((ctx.Target T).Recipe = [] → (ctx.Target T).InferenceRule = none →
      (ctx.Target T).ExplicitRecipeFound = false →
      MakeGenerateExecScriptForTarget env ctx T = (false, ctx)) := by
  refine ⟨?_, ?_, ?_, ?_⟩
  · intro h
    have hl : (ctx.Target T).Recipe.length > 0 := List.length_pos.mpr h
    simp [MakeGenerateExecScriptForTarget, MakeExecScriptSourceString, hl]
  · intro h r hr
    simp [MakeGenerateExecScriptForTarget, MakeExecScriptSourceString, h, hr]
  · intro h hr he
    simp [MakeGenerateExecScriptForTarget, MakeExecScriptSourceString, h, hr, he,
      MakeGenerateExecScriptLines]
  · intro h hr he
    simp [MakeGenerateExecScriptForTarget, MakeExecScriptSourceString, h, hr, he]

theorem MakeGenerateExecScriptLines_skip (env : MAKE_ENV) (T : TargetId) :
    ∀ (l rest acc : YORI_STRING) (ctx : MAKE_CONTEXT), NewLine ∉ l →
      MakeGenerateExecScriptLines env T (l ++ rest) acc ctx =
        MakeGenerateExecScriptLines env T rest (acc ++ l) ctx := by
  intro l
  induction l with
  | nil => intro rest acc ctx _; simp
  | cons c l ih =>
    intro rest acc ctx h
    have hc : c ≠ NewLine := fun e => h (by rw [e]; exact List.mem_cons_self _ _)
    have hl : NewLine ∉ l := fun e => h (List.mem_cons_of_mem _ e)
    rw [List.cons_append, MakeGenerateExecScriptLines]
    simp only [hc, if_false]
    rw [ih rest (acc ++ [c]) ctx hl]
    simp

/-- One command line of a template: the line is stripped of its modifiers,
expanded, and appended. -/
theorem MakeGenerateExecScriptLines_line (env : MAKE_ENV) (T : TargetId) (line rest : YORI_STRING)
    (ctx : MAKE_CONTEXT) (h : NewLine ∉ line) :
    MakeGenerateExecScriptLines env T (line ++ NewLine :: rest) [] ctx =
      match env.MakeExpandVariables ctx (ctx.Target T).ScopeContext T
          (MakeStripLineModifiers line true false).1 with
      | none => (false, ctx)
      | some Cmd =>
        MakeGenerateExecScriptLines env T rest []
          (ctx.setTarget T
            { ctx.Target T with
              ExecCmds := (ctx.Target T).ExecCmds ++
                [{ Cmd := Cmd, DisplayCmd := (MakeStripLineModifiers line true false).2.1,
                   IgnoreErrors := (MakeStripLineModifiers line true false).2.2 }] }) := by
  rw [MakeGenerateExecScriptLines_skip env T line _ [] ctx h, MakeGenerateExecScriptLines]
  simp

theorem JoinTemplateLines_exists (tpl : YORI_STRING) :
    ∃ lines tail, tpl = JoinTemplateLines lines tail ∧ (∀ l ∈ lines, NewLine ∉ l) ∧
      NewLine ∉ tail := by
  induction tpl with
  | nil => exact ⟨[], [], rfl, by simp, by simp⟩
  | cons c tpl ih =>
    obtain ⟨lines, tail, h1, h2, h3⟩ := ih
    by_cases hc : c = NewLine
    · exact ⟨[] :: lines, tail, by rw [h1, hc]; rfl, by
        intro l hl
        rcases List.mem_cons.mp hl with e | e
        · rw [e]; simp
        · exact h2 l e, h3⟩
    · cases lines with
      | nil =>
        refine ⟨[], c :: tail, by rw [h1]; rfl, by simp, ?_⟩
        intro hm
        rcases List.mem_cons.mp hm with e | e
        · exact hc e.symm
        · exact h3 e
      | cons l lines =>
        refine ⟨(c :: l) :: lines, tail, by rw [h1]; rfl, ?_, h3⟩
        intro x hx
        rcases List.mem_cons.mp hx with e | e
        · rw [e]
          intro hm
          rcases List.mem_cons.mp hm with e2 | e2
          · exact hc e2.symm
          · exact h2 l (List.mem_cons_self _ _) e2
        · exact h2 x (List.mem_cons_of_mem _ e)

theorem JoinTemplateLines_count :
    ∀ (lines : List YORI_STRING) (tail : YORI_STRING), (∀ l ∈ lines, NewLine ∉ l) →
      NewLine ∉ tail → (JoinTemplateLines lines tail).count NewLine = lines.length := by
  intro lines
  induction lines with
  | nil =>
    intro tail _ h
    exact List.count_eq_zero.mpr h
  | cons l lines ih =>
    intro tail h1 h2
    rw [JoinTemplateLines, List.count_append,
      List.count_eq_zero.mpr (h1 l (List.mem_cons_self _ _)), List.count_cons_self,
      ih tail (fun x hx => h1 x (List.mem_cons_of_mem _ hx)) h2]
    simp

theorem appendExecCmds_nil (ctx : MAKE_CONTEXT) (T : TargetId) : ctx.appendExecCmds T [] = ctx := by
  unfold MAKE_CONTEXT.appendExecCmds
  rw [List.append_nil]
  exact setTarget_self ctx T

theorem appendExecCmds_append (ctx : MAKE_CONTEXT) (T : TargetId) (a b : List MAKE_CMD_TO_EXEC) :
    (ctx.appendExecCmds T a).appendExecCmds T b = ctx.appendExecCmds T (a ++ b) := by
  unfold MAKE_CONTEXT.appendExecCmds
  rw [setTarget_setTarget]
  simp

theorem appendExecCmds_ScopeContext (ctx : MAKE_CONTEXT) (T : TargetId)
    (a : List MAKE_CMD_TO_EXEC) :
    ((ctx.appendExecCmds T a).Target T).ScopeContext = (ctx.Target T).ScopeContext := by
  simp [MAKE_CONTEXT.appendExecCmds]

/-- The commands compiled from the command lines of a template when every
expansion succeeds. -/
theorem MakeGenerateExecScriptLines_split (env : MAKE_ENV) (T : TargetId)
    (hexp : ∀ c s l, (env.MakeExpandVariables c s T l).isSome = true) :
    ∀ (lines : List YORI_STRING) (tail : YORI_STRING) (ctx : MAKE_CONTEXT),
      (∀ l ∈ lines, NewLine ∉ l) → NewLine ∉ tail →
      ∃ cmds, MakeGenerateExecScriptLines env T (JoinTemplateLines lines tail) [] ctx =
          (true, ctx.appendExecCmds T cmds) ∧
        cmds.length = lines.length ∧
        ∀ i line, lines[i]? = some line → ∃ cmd, cmds[i]? = some cmd ∧
          cmd.DisplayCmd = (MakeStripLineModifiers line true false).2.1 ∧
          cmd.IgnoreErrors = (MakeStripLineModifiers line true false).2.2 ∧
          env.MakeExpandVariables (ctx.appendExecCmds T (cmds.take i))
            (ctx.Target T).ScopeContext T (MakeStripLineModifiers line true false).1 =
              some cmd.Cmd := by
  intro lines
  induction lines with
  | nil =>
    intro tail ctx _ h
    refine ⟨[], ?_, rfl, ?_⟩
    · have := MakeGenerateExecScriptLines_skip env T tail [] [] ctx h
      rw [List.append_nil] at this
      rw [JoinTemplateLines, this, MakeGenerateExecScriptLines, appendExecCmds_nil]
    · intro i line hl; simp at hl
  | cons l lines ih =>
    intro tail ctx h1 h2
    rw [JoinTemplateLines, MakeGenerateExecScriptLines_line env T l _ ctx
      (h1 l (List.mem_cons_self _ _))]
    obtain ⟨Cmd, hCmd⟩ := Option.isSome_iff_exists.mp
      (hexp ctx (ctx.Target T).ScopeContext (MakeStripLineModifiers l true false).1)
    rw [hCmd]
    simp only
    obtain ⟨cmds, k1, k2, k3⟩ := ih tail
      (ctx.appendExecCmds T [MAKE_CMD_TO_EXEC.mk Cmd (MakeStripLineModifiers l true false).2.1
        (MakeStripLineModifiers l true false).2.2])
      (fun x hx => h1 x (List.mem_cons_of_mem _ hx)) h2
    refine ⟨MAKE_CMD_TO_EXEC.mk Cmd (MakeStripLineModifiers l true false).2.1
      (MakeStripLineModifiers l true false).2.2 :: cmds, ?_, by simp [k2], ?_⟩
    · have := k1
      rw [appendExecCmds_append] at this
      exact this
    · intro i line hl
      cases i with
      | zero =>
        simp only [List.getElem?_cons_zero, Option.some.injEq] at hl
        subst hl
        refine ⟨MAKE_CMD_TO_EXEC.mk Cmd (MakeStripLineModifiers l true false).2.1
          (MakeStripLineModifiers l true false).2.2, by simp, rfl, rfl, ?_⟩
        rw [List.take_zero, appendExecCmds_nil]
        exact hCmd
      | succ i =>
        simp only [List.getElem?_cons_succ] at hl
        obtain ⟨cmd, c1, c2, c3, c4⟩ := k3 i line hl
        refine ⟨cmd, by simpa using c1, c2, c3, ?_⟩
        rw [appendExecCmds_append, appendExecCmds_ScopeContext] at c4
        simpa using c4

/-- C17: line splitting.  Every template is, in one way, a sequence of
command lines, each ended by a newline, followed by a tail without newline,
and there are as many lines as newlines.  When variable expansion succeeds,
`MakeGenerateExecScriptForTarget` on the template `tpl` succeeds and appends
to the commands of the target one command per line, in order: the command at
position `i` is compiled from line `i` (its modifiers stripped, the rest
expanded in the context that holds the commands before it); the tail gives no
command. -/
theorem MakeGenerateExecScriptForTarget_lines (env : MAKE_ENV) (ctx : MAKE_CONTEXT)
    (T : TargetId) (tpl : YORI_STRING)
    (hsrc : MakeExecScriptSourceString ctx T = some tpl)
    (hexp : ∀ c s l, (env.MakeExpandVariables c s T l).isSome = true) :
    (∃ lines tail, tpl = JoinTemplateLines lines tail ∧ (∀ l ∈ lines, NewLine ∉ l) ∧
      NewLine ∉ tail) ∧
    ∀ lines tail, tpl = JoinTemplateLines lines tail → (∀ l ∈ lines, NewLine ∉ l) →
      NewLine ∉ tail →
      ∃ cmds, MakeGenerateExecScriptForTarget env ctx T = (true, ctx.appendExecCmds T cmds) ∧
        cmds.length = lines.length ∧ cmds.length = tpl.count NewLine ∧
        ∀ i line, lines[i]? = some line → ∃ cmd, cmds[i]? = some cmd ∧
          cmd.DisplayCmd = (MakeStripLineModifiers line true false).2.1 ∧
          cmd.IgnoreErrors = (MakeStripLineModifiers line true false).2.2 ∧
          env.MakeExpandVariables (ctx.appendExecCmds T (cmds.take i))
            (ctx.Target T).ScopeContext T (MakeStripLineModifiers line true false).1 =
              some cmd.Cmd := by
  refine ⟨JoinTemplateLines_exists tpl, ?_⟩
  intro lines tail htpl h1 h2
  obtain ⟨cmds, k1, k2, k3⟩ := MakeGenerateExecScriptLines_split env T hexp lines tail ctx h1 h2
  refine ⟨cmds, ?_, k2, ?_, k3⟩
  · unfold MakeGenerateExecScriptForTarget
    rw [hsrc, htpl]
    exact k1
  · rw [k2, htpl, JoinTemplateLines_count lines tail h1 h2]

theorem MakeStripLineModifiers_run :
    ∀ (line : YORI_STRING) (D I : Bool),
      MakeStripLineModifiers line D I =
        (line.dropWhile IsLineModifier,
          D && !(line.takeWhile IsLineModifier).contains '@',
          I || (line.takeWhile IsLineModifier).contains '-') := by
  intro line
  induction line with
  | nil => intro D I; simp [MakeStripLineModifiers]
  | cons c rest ih =>
    intro D I
    rw [MakeStripLineModifiers]
    by_cases h1 : c = '@'
    · subst h1
      rw [if_pos rfl, ih]
      simp [IsLineModifier, List.takeWhile_cons, List.dropWhile_cons]
    · by_cases h2 : c = '-'
      · subst h2
        rw [if_neg h1, if_pos rfl, ih]
        simp [IsLineModifier, List.takeWhile_cons, List.dropWhile_cons]
      · rw [if_neg h1, if_neg h2]
        simp [IsLineModifier, List.takeWhile_cons, List.dropWhile_cons, h1, h2]

/-- C18: per-line modifiers.  A command line `line` is its longest leading
run of the characters `@` and `-` followed by a text that is empty or starts
with another character.  `MakeGenerateExecScriptForTarget` hands that text to
variable expansion, and the command it appends has `DisplayCmd` false exactly
when the run contains `@` and `IgnoreErrors` true exactly when the run
contains `-`. -/
theorem MakeGenerateExecScriptForTarget_modifiers (env : MAKE_ENV) (T : TargetId)
    (line rest : YORI_STRING) (ctx : MAKE_CONTEXT) (h : NewLine ∉ line) :
    line = line.takeWhile IsLineModifier ++ line.dropWhile IsLineModifier ∧
    (∀ c ∈ line.takeWhile IsLineModifier, c = '@' ∨ c = '-') ∧
    (line.dropWhile IsLineModifier = [] ∨
      ∃ c tl, line.dropWhile IsLineModifier = c :: tl ∧ c ≠ '@' ∧ c ≠ '-') ∧
    MakeStripLineModifiers line true false =
      (line.dropWhile IsLineModifier, !(line.takeWhile IsLineModifier).contains '@',
        (line.takeWhile IsLineModifier).contains '-') ∧
    MakeGenerateExecScriptLines env T (line ++ NewLine :: rest) [] ctx =
      match env.MakeExpandVariables ctx (ctx.Target T).ScopeContext T
          (line.dropWhile IsLineModifier) with
      | none => (false, ctx)
      | some Cmd =>
        MakeGenerateExecScriptLines env T rest []
          (ctx.appendExecCmds T
            [MAKE_CMD_TO_EXEC.mk Cmd (!(line.takeWhile IsLineModifier).contains '@')
              ((line.takeWhile IsLineModifier).contains '-')]) := by
  have hs := MakeStripLineModifiers_run line true false
  simp only [Bool.true_and, Bool.false_or] at hs
  refine ⟨(List.takeWhile_append_dropWhile _ _).symm, ?_, ?_, hs, ?_⟩
  · intro c hc
    have := List.mem_takeWhile_imp hc
    simpa [IsLineModifier] using this
  · cases hd : line.dropWhile IsLineModifier with
    | nil => exact Or.inl rfl
    | cons c tl =>
      right
      refine ⟨c, tl, rfl, ?_⟩
      have := List.head_dropWhile_not IsLineModifier line (by rw [hd]; simp)
      simp only [hd, List.head_cons] at this
      constructor
      · intro e; rw [e] at this; simp [IsLineModifier] at this
      · intro e; rw [e] at this; simp [IsLineModifier] at this
  · rw [MakeGenerateExecScriptLines_line env T line rest ctx h, hs]
    rfl

theorem MakeGenerateExecScriptForTarget_template_witness :
    MakeGenerateExecScriptForTarget (ScenarioEnv []) ScenarioRecipe 0 =
      MakeGenerateExecScriptLines (ScenarioEnv []) 0 (ScenarioRecipe.Target 0).Recipe []
        ScenarioRecipe ∧
    MakeGenerateExecScriptForTarget (ScenarioEnv []) ScenarioRecipe 3 =
      MakeGenerateExecScriptLines (ScenarioEnv []) 3 (ScenarioRecipe.Target 0).Recipe []
        ScenarioRecipe ∧
    MakeGenerateExecScriptForTarget (ScenarioEnv []) ScenarioRecipe 1 = (true, ScenarioRecipe) ∧
    MakeGenerateExecScriptForTarget (ScenarioEnv []) ScenarioRecipe 2 = (false, ScenarioRecipe) :=
  ⟨(MakeGenerateExecScriptForTarget_template (ScenarioEnv []) ScenarioRecipe 0).1 (by decide),
    (MakeGenerateExecScriptForTarget_template (ScenarioEnv []) ScenarioRecipe 3).2.1 rfl 0 rfl,
    (MakeGenerateExecScriptForTarget_template (ScenarioEnv []) ScenarioRecipe 1).2.2.1
      rfl rfl rfl,
    (MakeGenerateExecScriptForTarget_template (ScenarioEnv []) ScenarioRecipe 2).2.2.2
      rfl rfl rfl⟩

theorem MakeGenerateExecScriptForTarget_lines_witness :
    (∃ cmds, MakeGenerateExecScriptForTarget (ScenarioEnv []) ScenarioRecipe 0 =
        (true, ScenarioRecipe.appendExecCmds 0 cmds) ∧
      cmds.length = 3 ∧ cmds.length = (ScenarioRecipe.Target 0).Recipe.count NewLine ∧
      ∀ i line, ["@echo a".toList, "-@del b".toList, []][i]? = some line →
        ∃ cmd, cmds[i]? = some cmd ∧
          cmd.DisplayCmd = (MakeStripLineModifiers line true false).2.1 ∧
          cmd.IgnoreErrors = (MakeStripLineModifiers line true false).2.2 ∧
          (ScenarioEnv []).MakeExpandVariables (ScenarioRecipe.appendExecCmds 0 (cmds.take i))
            (ScenarioRecipe.Target 0).ScopeContext 0
            (MakeStripLineModifiers line true false).1 = some cmd.Cmd) ∧
    (((MakeGenerateExecScriptForTarget (ScenarioEnv []) ScenarioRecipe 0).2.Target 0).ExecCmds =
      [MAKE_CMD_TO_EXEC.mk "echo a".toList false false,
        MAKE_CMD_TO_EXEC.mk "del b".toList false true,
        MAKE_CMD_TO_EXEC.mk [] true false]) :=
  ⟨(MakeGenerateExecScriptForTarget_lines (ScenarioEnv []) ScenarioRecipe 0
      (ScenarioRecipe.Target 0).Recipe rfl (fun _ _ _ => rfl)).2
      ["@echo a".toList, "-@del b".toList, []] "rest".toList rfl (by decide) (by decide),
    rfl⟩

theorem MakeGenerateExecScriptForTarget_modifiers_witness :
    MakeStripLineModifiers "-@del b".toList true false = ("del b".toList, false, true) ∧
    MakeGenerateExecScriptLines (ScenarioEnv []) 0 ("-@del b".toList ++ [NewLine]) []
        ScenarioRecipe =
      (true, ScenarioRecipe.appendExecCmds 0 [MAKE_CMD_TO_EXEC.mk "del b".toList false true]) :=
  ⟨(MakeGenerateExecScriptForTarget_modifiers (ScenarioEnv []) 0 "-@del b".toList []
      ScenarioRecipe (by decide)).2.2.2.1,
    (MakeGenerateExecScriptForTarget_modifiers (ScenarioEnv []) 0 "-@del b".toList []
      ScenarioRecipe (by decide)).2.2.2.2⟩

/-! ## The variable expander -/

theorem YoriLibIsSep_ne_period {s : Char} (h : YoriLibIsSep s = true) : s ≠ '.' := by
  intro e
  subst e
  simp [YoriLibIsSep] at h

theorem MakeExpandBaseNameScan_skip :
    ∀ (l rest : YORI_STRING) (FinalDotIndex : Nat) (FinalDotFound : Bool),
      (∀ c ∈ l, YoriLibIsSep c = false ∧ (c = '.' → FinalDotIndex ≠ 0)) →
      MakeExpandBaseNameScan (l ++ rest) FinalDotIndex FinalDotFound =
        MakeExpandBaseNameScan rest FinalDotIndex FinalDotFound := by
  intro l
  induction l with
  | nil => intro rest i f _; rfl
  | cons c l ih =>
    intro rest i f h
    have hc := h c (List.mem_cons_self _ _)
    have h1 : ¬ (i = 0 ∧ c = '.') := fun ⟨a, b⟩ => hc.2 b a
    rw [List.cons_append, MakeExpandBaseNameScan]
    simp only [h1, hc.1, if_false, Bool.false_eq_true]
    exact ih rest i f (fun x hx => h x (List.mem_cons_of_mem _ hx))

theorem MakeExpandSeparatorScan_skip :
    ∀ (l rest : YORI_STRING), (∀ c ∈ l, YoriLibIsSep c = false) →
      MakeExpandSeparatorScan (l ++ rest) = MakeExpandSeparatorScan rest := by
  intro l
  induction l with
  | nil => intro rest _; rfl
  | cons c l ih =>
    intro rest h
    rw [List.cons_append, MakeExpandSeparatorScan]
    simp only [h c (List.mem_cons_self _ _), if_false, Bool.false_eq_true]
    exact ih rest (fun x hx => h x (List.mem_cons_of_mem _ hx))

/-- The `B` qualifier on a value `dir ++ base ++ ext`, where `dir` is empty
or ends with a separator, `base ++ ext` has no separator, and `ext` is empty
(then `base` has no period) or is the last period with what follows it: the
result is `base`. -/
theorem MakeExpandFileNamePart_base (Q dir base ext : YORI_STRING)
    (hQ : YoriLibCompareStringWithLiteralInsensitive Q "B".toList = 0)
    (hdir : dir = [] ∨ ∃ d s, dir = d ++ [s] ∧ YoriLibIsSep s = true)
    (hname : ∀ c ∈ base ++ ext, YoriLibIsSep c = false)
    (hext : (ext = [] ∧ '.' ∉ base) ∨ ∃ e, ext = '.' :: e ∧ '.' ∉ e) :
    MakeExpandFileNamePart (dir ++ base ++ ext) Q = some base := by
  unfold MakeExpandFileNamePart
  simp only [hQ, if_true]
  have hbase : ∀ c ∈ base, YoriLibIsSep c = false :=
    fun c hc => hname c (List.mem_append_left _ hc)
  rcases hext with ⟨rfl, hnd⟩ | ⟨e, rfl, hnd⟩
  · -- no extension
    have hscan : MakeExpandBaseNameScan (dir ++ base ++ []).reverse 0 false =
        MakeExpandBaseNameScan dir.reverse 0 false := by
      rw [List.append_nil, List.reverse_append]
      apply MakeExpandBaseNameScan_skip
      intro c hc
      rw [List.mem_reverse] at hc
      exact ⟨hbase c hc, fun e => absurd (e ▸ hc) hnd⟩
    rw [hscan]
    rcases hdir with rfl | ⟨d, s, rfl, hs⟩
    · simp [MakeExpandBaseNameScan]
    · have hsp := YoriLibIsSep_ne_period hs
      simp [MakeExpandBaseNameScan, hs, hsp]
      omega
  · -- the extension after the last period
    have he : ∀ c ∈ e, YoriLibIsSep c = false :=
      fun c hc => hname c (List.mem_append_right _ (List.mem_cons_of_mem _ hc))
    have hscan : MakeExpandBaseNameScan (dir ++ base ++ '.' :: e).reverse 0 false =
        MakeExpandBaseNameScan dir.reverse (base.length + dir.length) true := by
      have e1 : (dir ++ base ++ '.' :: e).reverse =
          e.reverse ++ '.' :: (base.reverse ++ dir.reverse) := by simp
      rw [e1, MakeExpandBaseNameScan_skip e.reverse _ 0 false (fun c hc => by
        rw [List.mem_reverse] at hc
        exact ⟨he c hc, fun e2 => absurd (e2 ▸ hc) hnd⟩), MakeExpandBaseNameScan]
      simp only [true_and, if_true, List.length_append, List.length_reverse]
      apply MakeExpandBaseNameScan_skip
      intro c hc
      rw [List.mem_reverse] at hc
      refine ⟨hbase c hc, fun _ => ?_⟩
      have := List.length_pos_of_mem hc
      omega
    rw [hscan]
    rcases hdir with rfl | ⟨d, s, rfl, hs⟩
    · simp [MakeExpandBaseNameScan]
    · have hsp := YoriLibIsSep_ne_period hs
      simp [MakeExpandBaseNameScan, hs, hsp]

/-- The name of a variable splits into its symbol characters `N` and its
file name part qualifier `Q`. -/
theorem MakeExpandTargetVariable_split (ctx : MAKE_CONTEXT) (T : TargetId) (N Q : YORI_STRING)
    (hcount : YoriLibCountStringContainingChars (N ++ Q) "@*<?".toList = N.length)
    (hN : N ≠ []) :
    MakeExpandTargetVariable ctx T (N ++ Q) =
      match MakeExpandTargetVariableValue ctx T N with
      | none => (false, [], ctx)
      | some (VariableData, ctx1) =>
        match MakeExpandFileNamePart VariableData Q with
        | none => (false, [], ctx1)
        | some Value => (true, Value, ctx1) := by
  have hlen : N.length ≠ 0 := fun e => hN (List.length_eq_zero.mp e)
  unfold MakeExpandTargetVariable
  simp only [hcount, hlen, if_false, List.length_append]
  by_cases hQ : Q = []
  · subst hQ
    simp
  · have hpos : 0 < Q.length := List.length_pos.mpr hQ
    have hgt : N.length + Q.length > N.length := by omega
    simp only [hgt, if_true, List.take_left, List.drop_left]

theorem MakeExpandFileNamePart_file (V Q : YORI_STRING)
    (hQ : Q = [] ∨ Q = ['F'] ∨ Q = ['f']) :
    MakeExpandFileNamePart V Q =
      if (MakeExpandSeparatorScan V.reverse).2 then
        some (V.drop (MakeExpandSeparatorScan V.reverse).1)
      else some V := by
  have b1 : YoriLibCompareStringWithLiteralInsensitive [] "B".toList ≠ 0 := by decide
  have b2 : YoriLibCompareStringWithLiteralInsensitive ['F'] "B".toList ≠ 0 := by decide
  have b3 : YoriLibCompareStringWithLiteralInsensitive ['f'] "B".toList ≠ 0 := by decide
  have d1 : YoriLibCompareStringWithLiteralInsensitive [] "D".toList ≠ 0 := by decide
  have d2 : YoriLibCompareStringWithLiteralInsensitive ['F'] "D".toList ≠ 0 := by decide
  have d3 : YoriLibCompareStringWithLiteralInsensitive ['f'] "D".toList ≠ 0 := by decide
  have f2 : YoriLibCompareStringWithLiteralInsensitive ['F'] "F".toList = 0 := by decide
  have f3 : YoriLibCompareStringWithLiteralInsensitive ['f'] "F".toList = 0 := by decide
  unfold MakeExpandFileNamePart
  rcases hQ with rfl | rfl | rfl
  · simp only [b1, d1, if_false, List.length_nil, true_or, if_true]
  · simp only [b2, d2, f2, if_false, or_true, if_true]
  · simp only [b3, d3, f3, if_false, or_true, if_true]

/-- The `F` qualifier, or none, on a value `dir ++ name`, where `dir` is
empty or ends with a separator and `name` has no separator: the result is
`name`. -/
theorem MakeExpandFileNamePart_name (Q dir name : YORI_STRING)
    (hQ : Q = [] ∨ Q = ['F'] ∨ Q = ['f'])
    (hdir : dir = [] ∨ ∃ d s, dir = d ++ [s] ∧ YoriLibIsSep s = true)
    (hname : ∀ c ∈ name, YoriLibIsSep c = false) :
    MakeExpandFileNamePart (dir ++ name) Q = some name := by
  rw [MakeExpandFileNamePart_file _ Q hQ, List.reverse_append,
    MakeExpandSeparatorScan_skip name.reverse dir.reverse (fun c hc => by
      rw [List.mem_reverse] at hc; exact hname c hc)]
  rcases hdir with rfl | ⟨d, s, rfl, hs⟩
  · simp [MakeExpandSeparatorScan]
  · simp [MakeExpandSeparatorScan, hs]

theorem MakeExpandTargetVariableValue_at (ctx : MAKE_CONTEXT) (T : TargetId) :
    MakeExpandTargetVariableValue ctx T "@".toList = some ((ctx.Target T).Key, ctx) := by
  have h : YoriLibCompareStringWithLiteral "@".toList "@".toList = 0 := by decide
  unfold MakeExpandTargetVariableValue
  simp only [h, if_true]

/-- C19: the base name.  The key of the target is `dir ++ base ++ ext`, where
`dir` is empty or ends with a path separator, `base ++ ext` has no separator,
and `ext` is empty (then `base` has no period) or is the last period with
what follows it.  Then `MakeExpandTargetVariable` with the name `@B`, or
`@b`, succeeds with `base`. -/
theorem MakeExpandTargetVariable_base_name (ctx : MAKE_CONTEXT) (T : TargetId)
    (dir base ext : YORI_STRING) (hkey : (ctx.Target T).Key = dir ++ base ++ ext)
    (hdir : dir = [] ∨ ∃ d s, dir = d ++ [s] ∧ YoriLibIsSep s = true)
    (hname : ∀ c ∈ base ++ ext, YoriLibIsSep c = false)
    (hext : (ext = [] ∧ '.' ∉ base) ∨ ∃ e, ext = '.' :: e ∧ '.' ∉ e) :
    MakeExpandTargetVariable ctx T "@B".toList = (true, base, ctx) ∧
    MakeExpandTargetVariable ctx T "@b".toList = (true, base, ctx) := by
  constructor
  · have := MakeExpandTargetVariable_split ctx T "@".toList "B".toList (by decide) (by decide)
    rw [MakeExpandTargetVariableValue_at] at this
    simp only [hkey, MakeExpandFileNamePart_base "B".toList dir base ext (by decide) hdir hname
      hext] at this
    exact this
  · have := MakeExpandTargetVariable_split ctx T "@".toList "b".toList (by decide) (by decide)
    rw [MakeExpandTargetVariableValue_at] at this
    simp only [hkey, MakeExpandFileNamePart_base "b".toList dir base ext (by decide) hdir hname
      hext] at this
    exact this

theorem MakeExpandTargetVariable_base_name_witness :
    (MakeExpandTargetVariable (ScenarioKey "foo.c".toList) 0 "@B".toList =
        (true, "foo".toList, ScenarioKey "foo.c".toList) ∧
      MakeExpandTargetVariable (ScenarioKey "foo.c".toList) 0 "@b".toList =
        (true, "foo".toList, ScenarioKey "foo.c".toList)) ∧
    MakeExpandTargetVariable (ScenarioKey "dir/foo.c".toList) 0 "@B".toList =
      (true, "foo".toList, ScenarioKey "dir/foo.c".toList) ∧
    MakeExpandTargetVariable (ScenarioKey "dir/foo".toList) 0 "@B".toList =
      (true, "foo".toList, ScenarioKey "dir/foo".toList) :=
  ⟨MakeExpandTargetVariable_base_name (ScenarioKey "foo.c".toList) 0 [] "foo".toList
      ".c".toList rfl (Or.inl rfl) (by decide) (Or.inr ⟨"c".toList, rfl, by decide⟩),
    (MakeExpandTargetVariable_base_name (ScenarioKey "dir/foo.c".toList) 0 "dir/".toList
      "foo".toList ".c".toList rfl (Or.inr ⟨"dir".toList, '/', rfl, rfl⟩) (by decide)
      (Or.inr ⟨"c".toList, rfl, by decide⟩)).1,
    (MakeExpandTargetVariable_base_name (ScenarioKey "dir/foo".toList) 0 "dir/".toList
      "foo".toList [] rfl (Or.inr ⟨"dir".toList, '/', rfl, rfl⟩) (by decide)
      (Or.inl ⟨rfl, by decide⟩)).1⟩

/-- C20: no qualifier is the qualifier `F`.  For each of the variables `@`,
`*`, `?`, `**` and `<`, `MakeExpandTargetVariable` with the qualifier `F`, or
`f`, returns what it returns without qualifier: failure when the variable
has no value, and otherwise, the value being `dir ++ name` with `dir` empty or
ending with a path separator and `name` free of separators, success with
`name`.  So for a key without separator `@F` and `@` both give the whole
key. -/
theorem MakeExpandTargetVariable_file_name (ctx : MAKE_CONTEXT) (T : TargetId)
    (N : YORI_STRING)
    (hN : N = "@".toList ∨ N = "*".toList ∨ N = "?".toList ∨ N = "**".toList ∨
      N = "<".toList) :
    MakeExpandTargetVariable ctx T (N ++ ['F']) = MakeExpandTargetVariable ctx T N ∧
    MakeExpandTargetVariable ctx T (N ++ ['f']) = MakeExpandTargetVariable ctx T N ∧
    (MakeExpandTargetVariableValue ctx T N = none →
      MakeExpandTargetVariable ctx T N = (false, [], ctx)) ∧
    (∀ V ctx1 dir name, MakeExpandTargetVariableValue ctx T N = some (V, ctx1) →
      V = dir ++ name → (dir = [] ∨ ∃ d s, dir = d ++ [s] ∧ YoriLibIsSep s = true) →
      (∀ c ∈ name, YoriLibIsSep c = false) →
      MakeExpandTargetVariable ctx T N = (true, name, ctx1)) ∧
    ((∀ c ∈ (ctx.Target T).Key, YoriLibIsSep c = false) →
      MakeExpandTargetVariable ctx T "@F".toList = (true, (ctx.Target T).Key, ctx) ∧
      MakeExpandTargetVariable ctx T "@".toList = (true, (ctx.Target T).Key, ctx)) := by
  have hne : N ≠ [] := by rcases hN with rfl | rfl | rfl | rfl | rfl <;> decide
  have c0 : YoriLibCountStringContainingChars (N ++ []) "@*<?".toList = N.length := by
    rcases hN with rfl | rfl | rfl | rfl | rfl <;> decide
  have c1 : YoriLibCountStringContainingChars (N ++ ['F']) "@*<?".toList = N.length := by
    rcases hN with rfl | rfl | rfl | rfl | rfl <;> decide
  have c2 : YoriLibCountStringContainingChars (N ++ ['f']) "@*<?".toList = N.length := by
    rcases hN with rfl | rfl | rfl | rfl | rfl <;> decide
  have e0 := MakeExpandTargetVariable_split ctx T N [] c0 hne
  have e1 := MakeExpandTargetVariable_split ctx T N ['F'] c1 hne
  have e2 := MakeExpandTargetVariable_split ctx T N ['f'] c2 hne
  rw [List.append_nil] at e0
  have q1 : ∀ V, MakeExpandFileNamePart V ['F'] = MakeExpandFileNamePart V [] := fun V => by
    rw [MakeExpandFileNamePart_file V ['F'] (Or.inr (Or.inl rfl)),
      MakeExpandFileNamePart_file V [] (Or.inl rfl)]
  have q2 : ∀ V, MakeExpandFileNamePart V ['f'] = MakeExpandFileNamePart V [] := fun V => by
    rw [MakeExpandFileNamePart_file V ['f'] (Or.inr (Or.inr rfl)),
      MakeExpandFileNamePart_file V [] (Or.inl rfl)]
  refine ⟨?_, ?_, ?_, ?_, ?_⟩
  · rw [e1, e0]; simp only [q1]
  · rw [e2, e0]; simp only [q2]
  · intro h; rw [e0, h]
  · intro V ctx1 dir name h hV hdir hname
    rw [e0, h, hV]
    simp only [MakeExpandFileNamePart_name [] dir name (Or.inl rfl) hdir hname]
  · intro hkey
    have a0 := MakeExpandTargetVariable_split ctx T "@".toList [] (by decide) (by decide)
    have a1 := MakeExpandTargetVariable_split ctx T "@".toList ['F'] (by decide) (by decide)
    rw [MakeExpandTargetVariableValue_at] at a0 a1
    have n0 := MakeExpandFileNamePart_name [] [] (ctx.Target T).Key (Or.inl rfl) (Or.inl rfl) hkey
    have n1 := MakeExpandFileNamePart_name ['F'] [] (ctx.Target T).Key (Or.inr (Or.inl rfl))
      (Or.inl rfl) hkey
    rw [List.nil_append] at n0 n1
    simp only [n0, n1] at a0 a1
    exact ⟨a1, a0⟩

theorem MakeExpandTargetVariable_file_name_witness :
    (MakeExpandTargetVariable ScenarioDuplicate 0 ("**".toList ++ ['F']) =
      MakeExpandTargetVariable ScenarioDuplicate 0 "**".toList) ∧
    (MakeExpandTargetVariable (ScenarioKey "dir/foo.c".toList) 0 "@".toList =
      (true, "foo.c".toList, ScenarioKey "dir/foo.c".toList)) ∧
    (MakeExpandTargetVariable (ScenarioKey "foo.c".toList) 0 "@F".toList =
        (true, "foo.c".toList, ScenarioKey "foo.c".toList) ∧
      MakeExpandTargetVariable (ScenarioKey "foo.c".toList) 0 "@".toList =
        (true, "foo.c".toList, ScenarioKey "foo.c".toList)) :=
  ⟨(MakeExpandTargetVariable_file_name ScenarioDuplicate 0 "**".toList
      (Or.inr (Or.inr (Or.inr (Or.inl rfl))))).1,
    (MakeExpandTargetVariable_file_name (ScenarioKey "dir/foo.c".toList) 0 "@".toList
      (Or.inl rfl)).2.2.2.1 "dir/foo.c".toList (ScenarioKey "dir/foo.c".toList) "dir/".toList
      "foo.c".toList rfl rfl (Or.inr ⟨"dir".toList, '/', rfl, rfl⟩) (by decide),
    (MakeExpandTargetVariable_file_name (ScenarioKey "foo.c".toList) 0 "@".toList
      (Or.inl rfl)).2.2.2.2 (by decide)⟩

/-! ## Scenario S3 -/

/-- C13: scenario S3 end to end.  After `MakeFindInferenceRulesForScope` and
`MakeDetermineDependencies`, `a.obj` (target 1) carries the rule with the
new target `a.c` (target 2) as inference parent, is marked for rebuild and is
on `TargetsReady`; but no dependency edge has been created, its
`ParentDependents` list is empty, and the assertions of
`MakeGenerateExecScriptForTarget` do not hold in the context in which it is
called for `a.obj`. -/
theorem MakeDetermineDependencies_root_inference_edge :
    (match MakeFindInferenceRulesForScope ScenarioS3Env 8 ScenarioS3 0 with
      | some (true, c1) =>
        match MakeDetermineDependencies ScenarioS3Env 8 c1 with
        | some (true, c2) =>
          some ((c2.Target 1).InferenceRule,
            (c2.Target 1).InferenceRuleParentTarget.map (fun p => (p, (c2.Target p).Key)),
            (c2.Target 1).ParentDependents, (c2.Target 2).ChildDependents, c2.AllocDependency,
            (c2.Target 2).DependenciesEvaluated,
            (c2.Target 1).RebuildRequired, c2.TargetsReady,
            MakeGenerateExecScriptAssertions
              (c1.setTarget 1 { c1.Target 1 with DependenciesEvaluated := true }) 1)
        | _ => none
      | _ => none) =
      some (some 0, some (2, "a.c".toList), [], [], 0, false, true, [1], false) := by
  rfl

/-! ## One round of the prerequisite loop -/

theorem MakeDetermineDependenciesForTargetLoop_step {rank : TargetId → Nat} {R : Nat}
    {recurse : MAKE_CONTEXT → TargetId → Option (Bool × MAKE_CONTEXT)}
    (hrec : WalkSpec rank R recurse) (t : TargetId) (hR : rank t ≤ R) (ctx : MAKE_CONTEXT)
    (i : Nat) (S : Bool) (d : MAKE_TARGET_DEPENDENCY) (ctxs ctx2 ctx3 : MAKE_CONTEXT) (S2 : Bool)
    (hinv : SchedInv rank R ctx) (ht : (ctx.Target t).DependenciesEvaluated = false)
    (hzero : ∀ x, rank x < rank t → (ctx.Target x).DependenciesEvaluated = false →
      (ctx.Target x).NumberParentsToBuild = 0)
    (hloop : LoopInv ctx t i S)
    (hget : (ctx.Target t).ParentDependents[i]? = some d)
    (hP : (MakeDetermineDependenciesPopulateParent ctx d.Parent).2 = ctxs)
    (hr : recurse ctxs d.Parent = some (true, ctx2))
    (hacc : MakeDetermineDependenciesAccountParent ctx2 t d S = (S2, ctx3)) :
    LoopStep rank R t ctx i d ctxs ctx2 ctx3 S2 := by
  have hd : d ∈ (ctx.Target t).ParentDependents := List.getElem?_mem hget
  have hrp : rank d.Parent < rank t := hinv.rankOK.1 t d hd
  have hpt : d.Parent ≠ t := fun e => by rw [e] at hrp; exact lt_irrefl _ hrp
  have hpR : rank d.Parent < R := lt_of_lt_of_le hrp hR
  have P := MakeDetermineDependenciesPopulateParent_post hinv d.Parent hpR
  rw [hP] at P
  have hz : ∀ x, rank x ≤ rank d.Parent → (ctxs.Target x).DependenciesEvaluated = false →
      (ctxs.Target x).NumberParentsToBuild = 0 := by
    intro x hx hxe
    rw [(P.flags x).1] at hxe
    rw [(P.flags x).2.2]
    exact hzero x (lt_of_le_of_lt hx hrp) hxe
  have W : WalkPost rank R d.Parent ctxs ctx2 :=
    hrec ctxs d.Parent ctx2 P.inv hz (le_of_lt hpR) (fun _ => P.ready) hr
  have ht2 : ctx2.Target t = ctxs.Target t := W.above t (le_of_lt hrp) (Ne.symm hpt)
  have hte2 : (ctx2.Target t).DependenciesEvaluated = false := by
    rw [ht2, (P.flags t).1]; exact ht
  obtain ⟨A1, A2, ⟨k, A3⟩, A4, A5⟩ :=
    MakeDetermineDependenciesAccountParent_post W.inv t d S hte2
  rw [hacc] at A1 A2 A3 A4 A5
  simp only at A1 A2 A3 A4 A5
  -- facts relating `ctx` and `ctx3`
  have hpd3 : (ctx3.Target t).ParentDependents = (ctx.Target t).ParentDependents := by
    rw [A3]; simp only; rw [ht2]; exact P.lists t (Ne.symm hpt)
  have hte3 : (ctx3.Target t).DependenciesEvaluated = false := by
    rw [A3]; exact hte2
  have hst23 : SchedStatic ctx2 ctx3 := by
    intro x
    by_cases e : x = t
    · subst e; rw [A3]; simp
    · rw [A2 x e]; simp
  have hst3 : SchedStatic ctx ctx3 := SchedStatic_trans (SchedStatic_trans P.static W.static) hst23
  have hstep3 : ∀ x, x ≠ t → SchedStep ctx ctx3 x := by
    intro x hx
    have h23 : SchedStep ctx2 ctx3 x := Or.inl (SchedUnchanged_of_eq (A2 x hx))
    by_cases hxp : x = d.Parent
    · subst hxp
      cases hE : (ctx.Target d.Parent).DependenciesEvaluated with
      | false =>
        right
        refine ⟨hE, ?_⟩
        rw [A2 _ hx]; exact W.evaluated
      | true =>
        have h01 : SchedStep ctx ctxs d.Parent :=
          Or.inl ⟨(P.flags _).1, (P.flags _).2.1, (P.flags _).2.2, P.own hE⟩
        exact SchedStep_trans (SchedStep_trans h01 (W.step _)) h23
    · have h01 : SchedStep ctx ctxs x :=
        Or.inl ⟨(P.flags _).1, (P.flags _).2.1, (P.flags _).2.2, P.lists x hxp⟩
      exact SchedStep_trans (SchedStep_trans h01 (W.step _)) h23
  have hold : ∀ y, (ctx.Target y).DependenciesEvaluated = true →
      (ctx3.Target y).RebuildRequired = (ctx.Target y).RebuildRequired ∧
      (ctx3.Target y).DependenciesEvaluated = true := by
    intro y hy
    have hyt : y ≠ t := fun e => by subst e; rw [ht] at hy; cases hy
    obtain ⟨u1, u2, _, _⟩ := SchedStep_unchanged_of_evaluated (hstep3 y hyt) hy
    exact ⟨u2, u1.trans hy⟩
  have hp3 : (ctx3.Target d.Parent).RebuildRequired = (ctx2.Target d.Parent).RebuildRequired ∧
      (ctx3.Target d.Parent).DependenciesEvaluated = true := by
    rw [A2 _ hpt]; exact ⟨rfl, W.evaluated⟩
  have hnpb3 : (ctx3.Target t).NumberParentsToBuild = (ctx.Target t).NumberParentsToBuild +
      (if (ctx2.Target d.Parent).RebuildRequired = true then 1 else 0) := by
    rw [A4, ht2, (P.flags t).2.2]
  have hzero3 : ∀ x, rank x < rank t → (ctx3.Target x).DependenciesEvaluated = false →
      (ctx3.Target x).NumberParentsToBuild = 0 := by
    intro x hx hxe
    have hxt : x ≠ t := fun e => by rw [e] at hx; exact lt_irrefl _ hx
    rcases hstep3 x hxt with ⟨u1, _, u3, _⟩ | ⟨_, u2⟩
    · rw [u3]; rw [u1] at hxe; exact hzero x hx hxe
    · rw [u2] at hxe; cases hxe
  have hloop3 : LoopInv ctx3 t (i + 1) S2 := by
    obtain ⟨L1, L2, L3⟩ := hloop
    unfold LoopInv
    rw [hpd3, List.take_succ, hget]
    simp only [Option.toList_some]
    refine ⟨?_, ?_, ?_⟩
    · rw [List.countP_append, List.countP_singleton, hnpb3, L1, hp3.1]
      congr 1
      apply List.countP_congr
      intro y hy
      rw [(hold y.Parent (L3 y hy)).1]
    · rw [A5]
      simp only [List.mem_append, List.mem_singleton]
      constructor
      · rintro (hS | hS | ⟨n1, n2, n3⟩)
        · obtain ⟨y, hy, hy2⟩ := L2.mp hS
          refine ⟨y, Or.inl hy, ?_⟩
          rcases hy2 with hy2 | ⟨m1, m2, m3⟩
          · left; rw [(hold y.Parent (L3 y hy)).1]; exact hy2
          · right
            simp only [fun x => (hst3 x).1, fun x => (hst3 x).2.1]
            exact ⟨m1, m2, m3⟩
        · exact ⟨d, Or.inr rfl, Or.inl (hp3.1.trans hS)⟩
        · refine ⟨d, Or.inr rfl, Or.inr ?_⟩
          simp only [fun x => (hst23 x).1, fun x => (hst23 x).2.1]
          exact ⟨n1, n2, n3⟩
      · rintro ⟨y, hy | hy, hy2⟩
        · left
          refine L2.mpr ⟨y, hy, ?_⟩
          rcases hy2 with hy2 | ⟨m1, m2, m3⟩
          · left; rw [← (hold y.Parent (L3 y hy)).1]; exact hy2
          · right
            simp only [fun x => (hst3 x).1, fun x => (hst3 x).2.1] at m1 m2 m3
            exact ⟨m1, m2, m3⟩
        · subst hy
          right
          rcases hy2 with hy2 | ⟨m1, m2, m3⟩
          · left; rw [← hp3.1]; exact hy2
          · right
            simp only [fun x => (hst23 x).1, fun x => (hst23 x).2.1] at m1 m2 m3
            exact ⟨m1, m2, m3⟩
    · intro y hy
      simp only [List.mem_append, List.mem_singleton] at hy
      rcases hy with hy | hy
      · exact (hold y.Parent (L3 y hy)).2
      · subst hy; exact hp3.2
  refine ⟨hd, hrp, P, hz, W, hte2, A1, hte3, hzero3, hpd3, hloop3, ?_⟩
  intro x y hy
  have h2 : y ∈ (ctx2.Target x).ParentDependents := W.mono x y (P.mono x y hy)
  by_cases e : x = t
  · subst e; rw [A3]; exact h2
  · rw [A2 x e]; exact h2

/-- The prerequisite loop keeps a property that every step of the walk
keeps. -/
theorem MakeDetermineDependenciesForTargetLoop_keeps {rank : TargetId → Nat} {R : Nat}
    {Pre : TargetId → MAKE_CONTEXT → Prop} {X : MAKE_CONTEXT → Prop}
    {recurse : MAKE_CONTEXT → TargetId → Option (Bool × MAKE_CONTEXT)}
    (K : WalkKeeps rank R Pre X) (hrec : WalkSpec rank R recurse)
    (hrecX : WalkKeepsSpec rank R Pre X recurse) (t : TargetId) (hR : rank t ≤ R) :
    ∀ (fuel : Nat) (ctx : MAKE_CONTEXT) (i : Nat) (S S' : Bool) (ctx' : MAKE_CONTEXT),
      SchedInv rank R ctx → (ctx.Target t).DependenciesEvaluated = false →
      (∀ x, rank x < rank t → (ctx.Target x).DependenciesEvaluated = false →
        (ctx.Target x).NumberParentsToBuild = 0) →
      LoopInv ctx t i S → Pre t ctx → X ctx →
      MakeDetermineDependenciesForTargetLoop recurse fuel ctx t i S = some (true, S', ctx') →
      X ctx' ∧ Pre t ctx' := by
  intro fuel
  induction fuel with
  | zero =>
    intro ctx i S S' ctx' _ _ _ _ _ _ h
    simp [MakeDetermineDependenciesForTargetLoop] at h
  | succ n ih =>
    intro ctx i S S' ctx' hinv ht hzero hloop hpre hX h
    cases hget : (ctx.Target t).ParentDependents[i]? with
    | none =>
      rw [MakeDetermineDependenciesForTargetLoop_done recurse n ctx t i S hget] at h
      simp only [Option.some.injEq, Prod.mk.injEq, true_and] at h
      obtain ⟨_, rfl⟩ := h
      exact ⟨hX, hpre⟩
    | some d =>
      cases hr : recurse (MakeDetermineDependenciesPopulateParent ctx d.Parent).2 d.Parent with
      | none =>
        rw [MakeDetermineDependenciesForTargetLoop] at h
        simp [hget, MakeDetermineDependenciesPopulateParent_fst, hr] at h
      | some res =>
        obtain ⟨ok, ctx2⟩ := res
        cases ok with
        | false =>
          rw [MakeDetermineDependenciesForTargetLoop_abort recurse n ctx t i S d ctx2 hget hr] at h
          simp at h
        | true =>
          rw [MakeDetermineDependenciesForTargetLoop_next recurse n ctx t i S d ctx2 hget hr] at h
          have L := MakeDetermineDependenciesForTargetLoop_step hrec t hR ctx i S d _ ctx2
            (MakeDetermineDependenciesAccountParent ctx2 t d S).2
            (MakeDetermineDependenciesAccountParent ctx2 t d S).1 hinv ht hzero hloop hget rfl hr
            rfl
          have hpR : rank d.Parent < R := lt_of_lt_of_le L.below hR
          have X1 := K.populate ctx d.Parent hinv hpR hX
          have hpre1 : Pre d.Parent (MakeDetermineDependenciesPopulateParent ctx d.Parent).2 :=
            K.pre_mono _ _ _ (K.pre_edge ctx t d hpre L.edge) L.synth.mono
          have X2 := hrecX _ d.Parent ctx2 L.synth.inv L.zero (le_of_lt hpR)
            (fun _ => L.synth.ready) hpre1 X1 hr
          have X3 := K.account ctx2 t d S L.walk.inv L.unevaluated2 X2
          exact ih _ (i + 1) _ S' ctx' L.inv L.unevaluated L.zero3 L.loop
            (K.pre_mono _ _ _ hpre L.mono) X3 h

/-- How a successful evaluation of an unevaluated target `p` ends: after the
loop has left `SetRebuildRequired` as `S` and the context as `ctx1`, the
target is flagged as evaluated and, when `b` holds, marked for rebuild. -/
theorem MakeDetermineDependenciesForTarget_ends (env : MAKE_ENV) (n : Nat)
    (ctx ctx' : MAKE_CONTEXT) (p : TargetId)
    (he : (ctx.Target p).DependenciesEvaluated = false)
    (h : MakeDetermineDependenciesForTarget env (n + 1) ctx p = some (true, ctx')) :
    ∃ S ctx1, MakeDetermineDependenciesForTargetLoop
        (fun c q => MakeDetermineDependenciesForTarget env n c q) (n + 1) ctx p 0 false =
        some (true, S, ctx1) ∧
      ((ctx1.Target p).RebuildRequired = false →
        ∃ b cmds, (b = true ↔ ((ctx1.Target p).FileExists = false ∨ S = true)) ∧
          (∀ x, x ≠ p → ctx'.Target x = ctx1.Target x) ∧
          ctx'.Target p = { ctx1.Target p with
            DependenciesEvaluated := true, ExecCmds := cmds, RebuildRequired := b } ∧
          ctx'.TargetsReady =
            (if b = true ∧ (ctx1.Target p).NumberParentsToBuild = 0 then
              ctx1.TargetsReady ++ [p] else ctx1.TargetsReady) ∧
          ctx'.TargetsWaiting =
            (if b = true ∧ (ctx1.Target p).NumberParentsToBuild ≠ 0 then
              ctx1.TargetsWaiting ++ [p] else ctx1.TargetsWaiting)) := by
  rw [MakeDetermineDependenciesForTarget] at h
  simp only [he, Bool.false_eq_true, if_false] at h
  cases hl : MakeDetermineDependenciesForTargetLoop
      (fun c p => MakeDetermineDependenciesForTarget env n c p) (n + 1) ctx p 0 false with
  | none => simp [hl] at h
  | some res =>
    obtain ⟨ok, S, ctx1⟩ := res
    cases ok with
    | false => simp [hl] at h
    | true =>
      simp only [hl] at h
      refine ⟨S, ctx1, rfl, fun hrr1 => ?_⟩
      by_cases hmark : (!(ctx1.Target p).FileExists || S) = true
      · have hcond : ((if (!(ctx1.Target p).FileExists) = true then true else S) &&
            !(ctx1.Target p).RebuildRequired) = true := by
          cases hfe : (ctx1.Target p).FileExists <;> simp_all
        simp only [setTarget_Target, if_true, hcond] at h
        cases hm : MakeMarkTargetForRebuild env
            (ctx1.setTarget p { ctx1.Target p with DependenciesEvaluated := true }) p with
        | mk ok ctx3 =>
          rw [hm] at h
          cases ok with
          | false => simp at h
          | true =>
            simp only [Option.some.injEq, Prod.mk.injEq, true_and] at h
            subst h
            obtain ⟨_, cmds, hctx⟩ := MakeMarkTargetForRebuild_success env _ _ p
              (by simpa using hrr1) hm
            simp only [setTarget_Target, if_true, setTarget_setTarget, setTarget_TargetsReady,
              setTarget_TargetsWaiting] at hctx
            refine ⟨true, cmds, ?_, ?_, ?_, ?_, ?_⟩
            · simp only [true_iff]
              cases hfe : (ctx1.Target p).FileExists <;> simp_all
            · intro x e; rw [hctx]; simp [e]
            · rw [hctx]; simp
            · rw [hctx]; simp
            · rw [hctx]
              by_cases hz : (ctx1.Target p).NumberParentsToBuild = 0 <;> simp [hz]
      · have hcond : ((if (!(ctx1.Target p).FileExists) = true then true else S) &&
            !(ctx1.Target p).RebuildRequired) = false := by
          cases hfe : (ctx1.Target p).FileExists <;> simp_all
        simp only [setTarget_Target, if_true, hcond, Bool.false_eq_true, if_false,
          Option.some.injEq, Prod.mk.injEq, true_and] at h
        subst h
        refine ⟨false, (ctx1.Target p).ExecCmds, ?_, ?_, ?_, ?_, ?_⟩
        · constructor
          · intro hb; cases hb
          · intro hb
            exfalso; apply hmark
            cases hfe : (ctx1.Target p).FileExists <;> simp_all
        · intro x e; simp [e]
        · simp [hrr1.symm]
        · simp
        · simp

/-- The dependency walk keeps a property that every step of the walk
keeps. -/
theorem MakeDetermineDependenciesForTarget_keeps (env : MAKE_ENV) {rank : TargetId → Nat}
    {R : Nat} {Pre : TargetId → MAKE_CONTEXT → Prop} {X : MAKE_CONTEXT → Prop}
    (K : WalkKeeps rank R Pre X) :
    ∀ fuel, WalkKeepsSpec rank R Pre X
      (fun c p => MakeDetermineDependenciesForTarget env fuel c p) := by
  intro fuel
  induction fuel with
  | zero =>
    intro ctx p ctx' _ _ _ _ _ _ h
    simp [MakeDetermineDependenciesForTarget] at h
  | succ n ih =>
    intro ctx p ctx' hinv hzero hR hns hpre hX h
    simp only at h
    cases he : (ctx.Target p).DependenciesEvaluated with
    | true =>
      rw [MakeDetermineDependenciesForTarget] at h
      simp only [he, if_true, Option.some.injEq, Prod.mk.injEq, true_and] at h
      subst h
      exact hX
    | false =>
      have W := MakeDetermineDependenciesForTarget_spec env rank R (n + 1) ctx p ctx' hinv hzero
        hR hns h
      obtain ⟨S, ctx1, hl, hend⟩ := MakeDetermineDependenciesForTarget_ends env n ctx ctx' p he h
      have hloop0 : LoopInv ctx p 0 false := by
        refine ⟨?_, ?_, ?_⟩
        · simpa using hzero p (le_refl _) he
        · simp
        · simp
      have hspec := MakeDetermineDependenciesForTarget_spec env rank R n
      have Q := MakeDetermineDependenciesForTargetLoop_spec hspec p hR (n + 1) ctx 0 false S ctx1
        hinv he (fun x hx => hzero x (le_of_lt hx)) hloop0 hl
      obtain ⟨X1, hpre1⟩ := MakeDetermineDependenciesForTargetLoop_keeps K hspec ih p hR (n + 1)
        ctx 0 false S ctx1 hinv he (fun x hx => hzero x (le_of_lt hx)) hloop0 hpre hX hl
      have hrr1 : (ctx1.Target p).RebuildRequired = false := by
        cases hr : (ctx1.Target p).RebuildRequired
        · rfl
        · have := Q.inv.rr_eval p hr
          rw [Q.unevaluated] at this; cases this
      obtain ⟨b, cmds, hb, hT, hTt, hq1, hq2⟩ := hend hrr1
      have hfinal := Q.final
      rw [← Q.own] at hfinal
      exact K.finish ctx1 ctx' p S b cmds Q.inv W.inv hpre1 Q.unevaluated hfinal hb hT hTt hq1
        hq2 X1

/-! ## Targets on the queues are reached from the root -/

theorem MakeDetermineDependenciesForTarget_keeps_fresh (env : MAKE_ENV)
    {rank : TargetId → Nat} {Pre : TargetId → MAKE_CONTEXT → Prop} {X : MAKE_CONTEXT → Prop}
    (fuel : Nat) (ctx ctx' : MAKE_CONTEXT) (root : TargetId)
    (K : WalkKeeps rank (rank root) Pre X) (hfresh : FreshContext ctx)
    (hrank : RankOK rank ctx) (hpre : Pre root ctx) (hX : X ctx)
    (h : MakeDetermineDependenciesForTarget env fuel ctx root = some (true, ctx')) : X ctx' :=
  MakeDetermineDependenciesForTarget_keeps env K fuel ctx root ctx'
    (SchedInv_of_fresh _ hfresh hrank) (fun x _ _ => (hfresh.1 x).2.2.1) (le_refl _)
    (fun hlt => absurd hlt (lt_irrefl _)) hpre hX h

theorem Reaches_mono {ctx ctx' : MAKE_CONTEXT} {a b : TargetId}
    (hm : ∀ y e, e ∈ (ctx.Target y).ParentDependents → e ∈ (ctx'.Target y).ParentDependents)
    (h : Reaches ctx a b) : Reaches ctx' a b := by
  unfold Reaches at h ⊢
  refine Relation.ReflTransGen.mono ?_ h
  rintro x y ⟨e, he, rfl⟩
  exact ⟨e, hm x e he, rfl⟩

theorem MakeDetermineDependenciesAccountParent_snd (ctx : MAKE_CONTEXT) (t : TargetId)
    (d : MAKE_TARGET_DEPENDENCY) (S : Bool) :
    (MakeDetermineDependenciesAccountParent ctx t d S).2 =
      if (ctx.Target d.Parent).RebuildRequired then
        ctx.setTarget t
          { ctx.Target t with
            NumberParentsToBuild := (ctx.Target t).NumberParentsToBuild + 1 }
      else ctx := by
  unfold MakeDetermineDependenciesAccountParent
  cases hr : (ctx.Target d.Parent).RebuildRequired with
  | true =>
    simp only [if_true]
    split <;> rfl
  | false =>
    simp only [Bool.false_eq_true, if_false]
    split <;> rfl

/-- Accounting for a prerequisite changes the counter of the target only. -/
theorem MakeDetermineDependenciesAccountParent_fields (ctx : MAKE_CONTEXT) (t : TargetId)
    (d : MAKE_TARGET_DEPENDENCY) (S : Bool) :
    (MakeDetermineDependenciesAccountParent ctx t d S).2.TargetsReady = ctx.TargetsReady ∧
    (MakeDetermineDependenciesAccountParent ctx t d S).2.TargetsWaiting = ctx.TargetsWaiting ∧
    (∀ x, x ≠ t → (MakeDetermineDependenciesAccountParent ctx t d S).2.Target x = ctx.Target x) ∧
    ∃ n, (MakeDetermineDependenciesAccountParent ctx t d S).2.Target t =
      { ctx.Target t with NumberParentsToBuild := n } := by
  rw [MakeDetermineDependenciesAccountParent_snd]
  cases hr : (ctx.Target d.Parent).RebuildRequired with
  | true =>
    rw [if_pos rfl]
    exact ⟨rfl, rfl, fun x hx => by simp [hx],
      ⟨(ctx.Target t).NumberParentsToBuild + 1, by simp⟩⟩
  | false =>
    rw [if_neg (by simp)]
    exact ⟨rfl, rfl, fun _ _ => rfl, ⟨(ctx.Target t).NumberParentsToBuild, rfl⟩⟩

/-- Every evaluated target is reached from `root`: a property the walk from
`root` keeps. -/
theorem WalkKeeps_reaches (rank : TargetId → Nat) (R : Nat) (root : TargetId) :
    WalkKeeps rank R (fun t ctx => Reaches ctx root t)
      (fun ctx => ∀ x, (ctx.Target x).DependenciesEvaluated = true → Reaches ctx root x) := by
  refine ⟨?_, ?_, ?_, ?_, ?_⟩
  · intro ctx t d hpre hd
    exact Relation.ReflTransGen.tail hpre ⟨d, hd, rfl⟩
  · intro ctx ctx' x hpre hm
    exact Reaches_mono hm hpre
  · intro ctx p hinv hR hX x hx
    have P := MakeDetermineDependenciesPopulateParent_post hinv p hR
    rw [(P.flags x).1] at hx
    exact Reaches_mono P.mono (hX x hx)
  · intro ctx t d S _ _ hX x hx
    obtain ⟨_, _, A2, n, A3⟩ := MakeDetermineDependenciesAccountParent_fields ctx t d S
    have hm : ∀ y e, e ∈ (ctx.Target y).ParentDependents →
        e ∈ ((MakeDetermineDependenciesAccountParent ctx t d S).2.Target y).ParentDependents := by
      intro y e he
      by_cases e1 : y = t
      · subst e1; rw [A3]; exact he
      · rw [A2 y e1]; exact he
    refine Reaches_mono hm (hX x ?_)
    by_cases e1 : x = t
    · subst e1; rw [A3] at hx; exact hx
    · rw [A2 x e1] at hx; exact hx
  · intro ctx ctx' t S b cmds _ _ hpre _ _ _ hT hTt _ _ hX x hx
    have hm : ∀ y e, e ∈ (ctx.Target y).ParentDependents →
        e ∈ (ctx'.Target y).ParentDependents := by
      intro y e he
      by_cases e1 : y = t
      · subst e1; rw [hTt]; exact he
      · rw [hT y e1]; exact he
    by_cases e1 : x = t
    · subst e1; exact Reaches_mono hm hpre
    · rw [hT x e1] at hx
      exact Reaches_mono hm (hX x hx)

theorem ScenarioPseudoPrerequisite_fresh : FreshContext ScenarioPseudoPrerequisite := by
  refine ⟨fun t => ?_, rfl, rfl⟩
  by_cases h0 : t = 0
  · subst h0; simp [ScenarioPseudoPrerequisite, MakeInitialTarget]
  · by_cases h1 : t = 1
    · subst h1; simp [ScenarioPseudoPrerequisite, MakeInitialTarget]
    · simp [ScenarioPseudoPrerequisite, h0, h1, MakeInitialTarget]

theorem ScenarioPseudoPrerequisite_acyclic : Acyclic ScenarioPseudoPrerequisite := by
  refine ⟨fun t => t, ?_, ?_⟩
  · intro t d hd
    by_cases h0 : t = 0
    · subst h0; simp [ScenarioPseudoPrerequisite, MakeInitialTarget] at hd
    · by_cases h1 : t = 1
      · subst h1
        simp [ScenarioPseudoPrerequisite, MakeInitialTarget] at hd
        subst hd; decide
      · simp [ScenarioPseudoPrerequisite, h0, h1, MakeInitialTarget] at hd
  · intro t q hq
    by_cases h0 : t = 0
    · subst h0; simp [ScenarioPseudoPrerequisite, MakeInitialTarget] at hq
    · by_cases h1 : t = 1
      · subst h1; simp [ScenarioPseudoPrerequisite, MakeInitialTarget] at hq
      · simp [ScenarioPseudoPrerequisite, h0, h1, MakeInitialTarget] at hq

/-- C15 as stated fails: with the pseudo target `.c.obj` attached as a
prerequisite of the default target `all`, scheduling from a fresh acyclic
context succeeds and puts the pseudo target on `TargetsReady`. -/
theorem MakeDetermineDependencies_pseudo_counterexample :
    FreshContext ScenarioPseudoPrerequisite ∧ Acyclic ScenarioPseudoPrerequisite ∧
    (ScenarioPseudoPrerequisite.Target 0).InferenceRulePseudoTarget = true ∧
    (match MakeDetermineDependencies (ScenarioEnv []) 4 ScenarioPseudoPrerequisite with
      | some (true, ctx') =>
        some (ctx'.TargetsReady, ctx'.TargetsWaiting,
          (ctx'.Target 0).InferenceRulePseudoTarget)
      | _ => none) = some ([0], [1], true) :=
  ⟨ScenarioPseudoPrerequisite_fresh, ScenarioPseudoPrerequisite_acyclic, rfl, rfl⟩

/-- C15 (amended): after a successful `MakeDetermineDependencies` from a
fresh context on an acyclic graph, the walk has started from the first target
of the list that is not an inference rule pseudo target, and every target on
`TargetsReady` or `TargetsWaiting` is reached from it by following dependency
edges (those the walk has populated included).  So no pseudo target is on a
queue unless it is a direct or indirect prerequisite of the default
target. -/
theorem MakeDetermineDependencies_pseudo_targets (env : MAKE_ENV) (fuel : Nat)
    (ctx ctx' : MAKE_CONTEXT) (hfresh : FreshContext ctx) (hacyc : Acyclic ctx)
    (h : MakeDetermineDependencies env fuel ctx = some (true, ctx')) :
    ∃ root, MakeDetermineDependenciesFirstTarget ctx ctx.TargetsList = some root ∧
      (ctx'.Target root).InferenceRulePseudoTarget = false ∧
      (∀ x, x ∈ ctx'.TargetsReady ∨ x ∈ ctx'.TargetsWaiting → Reaches ctx' root x) ∧
      ((∀ x, Reaches ctx' root x → (ctx'.Target x).InferenceRulePseudoTarget = false) →
        ∀ x, x ∈ ctx'.TargetsReady ∨ x ∈ ctx'.TargetsWaiting →
          (ctx'.Target x).InferenceRulePseudoTarget = false) := by
  obtain ⟨rank, hrank⟩ := hacyc
  unfold MakeDetermineDependencies at h
  cases hf : MakeDetermineDependenciesFirstTarget ctx ctx.TargetsList with
  | none => simp [hf] at h
  | some root =>
    rw [hf] at h
    simp only at h
    have W := MakeDetermineDependenciesForTarget_fresh env rank fuel ctx ctx' root hfresh hrank h
    have hX := MakeDetermineDependenciesForTarget_keeps_fresh env fuel ctx ctx' root
      (WalkKeeps_reaches rank (rank root) root) hfresh hrank Relation.ReflTransGen.refl
      (fun x hx => by rw [(hfresh.1 x).1] at hx; cases hx) h
    have hpseudo : (ctx.Target root).InferenceRulePseudoTarget = false := by
      rcases MakeDetermineDependenciesFirstTarget_spec ctx ctx.TargetsList with
        ⟨h1, _⟩ | ⟨l1, t, l2, _, _, h3, h4⟩
      · rw [hf] at h1; cases h1
      · rw [hf] at h4
        cases h4
        exact h3
    have hq : ∀ x, x ∈ ctx'.TargetsReady ∨ x ∈ ctx'.TargetsWaiting → Reaches ctx' root x := by
      intro x hx
      apply hX
      apply W.inv.rr_eval
      rcases hx with hx | hx
      · have := W.inv.ready x
        rw [← List.count_pos_iff, this] at hx
        by_contra hc
        simp [hc] at hx
      · have := W.inv.waiting x
        rw [← List.count_pos_iff, this] at hx
        by_contra hc
        simp [hc] at hx
    refine ⟨root, rfl, ?_, hq, fun hall x hx => hall x (hq x hx)⟩
    rw [(W.static root).2.2.2.2.2.2.1]
    exact hpseudo

theorem ScenarioPseudoPrerequisite_schedule :
    MakeDetermineDependencies (ScenarioEnv []) 4 ScenarioPseudoPrerequisite =
      some (true, ScenarioPseudoPrerequisiteResult) := by
  rfl

theorem MakeDetermineDependencies_pseudo_targets_witness :
    ∃ root, MakeDetermineDependenciesFirstTarget ScenarioPseudoPrerequisite
        ScenarioPseudoPrerequisite.TargetsList = some root ∧
      (ScenarioPseudoPrerequisiteResult.Target root).InferenceRulePseudoTarget = false ∧
      (∀ x, x ∈ ScenarioPseudoPrerequisiteResult.TargetsReady ∨
          x ∈ ScenarioPseudoPrerequisiteResult.TargetsWaiting →
        Reaches ScenarioPseudoPrerequisiteResult root x) ∧
      ((∀ x, Reaches ScenarioPseudoPrerequisiteResult root x →
          (ScenarioPseudoPrerequisiteResult.Target x).InferenceRulePseudoTarget = false) →
        ∀ x, x ∈ ScenarioPseudoPrerequisiteResult.TargetsReady ∨
            x ∈ ScenarioPseudoPrerequisiteResult.TargetsWaiting →
          (ScenarioPseudoPrerequisiteResult.Target x).InferenceRulePseudoTarget = false) :=
  MakeDetermineDependencies_pseudo_targets (ScenarioEnv []) 4 ScenarioPseudoPrerequisite
    ScenarioPseudoPrerequisiteResult ScenarioPseudoPrerequisite_fresh
    ScenarioPseudoPrerequisite_acyclic ScenarioPseudoPrerequisite_schedule

/-! ## The edge populated from an inference rule -/

theorem SynthShape_frame {ctx0 ctx ctx' : MAKE_CONTEXT} (h : SynthShape ctx0 ctx)
    (hf : EdgeFrame ctx ctx') : SynthShape ctx0 ctx' := by
  intro x
  rcases h x with h1 | ⟨h1, q, h2, h3, h4⟩
  · left; rw [(hf x).1]; exact h1
  · right
    refine ⟨h1, q, ?_, ?_, ?_⟩
    · rw [(hf x).2.2]; exact h2
    · rw [(hf x).1]; exact h3
    · rw [(hf q).2.1]; exact h4

theorem MakeDetermineDependenciesAccountParent_edges (ctx : MAKE_CONTEXT) (t : TargetId)
    (d : MAKE_TARGET_DEPENDENCY) (S : Bool) :
    EdgeFrame ctx (MakeDetermineDependenciesAccountParent ctx t d S).2 := by
  obtain ⟨_, _, A2, n, A3⟩ := MakeDetermineDependenciesAccountParent_fields ctx t d S
  intro x
  by_cases e : x = t
  · subst e; rw [A3]; exact ⟨rfl, rfl, rfl⟩
  · rw [A2 x e]; exact ⟨rfl, rfl, rfl⟩

/-- The shape of the prerequisite lists is a property the walk keeps. -/
theorem WalkKeeps_shape (rank : TargetId → Nat) (R : Nat) (ctx0 : MAKE_CONTEXT) :
    WalkKeeps rank R (fun _ _ => True) (SynthShape ctx0) := by
  refine ⟨fun _ _ _ _ _ => trivial, fun _ _ _ _ _ => trivial, ?_, ?_, ?_⟩
  · intro ctx p hinv _ hX
    unfold MakeDetermineDependenciesPopulateParent
    cases hneed : MakeParentNeedsInferenceDependency ctx p with
    | false => simpa using hX
    | true =>
      cases hq : (ctx.Target p).InferenceRuleParentTarget with
      | none =>
        unfold MakeParentNeedsInferenceDependency at hneed
        simp [hq] at hneed
      | some q =>
        simp only [if_true]
        have hrq : rank q < rank p := hinv.rankOK.2 p q hq
        have hqp : q ≠ p := fun e => by rw [e] at hrq; exact lt_irrefl _ hrq
        have hempty : (ctx.Target p).ParentDependents = [] := by
          unfold MakeParentNeedsInferenceDependency at hneed
          simp only [Bool.and_eq_true, List.isEmpty_iff] at hneed
          exact hneed.1.1
        have hT := MakeCreateParentChildDependency_Target ctx q p
        intro x
        by_cases e1 : x = p
        · subst e1
          right
          have h0 : (ctx0.Target x).ParentDependents = [] := by
            rcases hX x with h1 | ⟨h1, _⟩
            · rw [← h1]; exact hempty
            · exact h1
          refine ⟨h0, q, ?_, ?_, ?_⟩
          · rw [hT x hqp]; simp [hq]
          · rw [hT x hqp]; simp [hempty]
          · rw [hT q hqp]; simp [hqp]
        · have hpd : ((MakeCreateParentChildDependency ctx q p).2.Target x).ParentDependents =
              (ctx.Target x).ParentDependents := by
            rw [hT x hqp]
            by_cases e2 : x = q
            · subst e2; simp [e1]
            · simp [e1, e2]
          have hip : ((MakeCreateParentChildDependency ctx q p).2.Target x).InferenceRuleParentTarget
              = (ctx.Target x).InferenceRuleParentTarget := by
            rw [hT x hqp]
            by_cases e2 : x = q
            · subst e2; simp [e1]
            · simp [e1, e2]
          have hcd : ∀ y e, e ∈ (ctx.Target y).ChildDependents →
              e ∈ ((MakeCreateParentChildDependency ctx q p).2.Target y).ChildDependents := by
            intro y e he
            rw [hT y hqp]
            by_cases e2 : y = p
            · subst e2; simpa using he
            · by_cases e3 : y = q
              · subst e3; simp [e2, he]
              · simpa [e2, e3] using he
          rcases hX x with h1 | ⟨h1, q', h2, h3, h4⟩
          · left; rw [hpd]; exact h1
          · right
            exact ⟨h1, q', by rw [hip]; exact h2, by rw [hpd]; exact h3, hcd q' _ h4⟩
  · intro ctx t d S _ _ hX
    exact SynthShape_frame hX (MakeDetermineDependenciesAccountParent_edges ctx t d S)
  · intro ctx ctx' t S b cmds _ _ _ _ _ _ hT hTt _ _ hX
    refine SynthShape_frame hX ?_
    intro x
    by_cases e : x = t
    · subst e; rw [hTt]; exact ⟨rfl, rfl, rfl⟩
    · rw [hT x e]; exact ⟨rfl, rfl, rfl⟩

theorem MakeCreateParentChildDependency_parents (ctx : MAKE_CONTEXT) (q p : TargetId) :
    ((MakeCreateParentChildDependency ctx q p).2.Target p).ParentDependents =
      (ctx.Target p).ParentDependents ++ [{ Parent := q, Child := p }] := by
  unfold MakeCreateParentChildDependency
  by_cases e : p = q
  · subst e; simp
  · simp [e]

/-- C12: the edge populated from an inference rule.  A prerequisite `p`
without prerequisites and without explicit recipe whose inference parent is
`q` gets, in the round of the prerequisite loop that visits it, the single
edge from `q` before the recursive call evaluates it, and a second visit adds
nothing.  After a successful walk from a fresh context on an acyclic graph,
for every evaluated target `t` and every edge `d` into `t` whose prerequisite
was such a target, that prerequisite has exactly the edge from `q`, linked in
both lists, and both are evaluated; when the prerequisite does not exist on
disk it is marked for rebuild and counted in `NumberParentsToBuild` of
`t`. -/
theorem MakeDetermineDependenciesForTarget_synthesized_edge (env : MAKE_ENV) (fuel : Nat)
    (ctx ctx' : MAKE_CONTEXT) (root : TargetId) (hfresh : FreshContext ctx)
    (hacyc : Acyclic ctx)
    (h : MakeDetermineDependenciesForTarget env fuel ctx root = some (true, ctx')) :
    (∀ (c : MAKE_CONTEXT) (p q : TargetId), (c.Target p).ParentDependents = [] →
      (c.Target p).ExplicitRecipeFound = false →
      (c.Target p).InferenceRuleParentTarget = some q →
      ((MakeDetermineDependenciesPopulateParent c p).2.Target p).ParentDependents =
        [{ Parent := q, Child := p }] ∧
      MakeDetermineDependenciesPopulateParent (MakeDetermineDependenciesPopulateParent c p).2 p =
        (true, (MakeDetermineDependenciesPopulateParent c p).2)) ∧
    (∀ (recurse : MAKE_CONTEXT → TargetId → Option (Bool × MAKE_CONTEXT)) (n : Nat)
        (c : MAKE_CONTEXT) (t : TargetId) (i : Nat) (S : Bool) (d : MAKE_TARGET_DEPENDENCY),
      (c.Target t).ParentDependents[i]? = some d →
      MakeDetermineDependenciesForTargetLoop recurse (n + 1) c t i S =
        match recurse (MakeDetermineDependenciesPopulateParent c d.Parent).2 d.Parent with
        | none => none
        | some (false, c2) => some (false, S, c2)
        | some (true, c2) =>
          MakeDetermineDependenciesForTargetLoop recurse n
            (MakeDetermineDependenciesAccountParent c2 t d S).2 t (i + 1)
            (MakeDetermineDependenciesAccountParent c2 t d S).1) ∧
    (∀ (t : TargetId) (d : MAKE_TARGET_DEPENDENCY) (q : TargetId),
      (ctx'.Target t).DependenciesEvaluated = true →
      d ∈ (ctx'.Target t).ParentDependents →
      (ctx.Target d.Parent).ParentDependents = [] →
      (ctx.Target d.Parent).ExplicitRecipeFound = false →
      (ctx.Target d.Parent).InferenceRuleParentTarget = some q →
      (ctx'.Target d.Parent).ParentDependents = [{ Parent := q, Child := d.Parent }] ∧
      { Parent := q, Child := d.Parent } ∈ (ctx'.Target q).ChildDependents ∧
      (ctx'.Target d.Parent).DependenciesEvaluated = true ∧
      (ctx'.Target q).DependenciesEvaluated = true ∧
      ((ctx.Target d.Parent).FileExists = false →
        (ctx'.Target d.Parent).RebuildRequired = true ∧
        (ctx'.Target t).NumberParentsToBuild =
          (ctx'.Target t).ParentDependents.countP
            (fun e => (ctx'.Target e.Parent).RebuildRequired) ∧
        0 < (ctx'.Target t).NumberParentsToBuild)) := by
  refine ⟨?_, ?_, ?_⟩
  · intro c p q hempty herf hq
    have hneed : MakeParentNeedsInferenceDependency c p = true := by
      simp [MakeParentNeedsInferenceDependency, hempty, herf, hq]
    have e1 : MakeDetermineDependenciesPopulateParent c p =
        MakeCreateParentChildDependency c q p := by
      simp [MakeDetermineDependenciesPopulateParent, hneed, hq]
    have e2 : ((MakeCreateParentChildDependency c q p).2.Target p).ParentDependents =
        [{ Parent := q, Child := p }] := by
      rw [MakeCreateParentChildDependency_parents, hempty]; rfl
    rw [e1]
    refine ⟨e2, ?_⟩
    have hneed2 : MakeParentNeedsInferenceDependency (MakeCreateParentChildDependency c q p).2 p =
        false := by
      simp [MakeParentNeedsInferenceDependency, e2]
    simp [MakeDetermineDependenciesPopulateParent, hneed2]
  · intro recurse n c t i S d hget
    rw [MakeDetermineDependenciesForTargetLoop]
    simp only [hget, MakeDetermineDependenciesPopulateParent_fst, Bool.not_true,
      Bool.false_eq_true, if_false]
  · intro t d q ht hd hempty herf hq
    obtain ⟨rank, hrank⟩ := hacyc
    have W := MakeDetermineDependenciesForTarget_fresh env rank fuel ctx ctx' root hfresh hrank h
    have hshape := MakeDetermineDependenciesForTarget_keeps_fresh env fuel ctx ctx' root
      (WalkKeeps_shape rank (rank root) ctx) hfresh hrank trivial (fun _ => Or.inl rfl) h
    have hRt : rank t ≤ rank root := by
      by_contra hc
      have hlt : rank root < rank t := not_le.mp hc
      have hne : t ≠ root := fun e => by rw [e] at hlt; exact lt_irrefl _ hlt
      rw [W.above t (le_of_lt hlt) hne, (hfresh.1 t).1] at ht
      cases ht
    have hrp : rank d.Parent < rank root := lt_of_lt_of_le (W.inv.rankOK.1 t d hd) hRt
    have hep : (ctx'.Target d.Parent).DependenciesEvaluated = true := W.inv.parents t ht d hd
    have hns := W.inv.nosynth d.Parent hep hrp
    have herf' : (ctx'.Target d.Parent).ExplicitRecipeFound = false := by
      rw [(W.static d.Parent).2.2.1]; exact herf
    have hq' : (ctx'.Target d.Parent).InferenceRuleParentTarget = some q := by
      rw [(W.static d.Parent).2.2.2.2.1]; exact hq
    have hne : (ctx'.Target d.Parent).ParentDependents ≠ [] := by
      intro e
      simp [MakeParentNeedsInferenceDependency, e, herf', hq'] at hns
    rcases hshape d.Parent with h1 | ⟨_, q2, k1, k2, k3⟩
    · rw [h1] at hne; exact absurd hempty hne
    · rw [hq'] at k1
      have e := Option.some.inj k1
      subst e
      have heq : (ctx'.Target q).DependenciesEvaluated = true :=
        W.inv.parents d.Parent hep { Parent := q, Child := d.Parent } (by rw [k2]; simp)
      refine ⟨k2, k3, hep, heq, fun hfe => ?_⟩
      have hrr : (ctx'.Target d.Parent).RebuildRequired = true := by
        apply (W.inv.stale d.Parent hep).mpr
        left
        rw [(W.static d.Parent).1]; exact hfe
      have hc := W.inv.counted t ht
      refine ⟨hrr, hc, ?_⟩
      rw [hc]
      exact List.countP_pos_iff.mpr ⟨d, hd, hrr⟩

theorem ScenarioSynth_fresh : FreshContext ScenarioSynth := by
  refine ⟨fun t => ?_, rfl, rfl⟩
  by_cases h0 : t = 0
  · subst h0; exact ⟨rfl, rfl, rfl, rfl⟩
  · by_cases h1 : t = 1
    · subst h1; exact ⟨rfl, rfl, rfl, rfl⟩
    · by_cases h2 : t = 2
      · subst h2; exact ⟨rfl, rfl, rfl, rfl⟩
      · by_cases h3 : t = 3
        · subst h3; exact ⟨rfl, rfl, rfl, rfl⟩
        · simp [ScenarioSynth, h0, h1, h2, h3, MakeInitialTarget]

theorem ScenarioSynth_acyclic : Acyclic ScenarioSynth := by
  refine ⟨fun t => if t = 1 then 2 else if t = 2 then 1 else 0, ?_, ?_⟩
  · intro t d hd
    by_cases h0 : t = 0
    · subst h0; simp [ScenarioSynth, MakeInitialTarget] at hd
    · by_cases h1 : t = 1
      · subst h1
        simp [ScenarioSynth, MakeInitialTarget] at hd
        subst hd; decide
      · by_cases h2 : t = 2
        · subst h2; simp [ScenarioSynth, MakeInitialTarget] at hd
        · by_cases h3 : t = 3
          · subst h3; simp [ScenarioSynth, MakeInitialTarget] at hd
          · simp [ScenarioSynth, h0, h1, h2, h3, MakeInitialTarget] at hd
  · intro t q hq
    by_cases h0 : t = 0
    · subst h0; simp [ScenarioSynth, MakeInitialTarget] at hq
    · by_cases h1 : t = 1
      · subst h1; simp [ScenarioSynth, MakeInitialTarget] at hq
      · by_cases h2 : t = 2
        · subst h2
          simp [ScenarioSynth, MakeInitialTarget] at hq
          subst hq; decide
        · by_cases h3 : t = 3
          · subst h3; simp [ScenarioSynth, MakeInitialTarget] at hq
          · simp [ScenarioSynth, h0, h1, h2, h3, MakeInitialTarget] at hq

theorem ScenarioSynth_schedule :
    MakeDetermineDependencies ScenarioSynthEnv 4 ScenarioSynth =
      some (true, ScenarioSynthResult) := by
  rfl

theorem ScenarioSynth_run :
    MakeDetermineDependenciesForTarget ScenarioSynthEnv 4 ScenarioSynth 1 =
      some (true, ScenarioSynthResult) := by
  rfl

theorem MakeDetermineDependenciesForTarget_synthesized_edge_witness :
    (ScenarioSynthResult.Target 2).ParentDependents = [{ Parent := 3, Child := 2 }] ∧
    { Parent := 3, Child := 2 } ∈ (ScenarioSynthResult.Target 3).ChildDependents ∧
    (ScenarioSynthResult.Target 2).DependenciesEvaluated = true ∧
    (ScenarioSynthResult.Target 3).DependenciesEvaluated = true ∧
    ((ScenarioSynth.Target 2).FileExists = false →
      (ScenarioSynthResult.Target 2).RebuildRequired = true ∧
      (ScenarioSynthResult.Target 1).NumberParentsToBuild =
        (ScenarioSynthResult.Target 1).ParentDependents.countP
          (fun e => (ScenarioSynthResult.Target e.Parent).RebuildRequired) ∧
      0 < (ScenarioSynthResult.Target 1).NumberParentsToBuild) :=
  (MakeDetermineDependenciesForTarget_synthesized_edge ScenarioSynthEnv 4 ScenarioSynth
    ScenarioSynthResult 1 ScenarioSynth_fresh ScenarioSynth_acyclic ScenarioSynth_run).2.2
    1 { Parent := 2, Child := 1 } 3 rfl (by decide) rfl rfl rfl

/-! ## The order of the queues -/

theorem QueueLog_frame {ctx ctx' : MAKE_CONTEXT} {log : List TargetId} (h : QueueLog ctx log)
    (hq1 : ctx'.TargetsReady = ctx.TargetsReady) (hq2 : ctx'.TargetsWaiting = ctx.TargetsWaiting)
    (hr : ∀ x, (ctx'.Target x).RebuildRequired = (ctx.Target x).RebuildRequired)
    (hn : ∀ x, (ctx.Target x).RebuildRequired = true →
      (ctx'.Target x).NumberParentsToBuild = (ctx.Target x).NumberParentsToBuild ∧
      (ctx'.Target x).ParentDependents = (ctx.Target x).ParentDependents) :
    QueueLog ctx' log := by
  obtain ⟨h1, h2, h3, h4, h5⟩ := h
  refine ⟨h1, ?_, ?_, ?_, ?_⟩
  · rw [hq1, h2]
    apply List.filter_congr
    intro x hx
    rw [(hn x ((h4 x).mp hx)).1]
  · rw [hq2, h3]
    apply List.filter_congr
    intro x hx
    rw [(hn x ((h4 x).mp hx)).1]
  · intro x; rw [hr]; exact h4 x
  · intro t ht d hd hrr
    rw [(hn t ((h4 t).mp ht)).2] at hd
    rw [hr] at hrr
    exact h5 t ht d hd hrr

theorem MakeDetermineDependenciesPopulateParent_queues (ctx : MAKE_CONTEXT) (p : TargetId) :
    (MakeDetermineDependenciesPopulateParent ctx p).2.TargetsReady = ctx.TargetsReady ∧
    (MakeDetermineDependenciesPopulateParent ctx p).2.TargetsWaiting = ctx.TargetsWaiting := by
  unfold MakeDetermineDependenciesPopulateParent
  split
  · split
    · exact MakeCreateParentChildDependency_queues _ _ _
    · exact ⟨rfl, rfl⟩
  · exact ⟨rfl, rfl⟩

/-- The existence of an order of appends behind the queues is a property the
walk keeps. -/
theorem WalkKeeps_log (rank : TargetId → Nat) (R : Nat) :
    WalkKeeps rank R (fun _ _ => True) (fun ctx => ∃ log, QueueLog ctx log) := by
  refine ⟨fun _ _ _ _ _ => trivial, fun _ _ _ _ _ => trivial, ?_, ?_, ?_⟩
  · rintro ctx p hinv hR ⟨log, hlog⟩
    have P := MakeDetermineDependenciesPopulateParent_post hinv p hR
    have Q := MakeDetermineDependenciesPopulateParent_queues ctx p
    refine ⟨log, QueueLog_frame hlog Q.1 Q.2 (fun x => (P.flags x).2.1) ?_⟩
    intro x hx
    refine ⟨(P.flags x).2.2, ?_⟩
    by_cases e : x = p
    · subst e; exact P.own (hinv.rr_eval x hx)
    · exact P.lists x e
  · rintro ctx t d S hinv ht ⟨log, hlog⟩
    obtain ⟨q1, q2, A2, n, A3⟩ := MakeDetermineDependenciesAccountParent_fields ctx t d S
    refine ⟨log, QueueLog_frame hlog q1 q2 ?_ ?_⟩
    · intro x
      by_cases e : x = t
      · subst e; rw [A3]
      · rw [A2 x e]
    · intro x hx
      have hxt : x ≠ t := fun e => by
        subst e
        rw [hinv.rr_eval x hx] at ht; cases ht
      rw [A2 x hxt]
      exact ⟨rfl, rfl⟩
  · rintro ctx ctx' t S b cmds hinv _ _ ht _ _ hT hTt hq1 hq2 ⟨log, hlog⟩
    have hrr : (ctx.Target t).RebuildRequired = false := by
      cases hr : (ctx.Target t).RebuildRequired
      · rfl
      · rw [hinv.rr_eval t hr] at ht; cases ht
    cases b with
    | false =>
      refine ⟨log, QueueLog_frame hlog (by simpa using hq1) (by simpa using hq2) ?_ ?_⟩
      · intro x
        by_cases e : x = t
        · subst e; rw [hTt, hrr]
        · rw [hT x e]
      · intro x hx
        have hxt : x ≠ t := fun e => by subst e; rw [hrr] at hx; cases hx
        rw [hT x hxt]
        exact ⟨rfl, rfl⟩
    | true =>
      obtain ⟨h1, h2, h3, h4, h5⟩ := hlog
      have htl : t ∉ log := fun hm => by
        have := (h4 t).mp hm
        rw [hrr] at this; cases this
      have hnp : (ctx'.Target t).NumberParentsToBuild = (ctx.Target t).NumberParentsToBuild := by
        rw [hTt]
      have hold : ∀ x ∈ log, ctx'.Target x = ctx.Target x := fun x hx =>
        hT x (fun e => htl (e ▸ hx))
      refine ⟨log ++ [t], ?_, ?_, ?_, ?_, ?_⟩
      · rw [List.nodup_append]
        refine ⟨h1, List.nodup_singleton t, ?_⟩
        intro a ha hb
        rw [List.mem_singleton] at hb
        exact htl (hb ▸ ha)
      · rw [hq1, List.filter_append, h2]
        have e1 : log.filter (fun x => decide ((ctx'.Target x).NumberParentsToBuild = 0)) =
            log.filter (fun x => decide ((ctx.Target x).NumberParentsToBuild = 0)) :=
          List.filter_congr (fun x hx => by rw [hold x hx])
        rw [e1]
        by_cases hz : (ctx.Target t).NumberParentsToBuild = 0
        · simp [hz, hnp]
        · simp [hz, hnp]
      · rw [hq2, List.filter_append, h3]
        have e1 : log.filter (fun x => decide ((ctx'.Target x).NumberParentsToBuild ≠ 0)) =
            log.filter (fun x => decide ((ctx.Target x).NumberParentsToBuild ≠ 0)) :=
          List.filter_congr (fun x hx => by rw [hold x hx])
        rw [e1]
        by_cases hz : (ctx.Target t).NumberParentsToBuild = 0
        · simp [hz, hnp]
        · simp [hz, hnp]
      · intro x
        by_cases e : x = t
        · subst e
          simp [hTt]
        · rw [hT x e, List.mem_append, List.mem_singleton]
          constructor
          · rintro (hx | hx)
            · exact (h4 x).mp hx
            · exact absurd hx e
          · intro hx; exact Or.inl ((h4 x).mpr hx)
      · intro u hu d hd hrd
        rw [List.mem_append, List.mem_singleton] at hu
        rcases hu with hu | hu
        · rw [hold u hu] at hd
          have heu : (ctx.Target u).DependenciesEvaluated = true :=
            hinv.rr_eval u ((h4 u).mp hu)
          have hpt : d.Parent ≠ t := fun e => by
            have := hinv.parents u heu d hd
            rw [e, ht] at this; cases this
          rw [hT _ hpt] at hrd
          obtain ⟨l1, l2, e1, e2⟩ := h5 u hu d hd hrd
          exact ⟨l1, l2 ++ [t], by rw [e1]; simp, e2⟩
        · subst hu
          rw [hTt] at hd
          simp only at hd
          have hpt : d.Parent ≠ u := fun e => by
            have := hinv.rankOK.1 u d hd
            rw [e] at this; exact lt_irrefl _ this
          rw [hT _ hpt] at hrd
          exact ⟨log, [], rfl, (h4 _).mpr hrd⟩

theorem filter_before {α : Type} (f : α → Bool) (log l1 l2 : List α) (p t : α)
    (hlog : log = l1 ++ t :: l2) (hp : p ∈ l1) (hfp : f p = true) (hft : f t = true) :
    ∃ m1 m2, log.filter f = m1 ++ t :: m2 ∧ p ∈ m1 :=
  ⟨l1.filter f, l2.filter f, by rw [hlog, List.filter_append, List.filter_cons, hft]; rfl,
    List.mem_filter.mpr ⟨hp, hfp⟩⟩

/-! ## The variable expander: names and qualifiers -/

theorem Char_eq_of_toNat_eq {a b : Char} (h : a.toNat = b.toNat) : a = b := by
  rw [← Char.ofNat_toNat a, ← Char.ofNat_toNat b, h]

theorem YoriLibCompareStringWithLiteral_eq_zero :
    ∀ (a b : YORI_STRING), YoriLibCompareStringWithLiteral a b = 0 ↔ a = b := by
  intro a
  induction a with
  | nil =>
    intro b
    cases b with
    | nil => simp [YoriLibCompareStringWithLiteral]
    | cons y ys => simp [YoriLibCompareStringWithLiteral]
  | cons x xs ih =>
    intro b
    cases b with
    | nil => simp [YoriLibCompareStringWithLiteral]
    | cons y ys =>
      rw [YoriLibCompareStringWithLiteral]
      by_cases h1 : x.toNat < y.toNat
      · have hne : x ≠ y := fun e => by subst e; omega
        simp [h1, hne]
      · by_cases h2 : x.toNat > y.toNat
        · have hne : x ≠ y := fun e => by subst e; omega
          simp [h1, h2, hne]
        · have he : x = y := Char_eq_of_toNat_eq (by omega)
          simp only [h1, h2, if_false, ih ys, List.cons.injEq, he, true_and]
          subst he
          simp only [lt_irrefl, gt_iff_lt, if_false, ih ys]

/-- The maximal leading run over the symbol characters, and what follows
it. -/
theorem YoriLibCountStringContainingChars_take (V chars : YORI_STRING) :
    V.take (YoriLibCountStringContainingChars V chars) =
        V.takeWhile (fun c => chars.contains c) ∧
      V.drop (YoriLibCountStringContainingChars V chars) =
        V.dropWhile (fun c => chars.contains c) := by
  unfold YoriLibCountStringContainingChars
  have h := List.takeWhile_append_dropWhile (fun c => chars.contains c) V
  have h1 := @List.take_left _ (V.takeWhile (fun c => chars.contains c))
    (V.dropWhile (fun c => chars.contains c))
  have h2 := @List.drop_left _ (V.takeWhile (fun c => chars.contains c))
    (V.dropWhile (fun c => chars.contains c))
  rw [h] at h1 h2
  exact ⟨h1, h2⟩

theorem YoriLibCountStringContainingChars_le (V chars : YORI_STRING) :
    YoriLibCountStringContainingChars V chars ≤ V.length := by
  unfold YoriLibCountStringContainingChars
  have h := List.takeWhile_append_dropWhile (fun c => chars.contains c) V
  have := congrArg List.length h
  rw [List.length_append] at this
  omega

/-- `MakeExpandTargetVariable` in terms of the leading run of symbol
characters of the name and the rest of the name. -/
theorem MakeExpandTargetVariable_parts (ctx : MAKE_CONTEXT) (T : TargetId) (V : YORI_STRING) :
    MakeExpandTargetVariable ctx T V =
      if V.takeWhile (fun c => "@*<?".toList.contains c) = [] then (false, [], ctx)
      else
        match MakeExpandTargetVariableValue ctx T
            (V.takeWhile (fun c => "@*<?".toList.contains c)) with
        | none => (false, [], ctx)
        | some (VariableData, ctx1) =>
          match MakeExpandFileNamePart VariableData
              (V.dropWhile (fun c => "@*<?".toList.contains c)) with
          | none => (false, [], ctx1)
          | some Value => (true, Value, ctx1) := by
  have ht := (YoriLibCountStringContainingChars_take V "@*<?".toList).1
  have hd := (YoriLibCountStringContainingChars_take V "@*<?".toList).2
  have hle := YoriLibCountStringContainingChars_le V "@*<?".toList
  have hz : YoriLibCountStringContainingChars V "@*<?".toList = 0 ↔
      V.takeWhile (fun c => "@*<?".toList.contains c) = [] := by
    unfold YoriLibCountStringContainingChars
    exact List.length_eq_zero
  unfold MakeExpandTargetVariable
  by_cases h0 : YoriLibCountStringContainingChars V "@*<?".toList = 0
  · simp only [h0, if_true, hz.mp h0]
  · have h0' : ¬ V.takeWhile (fun c => "@*<?".toList.contains c) = [] :=
      fun e => h0 (hz.mpr e)
    simp only [h0, h0', if_false]
    by_cases hgt : V.length > YoriLibCountStringContainingChars V "@*<?".toList
    · simp only [hgt, if_true, ht, hd]
    · have hlen : V.length ≤ YoriLibCountStringContainingChars V "@*<?".toList := by omega
      rw [List.take_of_length_le hlen] at ht
      rw [List.drop_of_length_le hlen] at hd
      simp only [hgt, if_false, ← ht, ← hd]

/-- The five names of target specific variables. -/
theorem MakeExpandTargetVariable_qualified (ctx ctx1 : MAKE_CONTEXT) (T : TargetId)
    (N Q V : YORI_STRING)
    (hN : N = "@".toList ∨ N = "*".toList ∨ N = "?".toList ∨ N = "**".toList ∨ N = "<".toList)
    (hQ : ∀ c ∈ Q.head?, "@*<?".toList.contains c = false)
    (hV : MakeExpandTargetVariableValue ctx T N = some (V, ctx1)) :
    MakeExpandTargetVariable ctx T (N ++ Q) =
      match MakeExpandFileNamePart V Q with
      | none => (false, [], ctx1)
      | some Value => (true, Value, ctx1) := by
  have hne : N ≠ [] := by rcases hN with rfl | rfl | rfl | rfl | rfl <;> decide
  have hall : ∀ c ∈ N, "@*<?".toList.contains c = true := by
    rcases hN with rfl | rfl | rfl | rfl | rfl <;> decide
  have hcount : YoriLibCountStringContainingChars (N ++ Q) "@*<?".toList = N.length := by
    unfold YoriLibCountStringContainingChars
    rw [List.takeWhile_append_of_pos hall]
    cases Q with
    | nil => simp
    | cons q qs =>
      have := hQ q (by simp)
      rw [List.takeWhile_cons, if_neg (by rw [this]; simp)]
      simp
  rw [MakeExpandTargetVariable_split ctx T N Q hcount hne, hV]

/-! ## The variable expander: the values -/

theorem MakeExpandStemScan_skip (KeyLength : Nat) :
    ∀ (l rest : YORI_STRING), (∀ c ∈ l, c ≠ '.' ∧ YoriLibIsSep c = false) →
      MakeExpandStemScan KeyLength (l ++ rest) = MakeExpandStemScan KeyLength rest := by
  intro l
  induction l with
  | nil => intro rest _; rfl
  | cons c l ih =>
    intro rest h
    have hc := h c (List.mem_cons_self _ _)
    rw [List.cons_append, MakeExpandStemScan]
    simp only [hc.1, hc.2, if_false, Bool.false_eq_true]
    exact ih rest (fun x hx => h x (List.mem_cons_of_mem _ hx))

theorem MakeExpandTargetVariableValue_star (ctx : MAKE_CONTEXT) (T : TargetId) :
    MakeExpandTargetVariableValue ctx T "*".toList =
      some ((ctx.Target T).Key.take
        (if MakeExpandStemScan (ctx.Target T).Key.length (ctx.Target T).Key.reverse = 0 then
          (ctx.Target T).Key.length
        else MakeExpandStemScan (ctx.Target T).Key.length (ctx.Target T).Key.reverse), ctx) := by
  have h1 : YoriLibCompareStringWithLiteral "*".toList "@".toList ≠ 0 := by decide
  have h2 : YoriLibCompareStringWithLiteral "*".toList "*".toList = 0 := by decide
  unfold MakeExpandTargetVariableValue
  simp only [h1, h2, if_false, if_true]

/-- The scan of the `*` branch on a key whose last period, after every
separator, follows `stem`. -/
theorem MakeExpandStemScan_period (stem ext : YORI_STRING) (hdot : '.' ∉ ext)
    (hsep : ∀ c ∈ ext, YoriLibIsSep c = false) :
    MakeExpandStemScan (stem ++ '.' :: ext).length (stem ++ '.' :: ext).reverse =
      stem.length := by
  have e1 : (stem ++ '.' :: ext).reverse = ext.reverse ++ '.' :: stem.reverse := by simp
  rw [e1, MakeExpandStemScan_skip _ ext.reverse _ (fun c hc => by
    rw [List.mem_reverse] at hc
    exact ⟨fun e => hdot (e ▸ hc), hsep c hc⟩), MakeExpandStemScan]
  simp

/-- The scan of the `*` branch on a key whose last separator comes after
every period. -/
theorem MakeExpandStemScan_separator (dir name : YORI_STRING) (s : Char)
    (hs : YoriLibIsSep s = true) (hdot : '.' ∉ name)
    (hsep : ∀ c ∈ name, YoriLibIsSep c = false) :
    MakeExpandStemScan (dir ++ s :: name).length (dir ++ s :: name).reverse =
      (dir ++ s :: name).length := by
  have e1 : (dir ++ s :: name).reverse = name.reverse ++ s :: dir.reverse := by simp
  rw [e1, MakeExpandStemScan_skip _ name.reverse _ (fun c hc => by
    rw [List.mem_reverse] at hc
    exact ⟨fun e => hdot (e ▸ hc), hsep c hc⟩), MakeExpandStemScan]
  simp only [YoriLibIsSep_ne_period hs, hs, if_false, if_true]

/-- The scan of the `*` branch on a key with neither period nor separator. -/
theorem MakeExpandStemScan_plain (n : Nat) (Key : YORI_STRING) (hdot : '.' ∉ Key)
    (hsep : ∀ c ∈ Key, YoriLibIsSep c = false) :
    MakeExpandStemScan n Key.reverse = 0 := by
  have := MakeExpandStemScan_skip n Key.reverse [] (fun c hc => by
    rw [List.mem_reverse] at hc
    exact ⟨fun e => hdot (e ▸ hc), hsep c hc⟩)
  rw [List.append_nil] at this
  rw [this]
  rfl

/-- The guard `if (Index == 0)` of the `*` branch on a text that begins with
its only period, which no full path does: `.c` has no separator and its
period is followed by `c`; the value of `*` is the whole text. -/
theorem MakeExpandTargetVariableValue_star_leading_period :
    ((ScenarioKey ".c".toList).Target 0).Key = [] ++ '.' :: "c".toList ∧
    (∀ c ∈ ((ScenarioKey ".c".toList).Target 0).Key, YoriLibIsSep c = false) ∧
    (MakeExpandTargetVariableValue (ScenarioKey ".c".toList) 0 "*".toList).map Prod.fst =
      some ".c".toList ∧
    (MakeExpandTargetVariable (ScenarioKey ".c".toList) 0 "*".toList).1 = true ∧
    (MakeExpandTargetVariable (ScenarioKey ".c".toList) 0 "*".toList).2.1 = ".c".toList :=
  ⟨rfl, by decide, by decide, by decide, by decide⟩

/-- The value of `*`, by the shape of the key.  When the last period of the
key comes after every separator (or there is no separator) and is not the
first character of the key, the value is the key before that period.  The
value is the whole key when that period is the first character of the key,
when the last separator comes after every period, and when the key has
neither.  The qualifier is then applied to this value. -/
theorem MakeExpandTargetVariableValue_star_cases (ctx : MAKE_CONTEXT) (T : TargetId) :
    (∀ stem ext, (ctx.Target T).Key = stem ++ '.' :: ext → stem ≠ [] → '.' ∉ ext →
      (∀ c ∈ ext, YoriLibIsSep c = false) →
      MakeExpandTargetVariableValue ctx T "*".toList = some (stem, ctx)) ∧
    (∀ ext, (ctx.Target T).Key = '.' :: ext → '.' ∉ ext →
      (∀ c ∈ ext, YoriLibIsSep c = false) →
      MakeExpandTargetVariableValue ctx T "*".toList = some ((ctx.Target T).Key, ctx)) ∧
    (∀ dir s name, (ctx.Target T).Key = dir ++ s :: name → YoriLibIsSep s = true →
      '.' ∉ name → (∀ c ∈ name, YoriLibIsSep c = false) →
      MakeExpandTargetVariableValue ctx T "*".toList = some ((ctx.Target T).Key, ctx)) ∧
    ('.' ∉ (ctx.Target T).Key → (∀ c ∈ (ctx.Target T).Key, YoriLibIsSep c = false) →
      MakeExpandTargetVariableValue ctx T "*".toList = some ((ctx.Target T).Key, ctx)) ∧
    (∀ V Q, MakeExpandTargetVariableValue ctx T "*".toList = some (V, ctx) →
      (∀ c ∈ Q.head?, "@*<?".toList.contains c = false) →
      MakeExpandTargetVariable ctx T ("*".toList ++ Q) =
        match MakeExpandFileNamePart V Q with
        | none => (false, [], ctx)
        | some Value => (true, Value, ctx)) := by
  refine ⟨?_, ?_, ?_, ?_, ?_⟩
  · intro stem ext hkey hne hdot hsep
    have hlen : stem.length ≠ 0 := fun e => hne (List.length_eq_zero.mp e)
    rw [MakeExpandTargetVariableValue_star, hkey, MakeExpandStemScan_period stem ext hdot hsep,
      if_neg hlen, List.take_left]
  · intro ext hkey hdot hsep
    have h := MakeExpandStemScan_period [] ext hdot hsep
    rw [List.nil_append] at h
    rw [MakeExpandTargetVariableValue_star, hkey, h]
    simp
  · intro dir s name hkey hs hdot hsep
    rw [MakeExpandTargetVariableValue_star, hkey,
      MakeExpandStemScan_separator dir name s hs hdot hsep]
    simp
  · intro hdot hsep
    rw [MakeExpandTargetVariableValue_star, MakeExpandStemScan_plain _ _ hdot hsep]
    simp
  · intro V Q hV hQ
    exact MakeExpandTargetVariable_qualified ctx ctx T "*".toList Q V
      (Or.inr (Or.inl rfl)) hQ hV



theorem YoriLibWriteChars_take (buf data : YORI_STRING) (Index : Nat)
    (h : Index ≤ buf.length) :
    (YoriLibWriteChars buf Index data).take (Index + data.length) = buf.take Index ++ data ∧
    (YoriLibWriteChars buf Index data).take Index = buf.take Index ∧
    Index + data.length ≤ (YoriLibWriteChars buf Index data).length := by
  have hl : (buf.take Index).length = Index := by simp [h]
  unfold YoriLibWriteChars
  refine ⟨?_, ?_, ?_⟩
  · have := @List.take_left _ (buf.take Index ++ data) (buf.drop (Index + data.length))
    rw [List.length_append, hl] at this
    exact this
  · have := @List.take_left _ (buf.take Index) (data ++ buf.drop (Index + data.length))
    rw [hl, ← List.append_assoc] at this
    exact this
  · simp only [List.length_append, hl]
    omega

theorem List_intercalate_cons_cons (sep x y : YORI_STRING) (rest : List YORI_STRING) :
    List.intercalate sep (x :: y :: rest) = x ++ sep ++ List.intercalate sep (y :: rest) := by
  simp [List.intercalate, List.intersperse]

theorem List_intercalate_forall (P : Char → Prop) (sep : YORI_STRING) (hsep : ∀ c ∈ sep, P c) :
    ∀ (l : List YORI_STRING), (∀ x ∈ l, ∀ c ∈ x, P c) → ∀ c ∈ List.intercalate sep l, P c := by
  intro l
  induction l with
  | nil => intro _ c hc; simp [List.intercalate] at hc
  | cons x rest ih =>
    intro h c hc
    cases rest with
    | nil =>
      have e : List.intercalate sep [x] = x := by simp [List.intercalate]
      rw [e] at hc
      exact h x (List.mem_cons_self _ _) c hc
    | cons y r =>
      rw [List_intercalate_cons_cons] at hc
      simp only [List.mem_append] at hc
      rcases hc with (hc | hc) | hc
      · exact h x (List.mem_cons_self _ _) c hc
      · exact hsep c hc
      · exact ih (fun z hz => h z (List.mem_cons_of_mem _ hz)) c hc

/-- The fill loop of the `**` branch leaves, up to the final `Index`, the
text that was there followed by the keys joined by single spaces. -/
theorem MakeExpandAllParents_fill (ctx : MAKE_CONTEXT) :
    ∀ (deps : List MAKE_TARGET_DEPENDENCY) (buf : YORI_STRING) (Index : Nat),
      Index ≤ buf.length →
      (MakeExpandAllParents ctx deps buf Index).1.take
          (MakeExpandAllParents ctx deps buf Index).2 =
        buf.take Index ++
          List.intercalate [' '] (deps.map (fun d => (ctx.Target d.Parent).Key)) := by
  intro deps
  induction deps with
  | nil => intro buf Index _; simp [MakeExpandAllParents, List.intercalate]
  | cons d rest ih =>
    intro buf Index h
    have w1 := YoriLibWriteChars_take buf (ctx.Target d.Parent).Key Index h
    have w2 := YoriLibWriteChars_take
      (YoriLibWriteChars buf Index (ctx.Target d.Parent).Key) [' ']
      (Index + (ctx.Target d.Parent).Key.length) w1.2.2
    rw [MakeExpandAllParents]
    cases rest with
    | nil =>
      simp only [List.isEmpty_nil, if_true, MakeExpandAllParents, List.map_cons, List.map_nil]
      rw [w2.2.1, w1.1]
      simp [List.intercalate]
    | cons r rs =>
      simp only [List.isEmpty_cons, Bool.false_eq_true, if_false]
      rw [ih _ _ (by simpa using w2.2.2)]
      have := w2.1
      rw [List.length_singleton] at this
      rw [this, w1.1]
      simp only [List.map_cons, List_intercalate_cons_cons, List.append_assoc]

theorem MakeExpandTargetVariableValue_all (ctx : MAKE_CONTEXT) (T : TargetId) :
    MakeExpandTargetVariableValue ctx T "**".toList =
      some (List.intercalate [' ']
          ((ctx.Target T).ParentDependents.map (fun d => (ctx.Target d.Parent).Key)),
        { ctx with AllocVariableData := ctx.AllocVariableData + 1 }) := by
  have h1 : YoriLibCompareStringWithLiteral "**".toList "@".toList ≠ 0 := by decide
  have h2 : YoriLibCompareStringWithLiteral "**".toList "*".toList ≠ 0 := by decide
  have h3 : YoriLibCompareStringWithLiteral "**".toList "?".toList ≠ 0 := by decide
  have h4 : YoriLibCompareStringWithLiteral "**".toList "**".toList = 0 := by decide
  have hf := MakeExpandAllParents_fill ctx (ctx.Target T).ParentDependents [] 0 (le_refl _)
  unfold MakeExpandTargetVariableValue
  simp only [h1, h2, h3, h4, if_false, if_true]
  rw [hf]
  simp

/-- C22: the value of `**` is the keys of the prerequisites of the target,
in the order of its `ParentDependents` list (the order in which the edges were
attached: `MakeCreateParentChildDependency` appends to it), joined by single
spaces: nothing before the first key or after the last, and the empty string
when there is no prerequisite.  Expanding `**` without qualifier gives this
text whenever no key holds a path separator; with the prerequisites keyed `p1`
then `p2` it gives `p1 p2`. -/
theorem MakeExpandTargetVariable_all_prerequisites (ctx : MAKE_CONTEXT) (T : TargetId) :
    MakeExpandTargetVariableValue ctx T "**".toList =
      some (List.intercalate [' ']
          ((ctx.Target T).ParentDependents.map (fun d => (ctx.Target d.Parent).Key)),
        { ctx with AllocVariableData := ctx.AllocVariableData + 1 }) ∧
    (∀ P, ((MakeCreateParentChildDependency ctx P T).2.Target T).ParentDependents =
      (ctx.Target T).ParentDependents ++ [{ Parent := P, Child := T }]) ∧
    ((ctx.Target T).ParentDependents = [] →
      MakeExpandTargetVariable ctx T "**".toList =
        (true, [], { ctx with AllocVariableData := ctx.AllocVariableData + 1 })) ∧
    (∀ d1 d2, (ctx.Target T).ParentDependents = [d1, d2] →
      (∀ c ∈ (ctx.Target d1.Parent).Key, YoriLibIsSep c = false) →
      (∀ c ∈ (ctx.Target d2.Parent).Key, YoriLibIsSep c = false) →
      MakeExpandTargetVariable ctx T "**".toList =
        (true, (ctx.Target d1.Parent).Key ++ ' ' :: (ctx.Target d2.Parent).Key,
          { ctx with AllocVariableData := ctx.AllocVariableData + 1 })) ∧
    ((∀ d ∈ (ctx.Target T).ParentDependents, ∀ c ∈ (ctx.Target d.Parent).Key,
        YoriLibIsSep c = false) →
      MakeExpandTargetVariable ctx T "**".toList =
        (true, List.intercalate [' ']
            ((ctx.Target T).ParentDependents.map (fun d => (ctx.Target d.Parent).Key)),
          { ctx with AllocVariableData := ctx.AllocVariableData + 1 })) := by
  have hv := MakeExpandTargetVariableValue_all ctx T
  have hq := MakeExpandTargetVariable_qualified ctx _ T "**".toList [] _
    (Or.inr (Or.inr (Or.inr (Or.inl rfl)))) (by simp) hv
  rw [List.append_nil] at hq
  have hall : (∀ d ∈ (ctx.Target T).ParentDependents, ∀ c ∈ (ctx.Target d.Parent).Key,
        YoriLibIsSep c = false) →
      MakeExpandTargetVariable ctx T "**".toList =
        (true, List.intercalate [' ']
            ((ctx.Target T).ParentDependents.map (fun d => (ctx.Target d.Parent).Key)),
          { ctx with AllocVariableData := ctx.AllocVariableData + 1 }) := by
    intro hsep
    have hname : ∀ c ∈ List.intercalate [' ']
        ((ctx.Target T).ParentDependents.map (fun d => (ctx.Target d.Parent).Key)),
        YoriLibIsSep c = false := by
      apply List_intercalate_forall (fun c => YoriLibIsSep c = false) [' '] (by decide)
      intro x hx
      rw [List.mem_map] at hx
      obtain ⟨d, hd, rfl⟩ := hx
      exact hsep d hd
    have := MakeExpandFileNamePart_name [] [] _ (Or.inl rfl) (Or.inl rfl) hname
    rw [List.nil_append] at this
    rw [hq, this]
  refine ⟨hv, ?_, ?_, ?_, hall⟩
  · intro P
    by_cases hP : P = T
    · subst hP
      simp [MakeCreateParentChildDependency, MAKE_CONTEXT.setTarget]
    · have hP' : ¬ T = P := fun e => hP e.symm
      simp [MakeCreateParentChildDependency, MAKE_CONTEXT.setTarget, Function.update, hP']
  · intro he
    have := hall (by rw [he]; intro d hd; cases hd)
    rw [this, he]
    rfl
  · intro d1 d2 he h1 h2
    have := hall (by
      rw [he]
      intro d hd
      simp only [List.mem_cons, List.mem_singleton, List.not_mem_nil, or_false] at hd
      rcases hd with rfl | rfl
      · exact h1
      · exact h2)
    rw [this, he]
    simp [List.intercalate, List.intersperse]

theorem MakeExpandTargetVariable_all_prerequisites_witness :
    MakeExpandTargetVariable (ScenarioKey "foo".toList) 0 "**".toList =
      (true, [], { ScenarioKey "foo".toList with
        AllocVariableData := (ScenarioKey "foo".toList).AllocVariableData + 1 }) ∧
    MakeExpandTargetVariable (ScenarioS6 1) 0 "**".toList =
      (true, "p1 p2".toList, { ScenarioS6 1 with
        AllocVariableData := (ScenarioS6 1).AllocVariableData + 1 }) :=
  ⟨(MakeExpandTargetVariable_all_prerequisites (ScenarioKey "foo".toList) 0).2.2.1 rfl,
    (MakeExpandTargetVariable_all_prerequisites (ScenarioS6 1) 0).2.2.2.1
      { Parent := 1, Child := 0 } { Parent := 2, Child := 0 } rfl (by decide) (by decide)⟩

/-- The fill loop of the `?` branch leaves, up to the final `Index`, the
text that was there followed by the keys of the newer prerequisites, one
directly after the other: the space stored behind a key is overwritten by the
next key, and is beyond the final `Index` after the last. -/
theorem MakeExpandNewerParents_fill (ctx : MAKE_CONTEXT) (T : TargetId) :
    ∀ (deps : List MAKE_TARGET_DEPENDENCY) (buf : YORI_STRING) (Index : Nat),
      Index ≤ buf.length →
      (MakeExpandNewerParents ctx T deps buf Index).1.take
          (MakeExpandNewerParents ctx T deps buf Index).2 =
        buf.take Index ++
          ((deps.filter (fun d => MakeExpandIsNewer ctx T d)).map
            (fun d => (ctx.Target d.Parent).Key)).flatten := by
  intro deps
  induction deps with
  | nil => intro buf Index _; simp [MakeExpandNewerParents]
  | cons d rest ih =>
    intro buf Index h
    rw [MakeExpandNewerParents]
    by_cases hn : MakeExpandIsNewer ctx T d = true
    · have w1 := YoriLibWriteChars_take buf (ctx.Target d.Parent).Key Index h
      have w2 := YoriLibWriteChars_take
        (YoriLibWriteChars buf Index (ctx.Target d.Parent).Key) [' ']
        (Index + (ctx.Target d.Parent).Key.length) w1.2.2
      simp only [hn, if_true, List.filter_cons_of_pos]
      rw [ih _ _ (le_trans (Nat.le_add_right _ _) w2.2.2), w2.2.1, w1.1]
      simp
    · have hn' : MakeExpandIsNewer ctx T d = false := by simpa using hn
      simp only [hn', Bool.false_eq_true, if_false, List.filter_cons_of_neg, not_false_eq_true]
      exact ih buf Index h

theorem MakeExpandTargetVariableValue_newer (ctx : MAKE_CONTEXT) (T : TargetId) :
    MakeExpandTargetVariableValue ctx T "?".toList =
      some ((((ctx.Target T).ParentDependents.filter (fun d => MakeExpandIsNewer ctx T d)).map
          (fun d => (ctx.Target d.Parent).Key)).flatten,
        { ctx with AllocVariableData := ctx.AllocVariableData + 1 }) := by
  have h1 : YoriLibCompareStringWithLiteral "?".toList "@".toList ≠ 0 := by decide
  have h2 : YoriLibCompareStringWithLiteral "?".toList "*".toList ≠ 0 := by decide
  have h3 : YoriLibCompareStringWithLiteral "?".toList "?".toList = 0 := by decide
  have hf := MakeExpandNewerParents_fill ctx T (ctx.Target T).ParentDependents [] 0 (le_refl _)
  unfold MakeExpandTargetVariableValue
  simp only [h1, h2, h3, if_false, if_true]
  rw [hf]
  simp

/-- C23: the value of `?` at two newer prerequisites.  In scenario S6 with
`p2` last written at 7 (`t` at 3, `p1` at 5, all three existing) both
prerequisites are newer than `t`, and `MakeExpandTargetVariable` gives `p1p2`
for `?`, without the space, where it gives `p1 p2` for `**`.  With `p2` last
written at 1, as in the specification, it gives `p1`.  In general the value
is the keys of the prerequisites for which the target does not exist, or the
prerequisite does not exist, or the prerequisite is newer, in the order of
`ParentDependents`, one directly after the other. -/
theorem MakeExpandTargetVariable_newer_prerequisites :
    (MakeExpandTargetVariable (ScenarioS6 7) 0 "?".toList).1 = true ∧
    (MakeExpandTargetVariable (ScenarioS6 7) 0 "?".toList).2.1 = "p1p2".toList ∧
    (MakeExpandTargetVariable (ScenarioS6 7) 0 "**".toList).2.1 = "p1 p2".toList ∧
    (MakeExpandTargetVariable (ScenarioS6 1) 0 "?".toList).2.1 = "p1".toList ∧
    (∀ (ctx : MAKE_CONTEXT) (T : TargetId),
      MakeExpandTargetVariableValue ctx T "?".toList =
        some ((((ctx.Target T).ParentDependents.filter (fun d =>
            !(ctx.Target T).FileExists || !(ctx.Target d.Parent).FileExists ||
              decide ((ctx.Target d.Parent).ModifiedTime > (ctx.Target T).ModifiedTime))).map
            (fun d => (ctx.Target d.Parent).Key)).flatten,
          { ctx with AllocVariableData := ctx.AllocVariableData + 1 })) :=
  ⟨by decide, by decide, by decide, by decide, fun ctx T => MakeExpandTargetVariableValue_newer ctx T⟩

theorem MakeExpandSourceScan_skip :
    ∀ (l rest : YORI_STRING), '.' ∉ l →
      MakeExpandSourceScan (l ++ rest) = MakeExpandSourceScan rest := by
  intro l
  induction l with
  | nil => intro rest _; rfl
  | cons c l ih =>
    intro rest h
    have hc : c ≠ '.' := fun e => h (e ▸ List.mem_cons_self _ _)
    rw [List.cons_append, MakeExpandSourceScan]
    simp only [hc, if_false]
    exact ih rest (fun hx => h (List.mem_cons_of_mem _ hx))

/-- C24: the value of `<`.  For a target whose inference rule is set and
whose key is `stem`, a period, and `ext` without period (so that this period
is the last of the key), the value is `stem`, the period, and the source
extension of the rule; the qualifier is then applied to it.  Without an
inference rule `<` has no value. -/
theorem MakeExpandTargetVariable_inference_source (ctx : MAKE_CONTEXT) (T : TargetId)
    (R : RuleId) (stem ext : YORI_STRING)
    (hrule : (ctx.Target T).InferenceRule = some R)
    (hkey : (ctx.Target T).Key = stem ++ '.' :: ext) (hdot : '.' ∉ ext) :
    MakeExpandTargetVariableValue ctx T "<".toList =
      some (stem ++ ['.'] ++ (ctx.InferenceRule R).SourceExtension,
        { ctx with AllocVariableData := ctx.AllocVariableData + 1 }) ∧
    (∀ Q, (∀ c ∈ Q.head?, "@*<?".toList.contains c = false) →
      MakeExpandTargetVariable ctx T ("<".toList ++ Q) =
        match MakeExpandFileNamePart
            (stem ++ ['.'] ++ (ctx.InferenceRule R).SourceExtension) Q with
        | none => (false, [], { ctx with AllocVariableData := ctx.AllocVariableData + 1 })
        | some Value =>
          (true, Value, { ctx with AllocVariableData := ctx.AllocVariableData + 1 })) ∧
    (∀ ctx0 : MAKE_CONTEXT, (ctx0.Target T).InferenceRule = none →
      MakeExpandTargetVariableValue ctx0 T "<".toList = none) := by
  have h1 : YoriLibCompareStringWithLiteral "<".toList "@".toList ≠ 0 := by decide
  have h2 : YoriLibCompareStringWithLiteral "<".toList "*".toList ≠ 0 := by decide
  have h3 : YoriLibCompareStringWithLiteral "<".toList "?".toList ≠ 0 := by decide
  have h4 : YoriLibCompareStringWithLiteral "<".toList "**".toList ≠ 0 := by decide
  have h5 : YoriLibCompareStringWithLiteral "<".toList "<".toList = 0 := by decide
  have hscan : MakeExpandSourceScan (stem ++ '.' :: ext).reverse = stem.length + 1 := by
    have e1 : (stem ++ '.' :: ext).reverse = ext.reverse ++ '.' :: stem.reverse := by simp
    rw [e1, MakeExpandSourceScan_skip ext.reverse _ (fun hc => hdot (List.mem_reverse.mp hc)),
      MakeExpandSourceScan]
    simp
  have htake : (stem ++ '.' :: ext).take (stem.length + 1) = stem ++ ['.'] := by
    have := @List.take_left _ (stem ++ ['.']) ext
    simpa using this
  have hv : MakeExpandTargetVariableValue ctx T "<".toList =
      some (stem ++ ['.'] ++ (ctx.InferenceRule R).SourceExtension,
        { ctx with AllocVariableData := ctx.AllocVariableData + 1 }) := by
    unfold MakeExpandTargetVariableValue
    simp only [h1, h2, h3, h4, h5, if_false, if_true, hrule, hkey, hscan, htake]
  refine ⟨hv, ?_, ?_⟩
  · intro Q hQ
    exact MakeExpandTargetVariable_qualified ctx _ T "<".toList Q _
      (Or.inr (Or.inr (Or.inr (Or.inr rfl)))) hQ hv
  · intro ctx0 hnone
    unfold MakeExpandTargetVariableValue
    simp only [h1, h2, h3, h4, h5, if_false, if_true, hnone]

theorem MakeExpandTargetVariable_inference_source_witness :
    MakeExpandTargetVariableValue ScenarioSynth 2 "<".toList =
      some ("a.c".toList,
        { ScenarioSynth with AllocVariableData := ScenarioSynth.AllocVariableData + 1 }) :=
  (MakeExpandTargetVariable_inference_source ScenarioSynth 2 0 "a".toList "obj".toList rfl rfl
    (by decide)).1

/-! ## The variable expander: when it fails -/

theorem YoriLibUpcaseChar_toNat (c : Char) :
    (YoriLibUpcaseChar c).toNat =
      if 97 ≤ c.toNat ∧ c.toNat ≤ 122 then c.toNat - 32 else c.toNat := by
  unfold YoriLibUpcaseChar Char.toUpper
  by_cases h : c.toNat ≥ 97 ∧ c.toNat ≤ 122
  · have h' : 97 ≤ c.toNat ∧ c.toNat ≤ 122 := h
    simp only [h, h', if_true]
    obtain ⟨h1, h2⟩ := h
    generalize c.toNat = n at h1 h2
    interval_cases n <;> rfl
  · have h' : ¬ (97 ≤ c.toNat ∧ c.toNat ≤ 122) := h
    simp only [h, h', if_false]

/-- The comparison ignoring case against a literal of one capital letter. -/
theorem YoriLibCompareStringWithLiteralInsensitive_letter (Q : YORI_STRING) (L : Char)
    (hL : 65 ≤ L.toNat ∧ L.toNat ≤ 90) :
    YoriLibCompareStringWithLiteralInsensitive Q [L] = 0 ↔
      Q = [L] ∨ Q = [Char.ofNat (L.toNat + 32)] := by
  have hLu : (YoriLibUpcaseChar L).toNat = L.toNat := by
    rw [YoriLibUpcaseChar_toNat, if_neg (by omega)]
  have hlow : (Char.ofNat (L.toNat + 32)).toNat = L.toNat + 32 := by
    obtain ⟨h1, h2⟩ := hL
    generalize L.toNat = n at h1 h2
    interval_cases n <;> rfl
  unfold YoriLibCompareStringWithLiteralInsensitive
  cases Q with
  | nil => simp [YoriLibCompareStringInsensitive]
  | cons c rest =>
    rw [YoriLibCompareStringInsensitive, hLu, YoriLibUpcaseChar_toNat]
    by_cases hc : 97 ≤ c.toNat ∧ c.toNat ≤ 122
    · simp only [hc, and_self, if_true]
      by_cases h1 : c.toNat - 32 < L.toNat
      · have n1 : c ≠ L := fun e => by subst e; omega
        have n2 : c ≠ Char.ofNat (L.toNat + 32) := fun e => by
          have := congrArg Char.toNat e
          rw [hlow] at this
          omega
        simp [h1, n1, n2]
      · by_cases h2 : c.toNat - 32 > L.toNat
        · have n1 : c ≠ L := fun e => by subst e; omega
          have n2 : c ≠ Char.ofNat (L.toNat + 32) := fun e => by
            have := congrArg Char.toNat e
            rw [hlow] at this
            omega
          simp [h1, h2, n1, n2]
        · have e2 : c = Char.ofNat (L.toNat + 32) :=
            Char_eq_of_toNat_eq (by rw [hlow]; omega)
          have n1 : c ≠ L := fun e => by subst e; omega
          simp only [h1, h2, if_false]
          cases rest with
          | nil => simp [YoriLibCompareStringInsensitive, e2]
          | cons r rs => simp [YoriLibCompareStringInsensitive]
    · simp only [hc, if_false]
      by_cases h1 : c.toNat < L.toNat
      · have n1 : c ≠ L := fun e => by subst e; omega
        have n2 : c ≠ Char.ofNat (L.toNat + 32) := fun e => by
          have := congrArg Char.toNat e
          rw [hlow] at this
          omega
        simp [h1, n1, n2]
      · by_cases h2 : c.toNat > L.toNat
        · have n1 : c ≠ L := fun e => by subst e; omega
          have n2 : c ≠ Char.ofNat (L.toNat + 32) := fun e => by
            have := congrArg Char.toNat e
            rw [hlow] at this
            omega
          simp [h1, h2, n1, n2]
        · have e1 : c = L := Char_eq_of_toNat_eq (by omega)
          simp only [h1, h2, if_false]
          cases rest with
          | nil => simp [YoriLibCompareStringInsensitive, e1]
          | cons r rs => simp [YoriLibCompareStringInsensitive]

/-- The qualifiers `MakeExpandFileNamePart` knows. -/
theorem MakeExpandFileNamePart_isSome (V Q : YORI_STRING) :
    (MakeExpandFileNamePart V Q).isSome = true ↔
      Q = [] ∨ Q = ['B'] ∨ Q = ['b'] ∨ Q = ['D'] ∨ Q = ['d'] ∨ Q = ['F'] ∨ Q = ['f'] ∨
        Q = ['R'] ∨ Q = ['r'] := by
  have hB := YoriLibCompareStringWithLiteralInsensitive_letter Q 'B' (by decide)
  have hD := YoriLibCompareStringWithLiteralInsensitive_letter Q 'D' (by decide)
  have hF := YoriLibCompareStringWithLiteralInsensitive_letter Q 'F' (by decide)
  have hR := YoriLibCompareStringWithLiteralInsensitive_letter Q 'R' (by decide)
  have eB : Char.ofNat ('B'.toNat + 32) = 'b' := by decide
  have eD : Char.ofNat ('D'.toNat + 32) = 'd' := by decide
  have eF : Char.ofNat ('F'.toNat + 32) = 'f' := by decide
  have eR : Char.ofNat ('R'.toNat + 32) = 'r' := by decide
  rw [eB] at hB
  rw [eD] at hD
  rw [eF] at hF
  rw [eR] at hR
  have sB : "B".toList = ['B'] := rfl
  have sD : "D".toList = ['D'] := rfl
  have sF : "F".toList = ['F'] := rfl
  have sR : "R".toList = ['R'] := rfl
  unfold MakeExpandFileNamePart
  rw [sB, sD, sF, sR]
  by_cases qB : YoriLibCompareStringWithLiteralInsensitive Q ['B'] = 0
  · simp only [qB, if_true]
    refine ⟨fun _ => ?_, fun _ => by split <;> rfl⟩
    rcases hB.mp qB with h | h
    · exact Or.inr (Or.inl h)
    · exact Or.inr (Or.inr (Or.inl h))
  by_cases qD : YoriLibCompareStringWithLiteralInsensitive Q ['D'] = 0
  · simp only [qB, qD, if_true, if_false]
    refine ⟨fun _ => ?_, fun _ => by split <;> rfl⟩
    rcases hD.mp qD with h | h
    · exact Or.inr (Or.inr (Or.inr (Or.inl h)))
    · exact Or.inr (Or.inr (Or.inr (Or.inr (Or.inl h))))
  by_cases qF : Q.length = 0 ∨ YoriLibCompareStringWithLiteralInsensitive Q ['F'] = 0
  · simp only [qB, qD, qF, if_true, if_false]
    refine ⟨fun _ => ?_, fun _ => by split <;> rfl⟩
    rcases qF with h | h
    · exact Or.inl (List.length_eq_zero.mp h)
    · rcases hF.mp h with h | h
      · exact Or.inr (Or.inr (Or.inr (Or.inr (Or.inr (Or.inl h)))))
      · exact Or.inr (Or.inr (Or.inr (Or.inr (Or.inr (Or.inr (Or.inl h))))))
  by_cases qR : YoriLibCompareStringWithLiteralInsensitive Q ['R'] = 0
  · simp only [qB, qD, qF, qR, if_true, if_false]
    refine ⟨fun _ => ?_, fun _ => by split <;> rfl⟩
    rcases hR.mp qR with h | h
    · exact Or.inr (Or.inr (Or.inr (Or.inr (Or.inr (Or.inr (Or.inr (Or.inl h)))))))
    · exact Or.inr (Or.inr (Or.inr (Or.inr (Or.inr (Or.inr (Or.inr (Or.inr h)))))))
  · simp only [qB, qD, qF, qR, if_false, Option.isSome_none, Bool.false_eq_true, false_iff]
    rintro (h | h | h | h | h | h | h | h | h)
    · exact qF (Or.inl (by rw [h]; rfl))
    · exact qB (hB.mpr (Or.inl h))
    · exact qB (hB.mpr (Or.inr h))
    · exact qD (hD.mpr (Or.inl h))
    · exact qD (hD.mpr (Or.inr h))
    · exact qF (Or.inr (hF.mpr (Or.inl h)))
    · exact qF (Or.inr (hF.mpr (Or.inr h)))
    · exact qR (hR.mpr (Or.inl h))
    · exact qR (hR.mpr (Or.inr h))

/-- The names `MakeExpandTargetVariableValue` knows. -/
theorem MakeExpandTargetVariableValue_isSome (ctx : MAKE_CONTEXT) (T : TargetId)
    (N : YORI_STRING) :
    (MakeExpandTargetVariableValue ctx T N).isSome = true ↔
      N = "@".toList ∨ N = "*".toList ∨ N = "?".toList ∨ N = "**".toList ∨
        (N = "<".toList ∧ (ctx.Target T).InferenceRule.isSome = true) := by
  have s1 : "@".toList = ['@'] := rfl
  have s2 : "*".toList = ['*'] := rfl
  have s3 : "?".toList = ['?'] := rfl
  have s4 : "**".toList = ['*', '*'] := rfl
  have s5 : "<".toList = ['<'] := rfl
  unfold MakeExpandTargetVariableValue
  simp only [YoriLibCompareStringWithLiteral_eq_zero, s1, s2, s3, s4, s5]
  by_cases h1 : N = ['@']
  · simp [h1]
  by_cases h2 : N = ['*']
  · simp [h2]
  by_cases h3 : N = ['?']
  · simp [h3]
  by_cases h4 : N = ['*', '*']
  · simp [h4]
  by_cases h5 : N = ['<']
  · simp only [h1, h2, h3, h4, h5, if_true, if_false, false_or, true_and]
    cases (ctx.Target T).InferenceRule <;> simp
  · simp [h1, h2, h3, h4, h5]

/-- C25: when `MakeExpandTargetVariable` fails.  Write the name as its
longest leading run of the characters `@`, `*`, `<`, `?` (the base name)
followed by the rest (the qualifier).  The function succeeds exactly when the
base name is `@`, `*`, `?` or `**`, or is `<` and the inference rule of the
target is set, and the qualifier is empty or one of the letters B, D, F, R in
either case.  So `@BD`, `@X`, `@@`, a name without base name, and `<` on a
target without inference rule fail. -/
theorem MakeExpandTargetVariable_failure (ctx : MAKE_CONTEXT) (T : TargetId)
    (VariableName : YORI_STRING) :
    ((MakeExpandTargetVariable ctx T VariableName).1 = true ↔
      ((VariableName.takeWhile (fun c => "@*<?".toList.contains c) = "@".toList ∨
          VariableName.takeWhile (fun c => "@*<?".toList.contains c) = "*".toList ∨
          VariableName.takeWhile (fun c => "@*<?".toList.contains c) = "?".toList ∨
          VariableName.takeWhile (fun c => "@*<?".toList.contains c) = "**".toList ∨
          (VariableName.takeWhile (fun c => "@*<?".toList.contains c) = "<".toList ∧
            (ctx.Target T).InferenceRule.isSome = true)) ∧
        (VariableName.dropWhile (fun c => "@*<?".toList.contains c)) ∈
          [[], ['B'], ['b'], ['D'], ['d'], ['F'], ['f'], ['R'], ['r']])) ∧
    (MakeExpandTargetVariable (ScenarioKey "foo.c".toList) 0 "@BD".toList).1 = false ∧
    (MakeExpandTargetVariable (ScenarioKey "foo.c".toList) 0 "@X".toList).1 = false ∧
    (MakeExpandTargetVariable (ScenarioKey "foo.c".toList) 0 "@@".toList).1 = false ∧
    (MakeExpandTargetVariable (ScenarioKey "foo.c".toList) 0 "B".toList).1 = false ∧
    (MakeExpandTargetVariable (ScenarioKey "foo.c".toList) 0 "<".toList).1 = false ∧
    (MakeExpandTargetVariable (ScenarioKey "foo.c".toList) 0 "@r".toList).1 = true ∧
    (MakeExpandTargetVariable ScenarioSynth 2 "<".toList).1 = true := by
  refine ⟨?_, by decide, by decide, by decide, by decide, by decide, by decide, by decide⟩
  have hv := MakeExpandTargetVariableValue_isSome ctx T
    (VariableName.takeWhile (fun c => "@*<?".toList.contains c))
  rw [MakeExpandTargetVariable_parts]
  by_cases h0 : VariableName.takeWhile (fun c => "@*<?".toList.contains c) = []
  · simp only [h0, if_true, Bool.false_eq_true, false_iff]
    rintro ⟨h | h | h | h | ⟨h, _⟩, _⟩ <;> exact absurd h (by decide)
  · simp only [h0, if_false]
    rw [← hv]
    cases hval : MakeExpandTargetVariableValue ctx T
        (VariableName.takeWhile (fun c => "@*<?".toList.contains c)) with
    | none => simp
    | some r =>
      obtain ⟨V, ctx1⟩ := r
      have hq := MakeExpandFileNamePart_isSome V
        (VariableName.dropWhile (fun c => "@*<?".toList.contains c))
      simp only [Option.isSome_some, true_and]
      have hm : (VariableName.dropWhile (fun c => "@*<?".toList.contains c)) ∈
          [[], ['B'], ['b'], ['D'], ['d'], ['F'], ['f'], ['R'], ['r']] ↔
          (MakeExpandFileNamePart V
            (VariableName.dropWhile (fun c => "@*<?".toList.contains c))).isSome = true := by
        rw [hq]
        simp only [List.mem_cons, List.mem_singleton, List.not_mem_nil, or_false]
      rw [hm]
      cases MakeExpandFileNamePart V
          (VariableName.dropWhile (fun c => "@*<?".toList.contains c)) <;> simp

/-! ## The variable expander: directory and root -/

theorem MakeExpandRootScan_skip :
    ∀ (l rest : YORI_STRING), (∀ c ∈ l, c ≠ '.' ∧ YoriLibIsSep c = false) →
      MakeExpandRootScan (l ++ rest) = MakeExpandRootScan rest := by
  intro l
  induction l with
  | nil => intro rest _; rfl
  | cons c l ih =>
    intro rest h
    have hc := h c (List.mem_cons_self _ _)
    rw [List.cons_append, MakeExpandRootScan]
    simp only [hc.1, hc.2, if_false, Bool.false_eq_true]
    exact ih rest (fun x hx => h x (List.mem_cons_of_mem _ hx))

theorem MakeExpandFileNamePart_dir (V Q : YORI_STRING) (hQ : Q = ['D'] ∨ Q = ['d']) :
    MakeExpandFileNamePart V Q =
      if (MakeExpandSeparatorScan V.reverse).2 then
        some (V.take ((MakeExpandSeparatorScan V.reverse).1 - 1))
      else some V := by
  have b2 : YoriLibCompareStringWithLiteralInsensitive ['D'] "B".toList ≠ 0 := by decide
  have b3 : YoriLibCompareStringWithLiteralInsensitive ['d'] "B".toList ≠ 0 := by decide
  have d2 : YoriLibCompareStringWithLiteralInsensitive ['D'] "D".toList = 0 := by decide
  have d3 : YoriLibCompareStringWithLiteralInsensitive ['d'] "D".toList = 0 := by decide
  unfold MakeExpandFileNamePart
  rcases hQ with rfl | rfl
  · simp only [b2, d2, if_false, if_true]
  · simp only [b3, d3, if_false, if_true]

theorem MakeExpandFileNamePart_root (V Q : YORI_STRING) (hQ : Q = ['R'] ∨ Q = ['r']) :
    MakeExpandFileNamePart V Q =
      if (MakeExpandRootScan V.reverse).2 then
        some (V.take ((MakeExpandRootScan V.reverse).1 - 1))
      else some V := by
  have b2 : YoriLibCompareStringWithLiteralInsensitive ['R'] "B".toList ≠ 0 := by decide
  have b3 : YoriLibCompareStringWithLiteralInsensitive ['r'] "B".toList ≠ 0 := by decide
  have d2 : YoriLibCompareStringWithLiteralInsensitive ['R'] "D".toList ≠ 0 := by decide
  have d3 : YoriLibCompareStringWithLiteralInsensitive ['r'] "D".toList ≠ 0 := by decide
  have f2 : ¬ (['R'].length = 0 ∨
      YoriLibCompareStringWithLiteralInsensitive ['R'] "F".toList = 0) := by decide
  have f3 : ¬ (['r'].length = 0 ∨
      YoriLibCompareStringWithLiteralInsensitive ['r'] "F".toList = 0) := by decide
  have r2 : YoriLibCompareStringWithLiteralInsensitive ['R'] "R".toList = 0 := by decide
  have r3 : YoriLibCompareStringWithLiteralInsensitive ['r'] "R".toList = 0 := by decide
  unfold MakeExpandFileNamePart
  rcases hQ with rfl | rfl
  · simp only [b2, d2, f2, r2, if_false, if_true]
  · simp only [b3, d3, f3, r3, if_false, if_true]

/-- The `D` qualifier on a value whose last separator is `s`: the result is
what stands before `s`. -/
theorem MakeExpandFileNamePart_before_separator (Q pre post : YORI_STRING) (s : Char)
    (hQ : Q = ['D'] ∨ Q = ['d']) (hs : YoriLibIsSep s = true)
    (hpost : ∀ c ∈ post, YoriLibIsSep c = false) :
    MakeExpandFileNamePart (pre ++ s :: post) Q = some pre := by
  have e1 : (pre ++ s :: post).reverse = post.reverse ++ s :: pre.reverse := by simp
  rw [MakeExpandFileNamePart_dir _ Q hQ, e1,
    MakeExpandSeparatorScan_skip post.reverse _ (fun c hc => by
      rw [List.mem_reverse] at hc; exact hpost c hc), MakeExpandSeparatorScan]
  simp [hs]

/-- The `D` qualifier on a value without separator: the value. -/
theorem MakeExpandFileNamePart_no_separator (Q V : YORI_STRING)
    (hQ : Q = ['D'] ∨ Q = ['d']) (hV : ∀ c ∈ V, YoriLibIsSep c = false) :
    MakeExpandFileNamePart V Q = some V := by
  have := MakeExpandSeparatorScan_skip V.reverse [] (fun c hc => by
      rw [List.mem_reverse] at hc; exact hV c hc)
  rw [List.append_nil] at this
  rw [MakeExpandFileNamePart_dir _ Q hQ, this]
  simp [MakeExpandSeparatorScan]

/-- The `R` qualifier on a value whose last period comes after every
separator: the result is what stands before that period. -/
theorem MakeExpandFileNamePart_before_period (Q pre ext : YORI_STRING)
    (hQ : Q = ['R'] ∨ Q = ['r']) (hdot : '.' ∉ ext)
    (hext : ∀ c ∈ ext, YoriLibIsSep c = false) :
    MakeExpandFileNamePart (pre ++ '.' :: ext) Q = some pre := by
  have e1 : (pre ++ '.' :: ext).reverse = ext.reverse ++ '.' :: pre.reverse := by simp
  rw [MakeExpandFileNamePart_root _ Q hQ, e1,
    MakeExpandRootScan_skip ext.reverse _ (fun c hc => by
      rw [List.mem_reverse] at hc
      exact ⟨fun e => hdot (e ▸ hc), hext c hc⟩), MakeExpandRootScan]
  simp

/-- The `R` qualifier on a value whose file name part has no period: the
value. -/
theorem MakeExpandFileNamePart_no_period (Q dir name : YORI_STRING)
    (hQ : Q = ['R'] ∨ Q = ['r'])
    (hdir : dir = [] ∨ ∃ d s, dir = d ++ [s] ∧ YoriLibIsSep s = true)
    (hdot : '.' ∉ name) (hname : ∀ c ∈ name, YoriLibIsSep c = false) :
    MakeExpandFileNamePart (dir ++ name) Q = some (dir ++ name) := by
  rw [MakeExpandFileNamePart_root _ Q hQ, List.reverse_append,
    MakeExpandRootScan_skip name.reverse _ (fun c hc => by
      rw [List.mem_reverse] at hc
      exact ⟨fun e => hdot (e ▸ hc), hname c hc⟩)]
  rcases hdir with rfl | ⟨d, s, rfl, hs⟩
  · simp [MakeExpandRootScan]
  · simp [MakeExpandRootScan, hs, YoriLibIsSep_ne_period hs]

/-- C26: the qualifier `D`.  Let `V` be the value of one of the variables
`@`, `*`, `?`, `**`, `<`.  When `V` holds a path separator, so that `V` is
`pre`, its last separator, and `post` without separator, expanding the
variable with the qualifier `D` (or `d`) succeeds with `pre`: the last
separator and what follows it are gone.  When `V` holds no separator the
result is `V`. -/
theorem MakeExpandTargetVariable_directory (ctx ctx1 : MAKE_CONTEXT) (T : TargetId)
    (N V : YORI_STRING)
    (hN : N = "@".toList ∨ N = "*".toList ∨ N = "?".toList ∨ N = "**".toList ∨ N = "<".toList)
    (hV : MakeExpandTargetVariableValue ctx T N = some (V, ctx1)) :
    (∀ pre s post, V = pre ++ s :: post → YoriLibIsSep s = true →
      (∀ c ∈ post, YoriLibIsSep c = false) →
      MakeExpandTargetVariable ctx T (N ++ ['D']) = (true, pre, ctx1) ∧
      MakeExpandTargetVariable ctx T (N ++ ['d']) = (true, pre, ctx1)) ∧
    ((∀ c ∈ V, YoriLibIsSep c = false) →
      MakeExpandTargetVariable ctx T (N ++ ['D']) = (true, V, ctx1) ∧
      MakeExpandTargetVariable ctx T (N ++ ['d']) = (true, V, ctx1)) := by
  have q1 := MakeExpandTargetVariable_qualified ctx ctx1 T N ['D'] V hN (by decide) hV
  have q2 := MakeExpandTargetVariable_qualified ctx ctx1 T N ['d'] V hN (by decide) hV
  constructor
  · intro pre s post he hs hpost
    rw [q1, q2, he, MakeExpandFileNamePart_before_separator ['D'] pre post s (Or.inl rfl) hs hpost,
      MakeExpandFileNamePart_before_separator ['d'] pre post s (Or.inr rfl) hs hpost]
    exact ⟨rfl, rfl⟩
  · intro hsep
    rw [q1, q2, MakeExpandFileNamePart_no_separator ['D'] V (Or.inl rfl) hsep,
      MakeExpandFileNamePart_no_separator ['d'] V (Or.inr rfl) hsep]
    exact ⟨rfl, rfl⟩

theorem MakeExpandTargetVariable_directory_witness :
    (MakeExpandTargetVariable (ScenarioKey "a/dir/foo.c".toList) 0 ("@".toList ++ ['D']) =
        (true, "a/dir".toList, ScenarioKey "a/dir/foo.c".toList) ∧
      MakeExpandTargetVariable (ScenarioKey "a/dir/foo.c".toList) 0 ("@".toList ++ ['d']) =
        (true, "a/dir".toList, ScenarioKey "a/dir/foo.c".toList)) ∧
    (MakeExpandTargetVariable (ScenarioKey "foo.c".toList) 0 ("@".toList ++ ['D']) =
        (true, "foo.c".toList, ScenarioKey "foo.c".toList) ∧
      MakeExpandTargetVariable (ScenarioKey "foo.c".toList) 0 ("@".toList ++ ['d']) =
        (true, "foo.c".toList, ScenarioKey "foo.c".toList)) :=
  ⟨(MakeExpandTargetVariable_directory (ScenarioKey "a/dir/foo.c".toList)
      (ScenarioKey "a/dir/foo.c".toList) 0 "@".toList "a/dir/foo.c".toList (Or.inl rfl) rfl).1
      "a/dir".toList '/' "foo.c".toList rfl rfl (by decide),
    (MakeExpandTargetVariable_directory (ScenarioKey "foo.c".toList)
      (ScenarioKey "foo.c".toList) 0 "@".toList "foo.c".toList (Or.inl rfl) rfl).2 (by decide)⟩

/-- C27: the qualifier `R`.  Let `V` be the value of one of the variables
`@`, `*`, `?`, `**`, `<`.  When the last period of `V` comes after every
separator, so that `V` is `pre`, that period, and `ext` without period and
without separator, expanding the variable with the qualifier `R` (or `r`)
succeeds with `pre`, directory included.  When the file name part of `V` has
no period (`V` is `dir`, empty or ending with a separator, and `name` without
period and without separator), the result is `V`, whatever periods `dir`
holds. -/
theorem MakeExpandTargetVariable_root (ctx ctx1 : MAKE_CONTEXT) (T : TargetId)
    (N V : YORI_STRING)
    (hN : N = "@".toList ∨ N = "*".toList ∨ N = "?".toList ∨ N = "**".toList ∨ N = "<".toList)
    (hV : MakeExpandTargetVariableValue ctx T N = some (V, ctx1)) :
    (∀ pre ext, V = pre ++ '.' :: ext → '.' ∉ ext → (∀ c ∈ ext, YoriLibIsSep c = false) →
      MakeExpandTargetVariable ctx T (N ++ ['R']) = (true, pre, ctx1) ∧
      MakeExpandTargetVariable ctx T (N ++ ['r']) = (true, pre, ctx1)) ∧
    (∀ dir name, V = dir ++ name →
      (dir = [] ∨ ∃ d s, dir = d ++ [s] ∧ YoriLibIsSep s = true) →
      '.' ∉ name → (∀ c ∈ name, YoriLibIsSep c = false) →
      MakeExpandTargetVariable ctx T (N ++ ['R']) = (true, V, ctx1) ∧
      MakeExpandTargetVariable ctx T (N ++ ['r']) = (true, V, ctx1)) := by
  have q1 := MakeExpandTargetVariable_qualified ctx ctx1 T N ['R'] V hN (by decide) hV
  have q2 := MakeExpandTargetVariable_qualified ctx ctx1 T N ['r'] V hN (by decide) hV
  constructor
  · intro pre ext he hdot hext
    rw [q1, q2, he, MakeExpandFileNamePart_before_period ['R'] pre ext (Or.inl rfl) hdot hext,
      MakeExpandFileNamePart_before_period ['r'] pre ext (Or.inr rfl) hdot hext]
    exact ⟨rfl, rfl⟩
  · intro dir name he hdir hdot hname
    rw [q1, q2, he, MakeExpandFileNamePart_no_period ['R'] dir name (Or.inl rfl) hdir hdot hname,
      MakeExpandFileNamePart_no_period ['r'] dir name (Or.inr rfl) hdir hdot hname]
    exact ⟨rfl, rfl⟩

theorem MakeExpandTargetVariable_root_witness :
    (MakeExpandTargetVariable (ScenarioKey "dir/foo.c".toList) 0 ("@".toList ++ ['R']) =
        (true, "dir/foo".toList, ScenarioKey "dir/foo.c".toList) ∧
      MakeExpandTargetVariable (ScenarioKey "dir/foo.c".toList) 0 ("@".toList ++ ['r']) =
        (true, "dir/foo".toList, ScenarioKey "dir/foo.c".toList)) ∧
    (MakeExpandTargetVariable (ScenarioKey "dir.d/foo".toList) 0 ("@".toList ++ ['R']) =
        (true, "dir.d/foo".toList, ScenarioKey "dir.d/foo".toList) ∧
      MakeExpandTargetVariable (ScenarioKey "dir.d/foo".toList) 0 ("@".toList ++ ['r']) =
        (true, "dir.d/foo".toList, ScenarioKey "dir.d/foo".toList)) :=
  ⟨(MakeExpandTargetVariable_root (ScenarioKey "dir/foo.c".toList)
      (ScenarioKey "dir/foo.c".toList) 0 "@".toList "dir/foo.c".toList (Or.inl rfl) rfl).1
      "dir/foo".toList "c".toList rfl (by decide) (by decide),
    (MakeExpandTargetVariable_root (ScenarioKey "dir.d/foo".toList)
      (ScenarioKey "dir.d/foo".toList) 0 "@".toList "dir.d/foo".toList (Or.inl rfl) rfl).2
      "dir.d/".toList "foo".toList rfl (Or.inr ⟨"dir.d".toList, '/', rfl, rfl⟩) (by decide)
      (by decide)⟩

/-! ## Target identity -/

theorem YoriLibHashLookupByKey_none (Targets : List (YORI_STRING × TargetId))
    (Key : YORI_STRING) :
    YoriLibHashLookupByKey Targets Key = none ↔ Key ∉ Targets.map Prod.fst := by
  induction Targets with
  | nil => simp [YoriLibHashLookupByKey]
  | cons e rest ih =>
    unfold YoriLibHashLookupByKey
    by_cases he : e.1 = Key
    · simp [he]
    · have he' : ¬ Key = e.1 := fun h => he h.symm
      simp only [he, if_false, ih, List.map_cons, List.mem_cons, he', false_or]

/-- With one entry per path, the lookup of an entered path gives its
target. -/
theorem YoriLibHashLookupByKey_mem (Targets : List (YORI_STRING × TargetId))
    (h : (Targets.map Prod.fst).Nodup) (e : YORI_STRING × TargetId) (he : e ∈ Targets) :
    YoriLibHashLookupByKey Targets e.1 = some e.2 := by
  induction Targets with
  | nil => cases he
  | cons x rest ih =>
    rw [List.map_cons, List.nodup_cons] at h
    unfold YoriLibHashLookupByKey
    rcases List.mem_cons.mp he with rfl | hm
    · simp
    · have hne : x.1 ≠ e.1 := fun hx => h.1 (hx ▸ List.mem_map_of_mem Prod.fst hm)
      simp only [hne, if_false]
      exact ih h.2 hm

theorem MakeLookupOrCreateTarget_fresh (ctx : MAKE_CONTEXT) (h : TargetIdentity ctx) :
    ctx.AllocTarget ∉ ctx.TargetsList := by
  obtain ⟨_, h2, _, h4⟩ := h
  rw [← h2]
  intro hm
  obtain ⟨e, he, heq⟩ := List.mem_map.mp hm
  have := (h4 e he).1
  rw [heq] at this
  exact Nat.lt_irrefl _ this

/-- The call for a path that is not entered yet. -/
theorem MakeLookupOrCreateTarget_new (env : MAKE_ENV) (ctx : MAKE_CONTEXT) (S : ScopeId)
    (name path : YORI_STRING)
    (hres : env.YoriLibGetFullPathNameRelativeTo (ctx.Scope S).Key name = some path)
    (hl : YoriLibHashLookupByKey ctx.Targets path = none) :
    MakeLookupOrCreateTarget env ctx S name =
      (some ctx.AllocTarget,
        { ctx with
          Target := Function.update ctx.Target ctx.AllocTarget
            (MakeInitialTarget path (env.GetFileInformation path))
          AllocTarget := ctx.AllocTarget + 1
          Targets := ctx.Targets ++ [(path, ctx.AllocTarget)]
          TargetsList := ctx.TargetsList ++ [ctx.AllocTarget] }) := by
  unfold MakeLookupOrCreateTarget
  simp only [hres, hl]

/-- One call keeps the table and the list in step. -/
theorem MakeLookupOrCreateTarget_identity_step (env : MAKE_ENV) (ctx : MAKE_CONTEXT)
    (S : ScopeId) (name : YORI_STRING) (h : TargetIdentity ctx) :
    TargetIdentity (MakeLookupOrCreateTarget env ctx S name).2 := by
  cases hres : env.YoriLibGetFullPathNameRelativeTo (ctx.Scope S).Key name with
  | none =>
    unfold MakeLookupOrCreateTarget
    simp only [hres]
    exact h
  | some path =>
    cases hl : YoriLibHashLookupByKey ctx.Targets path with
    | some t =>
      unfold MakeLookupOrCreateTarget
      simp only [hres, hl]
      exact h
    | none =>
      have hfresh := MakeLookupOrCreateTarget_fresh ctx h
      obtain ⟨h1, h2, h3, h4⟩ := h
      have hnew : path ∉ ctx.Targets.map Prod.fst := (YoriLibHashLookupByKey_none _ _).mp hl
      rw [MakeLookupOrCreateTarget_new env ctx S name path hres hl]
      refine ⟨?_, ?_, ?_, ?_⟩
      · simp only [List.map_append, List.map_cons, List.map_nil]
        rw [List.nodup_append]
        refine ⟨h1, List.nodup_singleton _, ?_⟩
        intro a ha hb
        rw [List.mem_singleton] at hb
        exact hnew (hb ▸ ha)
      · simp only [List.map_append, List.map_cons, List.map_nil, h2]
      · simp only
        rw [List.nodup_append]
        refine ⟨h3, List.nodup_singleton _, ?_⟩
        intro a ha hb
        rw [List.mem_singleton] at hb
        exact hfresh (hb ▸ ha)
      · intro e he
        simp only [List.mem_append, List.mem_singleton] at he
        rcases he with he | he
        · have := h4 e he
          refine ⟨Nat.lt_succ_of_lt this.1, ?_⟩
          simp only [Function.update_apply, Nat.ne_of_lt this.1, if_false]
          exact this.2
        · subst he
          simp [MakeInitialTarget]

theorem MakeLookupOrCreateTargets_identity (env : MAKE_ENV) :
    ∀ (calls : List (ScopeId × YORI_STRING)) (ctx : MAKE_CONTEXT), TargetIdentity ctx →
      TargetIdentity (MakeLookupOrCreateTargets env ctx calls).2 := by
  intro calls
  induction calls with
  | nil => intro ctx h; exact h
  | cons call rest ih =>
    intro ctx h
    rw [MakeLookupOrCreateTargets]
    exact ih _ (MakeLookupOrCreateTarget_identity_step env ctx call.1 call.2 h)

theorem TargetIdentity_empty : TargetIdentity ScenarioEmptyContext :=
  ⟨List.nodup_nil, rfl, List.nodup_nil, fun _ he => by cases he⟩

/-- C28: target identity.  Take a context whose table and list are in step
(the empty context is one) and run any sequence of `MakeLookupOrCreateTarget`
calls.  Then the table and the list are in step in the context `c` reached: no
path has two entries, the lookup of an entered path gives the one target
entered under it, whose key is that path, and the list holds the targets of
the table, each exactly once.  A further call whose name resolves to an
entered path returns the target entered under it and leaves the whole context
as it is (so no field of the target is written, and the file is not probed
again).  A further call whose name resolves to a path not entered returns the
newly allocated target, which was not in the list, appends it at the end of
the list and enters it in the table, initialises it from the probe of the
file, and leaves every other target as it is. -/
theorem MakeLookupOrCreateTarget_identity (env : MAKE_ENV) (ctx : MAKE_CONTEXT)
    (calls : List (ScopeId × YORI_STRING)) (hwf : TargetIdentity ctx) :
    TargetIdentity ScenarioEmptyContext ∧
    TargetIdentity (MakeLookupOrCreateTargets env ctx calls).2 ∧
    (∀ e ∈ (MakeLookupOrCreateTargets env ctx calls).2.Targets,
      YoriLibHashLookupByKey (MakeLookupOrCreateTargets env ctx calls).2.Targets e.1 = some e.2 ∧
      ((MakeLookupOrCreateTargets env ctx calls).2.Target e.2).Key = e.1) ∧
    (∀ t, (t ∈ (MakeLookupOrCreateTargets env ctx calls).2.TargetsList ↔
        ∃ path, (path, t) ∈ (MakeLookupOrCreateTargets env ctx calls).2.Targets) ∧
      (MakeLookupOrCreateTargets env ctx calls).2.TargetsList.count t ≤ 1) ∧
    (∀ S name path t,
      env.YoriLibGetFullPathNameRelativeTo
        ((MakeLookupOrCreateTargets env ctx calls).2.Scope S).Key name = some path →
      (path, t) ∈ (MakeLookupOrCreateTargets env ctx calls).2.Targets →
      MakeLookupOrCreateTarget env (MakeLookupOrCreateTargets env ctx calls).2 S name =
        (some t, (MakeLookupOrCreateTargets env ctx calls).2)) ∧
    (∀ S name path,
      env.YoriLibGetFullPathNameRelativeTo
        ((MakeLookupOrCreateTargets env ctx calls).2.Scope S).Key name = some path →
      path ∉ (MakeLookupOrCreateTargets env ctx calls).2.Targets.map Prod.fst →
      (MakeLookupOrCreateTarget env (MakeLookupOrCreateTargets env ctx calls).2 S name).1 =
        some (MakeLookupOrCreateTargets env ctx calls).2.AllocTarget ∧
      (MakeLookupOrCreateTargets env ctx calls).2.AllocTarget ∉
        (MakeLookupOrCreateTargets env ctx calls).2.TargetsList ∧
      (MakeLookupOrCreateTarget env (MakeLookupOrCreateTargets env ctx calls).2 S name).2.TargetsList =
        (MakeLookupOrCreateTargets env ctx calls).2.TargetsList ++
          [(MakeLookupOrCreateTargets env ctx calls).2.AllocTarget] ∧
      (MakeLookupOrCreateTarget env (MakeLookupOrCreateTargets env ctx calls).2 S name).2.Targets =
        (MakeLookupOrCreateTargets env ctx calls).2.Targets ++
          [(path, (MakeLookupOrCreateTargets env ctx calls).2.AllocTarget)] ∧
      (MakeLookupOrCreateTarget env (MakeLookupOrCreateTargets env ctx calls).2 S name).2.Target
          (MakeLookupOrCreateTargets env ctx calls).2.AllocTarget =
        MakeInitialTarget path (env.GetFileInformation path) ∧
      (∀ x, x ≠ (MakeLookupOrCreateTargets env ctx calls).2.AllocTarget →
        (MakeLookupOrCreateTarget env (MakeLookupOrCreateTargets env ctx calls).2 S name).2.Target x =
          (MakeLookupOrCreateTargets env ctx calls).2.Target x)) := by
  have hc := MakeLookupOrCreateTargets_identity env calls ctx hwf
  generalize (MakeLookupOrCreateTargets env ctx calls).2 = c at hc
  obtain ⟨h1, h2, h3, h4⟩ := hc
  refine ⟨TargetIdentity_empty, ⟨h1, h2, h3, h4⟩, ?_, ?_, ?_, ?_⟩
  · intro e he
    exact ⟨YoriLibHashLookupByKey_mem _ h1 e he, (h4 e he).2⟩
  · intro t
    refine ⟨?_, List.nodup_iff_count_le_one.mp h3 t⟩
    rw [← h2, List.mem_map]
    constructor
    · rintro ⟨e, he, rfl⟩
      exact ⟨e.1, he⟩
    · rintro ⟨path, hp⟩
      exact ⟨(path, t), hp, rfl⟩
  · intro S name path t hres hmem
    have hl := YoriLibHashLookupByKey_mem _ h1 (path, t) hmem
    unfold MakeLookupOrCreateTarget
    simp only [hres, hl]
  · intro S name path hres hnew
    have hl := (YoriLibHashLookupByKey_none _ _).mpr hnew
    have hfresh := MakeLookupOrCreateTarget_fresh c ⟨h1, h2, h3, h4⟩
    rw [MakeLookupOrCreateTarget_new env c S name path hres hl]
    refine ⟨rfl, hfresh, rfl, rfl, ?_, ?_⟩
    · simp
    · intro x hx
      simp [Function.update, hx]

theorem MakeLookupOrCreateTarget_identity_witness :
    TargetIdentity (MakeLookupOrCreateTargets (ScenarioEnv [("a.c".toList, 2)])
      ScenarioEmptyContext [(0, "a.c".toList), (0, "a.obj".toList), (0, "a.c".toList)]).2 ∧
    MakeLookupOrCreateTarget (ScenarioEnv [("a.c".toList, 2)])
        (MakeLookupOrCreateTargets (ScenarioEnv [("a.c".toList, 2)])
          ScenarioEmptyContext [(0, "a.c".toList), (0, "a.obj".toList), (0, "a.c".toList)]).2
        0 "a.c".toList =
      (some 0, (MakeLookupOrCreateTargets (ScenarioEnv [("a.c".toList, 2)])
        ScenarioEmptyContext [(0, "a.c".toList), (0, "a.obj".toList), (0, "a.c".toList)]).2) ∧
    (MakeLookupOrCreateTarget (ScenarioEnv [("a.c".toList, 2)])
        (MakeLookupOrCreateTargets (ScenarioEnv [("a.c".toList, 2)])
          ScenarioEmptyContext [(0, "a.c".toList), (0, "a.obj".toList), (0, "a.c".toList)]).2
        0 "b.c".toList).2.TargetsList = [0, 1] ++ [2] :=
  ⟨(MakeLookupOrCreateTarget_identity (ScenarioEnv [("a.c".toList, 2)]) ScenarioEmptyContext
      [(0, "a.c".toList), (0, "a.obj".toList), (0, "a.c".toList)] TargetIdentity_empty).2.1,
    (MakeLookupOrCreateTarget_identity (ScenarioEnv [("a.c".toList, 2)]) ScenarioEmptyContext
      [(0, "a.c".toList), (0, "a.obj".toList), (0, "a.c".toList)]
      TargetIdentity_empty).2.2.2.2.1 0 "a.c".toList "a.c".toList 0 rfl (by decide),
    ((MakeLookupOrCreateTarget_identity (ScenarioEnv [("a.c".toList, 2)]) ScenarioEmptyContext
      [(0, "a.c".toList), (0, "a.obj".toList), (0, "a.c".toList)]
      TargetIdentity_empty).2.2.2.2.2 0 "b.c".toList "b.c".toList rfl (by decide)).2.2.1⟩

/-! ## Teardown: reference counts -/

theorem DerefFrame_refl (ctx : MAKE_CONTEXT) : DerefFrame ctx ctx :=
  ⟨fun _ => ⟨rfl, rfl, Or.inr rfl, Or.inr rfl⟩, fun _ => rfl, rfl, rfl⟩

theorem DerefFrame_trans {a b c : MAKE_CONTEXT} (h1 : DerefFrame a b) (h2 : DerefFrame b c) :
    DerefFrame a c := by
  refine ⟨fun t => ?_, fun r => (h2.2.1 r).trans (h1.2.1 r), h2.2.2.1.trans h1.2.2.1,
    h2.2.2.2.trans h1.2.2.2⟩
  obtain ⟨p1, c1, i1, r1⟩ := h1.1 t
  obtain ⟨p2, c2, i2, r2⟩ := h2.1 t
  refine ⟨p2.trans p1, c2.trans c1, ?_, ?_⟩
  · rcases i2 with e | e
    · exact Or.inl e
    · rw [e]; exact i1
  · rcases r2 with e | e
    · exact Or.inl e
    · rw [e]; exact r1

theorem DerefFrame_setTarget (ctx : MAKE_CONTEXT) (T : TargetId) (v : MAKE_TARGET)
    (hp : v.ParentDependents = (ctx.Target T).ParentDependents)
    (hc : v.ChildDependents = (ctx.Target T).ChildDependents)
    (hi : v.InferenceRuleParentTarget = none ∨
      v.InferenceRuleParentTarget = (ctx.Target T).InferenceRuleParentTarget)
    (hr : v.InferenceRule = none ∨ v.InferenceRule = (ctx.Target T).InferenceRule) :
    DerefFrame ctx (ctx.setTarget T v) := by
  refine ⟨fun t => ?_, fun _ => rfl, rfl, rfl⟩
  by_cases e : t = T
  · subst e
    simp only [MAKE_CONTEXT.setTarget, Function.update_same]
    exact ⟨hp, hc, hi, hr⟩
  · have : (ctx.setTarget T v).Target t = ctx.Target t := by
      simp only [MAKE_CONTEXT.setTarget, Function.update_noteq e]
    rw [this]
    exact ⟨rfl, rfl, Or.inr rfl, Or.inr rfl⟩

theorem DerefFrame_setRule (ctx : MAKE_CONTEXT) (R : RuleId) (v : MAKE_INFERENCE_RULE)
    (ht : v.Target = (ctx.InferenceRule R).Target) : DerefFrame ctx (ctx.setRule R v) := by
  refine ⟨fun _ => ⟨rfl, rfl, Or.inr rfl, Or.inr rfl⟩, fun r => ?_, rfl, rfl⟩
  by_cases e : r = R
  · subst e
    simp only [MAKE_CONTEXT.setRule, Function.update_same]
    exact ht
  · have : (ctx.setRule R v).InferenceRule r = ctx.InferenceRule r := by
      simp only [MAKE_CONTEXT.setRule, Function.update_noteq e]
    rw [this]

theorem DerefFrame_setScope (ctx : MAKE_CONTEXT) (S : ScopeId) (v : MAKE_SCOPE_CONTEXT) :
    DerefFrame ctx (ctx.setScope S v) :=
  ⟨fun _ => ⟨rfl, rfl, Or.inr rfl, Or.inr rfl⟩, fun _ => rfl, rfl, rfl⟩

theorem DerefRanked_frame {rank : TargetId → Nat} {ctx ctx' : MAKE_CONTEXT}
    (h : DerefRanked rank ctx) (f : DerefFrame ctx ctx') : DerefRanked rank ctx' := by
  refine ⟨fun t p hp => ?_, fun t r hr => ?_⟩
  · rcases (f.1 t).2.2.1 with e | e
    · rw [e] at hp; cases hp
    · rw [e] at hp; exact h.1 t p hp
  · rw [f.2.1 r]
    rcases (f.1 t).2.2.2 with e | e
    · rw [e] at hr; cases hr
    · rw [e] at hr; exact h.2 t r hr

/-- The steps of `MakeDereferenceTarget` on a target without reference left,
up to the dereference of the inference parent. -/
theorem DerefFrame_release (ctx : MAKE_CONTEXT) (T : TargetId) :
    DerefFrame ctx
      ((match (ctx.Target T).ScopeContext with
        | some ScopeContext =>
          (MakeDereferenceScope ctx ScopeContext).setTarget T
            { (MakeDereferenceScope ctx ScopeContext).Target T with ScopeContext := none }
        | none => ctx).setTarget T
        { (match (ctx.Target T).ScopeContext with
            | some ScopeContext =>
              (MakeDereferenceScope ctx ScopeContext).setTarget T
                { (MakeDereferenceScope ctx ScopeContext).Target T with ScopeContext := none }
            | none => ctx).Target T with ExecCmds := [] }) := by
  cases (ctx.Target T).ScopeContext with
  | none => exact DerefFrame_setTarget _ _ _ rfl rfl (Or.inr rfl) (Or.inr rfl)
  | some S =>
    exact DerefFrame_trans
      (DerefFrame_trans (DerefFrame_setScope ctx S
          { ctx.Scope S with ReferenceCount := (ctx.Scope S).ReferenceCount - 1 })
        (DerefFrame_setTarget (MakeDereferenceScope ctx S) T
          { (MakeDereferenceScope ctx S).Target T with ScopeContext := none }
          rfl rfl (Or.inr rfl) (Or.inr rfl)))
      (DerefFrame_setTarget _ T _ rfl rfl (Or.inr rfl) (Or.inr rfl))

/-- Whatever `MakeDereferenceTarget` and `MakeDereferenceInferenceRule` return
stands in `DerefFrame` to the context they were called in. -/
theorem MakeDereference_frame : ∀ (fuel : Nat),
    (∀ ctx T ctx', MakeDereferenceTarget fuel ctx T = some ctx' → DerefFrame ctx ctx') ∧
    (∀ ctx R ctx', MakeDereferenceInferenceRule fuel ctx R = some ctx' →
      DerefFrame ctx ctx') := by
  intro fuel
  induction fuel with
  | zero =>
    exact ⟨fun ctx T ctx' h => by simp [MakeDereferenceTarget] at h,
      fun ctx R ctx' h => by simp [MakeDereferenceInferenceRule] at h⟩
  | succ fuel ih =>
    constructor
    · intro ctx T ctx' h
      rw [MakeDereferenceTarget] at h
      have f1 : DerefFrame ctx (ctx.setTarget T
          { ctx.Target T with ReferenceCount := (ctx.Target T).ReferenceCount - 1 }) :=
        DerefFrame_setTarget _ _ _ rfl rfl (Or.inr rfl) (Or.inr rfl)
      generalize ctx.setTarget T
          { ctx.Target T with ReferenceCount := (ctx.Target T).ReferenceCount - 1 } = ctx1
        at h f1
      by_cases hz : (ctx1.Target T).ReferenceCount = 0
      · rw [if_pos hz] at h
        have f2 : DerefFrame ctx1 (ctx1.setTarget T { ctx1.Target T with Recipe := [] }) :=
          DerefFrame_setTarget _ _ _ rfl rfl (Or.inr rfl) (Or.inr rfl)
        generalize ctx1.setTarget T { ctx1.Target T with Recipe := [] } = ctx2 at h f2
        have f3 : ∀ ctx3,
            (match (ctx2.Target T).InferenceRule with
              | some InferenceRule =>
                match MakeDereferenceInferenceRule fuel ctx2 InferenceRule with
                | none => none
                | some c =>
                  some (c.setTarget T { c.Target T with InferenceRule := none })
              | none => some ctx2) = some ctx3 → DerefFrame ctx2 ctx3 := by
          intro ctx3 h3
          cases hr : (ctx2.Target T).InferenceRule with
          | none =>
            simp only [hr, Option.some.injEq] at h3
            rw [← h3]
            exact DerefFrame_refl _
          | some R =>
            simp only [hr] at h3
            cases hd : MakeDereferenceInferenceRule fuel ctx2 R with
            | none => simp only [hd] at h3; cases h3
            | some c =>
              simp only [hd, Option.some.injEq] at h3
              rw [← h3]
              exact DerefFrame_trans (ih.2 ctx2 R c hd)
                (DerefFrame_setTarget _ _ _ rfl rfl (Or.inr rfl) (Or.inl rfl))
        dsimp only at h
        split at h
        · cases h
        · rename_i ctx3 h3
          have f03 : DerefFrame ctx ctx3 :=
            DerefFrame_trans (DerefFrame_trans f1 f2) (f3 ctx3 h3)
          have f5 := DerefFrame_release ctx3 T
          split at h
          · rename_i P hp
            split at h
            · cases h
            · rename_i c hd
              rw [Option.some.injEq] at h
              rw [← h]
              exact DerefFrame_trans f03 (DerefFrame_trans f5 (DerefFrame_trans (ih.1 _ P c hd)
                (DerefFrame_setTarget _ _ _ rfl rfl (Or.inl rfl) (Or.inr rfl))))
          · rw [Option.some.injEq] at h
            rw [← h]
            exact DerefFrame_trans f03 f5
      · rw [if_neg hz, Option.some.injEq] at h
        rw [← h]
        exact f1
    · intro ctx R ctx' h
      rw [MakeDereferenceInferenceRule] at h
      have f1 : DerefFrame ctx (ctx.setRule R
          { ctx.InferenceRule R with
            ReferenceCount := (ctx.InferenceRule R).ReferenceCount - 1 }) :=
        DerefFrame_setRule _ _ _ rfl
      generalize ctx.setRule R
          { ctx.InferenceRule R with
            ReferenceCount := (ctx.InferenceRule R).ReferenceCount - 1 } = ctx1 at h f1
      by_cases hz : (ctx1.InferenceRule R).ReferenceCount = 0
      · rw [if_pos hz] at h
        exact DerefFrame_trans (DerefFrame_trans f1 (DerefFrame_setScope ctx1 _ _))
          (ih.1 _ _ _ h)
      · rw [if_neg hz, Option.some.injEq] at h
        rw [← h]
        exact f1

/-- With the references going down along `rank`, `MakeDereferenceTarget`
returns with fuel above twice the rank of the target, and
`MakeDereferenceInferenceRule` with fuel above twice the rank of the carrier
of the rule plus one. -/
theorem MakeDereference_total (rank : TargetId → Nat) : ∀ (fuel : Nat),
    (∀ ctx T, DerefRanked rank ctx → 2 * rank T + 1 ≤ fuel →
      ∃ ctx', MakeDereferenceTarget fuel ctx T = some ctx') ∧
    (∀ ctx R, DerefRanked rank ctx → 2 * rank (ctx.InferenceRule R).Target + 2 ≤ fuel →
      ∃ ctx', MakeDereferenceInferenceRule fuel ctx R = some ctx') := by
  intro fuel
  induction fuel with
  | zero =>
    exact ⟨fun ctx T _ h => by omega, fun ctx R _ h => by omega⟩
  | succ fuel ih =>
    constructor
    · intro ctx T hr hb
      rw [MakeDereferenceTarget]
      have f1 : DerefFrame ctx (ctx.setTarget T
          { ctx.Target T with ReferenceCount := (ctx.Target T).ReferenceCount - 1 }) :=
        DerefFrame_setTarget _ _ _ rfl rfl (Or.inr rfl) (Or.inr rfl)
      generalize ctx.setTarget T
          { ctx.Target T with ReferenceCount := (ctx.Target T).ReferenceCount - 1 } = ctx1
        at f1
      by_cases hz : (ctx1.Target T).ReferenceCount = 0
      · rw [if_pos hz]
        have f2 : DerefFrame ctx1 (ctx1.setTarget T { ctx1.Target T with Recipe := [] }) :=
          DerefFrame_setTarget _ _ _ rfl rfl (Or.inr rfl) (Or.inr rfl)
        generalize ctx1.setTarget T { ctx1.Target T with Recipe := [] } = ctx2 at f2
        have r2 : DerefRanked rank ctx2 := DerefRanked_frame hr (DerefFrame_trans f1 f2)
        have f3 : ∀ ctx3,
            (match (ctx2.Target T).InferenceRule with
              | some InferenceRule =>
                match MakeDereferenceInferenceRule fuel ctx2 InferenceRule with
                | none => none
                | some c =>
                  some (c.setTarget T { c.Target T with InferenceRule := none })
              | none => some ctx2) = some ctx3 → DerefFrame ctx2 ctx3 := by
          intro ctx3 h3
          cases hr : (ctx2.Target T).InferenceRule with
          | none =>
            simp only [hr, Option.some.injEq] at h3
            rw [← h3]
            exact DerefFrame_refl _
          | some R =>
            simp only [hr] at h3
            cases hd : MakeDereferenceInferenceRule fuel ctx2 R with
            | none => simp only [hd] at h3; cases h3
            | some c =>
              simp only [hd, Option.some.injEq] at h3
              rw [← h3]
              exact DerefFrame_trans ((MakeDereference_frame fuel).2 ctx2 R c hd)
                (DerefFrame_setTarget _ _ _ rfl rfl (Or.inr rfl) (Or.inl rfl))
        dsimp only
        split
        · rename_i h3
          exfalso
          split at h3
          · rename_i R hR
            have hlt := r2.2 T R hR
            obtain ⟨c, hc⟩ := ih.2 ctx2 R r2 (by omega)
            rw [hc] at h3
            cases h3
          · cases h3
        · rename_i ctx3 h3
          have f5 := DerefFrame_release ctx3 T
          have r5 := DerefRanked_frame r2 (DerefFrame_trans (f3 ctx3 h3) f5)
          split
          · rename_i P hp
            have hlt := r5.1 T P hp
            obtain ⟨c, hc⟩ := ih.1 _ P r5 (by omega)
            split
            · rename_i hd
              exact absurd (hd.symm.trans hc) (by simp)
            · exact ⟨_, rfl⟩
          · exact ⟨_, rfl⟩
      · rw [if_neg hz]
        exact ⟨_, rfl⟩
    · intro ctx R hr hb
      rw [MakeDereferenceInferenceRule]
      have f1 : DerefFrame ctx (ctx.setRule R
          { ctx.InferenceRule R with
            ReferenceCount := (ctx.InferenceRule R).ReferenceCount - 1 }) :=
        DerefFrame_setRule _ _ _ rfl
      generalize ctx.setRule R
          { ctx.InferenceRule R with
            ReferenceCount := (ctx.InferenceRule R).ReferenceCount - 1 } = ctx1 at f1
      by_cases hz : (ctx1.InferenceRule R).ReferenceCount = 0
      · rw [if_pos hz]
        dsimp only
        have f2 := DerefFrame_trans f1 (DerefFrame_setScope ctx1 (ctx1.InferenceRule R).ScopeContext
          { ctx1.Scope (ctx1.InferenceRule R).ScopeContext with
            InferenceRuleList :=
              (ctx1.Scope (ctx1.InferenceRule R).ScopeContext).InferenceRuleList.erase R })
        have e := f2.2.1 R
        apply ih.1 _ _ (DerefRanked_frame hr f2)
        rw [e]
        omega
      · rw [if_neg hz]
        exact ⟨_, rfl⟩

/-! ## Teardown: the dependency lists -/

theorem MakeCreateParentChildDependency_edges (ctx : MAKE_CONTEXT) (P C t : TargetId) :
    ((MakeCreateParentChildDependency ctx P C).2.Target t).ChildDependents =
      (if t = P then (ctx.Target t).ChildDependents ++ [{ Parent := P, Child := C }]
        else (ctx.Target t).ChildDependents) ∧
    ((MakeCreateParentChildDependency ctx P C).2.Target t).ParentDependents =
      (if t = C then (ctx.Target t).ParentDependents ++ [{ Parent := P, Child := C }]
        else (ctx.Target t).ParentDependents) := by
  unfold MakeCreateParentChildDependency
  by_cases h1 : t = C <;> by_cases h2 : t = P
  · subst h1; subst h2
    simp [MAKE_CONTEXT.setTarget]
  · subst h1
    have h2' : ¬ P = t := fun e => h2 e.symm
    simp [MAKE_CONTEXT.setTarget, Function.update, h2, h2']
  · subst h2
    have h1' : ¬ C = t := fun e => h1 e.symm
    simp [MAKE_CONTEXT.setTarget, Function.update, h1, h1']
  · simp [MAKE_CONTEXT.setTarget, Function.update, h1, h2]

theorem MakeDeleteDependency_edges (ctx : MAKE_CONTEXT) (d : MAKE_TARGET_DEPENDENCY)
    (t : TargetId) :
    ((MakeDeleteDependency ctx d).Target t).ChildDependents =
      (if t = d.Parent then (ctx.Target t).ChildDependents.erase d
        else (ctx.Target t).ChildDependents) ∧
    ((MakeDeleteDependency ctx d).Target t).ParentDependents =
      (if t = d.Child then (ctx.Target t).ParentDependents.erase d
        else (ctx.Target t).ParentDependents) ∧
    ((MakeDeleteDependency ctx d).Target t).InferenceRuleParentTarget =
      (ctx.Target t).InferenceRuleParentTarget ∧
    ((MakeDeleteDependency ctx d).Target t).InferenceRule = (ctx.Target t).InferenceRule := by
  unfold MakeDeleteDependency
  by_cases h1 : t = d.Child <;> by_cases h2 : t = d.Parent
  · have h3 : d.Child = d.Parent := h1.symm.trans h2
    subst h1
    simp [MAKE_CONTEXT.setTarget, h3]
  · subst h1
    have h2' : ¬ d.Parent = d.Child := fun e => h2 e.symm
    simp [MAKE_CONTEXT.setTarget, Function.update, h2, h2']
  · subst h2
    have h1' : ¬ d.Child = d.Parent := fun e => h1 e.symm
    simp [MAKE_CONTEXT.setTarget, Function.update, h1, h1']
  · simp [MAKE_CONTEXT.setTarget, Function.update, h1, h2]

theorem MakeDeleteDependency_rest (ctx : MAKE_CONTEXT) (d : MAKE_TARGET_DEPENDENCY) :
    (MakeDeleteDependency ctx d).InferenceRule = ctx.InferenceRule ∧
    (MakeDeleteDependency ctx d).TargetsList = ctx.TargetsList ∧
    (MakeDeleteDependency ctx d).Targets = ctx.Targets :=
  ⟨rfl, rfl, rfl⟩

theorem EdgeLinked_create (ctx : MAKE_CONTEXT) (P C : TargetId) (h : EdgeLinked ctx) :
    EdgeLinked (MakeCreateParentChildDependency ctx P C).2 := by
  obtain ⟨h1, h2, h3⟩ := h
  refine ⟨fun t e he => ?_, fun t e he => ?_, fun e => ?_⟩
  · rw [(MakeCreateParentChildDependency_edges ctx P C t).1] at he
    by_cases ht : t = P
    · rw [if_pos ht, List.mem_append, List.mem_singleton] at he
      rcases he with he | he
      · exact h1 t e he
      · rw [he, ht]
    · rw [if_neg ht] at he
      exact h1 t e he
  · rw [(MakeCreateParentChildDependency_edges ctx P C t).2] at he
    by_cases ht : t = C
    · rw [if_pos ht, List.mem_append, List.mem_singleton] at he
      rcases he with he | he
      · exact h2 t e he
      · rw [he, ht]
    · rw [if_neg ht] at he
      exact h2 t e he
  · rw [(MakeCreateParentChildDependency_edges ctx P C e.Parent).1,
      (MakeCreateParentChildDependency_edges ctx P C e.Child).2]
    by_cases he : e = { Parent := P, Child := C }
    · subst he
      simp only [if_true, List.count_append]
      rw [h3]
    · have hc : List.count e [({ Parent := P, Child := C } : MAKE_TARGET_DEPENDENCY)] = 0 :=
        List.count_eq_zero_of_not_mem (by
          rw [List.mem_singleton]
          exact he)
      have e1 : (if e.Parent = P then
            (ctx.Target e.Parent).ChildDependents ++ [{ Parent := P, Child := C }]
          else (ctx.Target e.Parent).ChildDependents).count e =
          (ctx.Target e.Parent).ChildDependents.count e := by
        split
        · rw [List.count_append, hc, Nat.add_zero]
        · rfl
      have e2 : (if e.Child = C then
            (ctx.Target e.Child).ParentDependents ++ [{ Parent := P, Child := C }]
          else (ctx.Target e.Child).ParentDependents).count e =
          (ctx.Target e.Child).ParentDependents.count e := by
        split
        · rw [List.count_append, hc, Nat.add_zero]
        · rfl
      rw [e1, e2]
      exact h3 e

theorem EdgeLinked_delete (ctx : MAKE_CONTEXT) (d : MAKE_TARGET_DEPENDENCY)
    (h : EdgeLinked ctx) : EdgeLinked (MakeDeleteDependency ctx d) := by
  obtain ⟨h1, h2, h3⟩ := h
  refine ⟨fun t e he => ?_, fun t e he => ?_, fun e => ?_⟩
  · rw [(MakeDeleteDependency_edges ctx d t).1] at he
    split at he
    · exact h1 t e (List.mem_of_mem_erase he)
    · exact h1 t e he
  · rw [(MakeDeleteDependency_edges ctx d t).2.1] at he
    split at he
    · exact h2 t e (List.mem_of_mem_erase he)
    · exact h2 t e he
  · rw [(MakeDeleteDependency_edges ctx d e.Parent).1,
      (MakeDeleteDependency_edges ctx d e.Child).2.1]
    by_cases he : e = d
    · subst he
      simp only [if_true, List.count_erase_self]
      rw [h3]
    · have e1 : (if e.Parent = d.Parent then (ctx.Target e.Parent).ChildDependents.erase d
          else (ctx.Target e.Parent).ChildDependents).count e =
          (ctx.Target e.Parent).ChildDependents.count e := by
        split
        · exact List.count_erase_of_ne he _
        · rfl
      have e2 : (if e.Child = d.Child then (ctx.Target e.Child).ParentDependents.erase d
          else (ctx.Target e.Child).ParentDependents).count e =
          (ctx.Target e.Child).ParentDependents.count e := by
        split
        · exact List.count_erase_of_ne he _
        · rfl
      rw [e1, e2]
      exact h3 e

theorem EdgeLinked_frame {ctx ctx' : MAKE_CONTEXT} (f : DerefFrame ctx ctx')
    (h : EdgeLinked ctx) : EdgeLinked ctx' := by
  obtain ⟨h1, h2, h3⟩ := h
  refine ⟨fun t e he => ?_, fun t e he => ?_, fun e => ?_⟩
  · rw [(f.1 t).2.1] at he
    exact h1 t e he
  · rw [(f.1 t).1] at he
    exact h2 t e he
  · rw [(f.1 e.Parent).2.1, (f.1 e.Child).1]
    exact h3 e

theorem TeardownInv_delete {rank : TargetId → Nat} {R E : Nat} {ctx : MAKE_CONTEXT}
    (h : TeardownInv rank R E ctx) (d : MAKE_TARGET_DEPENDENCY) :
    TeardownInv rank R E (MakeDeleteDependency ctx d) := by
  have hsub : ∀ t,
      ((MakeDeleteDependency ctx d).Target t).ParentDependents.Sublist
          (ctx.Target t).ParentDependents ∧
        ((MakeDeleteDependency ctx d).Target t).ChildDependents.Sublist
          (ctx.Target t).ChildDependents := by
    intro t
    rw [(MakeDeleteDependency_edges ctx d t).1, (MakeDeleteDependency_edges ctx d t).2.1]
    constructor
    · split
      · exact List.erase_sublist _ _
      · exact List.Sublist.refl _
    · split
      · exact List.erase_sublist _ _
      · exact List.Sublist.refl _
  refine ⟨EdgeLinked_delete ctx d h.linked, ⟨fun t p hp => ?_, fun t r hr => ?_⟩, fun t => ?_,
    h.nodup, h.table, fun t ht => ?_, h.below⟩
  · rw [(MakeDeleteDependency_edges ctx d t).2.2.1] at hp
    exact h.ranked.1 t p hp
  · rw [(MakeDeleteDependency_edges ctx d t).2.2.2] at hr
    exact h.ranked.2 t r hr
  · exact ⟨le_trans (hsub t).1.length_le (h.bound t).1,
      le_trans (hsub t).2.length_le (h.bound t).2⟩
  · have := h.inactive t ht
    have s1 := (hsub t).1
    have s2 := (hsub t).2
    rw [this.1] at s1
    rw [this.2] at s2
    exact ⟨List.sublist_nil.mp s1, List.sublist_nil.mp s2⟩

theorem TeardownInv_frame {rank : TargetId → Nat} {R E : Nat} {ctx ctx' : MAKE_CONTEXT}
    (h : TeardownInv rank R E ctx) (f : DerefFrame ctx ctx') : TeardownInv rank R E ctx' := by
  refine ⟨EdgeLinked_frame f h.linked, DerefRanked_frame h.ranked f, fun t => ?_, ?_, ?_,
    fun t ht => ?_, ?_⟩
  · rw [(f.1 t).1, (f.1 t).2.1]
    exact h.bound t
  · rw [f.2.2.1]
    exact h.nodup
  · rw [f.2.2.1, f.2.2.2]
    exact h.table
  · rw [f.2.2.1] at ht
    rw [(f.1 t).1, (f.1 t).2.1]
    exact h.inactive t ht
  · rw [f.2.2.1]
    exact h.below

/-! ## Teardown: the loops -/

theorem MakeDeleteAllTargetsParents_spec {rank : TargetId → Nat} {R E : Nat} (T : TargetId) :
    ∀ (fuel : Nat) (ctx : MAKE_CONTEXT), TeardownInv rank R E ctx →
      (ctx.Target T).ParentDependents.length < fuel →
      ∃ ctx', MakeDeleteAllTargetsParents fuel ctx T = some ctx' ∧ TeardownInv rank R E ctx' ∧
        (ctx'.Target T).ParentDependents = [] ∧ ctx'.TargetsList = ctx.TargetsList ∧
        ((ctx.Target T).ChildDependents = [] → (ctx'.Target T).ChildDependents = []) := by
  intro fuel
  induction fuel with
  | zero => intro ctx _ h; omega
  | succ fuel ih =>
    intro ctx hinv hlen
    rw [MakeDeleteAllTargetsParents]
    cases hl : (ctx.Target T).ParentDependents with
    | nil => exact ⟨ctx, rfl, hinv, hl, rfl, fun h => h⟩
    | cons d rest =>
      dsimp only
      have hd : d.Child = T := hinv.linked.2.1 T d (by rw [hl]; exact List.mem_cons_self _ _)
      have hp : ((MakeDeleteDependency ctx d).Target T).ParentDependents = rest := by
        rw [(MakeDeleteDependency_edges ctx d T).2.1, if_pos hd.symm, hl]
        simp
      have hc : (ctx.Target T).ChildDependents = [] →
          ((MakeDeleteDependency ctx d).Target T).ChildDependents = [] := by
        intro h0
        rw [(MakeDeleteDependency_edges ctx d T).1, h0]
        split <;> rfl
      rw [hl] at hlen
      obtain ⟨ctx', h1, h2, h3, h4, h5⟩ := ih (MakeDeleteDependency ctx d)
        (TeardownInv_delete hinv d) (by rw [hp]; simpa using hlen)
      exact ⟨ctx', h1, h2, h3, h4, fun h0 => h5 (hc h0)⟩

theorem MakeDeleteAllTargetsChildren_spec {rank : TargetId → Nat} {R E : Nat} (T : TargetId) :
    ∀ (fuel : Nat) (ctx : MAKE_CONTEXT), TeardownInv rank R E ctx →
      (ctx.Target T).ChildDependents.length < fuel →
      ∃ ctx', MakeDeleteAllTargetsChildren fuel ctx T = some ctx' ∧ TeardownInv rank R E ctx' ∧
        (ctx'.Target T).ChildDependents = [] ∧ ctx'.TargetsList = ctx.TargetsList ∧
        ((ctx.Target T).ParentDependents = [] → (ctx'.Target T).ParentDependents = []) := by
  intro fuel
  induction fuel with
  | zero => intro ctx _ h; omega
  | succ fuel ih =>
    intro ctx hinv hlen
    rw [MakeDeleteAllTargetsChildren]
    cases hl : (ctx.Target T).ChildDependents with
    | nil => exact ⟨ctx, rfl, hinv, hl, rfl, fun h => h⟩
    | cons d rest =>
      dsimp only
      have hd : d.Parent = T := hinv.linked.1 T d (by rw [hl]; exact List.mem_cons_self _ _)
      have hp : ((MakeDeleteDependency ctx d).Target T).ChildDependents = rest := by
        rw [(MakeDeleteDependency_edges ctx d T).1, if_pos hd.symm, hl]
        simp
      have hc : (ctx.Target T).ParentDependents = [] →
          ((MakeDeleteDependency ctx d).Target T).ParentDependents = [] := by
        intro h0
        rw [(MakeDeleteDependency_edges ctx d T).2.1, h0]
        split <;> rfl
      rw [hl] at hlen
      obtain ⟨ctx', h1, h2, h3, h4, h5⟩ := ih (MakeDeleteDependency ctx d)
        (TeardownInv_delete hinv d) (by rw [hp]; simpa using hlen)
      exact ⟨ctx', h1, h2, h3, h4, fun h0 => h5 (hc h0)⟩

/-- Taking a target without dependencies off the head of the target list
and out of the table keeps the state of the teardown. -/
theorem TeardownInv_deactivate {rank : TargetId → Nat} {R E : Nat} {ctx : MAKE_CONTEXT}
    (h : TeardownInv rank R E ctx) (T : TargetId) (rest : List TargetId)
    (hl : ctx.TargetsList = T :: rest) (hp : (ctx.Target T).ParentDependents = [])
    (hc : (ctx.Target T).ChildDependents = []) :
    TeardownInv rank R E
      { ctx with
        TargetsList := ctx.TargetsList.erase T
        Targets := ctx.Targets.filter (fun e => decide (e.2 ≠ T)) } ∧
    ctx.TargetsList.erase T = rest := by
  have he : ctx.TargetsList.erase T = rest := by rw [hl]; simp
  have hnd := h.nodup
  rw [hl, List.nodup_cons] at hnd
  refine ⟨⟨h.linked, h.ranked, h.bound, ?_, ?_, ?_, ?_⟩, he⟩
  · show (ctx.TargetsList.erase T).Nodup
    rw [he]
    exact hnd.2
  · intro e hmem
    show e.2 ∈ ctx.TargetsList.erase T
    rw [List.mem_filter] at hmem
    have h1 := h.table e hmem.1
    have h2 : e.2 ≠ T := by simpa using hmem.2
    rw [hl] at h1
    rw [he]
    rcases List.mem_cons.mp h1 with h3 | h3
    · exact absurd h3 h2
    · exact h3
  · intro t ht
    have ht' : t ∉ rest := by
      intro hm
      apply ht
      show t ∈ ctx.TargetsList.erase T
      rw [he]
      exact hm
    by_cases e : t = T
    · subst e
      exact ⟨hp, hc⟩
    · apply h.inactive t
      rw [hl]
      intro hm
      rcases List.mem_cons.mp hm with h3 | h3
      · exact e h3
      · exact ht' h3
  · intro t ht
    apply h.below t
    have ht' : t ∈ ctx.TargetsList.erase T := ht
    rw [he] at ht'
    rw [hl]
    exact List.mem_cons_of_mem _ ht'

theorem MakeDeleteAllTargetsLoop_spec {rank : TargetId → Nat} {R E : Nat} :
    ∀ (fuel : Nat) (ctx : MAKE_CONTEXT), TeardownInv rank R E ctx →
      ctx.TargetsList.length + E + 2 * R + 2 ≤ fuel →
      ∃ ctx', MakeDeleteAllTargetsLoop fuel ctx ctx.TargetsList.head? = some ctx' ∧
        TeardownInv rank R E ctx' ∧ ctx'.TargetsList = [] := by
  intro fuel
  induction fuel with
  | zero => intro ctx _ h; omega
  | succ fuel ih =>
    intro ctx hinv hfuel
    cases hl : ctx.TargetsList with
    | nil =>
      rw [List.head?_nil, MakeDeleteAllTargetsLoop]
      exact ⟨ctx, rfl, hinv, hl⟩
    | cons T rest =>
      rw [hl, List.length_cons] at hfuel
      rw [List.head?_cons, MakeDeleteAllTargetsLoop]
      obtain ⟨ctx1, e1, inv1, p1, l1, _⟩ := MakeDeleteAllTargetsParents_spec T fuel ctx hinv
        (by have := (hinv.bound T).1; omega)
      obtain ⟨ctx2, e2, inv2, c2, l2, p2⟩ := MakeDeleteAllTargetsChildren_spec T fuel ctx1 inv1
        (by have := (inv1.bound T).2; omega)
      have hl2 : ctx2.TargetsList = T :: rest := by rw [l2, l1, hl]
      obtain ⟨inv3, he⟩ := TeardownInv_deactivate inv2 T rest hl2 (p2 p1) c2
      have hrank : rank T ≤ R := hinv.below T (by rw [hl]; exact List.mem_cons_self _ _)
      obtain ⟨ctx3, e3⟩ := (MakeDereference_total rank fuel).1 _ T inv3.ranked (by omega)
      have f3 := (MakeDereference_frame fuel).1 _ T ctx3 e3
      have inv4 := TeardownInv_frame inv3 f3
      have hl3 : ctx3.TargetsList = rest := by rw [f3.2.2.1]; exact he
      have hnext : YoriLibGetNextListEntry ctx2.TargetsList (some T) = rest.head? := by
        rw [hl2]
        simp [YoriLibGetNextListEntry, YoriLibListEntryAfter]
      obtain ⟨ctx', e4, inv5, l5⟩ := ih ctx3 inv4 (by rw [hl3]; omega)
      rw [hl3] at e4
      refine ⟨ctx', ?_, inv5, l5⟩
      simp only [e1, e2, hnext, MakeDeactivateTarget, e3, e4]

/-- Whatever the loops of `MakeDeleteAllTargets` return keeps the dependency
lists linked consistently. -/
theorem MakeDeleteAllTargetsParents_linked (T : TargetId) :
    ∀ (fuel : Nat) (ctx ctx' : MAKE_CONTEXT), MakeDeleteAllTargetsParents fuel ctx T = some ctx' →
      EdgeLinked ctx → EdgeLinked ctx' := by
  intro fuel
  induction fuel with
  | zero => intro ctx ctx' h; simp [MakeDeleteAllTargetsParents] at h
  | succ fuel ih =>
    intro ctx ctx' h hinv
    rw [MakeDeleteAllTargetsParents] at h
    split at h
    · rw [Option.some.injEq] at h
      rw [← h]
      exact hinv
    · exact ih _ _ h (EdgeLinked_delete ctx _ hinv)

theorem MakeDeleteAllTargetsChildren_linked (T : TargetId) :
    ∀ (fuel : Nat) (ctx ctx' : MAKE_CONTEXT),
      MakeDeleteAllTargetsChildren fuel ctx T = some ctx' →
      EdgeLinked ctx → EdgeLinked ctx' := by
  intro fuel
  induction fuel with
  | zero => intro ctx ctx' h; simp [MakeDeleteAllTargetsChildren] at h
  | succ fuel ih =>
    intro ctx ctx' h hinv
    rw [MakeDeleteAllTargetsChildren] at h
    split at h
    · rw [Option.some.injEq] at h
      rw [← h]
      exact hinv
    · exact ih _ _ h (EdgeLinked_delete ctx _ hinv)

theorem MakeDeleteAllTargetsLoop_linked :
    ∀ (fuel : Nat) (ctx ctx' : MAKE_CONTEXT) (ListEntry : Option TargetId),
      MakeDeleteAllTargetsLoop fuel ctx ListEntry = some ctx' →
      EdgeLinked ctx → EdgeLinked ctx' := by
  intro fuel
  induction fuel with
  | zero => intro ctx ctx' e h; simp [MakeDeleteAllTargetsLoop] at h
  | succ fuel ih =>
    intro ctx ctx' e h hinv
    cases e with
    | none =>
      rw [MakeDeleteAllTargetsLoop, Option.some.injEq] at h
      rw [← h]
      exact hinv
    | some T =>
      rw [MakeDeleteAllTargetsLoop] at h
      split at h
      · cases h
      · rename_i ctx1 h1
        split at h
        · cases h
        · rename_i ctx2 h2
          dsimp only at h
          split at h
          · cases h
          · rename_i ctx3 h3
            have l1 := MakeDeleteAllTargetsParents_linked T fuel ctx ctx1 h1 hinv
            have l2 := MakeDeleteAllTargetsChildren_linked T fuel ctx1 ctx2 h2 l1
            have f3 := (MakeDereference_frame fuel).1 _ T ctx3 h3
            exact ih _ _ _ h (EdgeLinked_frame f3 l2)

theorem MakeEdgeCalls_linked (fuel : Nat) :
    ∀ (calls : List MAKE_EDGE_CALL) (ctx ctx' : MAKE_CONTEXT), EdgeLinked ctx →
      MakeEdgeCalls fuel ctx calls = some ctx' → EdgeLinked ctx' := by
  intro calls
  induction calls with
  | nil =>
    intro ctx ctx' h e
    rw [MakeEdgeCalls, Option.some.injEq] at e
    rw [← e]
    exact h
  | cons call rest ih =>
    intro ctx ctx' h e
    cases call with
    | Create P C =>
      rw [MakeEdgeCalls] at e
      exact ih _ _ (EdgeLinked_create ctx P C h) e
    | Delete d =>
      rw [MakeEdgeCalls] at e
      exact ih _ _ (EdgeLinked_delete ctx d h) e
    | DeleteAll =>
      rw [MakeEdgeCalls] at e
      split at e
      · cases e
      · rename_i ctx1 h1
        exact ih _ _ (MakeDeleteAllTargetsLoop_linked fuel ctx ctx1 _ h1 h) e

theorem EdgeLinked_empty : EdgeLinked ScenarioEmptyContext :=
  ⟨fun _ _ h => (by cases h), fun _ _ h => (by cases h), fun _ => rfl⟩

theorem EdgeLinked_mem {ctx : MAKE_CONTEXT} (h : EdgeLinked ctx) (d : MAKE_TARGET_DEPENDENCY) :
    d ∈ (ctx.Target d.Parent).ChildDependents ↔ d ∈ (ctx.Target d.Child).ParentDependents := by
  rw [← List.count_pos_iff, ← List.count_pos_iff, h.2.2 d]

theorem ScenarioS1_teardown : TeardownInv (fun _ => 0) 0 1 ScenarioS1 := by
  have hT : ∀ t, t ≠ 0 → t ≠ 1 → ScenarioS1.Target t = MakeInitialTarget [] none := by
    intro t h0 h1
    simp [ScenarioS1, h0, h1]
  have c1 : (ScenarioS1.Target 1).ChildDependents = [{ Parent := 1, Child := 0 }] := rfl
  have p1 : (ScenarioS1.Target 1).ParentDependents = [] := rfl
  have c0 : (ScenarioS1.Target 0).ChildDependents = [] := rfl
  have p0 : (ScenarioS1.Target 0).ParentDependents = [{ Parent := 1, Child := 0 }] := rfl
  have hC : ∀ t, (ScenarioS1.Target t).ChildDependents =
      if t = 1 then [{ Parent := 1, Child := 0 }] else [] := by
    intro t
    by_cases h1 : t = 1
    · subst h1; rfl
    · by_cases h0 : t = 0
      · subst h0; rfl
      · rw [hT t h0 h1, if_neg h1]; rfl
  have hP : ∀ t, (ScenarioS1.Target t).ParentDependents =
      if t = 0 then [{ Parent := 1, Child := 0 }] else [] := by
    intro t
    by_cases h0 : t = 0
    · subst h0; rfl
    · by_cases h1 : t = 1
      · subst h1; rfl
      · rw [hT t h0 h1, if_neg h0]; rfl
  have hI : ∀ t, (ScenarioS1.Target t).InferenceRuleParentTarget = none ∧
      (ScenarioS1.Target t).InferenceRule = none := by
    intro t
    by_cases h0 : t = 0
    · subst h0; exact ⟨rfl, rfl⟩
    · by_cases h1 : t = 1
      · subst h1; exact ⟨rfl, rfl⟩
      · rw [hT t h0 h1]; exact ⟨rfl, rfl⟩
  refine ⟨⟨fun t d hd => ?_, fun t d hd => ?_, fun d => ?_⟩,
    ⟨fun t p hp => ?_, fun t r hr => ?_⟩, fun t => ?_, by decide, by decide, fun t ht => ?_,
    fun _ _ => le_refl _⟩
  · rw [hC] at hd
    split at hd
    · rename_i h1
      rw [List.mem_singleton] at hd
      rw [hd, h1]
    · cases hd
  · rw [hP] at hd
    split at hd
    · rename_i h0
      rw [List.mem_singleton] at hd
      rw [hd, h0]
    · cases hd
  · rw [hC, hP]
    obtain ⟨P, C⟩ := d
    by_cases h1 : P = 1 <;> by_cases h0 : C = 0 <;> simp [h1, h0]
  · rw [(hI t).1] at hp; cases hp
  · rw [(hI t).2] at hr; cases hr
  · rw [hC, hP]
    constructor <;> split <;> simp
  · have h0 : t ≠ 0 := fun e => ht (by rw [e]; decide)
    have h1 : t ≠ 1 := fun e => ht (by rw [e]; decide)
    rw [hT t h0 h1]
    exact ⟨rfl, rfl⟩

/-- C29: the linkage of the dependency lists.  A dependency record stands as
often in the `ChildDependents` list of its parent as in the `ParentDependents`
list of its child, so that it is in the one exactly when it is in the other;
this holds in the empty context and is kept by every sequence of
`MakeCreateParentChildDependency`, `MakeDeleteDependency` and
`MakeDeleteAllTargets` calls.  `MakeCreateParentChildDependency` appends the
new record at the tail of both lists and leaves every other list as it is;
`MakeDeleteDependency` takes the record out of both lists and leaves every
other list as it is.  `MakeDeleteAllTargets`, run in a state `TeardownInv`
with enough fuel, returns a context whose target list and table are empty and
in which no target has a dependency left. -/
theorem MakeDeleteAllTargets_edge_linkage :
    EdgeLinked ScenarioEmptyContext ∧
    (∀ ctx, EdgeLinked ctx → ∀ d : MAKE_TARGET_DEPENDENCY,
      (d ∈ (ctx.Target d.Parent).ChildDependents ↔ d ∈ (ctx.Target d.Child).ParentDependents)) ∧
    (∀ fuel calls ctx ctx', EdgeLinked ctx → MakeEdgeCalls fuel ctx calls = some ctx' →
      EdgeLinked ctx') ∧
    (∀ ctx P C,
      ((MakeCreateParentChildDependency ctx P C).2.Target P).ChildDependents =
        (ctx.Target P).ChildDependents ++ [{ Parent := P, Child := C }] ∧
      ((MakeCreateParentChildDependency ctx P C).2.Target C).ParentDependents =
        (ctx.Target C).ParentDependents ++ [{ Parent := P, Child := C }] ∧
      (∀ t, t ≠ P → ((MakeCreateParentChildDependency ctx P C).2.Target t).ChildDependents =
        (ctx.Target t).ChildDependents) ∧
      (∀ t, t ≠ C → ((MakeCreateParentChildDependency ctx P C).2.Target t).ParentDependents =
        (ctx.Target t).ParentDependents)) ∧
    (∀ ctx (d : MAKE_TARGET_DEPENDENCY),
      ((MakeDeleteDependency ctx d).Target d.Parent).ChildDependents =
        (ctx.Target d.Parent).ChildDependents.erase d ∧
      ((MakeDeleteDependency ctx d).Target d.Child).ParentDependents =
        (ctx.Target d.Child).ParentDependents.erase d ∧
      (∀ t, t ≠ d.Parent → ((MakeDeleteDependency ctx d).Target t).ChildDependents =
        (ctx.Target t).ChildDependents) ∧
      (∀ t, t ≠ d.Child → ((MakeDeleteDependency ctx d).Target t).ParentDependents =
        (ctx.Target t).ParentDependents)) ∧
    (∀ rank R E fuel ctx, TeardownInv rank R E ctx →
      ctx.TargetsList.length + E + 2 * R + 2 ≤ fuel →
      ∃ ctx', MakeDeleteAllTargets fuel ctx = some ctx' ∧ EdgeLinked ctx' ∧
        ctx'.TargetsList = [] ∧ ctx'.Targets = [] ∧
        ∀ t, (ctx'.Target t).ParentDependents = [] ∧ (ctx'.Target t).ChildDependents = []) := by
  refine ⟨EdgeLinked_empty, fun ctx h d => EdgeLinked_mem h d,
    fun fuel calls ctx ctx' h e => MakeEdgeCalls_linked fuel calls ctx ctx' h e,
    fun ctx P C => ?_, fun ctx d => ?_, fun rank R E fuel ctx hinv hfuel => ?_⟩
  · refine ⟨?_, ?_, fun t ht => ?_, fun t ht => ?_⟩
    · rw [(MakeCreateParentChildDependency_edges ctx P C P).1, if_pos rfl]
    · rw [(MakeCreateParentChildDependency_edges ctx P C C).2, if_pos rfl]
    · rw [(MakeCreateParentChildDependency_edges ctx P C t).1, if_neg ht]
    · rw [(MakeCreateParentChildDependency_edges ctx P C t).2, if_neg ht]
  · refine ⟨?_, ?_, fun t ht => ?_, fun t ht => ?_⟩
    · rw [(MakeDeleteDependency_edges ctx d d.Parent).1, if_pos rfl]
    · rw [(MakeDeleteDependency_edges ctx d d.Child).2.1, if_pos rfl]
    · rw [(MakeDeleteDependency_edges ctx d t).1, if_neg ht]
    · rw [(MakeDeleteDependency_edges ctx d t).2.1, if_neg ht]
  · obtain ⟨ctx', e, inv, l⟩ := MakeDeleteAllTargetsLoop_spec fuel ctx hinv hfuel
    refine ⟨ctx', e, inv.linked, l, ?_, fun t => ?_⟩
    · have ht := inv.table
      rw [l] at ht
      cases hT : ctx'.Targets with
      | nil => rfl
      | cons x xs =>
        have := ht x (by rw [hT]; exact List.mem_cons_self _ _)
        cases this
    · exact inv.inactive t (by rw [l]; exact List.not_mem_nil _)

theorem MakeDeleteAllTargets_edge_linkage_witness :
    MakeDeleteAllTargets 6 ScenarioS1 = some ScenarioS1Teardown ∧
    EdgeLinked ScenarioS1Teardown ∧ ScenarioS1Teardown.TargetsList = [] ∧
    ScenarioS1Teardown.Targets = [] ∧
    (ScenarioS1Teardown.Target 0).ParentDependents = [] ∧
    (ScenarioS1Teardown.Target 1).ChildDependents = [] ∧
    EdgeLinked ScenarioS1EdgeCalls := by
  obtain ⟨c, hc, h1, h2, h3, h4⟩ := MakeDeleteAllTargets_edge_linkage.2.2.2.2.2
    (fun _ => 0) 0 1 6 ScenarioS1 ScenarioS1_teardown (by decide)
  have e : ScenarioS1Teardown = c := by
    unfold ScenarioS1Teardown
    rw [hc]
  have hs : EdgeLinked ScenarioS1EdgeCalls := by
    unfold ScenarioS1EdgeCalls
    cases hm : MakeEdgeCalls 6 ScenarioS1
      [MAKE_EDGE_CALL.Create 1 0, MAKE_EDGE_CALL.Delete { Parent := 1, Child := 0 },
        MAKE_EDGE_CALL.DeleteAll] with
    | none => exact ScenarioS1_teardown.linked
    | some c' =>
      exact MakeDeleteAllTargets_edge_linkage.2.2.1 6 _ ScenarioS1 c'
        ScenarioS1_teardown.linked hm
  rw [e]
  exact ⟨hc, h1, h2, h3, (h4 0).1, (h4 1).2, hs⟩

/-! ## Draining the pending list -/

theorem PendingFrame_refl (ctx : MAKE_CONTEXT) : PendingFrame ctx ctx := fun _ => rfl

theorem PendingFrame_trans {a b c : MAKE_CONTEXT} (h1 : PendingFrame a b)
    (h2 : PendingFrame b c) : PendingFrame a c :=
  fun s => (h2 s).trans (h1 s)

theorem MakeLookupOrCreateTarget_pending (env : MAKE_ENV) (ctx : MAKE_CONTEXT) (S : ScopeId)
    (name : YORI_STRING) : PendingFrame ctx (MakeLookupOrCreateTarget env ctx S name).2 := by
  unfold MakeLookupOrCreateTarget
  split
  · exact PendingFrame_refl _
  · split
    · exact PendingFrame_refl _
    · exact fun _ => rfl

theorem MakeAssignInferenceRuleToTarget_pending (env : MAKE_ENV) (ctx : MAKE_CONTEXT)
    (S : ScopeId) (T : TargetId) (R : RuleId) (src : YORI_STRING) :
    PendingFrame ctx (MakeAssignInferenceRuleToTarget env ctx S T R src).2 := by
  have h0 := MakeLookupOrCreateTarget_pending env ctx S src
  unfold MakeAssignInferenceRuleToTarget
  generalize MakeLookupOrCreateTarget env ctx S src = found at h0
  dsimp only
  split
  · exact fun s => h0 s
  · split
    · intro s
      rw [← h0 s]
      by_cases e : s = S
      · subst e
        simp [MakeReferenceScope, MakeReferenceInferenceRule, MAKE_CONTEXT.setTarget,
          MAKE_CONTEXT.setScope, MAKE_CONTEXT.setRule]
      · simp [MakeReferenceScope, MakeReferenceInferenceRule, MAKE_CONTEXT.setTarget,
          MAKE_CONTEXT.setScope, MAKE_CONTEXT.setRule, Function.update, e]
    · exact fun s => h0 s

theorem MakeAssignInferenceRuleToTarget_pending_eq (env : MAKE_ENV) (ctx : MAKE_CONTEXT)
    (S : ScopeId) (T : TargetId) (R : RuleId) (src : YORI_STRING) (b : Bool)
    (c : MAKE_CONTEXT) (h : MakeAssignInferenceRuleToTarget env ctx S T R src = (b, c)) :
    PendingFrame ctx c := by
  have := MakeAssignInferenceRuleToTarget_pending env ctx S T R src
  rw [h] at this
  exact this

theorem MakeFindInferenceRuleFirstPass_pending (env : MAKE_ENV) (S : ScopeId) (T : TargetId)
    (TargetExt : YORI_STRING) :
    ∀ (fuel : Nat) (ctx : MAKE_CONTEXT) (Rule : Option RuleId) (Found : Bool)
      (r : Bool × Bool × MAKE_CONTEXT),
      MakeFindInferenceRuleFirstPass env S T TargetExt fuel ctx Rule Found = some r →
      PendingFrame ctx r.2.2 := by
  intro fuel
  induction fuel with
  | zero => intro ctx Rule Found r h; simp [MakeFindInferenceRuleFirstPass] at h
  | succ fuel ih =>
    intro ctx Rule Found r h
    cases Rule with
    | none =>
      rw [MakeFindInferenceRuleFirstPass, Option.some.injEq] at h
      rw [← h]
      exact PendingFrame_refl _
    | some R =>
      rw [MakeFindInferenceRuleFirstPass] at h
      dsimp only at h
      split at h
      · split at h
        · rename_i ctx3 heq
          rw [Option.some.injEq] at h
          have ha := MakeAssignInferenceRuleToTarget_pending_eq env _ S T R _ _ _ heq
          rw [← h]
          exact fun s => ha s
        · rename_i ctx3 heq
          rw [Option.some.injEq] at h
          have ha := MakeAssignInferenceRuleToTarget_pending_eq env _ S T R _ _ _ heq
          rw [← h]
          exact fun s => ha s
      · split at h
        · cases h
        · exact fun s => ih _ _ _ _ h s

theorem MakeFindInferenceRuleNested_pending (env : MAKE_ENV) (S : ScopeId) (T : TargetId)
    (Rule : RuleId) :
    ∀ (fuel : Nat) (ctx : MAKE_CONTEXT) (Nested : Option RuleId) (r : Bool × MAKE_CONTEXT),
      MakeFindInferenceRuleNested env S T Rule fuel ctx Nested = some r →
      PendingFrame ctx r.2 := by
  intro fuel
  induction fuel with
  | zero => intro ctx Nested r h; simp [MakeFindInferenceRuleNested] at h
  | succ fuel ih =>
    intro ctx Nested r h
    cases Nested with
    | none =>
      rw [MakeFindInferenceRuleNested, Option.some.injEq] at h
      rw [← h]
      exact PendingFrame_refl _
    | some N =>
      rw [MakeFindInferenceRuleNested] at h
      dsimp only at h
      split at h
      · split at h
        · rename_i ctx4 heq
          rw [Option.some.injEq] at h
          have ha := MakeAssignInferenceRuleToTarget_pending_eq env _ S T Rule _ _ _ heq
          rw [← h]
          exact fun s => ha s
        · rename_i ctx4 heq
          have ha := MakeAssignInferenceRuleToTarget_pending_eq env _ S T Rule _ _ _ heq
          have ha' : PendingFrame ctx ctx4 := fun s => ha s
          split at h
          · rw [Option.some.injEq] at h
            rw [← h]
            exact fun s => ha' s
          · rename_i P hP
            split at h
            · rename_i ctx8 heq8
              rw [Option.some.injEq] at h
              have hb := MakeAssignInferenceRuleToTarget_pending_eq env _ S P N _ _ _ heq8
              rw [← h]
              exact fun s => (hb s).trans (ha' s)
            · rename_i ctx8 heq8
              rw [Option.some.injEq] at h
              have hb := MakeAssignInferenceRuleToTarget_pending_eq env _ S P N _ _ _ heq8
              rw [← h]
              exact fun s => (hb s).trans (ha' s)
      · split at h
        · cases h
        · exact fun s => ih _ _ _ h s

theorem MakeFindInferenceRuleSecondPass_pending (env : MAKE_ENV) (S : ScopeId) (T : TargetId)
    (TargetExt : YORI_STRING) :
    ∀ (fuel : Nat) (ctx : MAKE_CONTEXT) (Rule : Option RuleId) (r : Bool × MAKE_CONTEXT),
      MakeFindInferenceRuleSecondPass env S T TargetExt fuel ctx Rule = some r →
      PendingFrame ctx r.2 := by
  intro fuel
  induction fuel with
  | zero => intro ctx Rule r h; simp [MakeFindInferenceRuleSecondPass] at h
  | succ fuel ih =>
    intro ctx Rule r h
    cases Rule with
    | none =>
      rw [MakeFindInferenceRuleSecondPass, Option.some.injEq] at h
      rw [← h]
      exact PendingFrame_refl _
    | some R =>
      rw [MakeFindInferenceRuleSecondPass] at h
      split at h
      · cases h
      · rename_i NestedRule _
        split at h
        · cases h
        · rename_i ctx1 h1
          rw [Option.some.injEq] at h
          rw [← h]
          exact MakeFindInferenceRuleNested_pending env S T R fuel ctx NestedRule _ h1
        · rename_i ctx1 h1
          have f1 := MakeFindInferenceRuleNested_pending env S T R fuel ctx NestedRule _ h1
          split at h
          · rw [Option.some.injEq] at h
            rw [← h]
            exact f1
          · split at h
            · cases h
            · exact PendingFrame_trans f1 (ih _ _ _ h)

theorem MakeFindInferenceRuleForTarget_pending (env : MAKE_ENV) (fuel : Nat)
    (ctx : MAKE_CONTEXT) (S : ScopeId) (T : TargetId) (r : Bool × MAKE_CONTEXT)
    (h : MakeFindInferenceRuleForTarget env fuel ctx S T = some r) : PendingFrame ctx r.2 := by
  unfold MakeFindInferenceRuleForTarget at h
  split at h
  · rw [Option.some.injEq] at h
    rw [← h]
    exact PendingFrame_refl _
  · split at h
    · rw [Option.some.injEq] at h
      rw [← h]
      exact PendingFrame_refl _
    · split at h
      · cases h
      · split at h
        · cases h
        · split at h
          · rw [Option.some.injEq] at h
            rw [← h]
            exact PendingFrame_refl _
          · dsimp only at h
            unfold MakeFindInferenceRulePasses at h
            split at h
            · cases h
            · split at h
              · cases h
              · rename_i ctx3 h3
                rw [Option.some.injEq] at h
                rw [← h]
                exact fun s => MakeFindInferenceRuleFirstPass_pending env S T _ fuel _ _ _ _ h3 s
              · rename_i ctx3 h3
                rw [Option.some.injEq] at h
                rw [← h]
                exact fun s => MakeFindInferenceRuleFirstPass_pending env S T _ fuel _ _ _ _ h3 s
              · rename_i ctx3 h3
                have f3 := MakeFindInferenceRuleFirstPass_pending env S T _ fuel _ _ _ _ h3
                split at h
                · cases h
                · have f4 := MakeFindInferenceRuleSecondPass_pending env S T _ fuel _ _ _ h
                  exact fun s => (f4 s).trans (f3 s)

/-- Draining leaves the pending list of the scope empty and every other
pending list as it was. -/
theorem MakeFindInferenceRulesForScope_drained (env : MAKE_ENV) (S : ScopeId) :
    ∀ (fuel : Nat) (ctx ctx1 : MAKE_CONTEXT),
      MakeFindInferenceRulesForScope env fuel ctx S = some (true, ctx1) →
      (ctx1.Scope S).InferenceRuleNeededList = [] ∧
      ∀ s, s ≠ S →
        (ctx1.Scope s).InferenceRuleNeededList = (ctx.Scope s).InferenceRuleNeededList := by
  intro fuel
  induction fuel with
  | zero => intro ctx ctx1 h; simp [MakeFindInferenceRulesForScope] at h
  | succ fuel ih =>
    intro ctx ctx1 h
    rw [MakeFindInferenceRulesForScope] at h
    split at h
    · rename_i hl
      rw [Option.some.injEq, Prod.mk.injEq] at h
      rw [← h.2]
      exact ⟨hl, fun _ _ => rfl⟩
    · rename_i T rest hl
      dsimp only at h
      have hs : ∀ s, s ≠ S →
          ((ctx.setScope S { ctx.Scope S with InferenceRuleNeededList := rest }).Scope
            s).InferenceRuleNeededList = (ctx.Scope s).InferenceRuleNeededList := by
        intro s hne
        simp [MAKE_CONTEXT.setScope, Function.update, hne]
      split at h
      · obtain ⟨h1, h2⟩ := ih _ _ h
        exact ⟨h1, fun s hne => (h2 s hne).trans (hs s hne)⟩
      · split at h
        · cases h
        · cases h
        · rename_i ctx2 h2
          have f2 := MakeFindInferenceRuleForTarget_pending env fuel _ S T _ h2
          obtain ⟨h3, h4⟩ := ih _ _ h
          exact ⟨h3, fun s hne => ((h4 s hne).trans (f2 s)).trans (hs s hne)⟩

/-- C30: draining is idempotent.  When `MakeFindInferenceRulesForScope`
returns `TRUE` with the context `ctx1`, the pending list of the scope is empty
in `ctx1` and every other pending list is as it was; so a target that was on
the list of the scope (its list hook being linked in that list only) is on no
pending list.  A second run on the same scope returns `TRUE`, with any fuel,
and returns `ctx1` itself: no target, rule, scope, reference count or list is
changed. -/
theorem MakeFindInferenceRulesForScope_idempotent (env : MAKE_ENV) (fuel : Nat)
    (ctx ctx1 : MAKE_CONTEXT) (S : ScopeId)
    (h : MakeFindInferenceRulesForScope env fuel ctx S = some (true, ctx1)) :
    (ctx1.Scope S).InferenceRuleNeededList = [] ∧
    (∀ s, s ≠ S →
      (ctx1.Scope s).InferenceRuleNeededList = (ctx.Scope s).InferenceRuleNeededList) ∧
    (∀ T ∈ (ctx.Scope S).InferenceRuleNeededList,
      (∀ s, s ≠ S → T ∉ (ctx.Scope s).InferenceRuleNeededList) →
      ∀ s, T ∉ (ctx1.Scope s).InferenceRuleNeededList) ∧
    (∀ fuel2, MakeFindInferenceRulesForScope env (fuel2 + 1) ctx1 S = some (true, ctx1)) := by
  obtain ⟨h1, h2⟩ := MakeFindInferenceRulesForScope_drained env S fuel ctx ctx1 h
  refine ⟨h1, h2, fun T _ hone s => ?_, fun fuel2 => ?_⟩
  · by_cases e : s = S
    · rw [e, h1]
      exact List.not_mem_nil _
    · rw [h2 s e]
      exact hone s e
  · rw [MakeFindInferenceRulesForScope]
    simp only [h1]

theorem MakeFindInferenceRulesForScope_idempotent_witness :
    MakeFindInferenceRulesForScope ScenarioS3Env 8 ScenarioS3 0 = some (true, ScenarioS3Drained) ∧
    (ScenarioS3.Scope 0).InferenceRuleNeededList = [1] ∧
    (ScenarioS3Drained.Scope 0).InferenceRuleNeededList = [] ∧
    (∀ s, 1 ∉ (ScenarioS3Drained.Scope s).InferenceRuleNeededList) ∧
    MakeFindInferenceRulesForScope ScenarioS3Env 1 ScenarioS3Drained 0 =
      some (true, ScenarioS3Drained) :=
  ⟨rfl, rfl,
    (MakeFindInferenceRulesForScope_idempotent ScenarioS3Env 8 ScenarioS3 ScenarioS3Drained 0
      rfl).1,
    (MakeFindInferenceRulesForScope_idempotent ScenarioS3Env 8 ScenarioS3 ScenarioS3Drained 0
      rfl).2.2.1 1 (by decide) (fun s hs => by
        have : (ScenarioS3.Scope s).InferenceRuleNeededList = [] := by
          simp [ScenarioS3, hs]
        rw [this]
        exact List.not_mem_nil _),
    (MakeFindInferenceRulesForScope_idempotent ScenarioS3Env 8 ScenarioS3 ScenarioS3Drained 0
      rfl).2.2.2 0⟩

/-! ## A target that has been evaluated -/

/-- C31: `MakeDetermineDependenciesForTarget` on a target whose
`DependenciesEvaluated` flag is set returns `TRUE` and the context it was
given: every field of every target, every dependency edge and both queues are
as they were. -/
theorem MakeDetermineDependenciesForTarget_evaluated (env : MAKE_ENV) (fuel : Nat)
    (ctx : MAKE_CONTEXT) (t : TargetId)
    (h : (ctx.Target t).DependenciesEvaluated = true) :
    MakeDetermineDependenciesForTarget env (fuel + 1) ctx t = some (true, ctx) := by
  rw [MakeDetermineDependenciesForTarget, if_pos h]

/-- Witness of C31: a second walk of `a.obj` in the context scenario S1 ends
in. -/
theorem MakeDetermineDependenciesForTarget_evaluated_witness :
    (ScenarioS1Result.Target 0).DependenciesEvaluated = true ∧
    MakeDetermineDependenciesForTarget ScenarioS1Env 1 ScenarioS1Result 0 =
      some (true, ScenarioS1Result) :=
  ⟨rfl, MakeDetermineDependenciesForTarget_evaluated ScenarioS1Env 0 ScenarioS1Result 0 rfl⟩

/-! ## The default target and its inference binding -/

/-- C39: when the target `MakeDetermineDependencies` selects has no
prerequisite, no explicit recipe, an inference parent, and exists on disk,
the walk (though the target is in the state in which the loop would populate
the dependency of a prerequisite) succeeds and only sets
`DependenciesEvaluated` on it: no edge record is allocated, no prerequisite
or dependent list changes, `RebuildRequired` and both queues are as before,
so a target that was not marked and empty queues stay so.  No modified time
is read. -/
theorem MakeDetermineDependencies_default_inference_binding (env : MAKE_ENV) (fuel : Nat)
    (ctx : MAKE_CONTEXT) (t P : TargetId)
    (hfirst : MakeDetermineDependenciesFirstTarget ctx ctx.TargetsList = some t)
    (hp : (ctx.Target t).ParentDependents = [])
    (he : (ctx.Target t).ExplicitRecipeFound = false)
    (hi : (ctx.Target t).InferenceRuleParentTarget = some P)
    (hx : (ctx.Target t).FileExists = true) :
    MakeParentNeedsInferenceDependency ctx t = true ∧
    ∃ ctx', MakeDetermineDependencies env (fuel + 1) ctx = some (true, ctx') ∧
      ctx'.Target t = { ctx.Target t with DependenciesEvaluated := true } ∧
      (∀ x, x ≠ t → ctx'.Target x = ctx.Target x) ∧
      ctx'.AllocDependency = ctx.AllocDependency ∧
      (∀ x, (ctx'.Target x).ParentDependents = (ctx.Target x).ParentDependents ∧
        (ctx'.Target x).ChildDependents = (ctx.Target x).ChildDependents) ∧
      (ctx'.Target t).RebuildRequired = (ctx.Target t).RebuildRequired ∧
      ctx'.TargetsReady = ctx.TargetsReady ∧ ctx'.TargetsWaiting = ctx.TargetsWaiting ∧
      ctx'.ErrorTermination = ctx.ErrorTermination := by
  refine ⟨by simp [MakeParentNeedsInferenceDependency, hp, he, hi], ?_⟩
  have hrun : MakeDetermineDependencies env (fuel + 1) ctx =
      some (true, ctx.setTarget t { ctx.Target t with DependenciesEvaluated := true }) := by
    rw [MakeDetermineDependencies, hfirst]
    by_cases hE : (ctx.Target t).DependenciesEvaluated = true
    · have hs : ctx.setTarget t { ctx.Target t with DependenciesEvaluated := true } = ctx := by
        have : ({ ctx.Target t with DependenciesEvaluated := true } : MAKE_TARGET) =
            ctx.Target t := by
          cases hc : ctx.Target t
          rw [hc] at hE
          simp only at hE
          simp [hE]
        rw [this, setTarget_self]
      rw [hs]
      simp only [MakeDetermineDependenciesForTarget, hE, if_true]
    · simp only [MakeDetermineDependenciesForTarget, hE, MakeDetermineDependenciesForTargetLoop, hp,
        List.getElem?_nil]
      simp [MAKE_CONTEXT.setTarget, hx]
  refine ⟨_, hrun, ?_, ?_, rfl, ?_, ?_, rfl, rfl, rfl⟩
  · simp [MAKE_CONTEXT.setTarget]
  · intro x hxt
    simp [MAKE_CONTEXT.setTarget, hxt]
  · intro x
    by_cases hxt : x = t
    · subst hxt
      simp [MAKE_CONTEXT.setTarget]
    · simp [MAKE_CONTEXT.setTarget, hxt]
  · simp [MAKE_CONTEXT.setTarget]

/-- Witness of C39: scenario S3 with `a.obj` on disk, older (last written at
1) than the inference source `a.c` (last written at 2): after the resolver,
the walk of the default target `a.obj` leaves it unmarked with both queues
empty. -/
theorem MakeDetermineDependencies_default_inference_binding_witness :
    (((ScenarioS3Existing 1).Target 1).ModifiedTime = 1 ∧
      ((ScenarioS3Existing 1).Target 2).Key = "a.c".toList ∧
      ((ScenarioS3Existing 1).Target 2).ModifiedTime = 2 ∧
      ((ScenarioS3Existing 1).Target 1).RebuildRequired = false ∧
      (ScenarioS3Existing 1).TargetsReady = [] ∧ (ScenarioS3Existing 1).TargetsWaiting = []) ∧
    MakeParentNeedsInferenceDependency (ScenarioS3Existing 1) 1 = true ∧
    ∃ ctx', MakeDetermineDependencies (ScenarioS3ExistingEnv 1) 1 (ScenarioS3Existing 1) = some (true, ctx') ∧
      ctx'.Target 1 = { (ScenarioS3Existing 1).Target 1 with DependenciesEvaluated := true } ∧
      (∀ x, x ≠ 1 → ctx'.Target x = (ScenarioS3Existing 1).Target x) ∧
      ctx'.AllocDependency = (ScenarioS3Existing 1).AllocDependency ∧
      (∀ x, (ctx'.Target x).ParentDependents = ((ScenarioS3Existing 1).Target x).ParentDependents ∧
        (ctx'.Target x).ChildDependents = ((ScenarioS3Existing 1).Target x).ChildDependents) ∧
      (ctx'.Target 1).RebuildRequired = ((ScenarioS3Existing 1).Target 1).RebuildRequired ∧
      ctx'.TargetsReady = (ScenarioS3Existing 1).TargetsReady ∧
      ctx'.TargetsWaiting = (ScenarioS3Existing 1).TargetsWaiting ∧
      ctx'.ErrorTermination = (ScenarioS3Existing 1).ErrorTermination :=
  ⟨⟨rfl, rfl, rfl, rfl, rfl, rfl⟩,
    MakeDetermineDependencies_default_inference_binding (ScenarioS3ExistingEnv 1) 0 (ScenarioS3Existing 1) 1 2
      rfl rfl rfl rfl rfl⟩

/-! ## Failure after the visited flag has been set -/

theorem MakeMarkTargetForRebuild_failure (env : MAKE_ENV) (ctx ctx' : MAKE_CONTEXT) (t : TargetId)
    (h : MakeMarkTargetForRebuild env ctx t = (false, ctx')) :
    (ctx'.Target t).DependenciesEvaluated = (ctx.Target t).DependenciesEvaluated ∧
    (ctx'.Target t).RebuildRequired = false ∧
    ctx'.TargetsReady = ctx.TargetsReady ∧ ctx'.TargetsWaiting = ctx.TargetsWaiting := by
  unfold MakeMarkTargetForRebuild at h
  by_cases hrr : (ctx.Target t).RebuildRequired = true
  · simp [hrr] at h
  · have hrr' : (ctx.Target t).RebuildRequired = false := by simpa using hrr
    simp only [hrr', Bool.false_eq_true, if_false] at h
    by_cases hb : (!(ctx.Target t).ExplicitRecipeFound && (ctx.Target t).InferenceRule.isNone) = true
    · simp only [hb, if_true, Prod.mk.injEq, true_and] at h
      subst h
      exact ⟨rfl, hrr', rfl, rfl⟩
    · have hb' : (!(ctx.Target t).ExplicitRecipeFound && (ctx.Target t).InferenceRule.isNone) =
          false := by
        cases h1 : (ctx.Target t).ExplicitRecipeFound <;>
          cases h2 : (ctx.Target t).InferenceRule <;> simp_all
      rw [hb'] at h
      simp only [Bool.false_eq_true, if_false] at h
      obtain ⟨cmds, hg⟩ := MakeGenerateExecScriptForTarget_frame env ctx t
      cases hgen : MakeGenerateExecScriptForTarget env ctx t with
      | mk ok ctx1 =>
        rw [hgen] at h hg
        cases ok with
        | true =>
          simp only at h
          split at h <;> simp at h
        | false =>
          simp only [Prod.mk.injEq, true_and] at h
          subst h
          simp only at hg
          rw [hg]
          simp [MAKE_CONTEXT.setTarget, hrr']

/-- C40: when the prerequisite loop of an unevaluated target `t` succeeds,
the staleness test sends it to `MakeMarkTargetForRebuild`, and that call
fails, `MakeDetermineDependenciesForTarget` fails in the context of the
failed call, in which `DependenciesEvaluated` is already set on `t`, `t` is
not marked and the queues are those after the loop; every later call on `t`
in that context returns `TRUE` and changes nothing.  In particular a missing
target with no prerequisite, no explicit recipe and no inference rule fails
the first time, with only its flag and the error latch set, and succeeds the
second time. -/
theorem MakeDetermineDependenciesForTarget_failure_not_atomic (env : MAKE_ENV) (fuel : Nat)
    (ctx : MAKE_CONTEXT) (t : TargetId)
    (hE : (ctx.Target t).DependenciesEvaluated = false) :
    (∀ (S : Bool) (ctx1 ctx3 : MAKE_CONTEXT),
      MakeDetermineDependenciesForTargetLoop
        (fun c p => MakeDetermineDependenciesForTarget env fuel c p) (fuel + 1) ctx t 0 false =
        some (true, S, ctx1) →
      ((ctx1.Target t).FileExists = false ∨ S = true) →
      (ctx1.Target t).RebuildRequired = false →
      MakeMarkTargetForRebuild env
        (ctx1.setTarget t { ctx1.Target t with DependenciesEvaluated := true }) t = (false, ctx3) →
      MakeDetermineDependenciesForTarget env (fuel + 1) ctx t = some (false, ctx3) ∧
      (ctx3.Target t).DependenciesEvaluated = true ∧
      (ctx3.Target t).RebuildRequired = false ∧
      ctx3.TargetsReady = ctx1.TargetsReady ∧ ctx3.TargetsWaiting = ctx1.TargetsWaiting ∧
      ∀ fuel2, MakeDetermineDependenciesForTarget env (fuel2 + 1) ctx3 t = some (true, ctx3)) ∧
    ((ctx.Target t).ParentDependents = [] → (ctx.Target t).FileExists = false →
      (ctx.Target t).RebuildRequired = false → (ctx.Target t).ExplicitRecipeFound = false →
      (ctx.Target t).InferenceRule = none →
      MakeDetermineDependenciesForTarget env (fuel + 1) ctx t =
        some (false,
          { ctx.setTarget t { ctx.Target t with DependenciesEvaluated := true } with
            ErrorTermination := true })) := by
  constructor
  · intro S ctx1 ctx3 hl hS hrr hm
    have hrun : MakeDetermineDependenciesForTarget env (fuel + 1) ctx t = some (false, ctx3) := by
      rw [MakeDetermineDependenciesForTarget, if_neg (by simp [hE]), hl]
      have hc : ((if (!((ctx1.setTarget t
          { ctx1.Target t with DependenciesEvaluated := true }).Target t).FileExists) = true
          then true else S) &&
          !((ctx1.setTarget t
          { ctx1.Target t with DependenciesEvaluated := true }).Target t).RebuildRequired) = true := by
        rcases hS with hS | hS
        · simp [MAKE_CONTEXT.setTarget, hS, hrr]
        · simp [MAKE_CONTEXT.setTarget, hS, hrr]
      simp only [hc, if_true, hm]
    obtain ⟨h1, h2, h3, h4⟩ := MakeMarkTargetForRebuild_failure env _ ctx3 t hm
    have hflag : (ctx3.Target t).DependenciesEvaluated = true := by
      rw [h1]
      simp [MAKE_CONTEXT.setTarget]
    refine ⟨hrun, hflag, h2, h3, h4, ?_⟩
    intro fuel2
    rw [MakeDetermineDependenciesForTarget, if_pos hflag]
  · intro hp hx hrr he hi
    simp only [MakeDetermineDependenciesForTarget, hE, MakeDetermineDependenciesForTargetLoop, hp,
      List.getElem?_nil]
    simp [MAKE_CONTEXT.setTarget, hx, hrr, MakeMarkTargetForRebuild, he, hi]

/-- Witness of C40: `gen.c` (target 1) of the unbuildable scenario is missing
and has neither recipe nor rule: the first walk fails, the second one
succeeds with `gen.c` unmarked and on neither queue. -/
theorem MakeDetermineDependenciesForTarget_failure_not_atomic_witness :
    (ScenarioUnbuildable.Target 1).DependenciesEvaluated = false ∧
    MakeDetermineDependenciesForTarget (ScenarioEnv []) 1 ScenarioUnbuildable 1 =
      some (false,
        { ScenarioUnbuildable.setTarget 1
            { ScenarioUnbuildable.Target 1 with DependenciesEvaluated := true } with
          ErrorTermination := true }) ∧
    (match MakeDetermineDependenciesForTarget (ScenarioEnv []) 1 ScenarioUnbuildable 1 with
      | some (false, c) =>
        (match MakeDetermineDependenciesForTarget (ScenarioEnv []) 1 c 1 with
          | some (ok, c2) =>
            some (ok, (c2.Target 1).RebuildRequired, c2.TargetsReady, c2.TargetsWaiting)
          | none => none)
      | _ => none) = some (true, false, [], []) :=
  ⟨rfl,
    (MakeDetermineDependenciesForTarget_failure_not_atomic (ScenarioEnv []) 0 ScenarioUnbuildable 1
      rfl).2 rfl rfl rfl rfl rfl, rfl⟩

/-! ## What assigning a rule changes -/

theorem MakeAssignInferenceRuleToTarget_of_lookup (env : MAKE_ENV) (ctx c1 : MAKE_CONTEXT)
    (S : ScopeId) (T P : TargetId) (rule : RuleId) (name : YORI_STRING)
    (h : MakeLookupOrCreateTarget env ctx S name = (some P, c1)) :
    ∃ ctx', MakeAssignInferenceRuleToTarget env ctx S T rule name = (true, ctx') ∧
      (ctx'.Target T).InferenceRuleParentTarget = some P ∧
      (ctx'.Target P).ReferenceCount = (c1.Target P).ReferenceCount + 1 ∧
      (∀ x, x ≠ P → (ctx'.Target x).ReferenceCount = (c1.Target x).ReferenceCount) ∧
      (ctx'.InferenceRule rule).ReferenceCount = (c1.InferenceRule rule).ReferenceCount + 1 ∧
      (∀ r, r ≠ rule → ctx'.InferenceRule r = c1.InferenceRule r) ∧
      (ctx'.Target T).InferenceRule = some rule ∧
      (ctx'.Target T).ScopeContext = some ((c1.Target T).ScopeContext.getD S) ∧
      (∀ s, (ctx'.Scope s).ReferenceCount =
        if s = S ∧ (c1.Target T).ScopeContext = none then (c1.Scope s).ReferenceCount + 1
        else (c1.Scope s).ReferenceCount) := by
  unfold MakeAssignInferenceRuleToTarget
  rw [h]
  simp only
  by_cases e : T = P
  · subst e
    cases hs : (c1.Target T).ScopeContext with
    | none =>
      simp [MAKE_CONTEXT.setTarget, MakeReferenceInferenceRule, MAKE_CONTEXT.setRule,
        MakeReferenceScope, MAKE_CONTEXT.setScope, hs, Function.update_apply]
      exact ⟨fun x hx => by simp [hx], fun r hr hr2 => absurd hr2 hr,
        fun s => by split_ifs <;> simp_all⟩
    | some s0 =>
      simp [MAKE_CONTEXT.setTarget, MakeReferenceInferenceRule, MAKE_CONTEXT.setRule,
        MakeReferenceScope, MAKE_CONTEXT.setScope, hs, Function.update_apply]
      exact ⟨fun x hx => by simp [hx], fun r hr hr2 => absurd hr2 hr⟩
  · have e' : ¬ P = T := fun h => e h.symm
    cases hs : (c1.Target T).ScopeContext with
    | none =>
      simp [MAKE_CONTEXT.setTarget, MakeReferenceInferenceRule, MAKE_CONTEXT.setRule,
        MakeReferenceScope, MAKE_CONTEXT.setScope, hs, Function.update_apply, e, e']
      exact ⟨fun x hx => by split_ifs <;> simp_all, fun r hr hr2 => absurd hr2 hr,
        fun s => by split_ifs <;> simp_all⟩
    | some s0 =>
      simp [MAKE_CONTEXT.setTarget, MakeReferenceInferenceRule, MAKE_CONTEXT.setRule,
        MakeReferenceScope, MAKE_CONTEXT.setScope, hs, Function.update_apply, e, e']
      exact ⟨fun x hx => by split_ifs <;> simp_all, fun r hr hr2 => absurd hr2 hr⟩

/-- C35: `MakeAssignInferenceRuleToTarget`.  When the source path resolves,
the call succeeds; the inference parent of the target is the target
`MakeLookupOrCreateTarget` gives for the path (the one already in the table,
or else a new one), whose reference count is one more than after the lookup
while no other target count changes; the reference count of the rule is one
more and no other rule changes; the rule is stored in the target; and the
scope of the target is the current scope when it had none (taking one
reference on that scope) and is kept otherwise.  When the source path does
not resolve, the call fails, and the rule of the target, every rule and every
scope are as before, as is the reference count of every target; the
inference parent of the target is cleared. -/
theorem MakeAssignInferenceRuleToTarget_effect (env : MAKE_ENV) (ctx : MAKE_CONTEXT)
    (S : ScopeId) (T : TargetId) (rule : RuleId) (name : YORI_STRING) :
    (∀ path, env.YoriLibGetFullPathNameRelativeTo (ctx.Scope S).Key name = some path →
      ∃ P c1 ctx', MakeLookupOrCreateTarget env ctx S name = (some P, c1) ∧
        ((YoriLibHashLookupByKey ctx.Targets path = some P ∧ c1 = ctx) ∨
          (YoriLibHashLookupByKey ctx.Targets path = none ∧ P = ctx.AllocTarget ∧
            c1.Target P = MakeInitialTarget path (env.GetFileInformation path) ∧
            (∀ x, x ≠ P → c1.Target x = ctx.Target x) ∧
            c1.InferenceRule = ctx.InferenceRule ∧ c1.Scope = ctx.Scope)) ∧
        MakeAssignInferenceRuleToTarget env ctx S T rule name = (true, ctx') ∧
        (ctx'.Target T).InferenceRuleParentTarget = some P ∧
        (ctx'.Target P).ReferenceCount = (c1.Target P).ReferenceCount + 1 ∧
        (∀ x, x ≠ P → (ctx'.Target x).ReferenceCount = (c1.Target x).ReferenceCount) ∧
        (ctx'.InferenceRule rule).ReferenceCount = (c1.InferenceRule rule).ReferenceCount + 1 ∧
        (∀ r, r ≠ rule → ctx'.InferenceRule r = c1.InferenceRule r) ∧
        (ctx'.Target T).InferenceRule = some rule ∧
        (ctx'.Target T).ScopeContext = some ((c1.Target T).ScopeContext.getD S) ∧
        (∀ s, (ctx'.Scope s).ReferenceCount =
          if s = S ∧ (c1.Target T).ScopeContext = none then (c1.Scope s).ReferenceCount + 1
          else (c1.Scope s).ReferenceCount)) ∧
    (env.YoriLibGetFullPathNameRelativeTo (ctx.Scope S).Key name = none →
      ∃ ctx', MakeAssignInferenceRuleToTarget env ctx S T rule name = (false, ctx') ∧
        (ctx'.Target T).InferenceRule = (ctx.Target T).InferenceRule ∧
        (∀ x, (ctx'.Target x).ReferenceCount = (ctx.Target x).ReferenceCount) ∧
        ctx'.InferenceRule = ctx.InferenceRule ∧ ctx'.Scope = ctx.Scope ∧
        (ctx'.Target T).InferenceRuleParentTarget = none) := by
  constructor
  · intro path hres
    cases hl : YoriLibHashLookupByKey ctx.Targets path with
    | some P =>
      have h1 : MakeLookupOrCreateTarget env ctx S name = (some P, ctx) := by
        unfold MakeLookupOrCreateTarget
        simp only [hres, hl]
      obtain ⟨ctx', h2⟩ := MakeAssignInferenceRuleToTarget_of_lookup env ctx ctx S T P rule name h1
      exact ⟨P, ctx, ctx', h1, Or.inl ⟨rfl, rfl⟩, h2⟩
    | none =>
      have h1 := MakeLookupOrCreateTarget_new env ctx S name path hres hl
      obtain ⟨ctx', h2⟩ := MakeAssignInferenceRuleToTarget_of_lookup env ctx _ S T _ rule name h1
      refine ⟨_, _, ctx', h1, Or.inr ⟨rfl, rfl, ?_, ?_, rfl, rfl⟩, h2⟩
      · simp
      · intro x hx
        simp [Function.update_apply, hx]
  · intro hres
    have h1 : MakeLookupOrCreateTarget env ctx S name = (none, ctx) := by
      unfold MakeLookupOrCreateTarget
      simp only [hres]
    unfold MakeAssignInferenceRuleToTarget
    rw [h1]
    refine ⟨_, rfl, ?_, ?_, rfl, rfl, ?_⟩
    · simp [MAKE_CONTEXT.setTarget]
    · intro x
      by_cases e : x = T
      · subst e
        simp [MAKE_CONTEXT.setTarget]
      · simp [MAKE_CONTEXT.setTarget, Function.update_apply, e]
    · simp [MAKE_CONTEXT.setTarget]

/-- Witness of C35: in scenario S3, assigning the rule `.c.obj` to `a.obj`
(target 1) with the source path `a.c`, which no target has yet. -/
theorem MakeAssignInferenceRuleToTarget_effect_witness :
    ScenarioS3Env.YoriLibGetFullPathNameRelativeTo (ScenarioS3.Scope 0).Key "a.c".toList =
      some "a.c".toList ∧
    ∃ P c1 ctx', MakeLookupOrCreateTarget ScenarioS3Env ScenarioS3 0 "a.c".toList = (some P, c1) ∧
      ((YoriLibHashLookupByKey ScenarioS3.Targets "a.c".toList = some P ∧ c1 = ScenarioS3) ∨
        (YoriLibHashLookupByKey ScenarioS3.Targets "a.c".toList = none ∧
          P = ScenarioS3.AllocTarget ∧
          c1.Target P =
            MakeInitialTarget "a.c".toList (ScenarioS3Env.GetFileInformation "a.c".toList) ∧
          (∀ x, x ≠ P → c1.Target x = ScenarioS3.Target x) ∧
          c1.InferenceRule = ScenarioS3.InferenceRule ∧ c1.Scope = ScenarioS3.Scope)) ∧
      MakeAssignInferenceRuleToTarget ScenarioS3Env ScenarioS3 0 1 0 "a.c".toList = (true, ctx') ∧
      (ctx'.Target 1).InferenceRuleParentTarget = some P ∧
      (ctx'.Target P).ReferenceCount = (c1.Target P).ReferenceCount + 1 ∧
      (∀ x, x ≠ P → (ctx'.Target x).ReferenceCount = (c1.Target x).ReferenceCount) ∧
      (ctx'.InferenceRule 0).ReferenceCount = (c1.InferenceRule 0).ReferenceCount + 1 ∧
      (∀ r, r ≠ 0 → ctx'.InferenceRule r = c1.InferenceRule r) ∧
      (ctx'.Target 1).InferenceRule = some 0 ∧
      (ctx'.Target 1).ScopeContext = some ((c1.Target 1).ScopeContext.getD 0) ∧
      (∀ s, (ctx'.Scope s).ReferenceCount =
        if s = 0 ∧ (c1.Target 1).ScopeContext = none then (c1.Scope s).ReferenceCount + 1
        else (c1.Scope s).ReferenceCount) :=
  ⟨rfl, (MakeAssignInferenceRuleToTarget_effect ScenarioS3Env ScenarioS3 0 1 0 "a.c".toList).1
    "a.c".toList rfl⟩

/-! ## The variable expander: qualifiers on the list variables -/

/-- C37: for `**` and for `?`, `MakeExpandTargetVariable` applies the file
name part qualifier `Q` once, to the whole text built from the prerequisites
(the keys joined by spaces for `**`; the keys of the newer prerequisites for
`?`), and fails when the qualifier is unknown.  With the prerequisites keyed
`d/p1` then `d/p2`, `**` without qualifier and `**F` give `p2`, and `**D`
gives `d/p1 d`. -/
theorem MakeExpandTargetVariable_list_qualifier (ctx : MAKE_CONTEXT) (T : TargetId)
    (Q : YORI_STRING) (hQ : ∀ c ∈ Q.head?, "@*<?".toList.contains c = false) :
    MakeExpandTargetVariable ctx T ("**".toList ++ Q) =
      (match MakeExpandFileNamePart
          (List.intercalate [' ']
            ((ctx.Target T).ParentDependents.map (fun d => (ctx.Target d.Parent).Key))) Q with
        | none => (false, [], { ctx with AllocVariableData := ctx.AllocVariableData + 1 })
        | some Value =>
          (true, Value, { ctx with AllocVariableData := ctx.AllocVariableData + 1 })) ∧
    MakeExpandTargetVariable ctx T ("?".toList ++ Q) =
      (match MakeExpandFileNamePart
          ((((ctx.Target T).ParentDependents.filter (fun d => MakeExpandIsNewer ctx T d)).map
            (fun d => (ctx.Target d.Parent).Key)).flatten) Q with
        | none => (false, [], { ctx with AllocVariableData := ctx.AllocVariableData + 1 })
        | some Value =>
          (true, Value, { ctx with AllocVariableData := ctx.AllocVariableData + 1 })) ∧
    (∀ d1 d2, (ctx.Target T).ParentDependents = [d1, d2] →
      (ctx.Target d1.Parent).Key = "d/p1".toList → (ctx.Target d2.Parent).Key = "d/p2".toList →
      MakeExpandTargetVariable ctx T "**".toList =
        (true, "p2".toList, { ctx with AllocVariableData := ctx.AllocVariableData + 1 }) ∧
      MakeExpandTargetVariable ctx T "**F".toList =
        (true, "p2".toList, { ctx with AllocVariableData := ctx.AllocVariableData + 1 }) ∧
      MakeExpandTargetVariable ctx T "**D".toList =
        (true, "d/p1 d".toList, { ctx with AllocVariableData := ctx.AllocVariableData + 1 })) := by
  have hall : ∀ Q' : YORI_STRING, (∀ c ∈ Q'.head?, "@*<?".toList.contains c = false) →
      MakeExpandTargetVariable ctx T ("**".toList ++ Q') =
        (match MakeExpandFileNamePart
            (List.intercalate [' ']
              ((ctx.Target T).ParentDependents.map (fun d => (ctx.Target d.Parent).Key))) Q' with
          | none => (false, [], { ctx with AllocVariableData := ctx.AllocVariableData + 1 })
          | some Value =>
            (true, Value, { ctx with AllocVariableData := ctx.AllocVariableData + 1 })) :=
    fun Q' h => MakeExpandTargetVariable_qualified ctx _ T "**".toList Q' _
      (Or.inr (Or.inr (Or.inr (Or.inl rfl)))) h (MakeExpandTargetVariableValue_all ctx T)
  refine ⟨hall Q hQ, ?_, ?_⟩
  · exact MakeExpandTargetVariable_qualified ctx _ T "?".toList Q _
      (Or.inr (Or.inr (Or.inl rfl))) hQ (MakeExpandTargetVariableValue_newer ctx T)
  · intro d1 d2 hp h1 h2
    have e0 := hall [] (by simp)
    have eF := hall ['F'] (by decide)
    have eD := hall ['D'] (by decide)
    rw [hp] at e0 eF eD
    simp only [List.map_cons, List.map_nil, h1, h2] at e0 eF eD
    refine ⟨?_, ?_, ?_⟩
    · have : "**".toList = "**".toList ++ [] := by simp
      rw [this, e0]
      rfl
    · have : "**F".toList = "**".toList ++ ['F'] := rfl
      rw [this, eF]
      rfl
    · have : "**D".toList = "**".toList ++ ['D'] := rfl
      rw [this, eD]
      rfl

/-- Witness of C37: the target `t` of the directory scenario, with the
qualifier `D`. -/
theorem MakeExpandTargetVariable_list_qualifier_witness :
    (MakeExpandTargetVariable ScenarioDirectory 0 "**".toList).2.1 = "p2".toList ∧
    (MakeExpandTargetVariable ScenarioDirectory 0 "**F".toList).2.1 = "p2".toList ∧
    (MakeExpandTargetVariable ScenarioDirectory 0 "**D".toList).2.1 = "d/p1 d".toList ∧
    (MakeExpandTargetVariable ScenarioDirectory 0 "?D".toList).2.1 = "d/p1d".toList :=
  have h := (MakeExpandTargetVariable_list_qualifier ScenarioDirectory 0 ['D']
    (by decide)).2.2 { Parent := 1, Child := 0 } { Parent := 2, Child := 0 } rfl rfl rfl
  ⟨congrArg (fun r => r.2.1) h.1, congrArg (fun r => r.2.1) h.2.1,
    congrArg (fun r => r.2.1) h.2.2, by decide⟩

/-! ## The size of the probe buffer -/

/-- C34: the probe buffer after a depth-1 hit.  The buffer
`MakeFindInferenceRuleForTarget` prepares always has room for `CharsNeeded`
characters.  But in the scenario with the pending targets `a.oo` and
`abcde.oo`, the first call (for `a.oo`, `CharsNeeded` 5) allocates 10
characters and finds nothing; the second call (for `abcde.oo`, `CharsNeeded`
6 + 2 + 1 = 9) keeps that buffer, hits `abcde.cc` in the first pass, and the
second pass then prints `yy` behind it: the buffer is left holding the 10
characters `abcde.ccyy`, whose terminator is at index 10, the allocated
length.  In scenario S4 with the file `a.c` the buffer is left holding
`a.cy`, which with its terminator is longer than `CharsNeeded` 2 + 1 + 1. -/
theorem MakeFindInferenceRuleForTarget_probe_buffer_overrun :
    (∀ (ctx : MAKE_CONTEXT) (T : TargetId) (TargetExt : YORI_STRING) (LongestSourceExt : Nat),
      (ctx.Target T).Key.length - TargetExt.length + LongestSourceExt + 1 ≤
        (MakeFindInferenceRuleProbeBuffer ctx T TargetExt LongestSourceExt).LengthAllocated) ∧
    (MakeFindInferenceRuleForTarget ScenarioProbeEnv 12
        (ScenarioProbe.setScope 0 { ScenarioProbe.Scope 0 with InferenceRuleNeededList := [3] })
        0 2).map
      (fun x => (x.1, (x.2.Target 2).InferenceRule, x.2.FileToProbe.LengthAllocated)) =
      some (true, none, 10) ∧
    (MakeFindInferenceRulesForScope ScenarioProbeEnv 12 ScenarioProbe 0).map
      (fun x => (x.1, (x.2.Target 3).InferenceRule,
        (x.2.Target 3).InferenceRuleParentTarget.map (fun p => (x.2.Target p).Key),
        x.2.FileToProbe.StartOfString, x.2.FileToProbe.StartOfString.length,
        x.2.FileToProbe.LengthAllocated)) =
      some (true, some 1, some "abcde.cc".toList, "abcde.ccyy".toList, 10, 10) ∧
    (MakeFindInferenceRuleForTarget (ScenarioEnv [("a.c".toList, 2)]) 8 ScenarioS4 0 2).map
      (fun x => (x.1, x.2.FileToProbe.StartOfString,
        (x.2.Target 2).Key.length - "obj".toList.length + 1 + 1)) =
      some (true, "a.cy".toList, 4) := by
  refine ⟨?_, by rfl, by rfl, by rfl⟩
  intro ctx T TargetExt LongestSourceExt
  unfold MakeFindInferenceRuleProbeBuffer
  simp only
  split_ifs with h
  · show _ ≤ _ * 2
    omega
  · omega

/-! ## The inference source and the inference parent -/

/-- C38: the value of `<` after the second pass has run behind a depth-1
hit.  In scenario S4 with the files `a.c` and `a.cy` (paths are canonical as
they are), `MakeFindInferenceRuleForTarget` leaves `a.obj` with the rule `.c`
to `.obj` and the inference parent keyed `a.cc`, while the value of `<` on
`a.obj` is `a.c`.  With the file `a.c` alone both are `a.c`. -/
theorem MakeExpandTargetVariable_source_after_hit :
    (MakeFindInferenceRuleForTarget (ScenarioEnv [("a.c".toList, 2), ("a.cy".toList, 1)]) 8
        ScenarioS4 0 2).map
      (fun x => (x.1, (x.2.Target 2).InferenceRule,
        (MakeExpandTargetVariableValue x.2 2 "<".toList).map (fun v => v.1),
        (MakeExpandTargetVariable x.2 2 "<".toList).2.1,
        (x.2.Target 2).InferenceRuleParentTarget.map (fun p => (x.2.Target p).Key))) =
      some (true, some 1, some "a.c".toList, "a.c".toList, some "a.cc".toList) ∧
    (MakeFindInferenceRuleForTarget (ScenarioEnv [("a.c".toList, 2)]) 8 ScenarioS4 0 2).map
      (fun x => (x.1, (x.2.Target 2).InferenceRule,
        (MakeExpandTargetVariableValue x.2 2 "<".toList).map (fun v => v.1),
        (x.2.Target 2).InferenceRuleParentTarget.map (fun p => (x.2.Target p).Key))) =
      some (true, some 1, some "a.c".toList, some "a.c".toList) :=
  ⟨by rfl, by rfl⟩

/-! ## Dependency cycles -/

theorem CycleFrame_refl (U : TargetId → Prop) (ctx : MAKE_CONTEXT) : CycleFrame U ctx ctx :=
  fun _ _ => ⟨rfl, rfl⟩

theorem CycleFrame_trans {U : TargetId → Prop} {a b c : MAKE_CONTEXT}
    (h1 : CycleFrame U a b) (h2 : CycleFrame U b c) : CycleFrame U a c :=
  fun u hu => ⟨((h2 u hu).1).trans (h1 u hu).1, ((h2 u hu).2).trans (h1 u hu).2⟩

theorem CycleSet_of_frame {U : TargetId → Prop} {ctx ctx' : MAKE_CONTEXT}
    (h : CycleSet U ctx) (hf : CycleFrame U ctx ctx') : CycleSet U ctx' := by
  intro u hu
  obtain ⟨h1, d, hd, hdU⟩ := h u hu
  refine ⟨(hf u hu).1.trans h1, d, ?_, hdU⟩
  rw [(hf u hu).2]
  exact hd

/-- Populating the dependency of a prerequisite changes no flag, and no
prerequisite list that is not empty. -/
theorem MakeDetermineDependenciesPopulateParent_flags (ctx : MAKE_CONTEXT) (p : TargetId) :
    ∀ x, ((MakeDetermineDependenciesPopulateParent ctx p).2.Target x).DependenciesEvaluated =
        (ctx.Target x).DependenciesEvaluated ∧
      ((ctx.Target x).ParentDependents ≠ [] →
        ((MakeDetermineDependenciesPopulateParent ctx p).2.Target x).ParentDependents =
          (ctx.Target x).ParentDependents) := by
  intro x
  unfold MakeDetermineDependenciesPopulateParent
  cases hneed : MakeParentNeedsInferenceDependency ctx p with
  | false => exact ⟨by simp, fun _ => by simp⟩
  | true =>
    cases hq : (ctx.Target p).InferenceRuleParentTarget with
    | none => exact ⟨by simp, fun _ => by simp⟩
    | some q =>
      have hempty : (ctx.Target p).ParentDependents = [] := by
        unfold MakeParentNeedsInferenceDependency at hneed
        simp only [Bool.and_eq_true, List.isEmpty_iff] at hneed
        exact hneed.1.1
      simp only [if_true]
      unfold MakeCreateParentChildDependency
      constructor
      · by_cases h1 : x = p
        · subst h1
          by_cases h2 : x = q
          · subst h2; simp [MAKE_CONTEXT.setTarget]
          · simp [MAKE_CONTEXT.setTarget, Function.update_apply, h2]
        · by_cases h2 : x = q
          · subst h2; simp [MAKE_CONTEXT.setTarget, Function.update_apply, h1]
          · simp [MAKE_CONTEXT.setTarget, Function.update_apply, h1, h2]
      · intro hne
        have h1 : x ≠ p := fun e => hne (e ▸ hempty)
        by_cases h2 : x = q
        · subst h2; simp [MAKE_CONTEXT.setTarget, Function.update_apply, h1]
        · simp [MAKE_CONTEXT.setTarget, Function.update_apply, h1, h2]

theorem MakeDetermineDependenciesPopulateParent_cycle {U : TargetId → Prop} {ctx : MAKE_CONTEXT}
    (h : CycleSet U ctx) (p : TargetId) :
    CycleFrame U ctx (MakeDetermineDependenciesPopulateParent ctx p).2 := by
  intro u hu
  obtain ⟨_, d, hd, _⟩ := h u hu
  have hne : (ctx.Target u).ParentDependents ≠ [] := List.ne_nil_of_mem hd
  exact ⟨(MakeDetermineDependenciesPopulateParent_flags ctx p u).1,
    (MakeDetermineDependenciesPopulateParent_flags ctx p u).2 hne⟩

/-- Accounting for a prerequisite changes no flag and no prerequisite
list. -/
theorem MakeDetermineDependenciesAccountParent_flags (ctx : MAKE_CONTEXT) (t : TargetId)
    (d : MAKE_TARGET_DEPENDENCY) (S : Bool) :
    ∀ x, ((MakeDetermineDependenciesAccountParent ctx t d S).2.Target x).DependenciesEvaluated =
        (ctx.Target x).DependenciesEvaluated ∧
      ((MakeDetermineDependenciesAccountParent ctx t d S).2.Target x).ParentDependents =
        (ctx.Target x).ParentDependents := by
  intro x
  obtain ⟨h1, n, h2⟩ := MakeDetermineDependenciesAccountParent_frame ctx t d S
  by_cases e : x = t
  · subst e
    rw [h2]
    exact ⟨rfl, rfl⟩
  · rw [h1 x e]
    exact ⟨rfl, rfl⟩

/-- The walk of an unevaluated target after its prerequisite loop has
succeeded: the flag is set, and the target is marked when the staleness test
asks for it. -/
theorem MakeDetermineDependenciesForTarget_after_loop (env : MAKE_ENV) (fuel : Nat)
    (ctx : MAKE_CONTEXT) (t : TargetId) (Sr : Bool) (ctx1 : MAKE_CONTEXT)
    (hE : (ctx.Target t).DependenciesEvaluated = false)
    (hl : MakeDetermineDependenciesForTargetLoop
      (fun c p => MakeDetermineDependenciesForTarget env fuel c p) (fuel + 1) ctx t 0 false =
      some (true, Sr, ctx1)) :
    MakeDetermineDependenciesForTarget env (fuel + 1) ctx t =
      if ((!(ctx1.Target t).FileExists || Sr) && !(ctx1.Target t).RebuildRequired) = true then
        some (MakeMarkTargetForRebuild env
          (ctx1.setTarget t { ctx1.Target t with DependenciesEvaluated := true }) t)
      else some (true, ctx1.setTarget t { ctx1.Target t with DependenciesEvaluated := true }) := by
  rw [MakeDetermineDependenciesForTarget, if_neg (by simp [hE]), hl]
  simp only
  generalize MakeMarkTargetForRebuild env
    (ctx1.setTarget t { ctx1.Target t with DependenciesEvaluated := true }) t = m
  have e1 : ((ctx1.setTarget t
      { ctx1.Target t with DependenciesEvaluated := true }).Target t).FileExists =
      (ctx1.Target t).FileExists := by simp [MAKE_CONTEXT.setTarget]
  have e2 : ((ctx1.setTarget t
      { ctx1.Target t with DependenciesEvaluated := true }).Target t).RebuildRequired =
      (ctx1.Target t).RebuildRequired := by simp [MAKE_CONTEXT.setTarget]
  rw [e1, e2]
  rcases m with ⟨_ | _, c⟩ <;> cases (ctx1.Target t).FileExists <;> cases Sr <;>
    cases (ctx1.Target t).RebuildRequired <;> simp

/-- The walk of an unevaluated target whose prerequisite loop has failed. -/
theorem MakeDetermineDependenciesForTarget_loop_failed (env : MAKE_ENV) (fuel : Nat)
    (ctx : MAKE_CONTEXT) (t : TargetId) (Sr : Bool) (ctx1 : MAKE_CONTEXT)
    (hE : (ctx.Target t).DependenciesEvaluated = false)
    (hl : MakeDetermineDependenciesForTargetLoop
      (fun c p => MakeDetermineDependenciesForTarget env fuel c p) (fuel + 1) ctx t 0 false =
      some (false, Sr, ctx1)) :
    MakeDetermineDependenciesForTarget env (fuel + 1) ctx t = some (false, ctx1) := by
  rw [MakeDetermineDependenciesForTarget, if_neg (by simp [hE]), hl]

/-- The prerequisite loop under a set of targets that depend on a cycle: a
successful round leaves the members as they were, and no prerequisite from
`Index` on is a member. -/
theorem MakeDetermineDependenciesForTargetLoop_cycle (U : TargetId → Prop)
    (recurse : MAKE_CONTEXT → TargetId → Option (Bool × MAKE_CONTEXT))
    (hrec : ∀ ctx p c', CycleSet U ctx → recurse ctx p = some (true, c') →
      ¬ U p ∧ CycleFrame U ctx c') :
    ∀ (fuel : Nat) (ctx : MAKE_CONTEXT) (t : TargetId) (i : Nat) (S Sr : Bool)
      (c' : MAKE_CONTEXT), CycleSet U ctx →
      MakeDetermineDependenciesForTargetLoop recurse fuel ctx t i S = some (true, Sr, c') →
      CycleFrame U ctx c' ∧
      (U t → ∀ d ∈ (ctx.Target t).ParentDependents.drop i, ¬ U d.Parent) := by
  intro fuel
  induction fuel with
  | zero => intro ctx t i S Sr c' _ h; simp [MakeDetermineDependenciesForTargetLoop] at h
  | succ fuel ih =>
    intro ctx t i S Sr c' hU h
    rw [MakeDetermineDependenciesForTargetLoop] at h
    cases hget : (ctx.Target t).ParentDependents[i]? with
    | none =>
      rw [hget] at h
      simp only [Option.some.injEq, Prod.mk.injEq, true_and] at h
      rw [← h.2]
      refine ⟨CycleFrame_refl U ctx, fun _ d hd => ?_⟩
      rw [List.getElem?_eq_none_iff] at hget
      rw [List.drop_eq_nil_of_le hget] at hd
      cases hd
    | some d =>
      rw [hget] at h
      simp only [MakeDetermineDependenciesPopulateParent_fst, Bool.not_true, Bool.false_eq_true,
        if_false] at h
      have f1 := MakeDetermineDependenciesPopulateParent_cycle hU d.Parent
      have hU1 := CycleSet_of_frame hU f1
      cases hr : recurse (MakeDetermineDependenciesPopulateParent ctx d.Parent).2 d.Parent with
      | none => rw [hr] at h; cases h
      | some r =>
        obtain ⟨ok, ctx2⟩ := r
        rw [hr] at h
        cases ok with
        | false => simp at h
        | true =>
          simp only at h
          obtain ⟨hnU, f2⟩ := hrec _ _ _ hU1 hr
          have hU2 := CycleSet_of_frame hU1 f2
          have f3 : CycleFrame U ctx2 (MakeDetermineDependenciesAccountParent ctx2 t d S).2 :=
            fun u _ => MakeDetermineDependenciesAccountParent_flags ctx2 t d S u
          have hU3 := CycleSet_of_frame hU2 f3
          obtain ⟨f4, hrest⟩ := ih _ t (i + 1) _ Sr c' hU3 h
          have f13 := CycleFrame_trans (CycleFrame_trans f1 f2) f3
          refine ⟨CycleFrame_trans f13 f4, fun ht d' hd' => ?_⟩
          have hlist : (ctx.Target t).ParentDependents.drop i =
              d :: (ctx.Target t).ParentDependents.drop (i + 1) := by
            obtain ⟨hlt, hd⟩ := List.getElem?_eq_some_iff.mp hget
            rw [← hd]
            exact List.drop_eq_getElem_cons hlt
          rw [hlist] at hd'
          rcases List.mem_cons.mp hd' with e | hmem
          · rw [e]; exact hnU
          · refine hrest ht d' ?_
            rw [(f13 t ht).2]
            exact hmem

/-- A walk that returns `TRUE` was not started on a member of a set of
targets that depend on a cycle, and has left the members as they were. -/
theorem MakeDetermineDependenciesForTarget_cycle_frame (env : MAKE_ENV) (U : TargetId → Prop) :
    ∀ (fuel : Nat) (ctx : MAKE_CONTEXT) (t : TargetId) (c' : MAKE_CONTEXT), CycleSet U ctx →
      MakeDetermineDependenciesForTarget env fuel ctx t = some (true, c') →
      ¬ U t ∧ CycleFrame U ctx c' := by
  intro fuel
  induction fuel with
  | zero => intro ctx t c' _ h; simp [MakeDetermineDependenciesForTarget] at h
  | succ fuel ih =>
    intro ctx t c' hU h
    by_cases hE : (ctx.Target t).DependenciesEvaluated = true
    · rw [MakeDetermineDependenciesForTarget, if_pos hE] at h
      simp only [Option.some.injEq, Prod.mk.injEq, true_and] at h
      rw [← h]
      refine ⟨fun ht => ?_, CycleFrame_refl U ctx⟩
      rw [(hU t ht).1] at hE
      cases hE
    · have hE' : (ctx.Target t).DependenciesEvaluated = false := by simpa using hE
      cases hl : MakeDetermineDependenciesForTargetLoop
          (fun c p => MakeDetermineDependenciesForTarget env fuel c p) (fuel + 1) ctx t 0
          false with
      | none =>
        rw [MakeDetermineDependenciesForTarget, if_neg hE, hl] at h
        cases h
      | some r =>
        obtain ⟨ok, Sr, ctx1⟩ := r
        cases ok with
        | false =>
          rw [MakeDetermineDependenciesForTarget_loop_failed env fuel ctx t Sr ctx1 hE' hl] at h
          simp at h
        | true =>
          obtain ⟨f1, hnone⟩ := MakeDetermineDependenciesForTargetLoop_cycle U _
            (fun c p c2 hc hw => ih c p c2 hc hw) (fuel + 1) ctx t 0 false Sr ctx1 hU hl
          have hnU : ¬ U t := by
            intro ht
            obtain ⟨_, d, hd, hdU⟩ := hU t ht
            exact hnone ht d (by simpa using hd) hdU
          refine ⟨hnU, ?_⟩
          have f2 : CycleFrame U ctx1
              (ctx1.setTarget t { ctx1.Target t with DependenciesEvaluated := true }) := by
            intro u hu
            have hut : u ≠ t := fun e => hnU (e ▸ hu)
            simp [MAKE_CONTEXT.setTarget, Function.update_apply, hut]
          have f3 : CycleFrame U
              (ctx1.setTarget t { ctx1.Target t with DependenciesEvaluated := true })
              (MakeMarkTargetForRebuild env
                (ctx1.setTarget t { ctx1.Target t with DependenciesEvaluated := true }) t).2 := by
            intro u hu
            have hut : u ≠ t := fun e => hnU (e ▸ hu)
            rw [(MakeMarkTargetForRebuild_lists env _ t u).2.2 hut]
            exact ⟨rfl, rfl⟩
          rw [MakeDetermineDependenciesForTarget_after_loop env fuel ctx t Sr ctx1 hE' hl] at h
          split_ifs at h with hc
          · rw [Option.some.injEq] at h
            rw [h] at f3
            exact CycleFrame_trans (CycleFrame_trans f1 f2) f3
          · simp only [Option.some.injEq, Prod.mk.injEq, true_and] at h
            rw [← h]
            exact CycleFrame_trans f1 f2

/-- When every member of the set has a member as its first prerequisite, the
recursion never comes back, whatever the fuel. -/
theorem MakeDetermineDependenciesForTarget_cycle_none (env : MAKE_ENV) (U : TargetId → Prop)
    (ctx : MAKE_CONTEXT)
    (hU : ∀ u, U u → (ctx.Target u).DependenciesEvaluated = false ∧
      ∃ d, (ctx.Target u).ParentDependents[0]? = some d ∧ U d.Parent) :
    ∀ (fuel : Nat) (t : TargetId), U t →
      MakeDetermineDependenciesForTarget env fuel ctx t = none := by
  intro fuel
  induction fuel with
  | zero => intro t _; rfl
  | succ fuel ih =>
    intro t ht
    obtain ⟨hE, d, hd, hdU⟩ := hU t ht
    obtain ⟨_, d2, hd2, _⟩ := hU d.Parent hdU
    have hneed : MakeParentNeedsInferenceDependency ctx d.Parent = false := by
      unfold MakeParentNeedsInferenceDependency
      have : (ctx.Target d.Parent).ParentDependents ≠ [] := by
        intro e
        rw [e] at hd2
        cases hd2
      cases hl : (ctx.Target d.Parent).ParentDependents with
      | nil => exact absurd hl this
      | cons a l => simp
    have hpop : MakeDetermineDependenciesPopulateParent ctx d.Parent = (true, ctx) := by
      unfold MakeDetermineDependenciesPopulateParent
      rw [hneed]
      simp
    rw [MakeDetermineDependenciesForTarget, if_neg (by simp [hE]),
      MakeDetermineDependenciesForTargetLoop, hd]
    simp only [hpop, Bool.not_true, Bool.false_eq_true, if_false, ih d.Parent hdU]

theorem ScenarioCycle_first (u : TargetId) (hu : u = 0 ∨ u = 1) :
    (ScenarioCycle.Target u).DependenciesEvaluated = false ∧
    ∃ d, (ScenarioCycle.Target u).ParentDependents[0]? = some d ∧ (d.Parent = 0 ∨ d.Parent = 1) := by
  rcases hu with rfl | rfl
  · exact ⟨rfl, { Parent := 1, Child := 0 }, rfl, Or.inr rfl⟩
  · exact ⟨rfl, { Parent := 0, Child := 1 }, rfl, Or.inl rfl⟩

theorem ScenarioSelfCycle_first (u : TargetId) (hu : u = 0) :
    (ScenarioSelfCycle.Target u).DependenciesEvaluated = false ∧
    ∃ d, (ScenarioSelfCycle.Target u).ParentDependents[0]? = some d ∧ d.Parent = 0 := by
  subst hu
  exact ⟨rfl, { Parent := 0, Child := 0 }, rfl, rfl⟩

/-- C32, as the code has it: on a set of unevaluated targets each of which has
a prerequisite in the set (the targets of a cycle, or targets that depend on
one), no call of `MakeDetermineDependenciesForTarget` on a member returns
`TRUE`, whatever the fuel: `DependenciesEvaluated` is set only after the
prerequisite loop, so a member that is entered again is walked again.  When
the prerequisite in the set is the first one of every member (as in `a` to
`b` to `a`, or a target that is its own prerequisite), the call returns
nothing at all for any fuel: the recursion does not end. -/
theorem MakeDetermineDependenciesForTarget_cycle (env : MAKE_ENV) (U : TargetId → Prop)
    (ctx : MAKE_CONTEXT) (t : TargetId) (hU : CycleSet U ctx) (ht : U t) :
    (∀ fuel c', MakeDetermineDependenciesForTarget env fuel ctx t ≠ some (true, c')) ∧
    ((∀ u, U u → ∃ d, (ctx.Target u).ParentDependents[0]? = some d ∧ U d.Parent) →
      ∀ fuel, MakeDetermineDependenciesForTarget env fuel ctx t = none) := by
  constructor
  · intro fuel c' h
    exact (MakeDetermineDependenciesForTarget_cycle_frame env U fuel ctx t c' hU h).1 ht
  · intro hfirst fuel
    exact MakeDetermineDependenciesForTarget_cycle_none env U ctx
      (fun u hu => ⟨(hU u hu).1, hfirst u hu⟩) fuel t ht

/-- Counterexample to C32: on the cycle `a` to `b` to `a`, and on a target
that is its own prerequisite, the walk does not return, with any fuel. -/
theorem MakeDetermineDependenciesForTarget_cycle_counterexample :
    (¬ ∃ fuel r, MakeDetermineDependenciesForTarget (ScenarioEnv []) fuel ScenarioCycle 0 =
      some r) ∧
    (¬ ∃ fuel r, MakeDetermineDependenciesForTarget (ScenarioEnv []) fuel ScenarioSelfCycle 0 =
      some r) := by
  constructor
  · rintro ⟨fuel, r, h⟩
    rw [MakeDetermineDependenciesForTarget_cycle_none (ScenarioEnv []) (fun u => u = 0 ∨ u = 1)
      ScenarioCycle ScenarioCycle_first fuel 0 (Or.inl rfl)] at h
    cases h
  · rintro ⟨fuel, r, h⟩
    rw [MakeDetermineDependenciesForTarget_cycle_none (ScenarioEnv []) (fun u => u = 0)
      ScenarioSelfCycle ScenarioSelfCycle_first fuel 0 rfl] at h
    cases h

/-- Witness of C32: the cycle `a` to `b` to `a`. -/
theorem MakeDetermineDependenciesForTarget_cycle_witness :
    CycleSet (fun u => u = 0 ∨ u = 1) ScenarioCycle ∧
    (∀ fuel c', MakeDetermineDependenciesForTarget (ScenarioEnv []) fuel ScenarioCycle 0 ≠
      some (true, c')) ∧
    (∀ fuel, MakeDetermineDependenciesForTarget (ScenarioEnv []) fuel ScenarioCycle 0 = none) :=
  have hU : CycleSet (fun u => u = 0 ∨ u = 1) ScenarioCycle := fun u hu =>
    ⟨(ScenarioCycle_first u hu).1,
      (ScenarioCycle_first u hu).2.elim fun d hd => ⟨d, List.getElem?_mem hd.1, hd.2⟩⟩
  ⟨hU,
    (MakeDetermineDependenciesForTarget_cycle (ScenarioEnv []) (fun u => u = 0 ∨ u = 1)
      ScenarioCycle 0 hU (Or.inl rfl)).1,
    (MakeDetermineDependenciesForTarget_cycle (ScenarioEnv []) (fun u => u = 0 ∨ u = 1)
      ScenarioCycle 0 hU (Or.inl rfl)).2
      (fun u hu => (ScenarioCycle_first u hu).2)⟩

/-! ## Queueing a target for the resolver -/

theorem MakeWouldTargetBenefitFromInferenceRule_iff (ctx : MAKE_CONTEXT) (T : TargetId) :
    MakeWouldTargetBenefitFromInferenceRule ctx T = true ↔
      (ctx.Target T).Recipe = [] ∧ (ctx.Target T).InferenceRule = none := by
  unfold MakeWouldTargetBenefitFromInferenceRule
  simp [List.length_eq_zero, Option.isNone_iff_eq_none]

theorem MakeWouldTargetBenefitFromInferenceRule_congr (ctx ctx' : MAKE_CONTEXT) (T : TargetId)
    (h : ctx'.Target T = ctx.Target T) :
    MakeWouldTargetBenefitFromInferenceRule ctx' T =
      MakeWouldTargetBenefitFromInferenceRule ctx T := by
  unfold MakeWouldTargetBenefitFromInferenceRule
  rw [h]

/-- The pending lists after `MakeMarkTargetInferenceRuleNeededIfNeeded`. -/
theorem MakeMarkTargetInferenceRuleNeededIfNeeded_lists (ctx : MAKE_CONTEXT) (S : ScopeId)
    (T : TargetId) :
    (MakeMarkTargetInferenceRuleNeededIfNeeded ctx S T).Target = ctx.Target ∧
    ∀ s, ((MakeMarkTargetInferenceRuleNeededIfNeeded ctx S T).Scope s).InferenceRuleNeededList =
      if s = S ∧ MakeWouldTargetBenefitFromInferenceRule ctx T = true then
        (ctx.Scope s).InferenceRuleNeededList.erase T ++ [T]
      else (ctx.Scope s).InferenceRuleNeededList.erase T := by
  unfold MakeMarkTargetInferenceRuleNeededIfNeeded
  have hb : MakeWouldTargetBenefitFromInferenceRule
      { ctx with
        Scope := fun s =>
          { ctx.Scope s with
            InferenceRuleNeededList := (ctx.Scope s).InferenceRuleNeededList.erase T } } T =
      MakeWouldTargetBenefitFromInferenceRule ctx T := rfl
  simp only [hb]
  cases hw : MakeWouldTargetBenefitFromInferenceRule ctx T with
  | false => exact ⟨rfl, fun s => by simp⟩
  | true =>
    refine ⟨rfl, fun s => ?_⟩
    by_cases e : s = S
    · subst e
      simp [MAKE_CONTEXT.setScope]
    · simp [MAKE_CONTEXT.setScope, Function.update_apply, e]

/-- `MakeMarkTargetInferenceRuleNeededIfNeeded` keeps the list hooks
consistent, and leaves the target on the list of the scope exactly when it
would benefit from an inference rule, and on no other list. -/
theorem MakeMarkTargetInferenceRuleNeededIfNeeded_linked (ctx : MAKE_CONTEXT) (S : ScopeId)
    (T : TargetId) (h : PendingLinked ctx) :
    PendingLinked (MakeMarkTargetInferenceRuleNeededIfNeeded ctx S T) ∧
    (∀ s, T ∈ ((MakeMarkTargetInferenceRuleNeededIfNeeded ctx S T).Scope s).InferenceRuleNeededList ↔
      s = S ∧ (ctx.Target T).Recipe = [] ∧ (ctx.Target T).InferenceRule = none) ∧
    (∀ s x, x ≠ T →
      (x ∈ ((MakeMarkTargetInferenceRuleNeededIfNeeded ctx S T).Scope s).InferenceRuleNeededList ↔
        x ∈ (ctx.Scope s).InferenceRuleNeededList)) := by
  obtain ⟨_, hl⟩ := MakeMarkTargetInferenceRuleNeededIfNeeded_lists ctx S T
  have hnot : ∀ s, T ∉ (ctx.Scope s).InferenceRuleNeededList.erase T := fun s hm =>
    ((h.1 s).mem_erase_iff.mp hm).1 rfl
  have hT : ∀ s, T ∈ ((MakeMarkTargetInferenceRuleNeededIfNeeded ctx S T).Scope
      s).InferenceRuleNeededList ↔
      s = S ∧ MakeWouldTargetBenefitFromInferenceRule ctx T = true := by
    intro s
    rw [hl s]
    split_ifs with hc
    · simp [hc]
    · simp [hc, hnot s]
  have hx : ∀ s x, x ≠ T →
      (x ∈ ((MakeMarkTargetInferenceRuleNeededIfNeeded ctx S T).Scope
        s).InferenceRuleNeededList ↔ x ∈ (ctx.Scope s).InferenceRuleNeededList) := by
    intro s x hne
    rw [hl s]
    split_ifs with hc
    · simp [List.mem_erase_of_ne hne, hne]
    · simp [List.mem_erase_of_ne hne]
  refine ⟨⟨fun s => ?_, fun s1 s2 x h1 h2 => ?_⟩, ?_, hx⟩
  · rw [hl s]
    split_ifs with hc
    · rw [List.nodup_append]
      refine ⟨(h.1 s).erase T, List.nodup_singleton T, ?_⟩
      intro a ha hb
      rw [List.mem_singleton] at hb
      rw [hb] at ha
      exact hnot s ha
    · exact (h.1 s).erase T
  · by_cases e : x = T
    · rw [e] at h1 h2
      rw [((hT s1).mp h1).1, ((hT s2).mp h2).1]
    · exact h.2 s1 s2 x ((hx s1 x e).mp h1) ((hx s2 x e).mp h2)
  · intro s
    rw [hT s, MakeWouldTargetBenefitFromInferenceRule_iff]

/-! ## The drain: which targets reach the resolver -/

theorem MakeFindInferenceRulesForScope_skip (env : MAKE_ENV) (fuel : Nat) (ctx : MAKE_CONTEXT)
    (S : ScopeId) (T : TargetId) (rest : List TargetId)
    (hl : (ctx.Scope S).InferenceRuleNeededList = T :: rest)
    (hb : MakeWouldTargetBenefitFromInferenceRule ctx T = false) :
    MakeFindInferenceRulesForScope env (fuel + 1) ctx S =
      MakeFindInferenceRulesForScope env fuel
        (ctx.setScope S { ctx.Scope S with InferenceRuleNeededList := rest }) S := by
  have hb' : MakeWouldTargetBenefitFromInferenceRule
      (ctx.setScope S { ctx.Scope S with InferenceRuleNeededList := rest }) T = false := hb
  rw [MakeFindInferenceRulesForScope]
  simp only [hl, hb', Bool.not_false, if_true]

theorem MakeFindInferenceRulesForScope_resolve (env : MAKE_ENV) (fuel : Nat) (ctx : MAKE_CONTEXT)
    (S : ScopeId) (T : TargetId) (rest : List TargetId)
    (hl : (ctx.Scope S).InferenceRuleNeededList = T :: rest)
    (hb : MakeWouldTargetBenefitFromInferenceRule ctx T = true) :
    MakeFindInferenceRulesForScope env (fuel + 1) ctx S =
      match MakeFindInferenceRuleForTarget env fuel
          (ctx.setScope S { ctx.Scope S with InferenceRuleNeededList := rest }) S T with
      | none => none
      | some (false, ctx2) => some (false, ctx2)
      | some (true, ctx2) => MakeFindInferenceRulesForScope env fuel ctx2 S := by
  have hb' : MakeWouldTargetBenefitFromInferenceRule
      (ctx.setScope S { ctx.Scope S with InferenceRuleNeededList := rest }) T = true := hb
  rw [MakeFindInferenceRulesForScope]
  simp only [hl, hb', Bool.not_true, Bool.false_eq_true, if_false]
/-! ## The resolver and the rules of other targets -/

theorem RuleFrame_refl (X : TargetId) (ctx : MAKE_CONTEXT) : RuleFrame X ctx ctx :=
  ⟨le_refl _, rfl, rfl⟩

theorem RuleFrame_trans {X : TargetId} {a b c : MAKE_CONTEXT} (h1 : RuleFrame X a b)
    (h2 : RuleFrame X b c) : RuleFrame X a c :=
  ⟨le_trans h1.1 h2.1, h2.2.1.trans h1.2.1, h2.2.2.trans h1.2.2⟩

theorem MakeProbeBufferPrint_ruleFrame (X : TargetId) (ctx : MAKE_CONTEXT) (Ext : YORI_STRING) :
    RuleFrame X ctx (MakeProbeBufferPrint ctx Ext) :=
  ⟨le_refl _, rfl, rfl⟩

theorem MakeProbeBufferSetLength_ruleFrame (X : TargetId) (ctx : MAKE_CONTEXT) (n : Nat) :
    RuleFrame X ctx (MakeProbeBufferSetLength ctx n) :=
  ⟨le_refl _, rfl, rfl⟩

/-- Assigning a rule to `T` leaves the rule and the inference parent of every
other allocated target as they were. -/
theorem MakeAssignInferenceRuleToTarget_ruleFrame (env : MAKE_ENV) (ctx : MAKE_CONTEXT)
    (S : ScopeId) (T X : TargetId) (rule : RuleId) (name : YORI_STRING)
    (hX : X < ctx.AllocTarget) (hXT : X ≠ T) :
    RuleFrame X ctx (MakeAssignInferenceRuleToTarget env ctx S T rule name).2 := by
  have hlook : ctx.AllocTarget ≤ (MakeLookupOrCreateTarget env ctx S name).2.AllocTarget ∧
      (MakeLookupOrCreateTarget env ctx S name).2.Target X = ctx.Target X := by
    unfold MakeLookupOrCreateTarget
    split
    · exact ⟨le_refl _, rfl⟩
    · split
      · exact ⟨le_refl _, rfl⟩
      · refine ⟨Nat.le_succ _, ?_⟩
        simp [Function.update_apply, Nat.ne_of_lt hX]
  unfold MakeAssignInferenceRuleToTarget
  generalize MakeLookupOrCreateTarget env ctx S name = found at hlook
  obtain ⟨P, c1⟩ := found
  simp only at hlook ⊢
  cases P with
  | none =>
    refine ⟨hlook.1, ?_, ?_⟩ <;> simp [MAKE_CONTEXT.setTarget, Function.update_apply, hXT, hlook.2]
  | some P =>
    simp only
    by_cases e : X = P
    · subst e
      split <;> refine ⟨hlook.1, ?_, ?_⟩ <;>
        simp [MAKE_CONTEXT.setTarget, MakeReferenceInferenceRule, MAKE_CONTEXT.setRule,
          MakeReferenceScope, MAKE_CONTEXT.setScope, Function.update_apply, hXT, hlook.2]
    · split <;> refine ⟨hlook.1, ?_, ?_⟩ <;>
        simp [MAKE_CONTEXT.setTarget, MakeReferenceInferenceRule, MAKE_CONTEXT.setRule,
          MakeReferenceScope, MAKE_CONTEXT.setScope, Function.update_apply, hXT, e, hlook.2]

theorem MakeAssignInferenceRuleToTarget_ruleFrame_eq (env : MAKE_ENV) (ctx ctx' : MAKE_CONTEXT)
    (S : ScopeId) (T X : TargetId) (rule : RuleId) (name : YORI_STRING) (b : Bool)
    (h : MakeAssignInferenceRuleToTarget env ctx S T rule name = (b, ctx'))
    (hX : X < ctx.AllocTarget) (hXT : X ≠ T) : RuleFrame X ctx ctx' := by
  have := MakeAssignInferenceRuleToTarget_ruleFrame env ctx S T X rule name hX hXT
  rw [h] at this
  exact this


/-- After a successful assignment the target carries the rule. -/
theorem MakeAssignInferenceRuleToTarget_rule (env : MAKE_ENV) (ctx ctx' : MAKE_CONTEXT)
    (S : ScopeId) (T : TargetId) (rule : RuleId) (name : YORI_STRING)
    (h : MakeAssignInferenceRuleToTarget env ctx S T rule name = (true, ctx')) :
    (ctx'.Target T).InferenceRule = some rule := by
  unfold MakeAssignInferenceRuleToTarget at h
  generalize MakeLookupOrCreateTarget env ctx S name = found at h
  obtain ⟨P, c1⟩ := found
  cases P with
  | none => simp at h
  | some P =>
    simp only at h
    split at h
    · simp only [Prod.mk.injEq, true_and] at h
      rw [← h]
      simp [MAKE_CONTEXT.setTarget, MakeReferenceScope, MAKE_CONTEXT.setScope]
    · simp only [Prod.mk.injEq, true_and] at h
      rw [← h]
      simp [MAKE_CONTEXT.setTarget]

theorem MakeFindInferenceRuleFirstPass_ruleFrame (env : MAKE_ENV) (S : ScopeId) (T X : TargetId)
    (TargetExt : YORI_STRING) (hXT : X ≠ T) :
    ∀ (fuel : Nat) (ctx : MAKE_CONTEXT) (Rule : Option RuleId) (Found : Bool)
      (r : Bool × Bool × MAKE_CONTEXT), X < ctx.AllocTarget →
      MakeFindInferenceRuleFirstPass env S T TargetExt fuel ctx Rule Found = some r →
      RuleFrame X ctx r.2.2 := by
  intro fuel
  induction fuel with
  | zero => intro ctx Rule Found r _ h; simp [MakeFindInferenceRuleFirstPass] at h
  | succ fuel ih =>
    intro ctx Rule Found r hX h
    cases Rule with
    | none =>
      rw [MakeFindInferenceRuleFirstPass, Option.some.injEq] at h
      rw [← h]
      exact RuleFrame_refl X ctx
    | some R =>
      rw [MakeFindInferenceRuleFirstPass] at h
      dsimp only at h
      split at h
      · have ha := MakeAssignInferenceRuleToTarget_ruleFrame env
          (MakeProbeBufferSetLength (MakeProbeBufferPrint ctx (ctx.InferenceRule R).SourceExtension)
            ((MakeProbeBufferPrint ctx (ctx.InferenceRule R).SourceExtension).FileToProbe.LengthInChars +
              ((MakeProbeBufferPrint ctx (ctx.InferenceRule R).SourceExtension).InferenceRule
                R).SourceExtension.length)) S T X R
          (MakeProbeBufferString (MakeProbeBufferSetLength
            (MakeProbeBufferPrint ctx (ctx.InferenceRule R).SourceExtension)
            ((MakeProbeBufferPrint ctx (ctx.InferenceRule R).SourceExtension).FileToProbe.LengthInChars +
              ((MakeProbeBufferPrint ctx (ctx.InferenceRule R).SourceExtension).InferenceRule
                R).SourceExtension.length))) hX hXT
        split at h
        · rename_i ctx3 heq
          rw [Option.some.injEq] at h
          rw [heq] at ha
          rw [← h]
          exact ha
        · rename_i ctx3 heq
          rw [Option.some.injEq] at h
          rw [heq] at ha
          rw [← h]
          exact ha
      · split at h
        · cases h
        · exact ih (MakeProbeBufferPrint ctx _) _ _ _ hX h

theorem MakeFindInferenceRuleFirstPass_ruleFrame_eq (env : MAKE_ENV) (S : ScopeId)
    (T X : TargetId) (TargetExt : YORI_STRING) (fuel : Nat) (ctx ctx3 : MAKE_CONTEXT)
    (Rule : Option RuleId) (Found b f : Bool)
    (h : MakeFindInferenceRuleFirstPass env S T TargetExt fuel ctx Rule Found = some (b, f, ctx3))
    (hX : X < ctx.AllocTarget) (hXT : X ≠ T) : RuleFrame X ctx ctx3 :=
  MakeFindInferenceRuleFirstPass_ruleFrame env S T X TargetExt hXT fuel ctx Rule Found _ hX h

theorem RuleKept_of_frame {X : TargetId} {a b : MAKE_CONTEXT} (h : RuleFrame X a b) :
    RuleKept X a b := ⟨h.1, h.2.1⟩

theorem RuleKept_trans {X : TargetId} {a b c : MAKE_CONTEXT} (h1 : RuleKept X a b)
    (h2 : RuleKept X b c) : RuleKept X a c :=
  ⟨le_trans h1.1 h2.1, h2.2.trans h1.2⟩

/-- A failed assignment changes no inference rule and allocates no target. -/
theorem MakeAssignInferenceRuleToTarget_failed (env : MAKE_ENV) (ctx ctx' : MAKE_CONTEXT)
    (S : ScopeId) (T : TargetId) (rule : RuleId) (name : YORI_STRING)
    (h : MakeAssignInferenceRuleToTarget env ctx S T rule name = (false, ctx')) :
    ∀ X, RuleKept X ctx ctx' := by
  intro X
  have hlook : (MakeLookupOrCreateTarget env ctx S name).1 = none →
      (MakeLookupOrCreateTarget env ctx S name).2 = ctx := by
    unfold MakeLookupOrCreateTarget
    split
    · intro _; rfl
    · split
      · intro h; cases h
      · intro h; cases h
  unfold MakeAssignInferenceRuleToTarget at h
  generalize MakeLookupOrCreateTarget env ctx S name = found at h hlook
  obtain ⟨P, c1⟩ := found
  cases P with
  | none =>
    simp only [Prod.mk.injEq, true_and] at h
    have hc : c1 = ctx := hlook rfl
    rw [← h, hc]
    refine ⟨le_refl _, ?_⟩
    by_cases e : X = T
    · subst e; simp [MAKE_CONTEXT.setTarget]
    · simp [MAKE_CONTEXT.setTarget, Function.update_apply, e]
  | some P =>
    simp only at h
    split at h <;> simp at h

theorem MakeFindInferenceRuleNested_ruleFrame (env : MAKE_ENV) (S : ScopeId) (T X : TargetId)
    (Rule : RuleId) (hXT : X ≠ T) :
    ∀ (fuel : Nat) (ctx : MAKE_CONTEXT) (Nested : Option RuleId) (r : Bool × MAKE_CONTEXT),
      X < ctx.AllocTarget → T < ctx.AllocTarget →
      MakeFindInferenceRuleNested env S T Rule fuel ctx Nested = some r →
      RuleKept X ctx r.2 ∨
        ((r.2.Target T).InferenceRuleParentTarget = some X ∧
          (r.2.Target T).InferenceRule.isSome = true) := by
  intro fuel
  induction fuel with
  | zero => intro ctx Nested r _ _ h; simp [MakeFindInferenceRuleNested] at h
  | succ fuel ih =>
    intro ctx Nested r hX hT h
    cases Nested with
    | none =>
      rw [MakeFindInferenceRuleNested, Option.some.injEq] at h
      rw [← h]
      exact Or.inl ⟨le_refl _, rfl⟩
    | some N =>
      rw [MakeFindInferenceRuleNested] at h
      dsimp only at h
      split at h
      · split at h
        · rename_i ctx4 heq
          rw [Option.some.injEq] at h
          have ha := MakeAssignInferenceRuleToTarget_failed env _ ctx4 S T Rule _ heq X
          rw [← h]
          exact Or.inl ha
        · rename_i ctx4 heq
          have ha := MakeAssignInferenceRuleToTarget_ruleFrame_eq env _ ctx4 S T X Rule _ _ heq
            hX hXT
          have hrule := MakeAssignInferenceRuleToTarget_rule env _ ctx4 S T Rule _ heq
          have ha' : RuleFrame X ctx ctx4 := ha
          split at h
          · rw [Option.some.injEq] at h
            rw [← h]
            exact Or.inl ⟨ha'.1, ha'.2.1⟩
          · rename_i P hP
            have hX7 : X < ctx4.AllocTarget := lt_of_lt_of_le hX ha'.1
            have hT7 : T < ctx4.AllocTarget := lt_of_lt_of_le hT ha'.1
            have hP4 : (ctx4.Target T).InferenceRuleParentTarget = some P := hP
            by_cases e : P = X
            · split at h
              · rename_i ctx8 heq8
                rw [Option.some.injEq] at h
                have hb := MakeAssignInferenceRuleToTarget_failed env _ ctx8 S P N _ heq8 X
                rw [← h]
                exact Or.inl ⟨le_trans ha'.1 hb.1, hb.2.trans ha'.2.1⟩
              · rename_i ctx8 heq8
                rw [Option.some.injEq] at h
                have hb := MakeAssignInferenceRuleToTarget_ruleFrame_eq env _ ctx8 S P T N _ _ heq8
                  hT7 (fun e2 => hXT (e.symm.trans e2.symm))
                rw [← h]
                refine Or.inr ⟨?_, ?_⟩
                · rw [hb.2.2, ← e]
                  exact hP4
                · rw [hb.2.1]
                  show (ctx4.Target T).InferenceRule.isSome = true
                  rw [hrule]
                  rfl
            · split at h
              · rename_i ctx8 heq8
                rw [Option.some.injEq] at h
                have hb := MakeAssignInferenceRuleToTarget_ruleFrame_eq env _ ctx8 S P X N _ _ heq8
                  hX7 (fun e2 => e e2.symm)
                rw [← h]
                exact Or.inl ⟨le_trans ha'.1 hb.1, hb.2.1.trans ha'.2.1⟩
              · rename_i ctx8 heq8
                rw [Option.some.injEq] at h
                have hb := MakeAssignInferenceRuleToTarget_ruleFrame_eq env _ ctx8 S P X N _ _ heq8
                  hX7 (fun e2 => e e2.symm)
                rw [← h]
                exact Or.inl ⟨le_trans ha'.1 hb.1, hb.2.1.trans ha'.2.1⟩
      · split at h
        · cases h
        · exact ih (MakeProbeBufferPrint ctx _) _ _ hX hT h

theorem MakeFindInferenceRuleSecondPass_ruleFrame (env : MAKE_ENV) (S : ScopeId) (T X : TargetId)
    (TargetExt : YORI_STRING) (hXT : X ≠ T) :
    ∀ (fuel : Nat) (ctx : MAKE_CONTEXT) (Rule : Option RuleId) (r : Bool × MAKE_CONTEXT),
      X < ctx.AllocTarget → T < ctx.AllocTarget →
      MakeFindInferenceRuleSecondPass env S T TargetExt fuel ctx Rule = some r →
      RuleKept X ctx r.2 ∨
        ((r.2.Target T).InferenceRuleParentTarget = some X ∧
          (r.2.Target T).InferenceRule.isSome = true) := by
  intro fuel
  induction fuel with
  | zero => intro ctx Rule r _ _ h; simp [MakeFindInferenceRuleSecondPass] at h
  | succ fuel ih =>
    intro ctx Rule r hX hT h
    cases Rule with
    | none =>
      rw [MakeFindInferenceRuleSecondPass, Option.some.injEq] at h
      rw [← h]
      exact Or.inl ⟨le_refl _, rfl⟩
    | some R =>
      rw [MakeFindInferenceRuleSecondPass] at h
      split at h
      · cases h
      · rename_i NestedRule _
        split at h
        · cases h
        · rename_i ctx1 h1
          rw [Option.some.injEq] at h
          rw [← h]
          exact MakeFindInferenceRuleNested_ruleFrame env S T X R hXT fuel ctx NestedRule _ hX hT h1
        · rename_i ctx1 h1
          have f1 := MakeFindInferenceRuleNested_ruleFrame env S T X R hXT fuel ctx NestedRule _
            hX hT h1
          split at h
          · rw [Option.some.injEq] at h
            rw [← h]
            exact f1
          · rename_i hnone
            have k1 : RuleKept X ctx ctx1 := by
              rcases f1 with k | ⟨_, hs⟩
              · exact k
              · exact absurd hs hnone
            split at h
            · cases h
            · rcases ih _ _ _ (lt_of_lt_of_le hX k1.1) (lt_of_lt_of_le hT k1.1) h with k | hr
              · exact Or.inl (RuleKept_trans k1 k)
              · exact Or.inr hr

/-- `MakeFindInferenceRuleForTarget` on `T` changes the inference rule of
another allocated target `X` only when it leaves `X` as the inference parent
of `T`, with a rule on `T`. -/
theorem MakeFindInferenceRuleForTarget_ruleFrame (env : MAKE_ENV) (fuel : Nat)
    (ctx : MAKE_CONTEXT) (S : ScopeId) (T X : TargetId) (r : Bool × MAKE_CONTEXT)
    (hX : X < ctx.AllocTarget) (hT : T < ctx.AllocTarget) (hXT : X ≠ T)
    (h : MakeFindInferenceRuleForTarget env fuel ctx S T = some r) :
    RuleKept X ctx r.2 ∨
      ((r.2.Target T).InferenceRuleParentTarget = some X ∧
        (r.2.Target T).InferenceRule.isSome = true) := by
  unfold MakeFindInferenceRuleForTarget at h
  split at h
  · rw [Option.some.injEq] at h
    rw [← h]
    exact Or.inl ⟨le_refl _, rfl⟩
  · split at h
    · rw [Option.some.injEq] at h
      rw [← h]
      exact Or.inl ⟨le_refl _, rfl⟩
    · split at h
      · cases h
      · split at h
        · cases h
        · split at h
          · rw [Option.some.injEq] at h
            rw [← h]
            exact Or.inl ⟨le_refl _, rfl⟩
          · dsimp only at h
            unfold MakeFindInferenceRulePasses at h
            split at h
            · cases h
            · split at h
              · cases h
              · rename_i ctx3 h3
                rw [Option.some.injEq] at h
                rw [← h]
                have f3 := MakeFindInferenceRuleFirstPass_ruleFrame_eq env S T X _ fuel _ ctx3 _ _ _ _
                  h3 hX hXT
                exact Or.inl ⟨f3.1, f3.2.1⟩
              · rename_i ctx3 h3
                rw [Option.some.injEq] at h
                rw [← h]
                have f3 := MakeFindInferenceRuleFirstPass_ruleFrame_eq env S T X _ fuel _ ctx3 _ _ _ _
                  h3 hX hXT
                exact Or.inl ⟨f3.1, f3.2.1⟩
              · rename_i ctx3 h3
                have f3 := MakeFindInferenceRuleFirstPass_ruleFrame_eq env S T X _ fuel _ ctx3 _ _ _ _
                  h3 hX hXT
                split at h
                · cases h
                · rcases MakeFindInferenceRuleSecondPass_ruleFrame env S T X _ hXT fuel _ _ _
                    (lt_of_lt_of_le hX f3.1) (lt_of_lt_of_le hT f3.1) h with k | hr
                  · exact Or.inl ⟨le_trans f3.1 k.1, k.2.trans f3.2.1⟩
                  · exact Or.inr hr

/-! ## Pending-list bookkeeping -/

/-- C36, as the code has it.  With the list hooks in a consistent state,
`MakeMarkTargetInferenceRuleNeededIfNeeded` keeps them so (no pending list
holds a target twice, no target is on two pending lists), leaves the target
on the list of the given scope exactly when its recipe is empty and it has no
inference rule, on no other list, and moves no other target.
`MakeFindInferenceRulesForScope` takes the first pending target off the list;
when its recipe has text or it has a rule it goes on with the rest, nothing
else being changed, so the resolver is not called for it; when its recipe is
empty and it has no rule, whatever `ExplicitRecipeFound` says, it calls
`MakeFindInferenceRuleForTarget` for it.  A call of the resolver for `T`
changes the inference rule of another allocated target `X` only by leaving `X`
as the inference parent of `T`: this is how a skipped target can still get a
rule during the drain. -/
theorem MakeFindInferenceRulesForScope_bookkeeping (env : MAKE_ENV) (ctx : MAKE_CONTEXT)
    (S : ScopeId) (T : TargetId) :
    (PendingLinked ctx →
      PendingLinked (MakeMarkTargetInferenceRuleNeededIfNeeded ctx S T) ∧
      (∀ s, T ∈ ((MakeMarkTargetInferenceRuleNeededIfNeeded ctx S T).Scope
          s).InferenceRuleNeededList ↔
        s = S ∧ (ctx.Target T).Recipe = [] ∧ (ctx.Target T).InferenceRule = none) ∧
      (∀ s x, x ≠ T →
        (x ∈ ((MakeMarkTargetInferenceRuleNeededIfNeeded ctx S T).Scope
            s).InferenceRuleNeededList ↔
          x ∈ (ctx.Scope s).InferenceRuleNeededList)) ∧
      (MakeMarkTargetInferenceRuleNeededIfNeeded ctx S T).Target = ctx.Target) ∧
    (∀ fuel rest, (ctx.Scope S).InferenceRuleNeededList = T :: rest →
      (¬ ((ctx.Target T).Recipe = [] ∧ (ctx.Target T).InferenceRule = none) →
        MakeFindInferenceRulesForScope env (fuel + 1) ctx S =
          MakeFindInferenceRulesForScope env fuel
            (ctx.setScope S { ctx.Scope S with InferenceRuleNeededList := rest }) S) ∧
      ((ctx.Target T).Recipe = [] → (ctx.Target T).InferenceRule = none →
        MakeFindInferenceRulesForScope env (fuel + 1) ctx S =
          match MakeFindInferenceRuleForTarget env fuel
              (ctx.setScope S { ctx.Scope S with InferenceRuleNeededList := rest }) S T with
          | none => none
          | some (false, ctx2) => some (false, ctx2)
          | some (true, ctx2) => MakeFindInferenceRulesForScope env fuel ctx2 S)) ∧
    (∀ fuel X r, X < ctx.AllocTarget → T < ctx.AllocTarget → X ≠ T →
      MakeFindInferenceRuleForTarget env fuel ctx S T = some r →
      (r.2.Target X).InferenceRule = (ctx.Target X).InferenceRule ∨
        ((r.2.Target T).InferenceRuleParentTarget = some X ∧
          (r.2.Target T).InferenceRule.isSome = true)) := by
  refine ⟨fun h => ?_, fun fuel rest hl => ⟨fun hn => ?_, fun h1 h2 => ?_⟩,
    fun fuel X r hX hT hXT h => ?_⟩
  · obtain ⟨a, b, c⟩ := MakeMarkTargetInferenceRuleNeededIfNeeded_linked ctx S T h
    exact ⟨a, b, c, (MakeMarkTargetInferenceRuleNeededIfNeeded_lists ctx S T).1⟩
  · refine MakeFindInferenceRulesForScope_skip env fuel ctx S T rest hl ?_
    cases hb : MakeWouldTargetBenefitFromInferenceRule ctx T with
    | false => rfl
    | true => exact absurd ((MakeWouldTargetBenefitFromInferenceRule_iff ctx T).mp hb) hn
  · exact MakeFindInferenceRulesForScope_resolve env fuel ctx S T rest hl
      ((MakeWouldTargetBenefitFromInferenceRule_iff ctx T).mpr ⟨h1, h2⟩)
  · rcases MakeFindInferenceRuleForTarget_ruleFrame env fuel ctx S T X r hX hT hXT h with k | k
    · exact Or.inl k.2
    · exact Or.inr k

/-- Counterexample to C36: in the scenario, `a.c` is on the pending list with
recipe text and without a rule.  The drain skips it, then resolves `a.obj` at
depth 2 through the file `a.y`, which makes `a.c` the inference parent of
`a.obj` and assigns the rule `.y` to `.c` to `a.c`: after the drain `a.c` has
an inference rule. -/
theorem MakeFindInferenceRulesForScope_bookkeeping_counterexample :
    (ScenarioPending.Scope 0).InferenceRuleNeededList = [3, 2, 4] ∧
    (ScenarioPending.Target 3).Key = "a.c".toList ∧
    (ScenarioPending.Target 3).Recipe = "gen a.c".toList ++ [NewLine] ∧
    (ScenarioPending.Target 3).InferenceRule = none ∧
    (MakeFindInferenceRulesForScope ScenarioPendingEnv 12 ScenarioPending 0).map
      (fun x => (x.1, (x.2.Target 3).InferenceRule, (x.2.Target 3).Recipe,
        (x.2.Target 2).InferenceRule, (x.2.Target 2).InferenceRuleParentTarget,
        (x.2.Scope 0).InferenceRuleNeededList)) =
      some (true, some 0, "gen a.c".toList ++ [NewLine], some 1, some 3, []) :=
  ⟨rfl, rfl, rfl, rfl, by rfl⟩

/-- Witness of C36 on the scenario: `a.c`, which has recipe text, is skipped;
`b.obj`, which has `ExplicitRecipeFound` and no recipe text, is handed to the
resolver, which assigns it the rule `.c` to `.obj`. -/
theorem MakeFindInferenceRulesForScope_bookkeeping_witness :
    MakeFindInferenceRulesForScope ScenarioPendingEnv 12 ScenarioPending 0 =
      MakeFindInferenceRulesForScope ScenarioPendingEnv 11
        (ScenarioPending.setScope 0
          { ScenarioPending.Scope 0 with InferenceRuleNeededList := [2, 4] }) 0 ∧
    ((ScenarioPending.Target 4).ExplicitRecipeFound = true ∧
      MakeFindInferenceRulesForScope ScenarioPendingEnv 12
        (ScenarioPending.setScope 0
          { ScenarioPending.Scope 0 with InferenceRuleNeededList := [4] }) 0 =
        (match MakeFindInferenceRuleForTarget ScenarioPendingEnv 11
            ((ScenarioPending.setScope 0
              { ScenarioPending.Scope 0 with InferenceRuleNeededList := [4] }).setScope 0
              { (ScenarioPending.setScope 0
                  { ScenarioPending.Scope 0 with InferenceRuleNeededList := [4] }).Scope 0 with
                InferenceRuleNeededList := [] }) 0 4 with
          | none => none
          | some (false, ctx2) => some (false, ctx2)
          | some (true, ctx2) => MakeFindInferenceRulesForScope ScenarioPendingEnv 11 ctx2 0) ∧
      (MakeFindInferenceRulesForScope ScenarioPendingEnv 12
        (ScenarioPending.setScope 0
          { ScenarioPending.Scope 0 with InferenceRuleNeededList := [4] }) 0).map
        (fun x => (x.1, (x.2.Target 4).InferenceRule)) = some (true, some 1)) :=
  ⟨((MakeFindInferenceRulesForScope_bookkeeping ScenarioPendingEnv ScenarioPending 0 3).2.1 11
      [2, 4] rfl).1 (by decide),
    rfl,
    ((MakeFindInferenceRulesForScope_bookkeeping ScenarioPendingEnv
      (ScenarioPending.setScope 0
        { ScenarioPending.Scope 0 with InferenceRuleNeededList := [4] }) 0 4).2.1 11
      [] rfl).2 rfl rfl,
    by rfl⟩

/-! ## The walk with a log: the log changes nothing -/

theorem MakeDetermineDependenciesForTargetLoopLog_erase
    (recurseLog : MAKE_CONTEXT → TargetId → Option ((Bool × MAKE_CONTEXT) × List TargetId))
    (recurse : MAKE_CONTEXT → TargetId → Option (Bool × MAKE_CONTEXT))
    (hrec : ∀ c p, (recurseLog c p).map Prod.fst = recurse c p) :
    ∀ (fuel : Nat) (ctx : MAKE_CONTEXT) (t : TargetId) (i : Nat) (S : Bool),
      (MakeDetermineDependenciesForTargetLoopLog recurseLog fuel ctx t i S).map Prod.fst =
        MakeDetermineDependenciesForTargetLoop recurse fuel ctx t i S := by
  intro fuel
  induction fuel with
  | zero => intro ctx t i S; rfl
  | succ fuel ih =>
    intro ctx t i S
    rw [MakeDetermineDependenciesForTargetLoopLog, MakeDetermineDependenciesForTargetLoop]
    cases hget : (ctx.Target t).ParentDependents[i]? with
    | none => rfl
    | some d =>
      simp only [MakeDetermineDependenciesPopulateParent_fst, Bool.not_true, Bool.false_eq_true,
        if_false]
      have h1 := hrec (MakeDetermineDependenciesPopulateParent ctx d.Parent).2 d.Parent
      cases hr : recurseLog (MakeDetermineDependenciesPopulateParent ctx d.Parent).2 d.Parent with
      | none =>
        rw [hr] at h1
        rw [← h1]
        rfl
      | some r =>
        obtain ⟨⟨ok, ctx2⟩, log⟩ := r
        rw [hr] at h1
        rw [← h1]
        cases ok with
        | false => rfl
        | true =>
          simp only [Option.map_some']
          have h2 := ih (MakeDetermineDependenciesAccountParent ctx2 t d S).2 t (i + 1)
            (MakeDetermineDependenciesAccountParent ctx2 t d S).1
          rw [← h2]
          cases MakeDetermineDependenciesForTargetLoopLog recurseLog fuel
            (MakeDetermineDependenciesAccountParent ctx2 t d S).2 t (i + 1)
            (MakeDetermineDependenciesAccountParent ctx2 t d S).1 with
          | none => rfl
          | some r2 => rfl

/-- Dropping the log of `MakeDetermineDependenciesForTargetLog` gives
`MakeDetermineDependenciesForTarget`. -/
theorem MakeDetermineDependenciesForTargetLog_erase (env : MAKE_ENV) :
    ∀ (fuel : Nat) (ctx : MAKE_CONTEXT) (t : TargetId),
      (MakeDetermineDependenciesForTargetLog env fuel ctx t).map Prod.fst =
        MakeDetermineDependenciesForTarget env fuel ctx t := by
  intro fuel
  induction fuel with
  | zero => intro ctx t; rfl
  | succ fuel ih =>
    intro ctx t
    rw [MakeDetermineDependenciesForTargetLog, MakeDetermineDependenciesForTarget]
    by_cases hE : (ctx.Target t).DependenciesEvaluated = true
    · rw [if_pos hE, if_pos hE]
      rfl
    · rw [if_neg hE, if_neg hE]
      have hl := MakeDetermineDependenciesForTargetLoopLog_erase
        (fun c p => MakeDetermineDependenciesForTargetLog env fuel c p)
        (fun c p => MakeDetermineDependenciesForTarget env fuel c p) (fun c p => ih c p)
        (fuel + 1) ctx t 0 false
      rw [← hl]
      cases MakeDetermineDependenciesForTargetLoopLog
          (fun c p => MakeDetermineDependenciesForTargetLog env fuel c p) (fuel + 1) ctx t 0
          false with
      | none => rfl
      | some r =>
        obtain ⟨⟨ok, S, ctx1⟩, log⟩ := r
        cases ok with
        | false => rfl
        | true =>
          simp only [Option.map_some']
          generalize MakeMarkTargetForRebuild env
            (ctx1.setTarget t { ctx1.Target t with DependenciesEvaluated := true }) t = m
          have e1 : ((ctx1.setTarget t
              { ctx1.Target t with DependenciesEvaluated := true }).Target t).FileExists =
              (ctx1.Target t).FileExists := by simp [MAKE_CONTEXT.setTarget]
          have e2 : ((ctx1.setTarget t
              { ctx1.Target t with DependenciesEvaluated := true }).Target t).RebuildRequired =
              (ctx1.Target t).RebuildRequired := by simp [MAKE_CONTEXT.setTarget]
          rw [e1, e2]
          rcases m with ⟨_ | _, c⟩ <;> cases (ctx1.Target t).FileExists <;> cases S <;>
            cases (ctx1.Target t).RebuildRequired <;> simp


/-! ## The walk with a log: each target is evaluated once -/

theorem MakeMarkTargetForRebuild_flags (env : MAKE_ENV) (ctx : MAKE_CONTEXT) (t : TargetId) :
    ∀ x, ((MakeMarkTargetForRebuild env ctx t).2.Target x).DependenciesEvaluated =
      (ctx.Target x).DependenciesEvaluated := by
  intro x
  by_cases e : x = t
  · subst e
    unfold MakeMarkTargetForRebuild
    split
    · rfl
    · split
      · rfl
      · obtain ⟨cmds, hg⟩ := MakeGenerateExecScriptForTarget_frame env ctx x
        cases hgen : MakeGenerateExecScriptForTarget env ctx x with
        | mk ok ctx1 =>
          rw [hgen] at hg
          simp only at hg
          subst hg
          cases ok with
          | false => simp [MAKE_CONTEXT.setTarget]
          | true =>
            simp only
            split <;> simp [MAKE_CONTEXT.setTarget]
  · rw [(MakeMarkTargetForRebuild_lists env ctx t x).2.2 e]

theorem MakeDetermineDependenciesAccountParent_rankOK {rank : TargetId → Nat}
    {ctx : MAKE_CONTEXT} (h : RankOK rank ctx) (t : TargetId) (d : MAKE_TARGET_DEPENDENCY)
    (S : Bool) : RankOK rank (MakeDetermineDependenciesAccountParent ctx t d S).2 := by
  obtain ⟨h1, n, h2⟩ := MakeDetermineDependenciesAccountParent_frame ctx t d S
  refine RankOK_of_lists h (fun x => ?_) (fun x => ?_)
  · by_cases e : x = t
    · subst e; rw [h2]
    · rw [h1 x e]
  · by_cases e : x = t
    · subst e; rw [h2]
    · rw [h1 x e]

/-- The logged walk of an unevaluated target after its prerequisite loop has
succeeded. -/
theorem MakeDetermineDependenciesForTargetLog_after_loop (env : MAKE_ENV) (fuel : Nat)
    (ctx : MAKE_CONTEXT) (t : TargetId) (Sr : Bool) (ctx1 : MAKE_CONTEXT) (log : List TargetId)
    (hE : (ctx.Target t).DependenciesEvaluated = false)
    (hl : MakeDetermineDependenciesForTargetLoopLog
      (fun c p => MakeDetermineDependenciesForTargetLog env fuel c p) (fuel + 1) ctx t 0 false =
      some ((true, Sr, ctx1), log)) :
    MakeDetermineDependenciesForTargetLog env (fuel + 1) ctx t =
      if ((!(ctx1.Target t).FileExists || Sr) && !(ctx1.Target t).RebuildRequired) = true then
        some (MakeMarkTargetForRebuild env
          (ctx1.setTarget t { ctx1.Target t with DependenciesEvaluated := true }) t, t :: log)
      else
        some ((true, ctx1.setTarget t { ctx1.Target t with DependenciesEvaluated := true }),
          t :: log) := by
  rw [MakeDetermineDependenciesForTargetLog, if_neg (by simp [hE]), hl]
  simp only
  generalize MakeMarkTargetForRebuild env
    (ctx1.setTarget t { ctx1.Target t with DependenciesEvaluated := true }) t = m
  have e1 : ((ctx1.setTarget t
      { ctx1.Target t with DependenciesEvaluated := true }).Target t).FileExists =
      (ctx1.Target t).FileExists := by simp [MAKE_CONTEXT.setTarget]
  have e2 : ((ctx1.setTarget t
      { ctx1.Target t with DependenciesEvaluated := true }).Target t).RebuildRequired =
      (ctx1.Target t).RebuildRequired := by simp [MAKE_CONTEXT.setTarget]
  rw [e1, e2]
  rcases m with ⟨_ | _, c⟩ <;> cases (ctx1.Target t).FileExists <;> cases Sr <;>
    cases (ctx1.Target t).RebuildRequired <;> simp

theorem MakeDetermineDependenciesForTargetLog_loop_failed (env : MAKE_ENV) (fuel : Nat)
    (ctx : MAKE_CONTEXT) (t : TargetId) (Sr : Bool) (ctx1 : MAKE_CONTEXT) (log : List TargetId)
    (hE : (ctx.Target t).DependenciesEvaluated = false)
    (hl : MakeDetermineDependenciesForTargetLoopLog
      (fun c p => MakeDetermineDependenciesForTargetLog env fuel c p) (fuel + 1) ctx t 0 false =
      some ((false, Sr, ctx1), log)) :
    MakeDetermineDependenciesForTargetLog env (fuel + 1) ctx t =
      some ((false, ctx1), t :: log) := by
  rw [MakeDetermineDependenciesForTargetLog, if_neg (by simp [hE]), hl]

/-- The prerequisite loop of `t` with a log: no target is logged twice, every
logged target was unevaluated and is below `t`, and after a successful loop
every logged target is evaluated. -/
theorem MakeDetermineDependenciesForTargetLoopLog_once {rank : TargetId → Nat}
    (recurse : MAKE_CONTEXT → TargetId → Option ((Bool × MAKE_CONTEXT) × List TargetId))
    (hrec : ∀ ctx p res log, RankOK rank ctx → recurse ctx p = some (res, log) →
      LogPost rank p ctx res log) (t : TargetId) :
    ∀ (fuel : Nat) (ctx : MAKE_CONTEXT) (i : Nat) (S : Bool) (res : Bool × Bool × MAKE_CONTEXT)
      (log : List TargetId), RankOK rank ctx →
      MakeDetermineDependenciesForTargetLoopLog recurse fuel ctx t i S = some (res, log) →
      log.Nodup ∧
      (∀ x ∈ log, (ctx.Target x).DependenciesEvaluated = false ∧ rank x < rank t) ∧
      (res.1 = true → RankOK rank res.2.2 ∧ EvaluatedKept ctx res.2.2 ∧
        ∀ x ∈ log, (res.2.2.Target x).DependenciesEvaluated = true) := by
  intro fuel
  induction fuel with
  | zero => intro ctx i S res log _ h; simp [MakeDetermineDependenciesForTargetLoopLog] at h
  | succ fuel ih =>
    intro ctx i S res log hR h
    rw [MakeDetermineDependenciesForTargetLoopLog] at h
    cases hget : (ctx.Target t).ParentDependents[i]? with
    | none =>
      rw [hget] at h
      simp only [Option.some.injEq, Prod.mk.injEq] at h
      obtain ⟨h1, h2⟩ := h
      rw [← h1, ← h2]
      exact ⟨List.nodup_nil, fun x hx => (by cases hx), fun _ => ⟨hR, fun _ hx => hx,
        fun x hx => (by cases hx)⟩⟩
    | some d =>
      rw [hget] at h
      simp only [MakeDetermineDependenciesPopulateParent_fst, Bool.not_true, Bool.false_eq_true,
        if_false] at h
      have hd : d ∈ (ctx.Target t).ParentDependents := List.getElem?_mem hget
      have hrp : rank d.Parent < rank t := hR.1 t d hd
      have hRs := (MakeDetermineDependenciesPopulateParent_frame hR d.Parent).1
      have hfs := fun x => (MakeDetermineDependenciesPopulateParent_flags ctx d.Parent x).1
      cases hr : recurse (MakeDetermineDependenciesPopulateParent ctx d.Parent).2 d.Parent with
      | none => rw [hr] at h; cases h
      | some r =>
        obtain ⟨⟨ok, ctx2⟩, lp⟩ := r
        rw [hr] at h
        obtain ⟨hp1, hp2, hp3⟩ := hrec _ _ _ _ hRs hr
        have fresh1 : ∀ x ∈ lp, (ctx.Target x).DependenciesEvaluated = false ∧
            rank x < rank t := fun x hx =>
          ⟨(hfs x).symm.trans (hp2 x hx).1, lt_of_le_of_lt (hp2 x hx).2 hrp⟩
        cases ok with
        | false =>
          simp only [Option.some.injEq, Prod.mk.injEq] at h
          obtain ⟨h1, h2⟩ := h
          rw [← h1, ← h2]
          exact ⟨hp1, fresh1, fun hf => by cases hf⟩
        | true =>
          simp only at h
          obtain ⟨hR2, hk2, hdone2⟩ := hp3 rfl
          have hR3 := MakeDetermineDependenciesAccountParent_rankOK hR2 t d S
          have hf3 := fun x => (MakeDetermineDependenciesAccountParent_flags ctx2 t d S x).1
          cases hrest : MakeDetermineDependenciesForTargetLoopLog recurse fuel
              (MakeDetermineDependenciesAccountParent ctx2 t d S).2 t (i + 1)
              (MakeDetermineDependenciesAccountParent ctx2 t d S).1 with
          | none => rw [hrest] at h; cases h
          | some r2 =>
            obtain ⟨res2, l2⟩ := r2
            rw [hrest] at h
            simp only [Option.some.injEq, Prod.mk.injEq] at h
            obtain ⟨h1, h2⟩ := h
            obtain ⟨hn2, hfresh2, hdoneR⟩ := ih _ _ _ _ _ hR3 hrest
            have hold : ∀ x, (ctx.Target x).DependenciesEvaluated = true →
                ((MakeDetermineDependenciesAccountParent ctx2 t d S).2.Target
                  x).DependenciesEvaluated = true := fun x hx =>
              (hf3 x).trans (hk2 x ((hfs x).trans hx))
            rw [← h1, ← h2]
            refine ⟨?_, ?_, ?_⟩
            · rw [List.nodup_append]
              refine ⟨hp1, hn2, fun x hx1 hx2 => ?_⟩
              have a := (hf3 x).trans (hdone2 x hx1)
              rw [(hfresh2 x hx2).1] at a
              cases a
            · intro x hx
              rcases List.mem_append.mp hx with hx | hx
              · exact fresh1 x hx
              · refine ⟨?_, (hfresh2 x hx).2⟩
                cases hc : (ctx.Target x).DependenciesEvaluated with
                | false => rfl
                | true =>
                  have a := hold x hc
                  rw [(hfresh2 x hx).1] at a
                  cases a
            · intro hok
              obtain ⟨hRf, hkf, hdf⟩ := hdoneR hok
              refine ⟨hRf, fun x hx => hkf x (hold x hx), fun x hx => ?_⟩
              rcases List.mem_append.mp hx with hx | hx
              · exact hkf x ((hf3 x).trans (hdone2 x hx))
              · exact hdf x hx

/-- The logged walk evaluates each target at most once. -/
theorem MakeDetermineDependenciesForTargetLog_once (env : MAKE_ENV) (rank : TargetId → Nat) :
    ∀ (fuel : Nat) (ctx : MAKE_CONTEXT) (t : TargetId) (res : Bool × MAKE_CONTEXT)
      (log : List TargetId), RankOK rank ctx →
      MakeDetermineDependenciesForTargetLog env fuel ctx t = some (res, log) →
      LogPost rank t ctx res log := by
  intro fuel
  induction fuel with
  | zero => intro ctx t res log _ h; simp [MakeDetermineDependenciesForTargetLog] at h
  | succ fuel ih =>
    intro ctx t res log hR h
    by_cases hE : (ctx.Target t).DependenciesEvaluated = true
    · rw [MakeDetermineDependenciesForTargetLog, if_pos hE] at h
      simp only [Option.some.injEq, Prod.mk.injEq] at h
      obtain ⟨h1, h2⟩ := h
      rw [← h1, ← h2]
      exact ⟨List.nodup_nil, fun x hx => (by cases hx), fun _ => ⟨hR, fun _ hx => hx,
        fun x hx => (by cases hx)⟩⟩
    · have hE' : (ctx.Target t).DependenciesEvaluated = false := by simpa using hE
      cases hl : MakeDetermineDependenciesForTargetLoopLog
          (fun c p => MakeDetermineDependenciesForTargetLog env fuel c p) (fuel + 1) ctx t 0
          false with
      | none =>
        rw [MakeDetermineDependenciesForTargetLog, if_neg hE, hl] at h
        cases h
      | some r =>
        obtain ⟨⟨ok, Sr, ctx1⟩, l⟩ := r
        obtain ⟨hn, hfresh, hdone⟩ := MakeDetermineDependenciesForTargetLoopLog_once
          (fun c p => MakeDetermineDependenciesForTargetLog env fuel c p)
          (fun c p res log hc hw => ih c p res log hc hw) t (fuel + 1) ctx 0 false _ _ hR hl
        have hnd : (t :: l).Nodup := by
          rw [List.nodup_cons]
          exact ⟨fun hm => lt_irrefl _ (hfresh t hm).2, hn⟩
        have hfr : ∀ x ∈ t :: l, (ctx.Target x).DependenciesEvaluated = false ∧
            rank x ≤ rank t := by
          intro x hx
          rcases List.mem_cons.mp hx with e | hx
          · rw [e]; exact ⟨hE', le_refl _⟩
          · exact ⟨(hfresh x hx).1, le_of_lt (hfresh x hx).2⟩
        cases ok with
        | false =>
          rw [MakeDetermineDependenciesForTargetLog_loop_failed env fuel ctx t Sr ctx1 l hE' hl]
            at h
          simp only [Option.some.injEq, Prod.mk.injEq] at h
          obtain ⟨h1, h2⟩ := h
          rw [← h1, ← h2]
          exact ⟨hnd, hfr, fun hf => by cases hf⟩
        | true =>
          obtain ⟨hR1, hk1, hd1⟩ := hdone rfl
          have hset : ∀ x, ((ctx1.setTarget t
              { ctx1.Target t with DependenciesEvaluated := true }).Target
                x).DependenciesEvaluated =
              if x = t then true else (ctx1.Target x).DependenciesEvaluated := by
            intro x
            by_cases e : x = t
            · subst e; simp [MAKE_CONTEXT.setTarget]
            · simp [MAKE_CONTEXT.setTarget, Function.update_apply, e]
          have hR2 : RankOK rank
              (ctx1.setTarget t { ctx1.Target t with DependenciesEvaluated := true }) := by
            refine RankOK_of_lists hR1 (fun x => ?_) (fun x => ?_)
            · by_cases e : x = t
              · subst e; simp [MAKE_CONTEXT.setTarget]
              · simp [MAKE_CONTEXT.setTarget, Function.update_apply, e]
            · by_cases e : x = t
              · subst e; simp [MAKE_CONTEXT.setTarget]
              · simp [MAKE_CONTEXT.setTarget, Function.update_apply, e]
          have hk2 : EvaluatedKept ctx
              (ctx1.setTarget t { ctx1.Target t with DependenciesEvaluated := true }) := by
            intro x hx
            rw [hset x]
            split_ifs
            · rfl
            · exact hk1 x hx
          have hd2 : ∀ x ∈ t :: l, ((ctx1.setTarget t
              { ctx1.Target t with DependenciesEvaluated := true }).Target
                x).DependenciesEvaluated = true := by
            intro x hx
            rw [hset x]
            split_ifs with e
            · rfl
            · rcases List.mem_cons.mp hx with e2 | hx
              · exact absurd e2 e
              · exact hd1 x hx
          rw [MakeDetermineDependenciesForTargetLog_after_loop env fuel ctx t Sr ctx1 l hE' hl]
            at h
          split_ifs at h with hc
          · simp only [Option.some.injEq, Prod.mk.injEq] at h
            obtain ⟨h1, h2⟩ := h
            rw [← h1, ← h2]
            have hfm := MakeMarkTargetForRebuild_flags env
              (ctx1.setTarget t { ctx1.Target t with DependenciesEvaluated := true }) t
            have hlm := MakeMarkTargetForRebuild_lists env
              (ctx1.setTarget t { ctx1.Target t with DependenciesEvaluated := true }) t
            refine ⟨hnd, hfr, fun _ => ⟨?_, ?_, ?_⟩⟩
            · exact RankOK_of_lists hR2 (fun x => (hlm x).1) (fun x => (hlm x).2.1)
            · intro x hx
              rw [hfm x]
              exact hk2 x hx
            · intro x hx
              rw [hfm x]
              exact hd2 x hx
          · simp only [Option.some.injEq, Prod.mk.injEq] at h
            obtain ⟨h1, h2⟩ := h
            rw [← h1, ← h2]
            exact ⟨hnd, hfr, fun _ => ⟨hR2, hk2, hd2⟩⟩


theorem ScenarioDiamond_acyclic : Acyclic ScenarioDiamond := by
  refine ⟨fun t => if t = 0 then 2 else if t = 3 then 0 else 1, ?_, ?_⟩
  · intro t d hd
    by_cases h0 : t = 0
    · subst h0
      simp [ScenarioDiamond, MakeInitialTarget] at hd
      rcases hd with hd | hd <;> subst hd <;> simp
    · by_cases h1 : t = 1
      · subst h1
        simp [ScenarioDiamond, MakeInitialTarget] at hd
        subst hd
        simp
      · by_cases h2 : t = 2
        · subst h2
          simp [ScenarioDiamond, MakeInitialTarget] at hd
          subst hd
          simp
        · by_cases h3 : t = 3
          · subst h3; simp [ScenarioDiamond, MakeInitialTarget] at hd
          · simp [ScenarioDiamond, h0, h1, h2, h3, MakeInitialTarget] at hd
  · intro t q hq
    by_cases h0 : t = 0
    · subst h0; simp [ScenarioDiamond, MakeInitialTarget] at hq
    · by_cases h1 : t = 1
      · subst h1; simp [ScenarioDiamond, MakeInitialTarget] at hq
      · by_cases h2 : t = 2
        · subst h2; simp [ScenarioDiamond, MakeInitialTarget] at hq
        · by_cases h3 : t = 3
          · subst h3; simp [ScenarioDiamond, MakeInitialTarget] at hq
          · simp [ScenarioDiamond, h0, h1, h2, h3, MakeInitialTarget] at hq

/-- C33: on a context whose dependency graph, with the inference parent
bindings counted as edges, has a topological numbering,
`MakeDetermineDependenciesForTarget` returns once the fuel is large enough;
its logged variant returns the same result, and in its log (the targets of
the invocations that got past the test of `DependenciesEvaluated` and ran the
prerequisite loop) no target occurs twice.  Every logged target was
unevaluated at the start, and is evaluated after a successful walk. -/
theorem MakeDetermineDependenciesForTarget_evaluated_once (env : MAKE_ENV) (ctx : MAKE_CONTEXT)
    (t : TargetId) (h : Acyclic ctx) :
    (∃ N, ∀ fuel, N ≤ fuel → ∃ res log,
      MakeDetermineDependenciesForTarget env fuel ctx t = some res ∧
      MakeDetermineDependenciesForTargetLog env fuel ctx t = some (res, log) ∧ log.Nodup) ∧
    (∀ fuel, (MakeDetermineDependenciesForTargetLog env fuel ctx t).map Prod.fst =
      MakeDetermineDependenciesForTarget env fuel ctx t) ∧
    (∀ fuel res log, MakeDetermineDependenciesForTargetLog env fuel ctx t = some (res, log) →
      log.Nodup ∧ (∀ x ∈ log, (ctx.Target x).DependenciesEvaluated = false) ∧
      (res.1 = true → ∀ x ∈ log, (res.2.Target x).DependenciesEvaluated = true)) := by
  obtain ⟨rank, hrank⟩ := h
  have honce : ∀ fuel res log,
      MakeDetermineDependenciesForTargetLog env fuel ctx t = some (res, log) →
      log.Nodup ∧ (∀ x ∈ log, (ctx.Target x).DependenciesEvaluated = false) ∧
      (res.1 = true → ∀ x ∈ log, (res.2.Target x).DependenciesEvaluated = true) := by
    intro fuel res log hl
    obtain ⟨h1, h2, h3⟩ := MakeDetermineDependenciesForTargetLog_once env rank fuel ctx t res log
      hrank hl
    exact ⟨h1, fun x hx => (h2 x hx).1, fun hok => (h3 hok).2.2⟩
  refine ⟨?_, fun fuel => MakeDetermineDependenciesForTargetLog_erase env fuel ctx t, honce⟩
  obtain ⟨N, hN⟩ := MakeDetermineDependenciesForTarget_terminates env rank (rank t + 1) t
    (Nat.lt_succ_self _) ctx hrank
  refine ⟨N, fun fuel hf => ?_⟩
  obtain ⟨res, hres⟩ := hN fuel hf
  have he := MakeDetermineDependenciesForTargetLog_erase env fuel ctx t
  rw [hres] at he
  cases hl : MakeDetermineDependenciesForTargetLog env fuel ctx t with
  | none => rw [hl] at he; cases he
  | some r =>
    obtain ⟨res2, log⟩ := r
    rw [hl] at he
    simp only [Option.map_some', Option.some.injEq] at he
    subst he
    exact ⟨res2, log, hres, rfl, (honce fuel res2 log hl).1⟩

/-- Witness of C33 on the diamond: `q` is a prerequisite of both `p1` and
`p2`, and is evaluated once, below `p1`. -/
theorem MakeDetermineDependenciesForTarget_evaluated_once_witness :
    Acyclic ScenarioDiamond ∧
    (MakeDetermineDependenciesForTargetLog (ScenarioEnv []) 4 ScenarioDiamond 0).map
      (fun r => (r.1.1, r.2)) = some (true, [0, 1, 3, 2]) ∧
    (∃ N, ∀ fuel, N ≤ fuel → ∃ res log,
      MakeDetermineDependenciesForTarget (ScenarioEnv []) fuel ScenarioDiamond 0 = some res ∧
      MakeDetermineDependenciesForTargetLog (ScenarioEnv []) fuel ScenarioDiamond 0 =
        some (res, log) ∧ log.Nodup) :=
  ⟨ScenarioDiamond_acyclic, by rfl,
    (MakeDetermineDependenciesForTarget_evaluated_once (ScenarioEnv []) ScenarioDiamond 0
      ScenarioDiamond_acyclic).1⟩

/-! ## The variable expander: the stem of a key -/

/-- C21: the value of `*`.  The key of a target is the fully qualified path
that `MakeLookupOrCreateTarget` gets from `YoriLibGetFullPathNameRelativeTo`
(a new target is keyed by exactly that path), and a fully qualified path does
not begin with a period.  For every such key: when the last period comes
after every separator (or there is no separator), the value is the key
before that period, so without the final extension and its period; when the
last separator comes after every period, and when the key has neither, the
value is the whole key.  The qualifier is then applied to this value. -/
theorem MakeExpandTargetVariable_stem (ctx : MAKE_CONTEXT) (T : TargetId)
    (hfull : (ctx.Target T).Key.head? ≠ some '.') :
    (∀ stem ext, (ctx.Target T).Key = stem ++ '.' :: ext → '.' ∉ ext →
      (∀ c ∈ ext, YoriLibIsSep c = false) →
      MakeExpandTargetVariableValue ctx T "*".toList = some (stem, ctx)) ∧
    (∀ dir s name, (ctx.Target T).Key = dir ++ s :: name → YoriLibIsSep s = true →
      '.' ∉ name → (∀ c ∈ name, YoriLibIsSep c = false) →
      MakeExpandTargetVariableValue ctx T "*".toList = some ((ctx.Target T).Key, ctx)) ∧
    ('.' ∉ (ctx.Target T).Key → (∀ c ∈ (ctx.Target T).Key, YoriLibIsSep c = false) →
      MakeExpandTargetVariableValue ctx T "*".toList = some ((ctx.Target T).Key, ctx)) ∧
    (∀ V Q, MakeExpandTargetVariableValue ctx T "*".toList = some (V, ctx) →
      (∀ c ∈ Q.head?, "@*<?".toList.contains c = false) →
      MakeExpandTargetVariable ctx T ("*".toList ++ Q) =
        match MakeExpandFileNamePart V Q with
        | none => (false, [], ctx)
        | some Value => (true, Value, ctx)) ∧
    (∀ (env : MAKE_ENV) (c : MAKE_CONTEXT) (S : ScopeId) (name path : YORI_STRING),
      env.YoriLibGetFullPathNameRelativeTo (c.Scope S).Key name = some path →
      YoriLibHashLookupByKey c.Targets path = none →
      (MakeLookupOrCreateTarget env c S name).1 = some c.AllocTarget ∧
      ((MakeLookupOrCreateTarget env c S name).2.Target c.AllocTarget).Key = path) := by
  obtain ⟨h1, _, h3, h4, h5⟩ := MakeExpandTargetVariableValue_star_cases ctx T
  refine ⟨fun stem ext hkey hdot hsep => ?_, h3, h4, h5, ?_⟩
  · refine h1 stem ext hkey ?_ hdot hsep
    intro e
    rw [e] at hkey
    rw [hkey] at hfull
    exact hfull rfl
  · intro env c S name path hres hl
    rw [MakeLookupOrCreateTarget_new env c S name path hres hl]
    exact ⟨rfl, by simp [MakeInitialTarget]⟩

/-- Witness of C21 on the keys `/dir/foo.c`, `/dir.d/foo` and `/foo`. -/
theorem MakeExpandTargetVariable_stem_witness :
    MakeExpandTargetVariableValue (ScenarioKey "/dir/foo.c".toList) 0 "*".toList =
      some ("/dir/foo".toList, ScenarioKey "/dir/foo.c".toList) ∧
    MakeExpandTargetVariableValue (ScenarioKey "/dir.d/foo".toList) 0 "*".toList =
      some ("/dir.d/foo".toList, ScenarioKey "/dir.d/foo".toList) ∧
    MakeExpandTargetVariableValue (ScenarioKey "/foo".toList) 0 "*".toList =
      some ("/foo".toList, ScenarioKey "/foo".toList) ∧
    MakeExpandTargetVariable (ScenarioKey "/dir/foo.c".toList) 0 ("*".toList ++ "B".toList) =
      (true, "foo".toList, ScenarioKey "/dir/foo.c".toList) :=
  ⟨(MakeExpandTargetVariable_stem (ScenarioKey "/dir/foo.c".toList) 0 (by decide)).1
      "/dir/foo".toList "c".toList rfl (by decide) (by decide),
    (MakeExpandTargetVariable_stem (ScenarioKey "/dir.d/foo".toList) 0 (by decide)).2.1
      "/dir.d".toList '/' "foo".toList rfl rfl (by decide) (by decide),
    (MakeExpandTargetVariable_stem (ScenarioKey "/foo".toList) 0 (by decide)).2.1 [] '/'
      "foo".toList rfl rfl (by decide) (by decide),
    (MakeExpandTargetVariable_stem (ScenarioKey "/dir/foo.c".toList) 0 (by decide)).2.2.2.1
      "/dir/foo".toList "B".toList
      ((MakeExpandTargetVariable_stem (ScenarioKey "/dir/foo.c".toList) 0 (by decide)).1
        "/dir/foo".toList "c".toList rfl (by decide) (by decide)) (by decide)⟩

/-! ## Scope override and the second pass after a direct hit -/

/-- C8: scope override, and the second pass that runs after a direct hit.
In each of the three scenarios the root scope 0 and its child scope 1 both
define a rule with the same source and target extension (rule 0 with recipe
`OLD`, rule 1 with recipe `NEW`), and the source files `a.c` and `sub/b.c`
exist.

In `ScenarioS5Newer` the root scope also has the newer rules `.y` to `.x` and
`.x` to `.obj` (recipe `OTHER`), and the file `a.cy` exists: resolving `a.obj`
through the root scope ends with the rule of recipe `OTHER` and an inference
parent keyed `a.cx`, not with the rule of recipe `OLD`; without the file
`a.cy` it ends with `OLD` and `a.c`.  Resolving `sub/b.obj` through the child
scope ends with `NEW` and `sub/b.c`.

In `ScenarioS5Double` the two rules lead from `.c` to `.cc`, the child scope
also has the rule `.y` to `.c` (recipe `YACC`), and the file `sub/b.cy`
exists: resolving `sub/b.cc` through the child scope ends with the rule of
recipe `YACC` and the inference parent `sub/b.cy`, not with the rule of
recipe `NEW`; without the file `sub/b.cy` it ends with `NEW` and `sub/b.c`.

In `ScenarioS5Yacc` (scenario S5, the rule `.y` to `.c` in the child scope and
the file `sub/b.cy`) resolving `sub/b.obj` through the child scope ends with
the rule of recipe `NEW`, with an inference parent keyed `sub/b.cc`.

In all three the enumeration from the root scope returns no rule of the child
scope. -/
theorem MakeFindInferenceRuleForTarget_scope_override_after_hit :
    ((ScenarioS5Newer.Scope 1).ParentScope = some 0 ∧
      0 ∈ (ScenarioS5Newer.Scope 0).InferenceRuleList ∧
      1 ∈ (ScenarioS5Newer.Scope 1).InferenceRuleList ∧
      (ScenarioS5Newer.InferenceRule 0).SourceExtension =
        (ScenarioS5Newer.InferenceRule 1).SourceExtension ∧
      (ScenarioS5Newer.InferenceRule 0).TargetExtension =
        (ScenarioS5Newer.InferenceRule 1).TargetExtension ∧
      (ScenarioS5Newer.Target (ScenarioS5Newer.InferenceRule 0).Target).Recipe =
        "OLD".toList ++ [NewLine] ∧
      (ScenarioS5Newer.Target (ScenarioS5Newer.InferenceRule 1).Target).Recipe =
        "NEW".toList ++ [NewLine] ∧
      ScenarioS5NewerEnv.GetFileAttributes "a.c".toList = true ∧
      ScenarioS5NewerEnv.GetFileAttributes "sub/b.c".toList = true ∧
      ScenarioResolved
          (MakeFindInferenceRuleForTarget ScenarioS5NewerEnv 12 ScenarioS5Newer 0 2) 2 =
        some (true, some ("OTHER".toList ++ [NewLine]), some "a.cx".toList) ∧
      ScenarioResolved (MakeFindInferenceRuleForTarget ScenarioS5Env 12 ScenarioS5Newer 0 2) 2 =
        some (true, some ("OLD".toList ++ [NewLine]), some "a.c".toList) ∧
      ScenarioResolved
          (MakeFindInferenceRuleForTarget ScenarioS5NewerEnv 12 ScenarioS5Newer 1 3) 3 =
        some (true, some ("NEW".toList ++ [NewLine]), some "sub/b.c".toList) ∧
      MakeEnumerateInferenceRules ScenarioS5Newer 0 12 none = some [3, 2, 0]) ∧
    ((ScenarioS5Double.Scope 1).ParentScope = some 0 ∧
      0 ∈ (ScenarioS5Double.Scope 0).InferenceRuleList ∧
      1 ∈ (ScenarioS5Double.Scope 1).InferenceRuleList ∧
      (ScenarioS5Double.InferenceRule 0).SourceExtension =
        (ScenarioS5Double.InferenceRule 1).SourceExtension ∧
      (ScenarioS5Double.InferenceRule 0).TargetExtension =
        (ScenarioS5Double.InferenceRule 1).TargetExtension ∧
      (ScenarioS5Double.Target (ScenarioS5Double.InferenceRule 0).Target).Recipe =
        "OLD".toList ++ [NewLine] ∧
      (ScenarioS5Double.Target (ScenarioS5Double.InferenceRule 1).Target).Recipe =
        "NEW".toList ++ [NewLine] ∧
      ScenarioS5YaccEnv.GetFileAttributes "a.c".toList = true ∧
      ScenarioS5YaccEnv.GetFileAttributes "sub/b.c".toList = true ∧
      ScenarioResolved
          (MakeFindInferenceRuleForTarget ScenarioS5YaccEnv 12 ScenarioS5Double 1 3) 3 =
        some (true, some ("YACC".toList ++ [NewLine]), some "sub/b.cy".toList) ∧
      ScenarioResolved (MakeFindInferenceRuleForTarget ScenarioS5Env 12 ScenarioS5Double 1 3) 3 =
        some (true, some ("NEW".toList ++ [NewLine]), some "sub/b.c".toList) ∧
      ScenarioResolved
          (MakeFindInferenceRuleForTarget ScenarioS5YaccEnv 12 ScenarioS5Double 0 2) 2 =
        some (true, some ("OLD".toList ++ [NewLine]), some "a.c".toList) ∧
      MakeEnumerateInferenceRules ScenarioS5Double 0 12 none = some [0]) ∧
    (ScenarioResolved
          (MakeFindInferenceRuleForTarget ScenarioS5YaccEnv 12 ScenarioS5Yacc 1 3) 3 =
        some (true, some ("NEW".toList ++ [NewLine]), some "sub/b.cc".toList) ∧
      ScenarioResolved
          (MakeFindInferenceRuleForTarget ScenarioS5YaccEnv 12 ScenarioS5Yacc 0 2) 2 =
        some (true, some ("OLD".toList ++ [NewLine]), some "a.c".toList) ∧
      MakeEnumerateInferenceRules ScenarioS5Yacc 0 12 none = some [0]) :=
  ⟨⟨rfl, by decide, by decide, rfl, rfl, rfl, rfl, rfl, rfl, rfl, rfl, rfl, rfl⟩,
    ⟨rfl, by decide, by decide, rfl, rfl, rfl, rfl, rfl, rfl, rfl, rfl, rfl, rfl⟩,
    ⟨rfl, rfl, rfl⟩⟩

/-! ## Targets that cannot be built: every trigger of the staleness test -/

/-- After a successful walk from a fresh context, an evaluated target other
than the root that began without prerequisites and explicit recipe but with
the inference parent `q` has exactly the edge from `q`. -/
theorem WalkPost_inferred_edge {rank : TargetId → Nat} {root : TargetId}
    {ctx ctx' : MAKE_CONTEXT} (hfresh : FreshContext ctx)
    (W : WalkPost rank (rank root) root ctx ctx') (hshape : SynthShape ctx ctx')
    (x q : TargetId) (hne : x ≠ root) (hempty : (ctx.Target x).ParentDependents = [])
    (hexp : (ctx.Target x).ExplicitRecipeFound = false)
    (hq : (ctx.Target x).InferenceRuleParentTarget = some q)
    (hev : (ctx'.Target x).DependenciesEvaluated = true) :
    (ctx'.Target x).ParentDependents = [{ Parent := q, Child := x }] := by
  have hlt : rank x < rank root := by
    by_contra hc
    rw [W.above x (not_lt.mp hc) hne, (hfresh.1 x).1] at hev
    cases hev
  have hns := W.inv.nosynth x hev hlt
  have hexp' : (ctx'.Target x).ExplicitRecipeFound = false := by
    rw [(W.static x).2.2.1]; exact hexp
  have hq' : (ctx'.Target x).InferenceRuleParentTarget = some q := by
    rw [(W.static x).2.2.2.2.1]; exact hq
  have hnonempty : (ctx'.Target x).ParentDependents ≠ [] := by
    intro e
    simp [MakeParentNeedsInferenceDependency, e, hexp', hq'] at hns
  rcases hshape x with h1 | ⟨_, q2, k1, k2, _⟩
  · rw [h1] at hnonempty; exact absurd hempty hnonempty
  · rw [hq'] at k1
    have e := Option.some.inj k1
    subst e
    exact k2

/-- After a successful walk from a fresh context every evaluated target that
the walk had to find out of date is marked for rebuild. -/
theorem MustRebuild_marked {rank : TargetId → Nat} {root : TargetId}
    {ctx ctx' : MAKE_CONTEXT} (hfresh : FreshContext ctx)
    (W : WalkPost rank (rank root) root ctx ctx') (hshape : SynthShape ctx ctx') :
    ∀ x, MustRebuild ctx root x → (ctx'.Target x).DependenciesEvaluated = true →
      (ctx'.Target x).RebuildRequired = true := by
  intro x hm
  induction hm with
  | missing x hx =>
    intro hev
    exact (W.inv.stale x hev).mpr (Or.inl (by rw [(W.static x).1]; exact hx))
  | newer x e he h1 h2 h3 =>
    intro hev
    refine (W.inv.stale x hev).mpr (Or.inr (Or.inr ⟨e, W.mono x e he, ?_, ?_, ?_⟩))
    · rw [(W.static e.Parent).1]; exact h1
    · rw [(W.static x).1]; exact h2
    · rw [(W.static e.Parent).2.1, (W.static x).2.1]; exact h3
  | parent x e he _ ih =>
    intro hev
    have hmem := W.mono x e he
    exact (W.inv.stale x hev).mpr (Or.inr (Or.inl ⟨e, hmem, ih (W.inv.parents x hev e hmem)⟩))
  | inferred_newer x q hne hempty hexp hq h1 h2 h3 =>
    intro hev
    have hlist := WalkPost_inferred_edge hfresh W hshape x q hne hempty hexp hq hev
    refine (W.inv.stale x hev).mpr
      (Or.inr (Or.inr ⟨{ Parent := q, Child := x }, by rw [hlist]; simp, ?_, ?_, ?_⟩))
    · rw [(W.static q).1]; exact h1
    · rw [(W.static x).1]; exact h2
    · rw [(W.static q).2.1, (W.static x).2.1]; exact h3
  | inferred_parent x q hne hempty hexp hq _ ih =>
    intro hev
    have hlist := WalkPost_inferred_edge hfresh W hshape x q hne hempty hexp hq hev
    have hmem : ({ Parent := q, Child := x } : MAKE_TARGET_DEPENDENCY) ∈
        (ctx'.Target x).ParentDependents := by rw [hlist]; simp
    exact (W.inv.stale x hev).mpr
      (Or.inr (Or.inl ⟨_, hmem, ih (W.inv.parents x hev _ hmem)⟩))

/-- After a successful walk every target reached from the root over the edges
of the final context is evaluated. -/
theorem WalkPost_reaches_final {rank : TargetId → Nat} {R : Nat} {root : TargetId}
    {ctx ctx' : MAKE_CONTEXT} (W : WalkPost rank R root ctx ctx') (t : TargetId)
    (hreach : Reaches ctx' root t) : (ctx'.Target t).DependenciesEvaluated = true := by
  unfold Reaches at hreach
  induction hreach with
  | refl => exact W.evaluated
  | tail _ hstep ih =>
    obtain ⟨e, he, rfl⟩ := hstep
    exact W.inv.parents _ ih e he

/-- C5: a target `t` that is not marked and has neither an explicit recipe nor
an inference rule makes `MakeMarkTargetForRebuild` fail, setting
`ErrorTermination` and changing nothing else (the target stays unmarked, its
commands and both queues are as before).

The failing mark fails the walk of `t`: when the prerequisite loop of such a
target succeeds and the staleness test holds (the target is missing, or the
loop has set `SetRebuildRequired` for a prerequisite that is marked for
rebuild or is newer), `MakeDetermineDependenciesForTarget` on it returns
`FALSE`, with the flag and the error latch set.  A failing recursive call
ends the prerequisite loop of the dependent at once with failure, and a
failing loop makes `MakeDetermineDependenciesForTarget` on the dependent
fail.

So, from a fresh context on an acyclic graph, whenever the walk has to find
`t` out of date, by any of the three tests (`MustRebuild`), the walk from
every target `d` that reaches `t` returns `FALSE` once the fuel is large
enough.  Read on the result: a walk from `d` that returns `TRUE` leaves every
such `t` reached from `d` unmarked, and then none of the three tests holds
of `t`. -/
theorem MakeMarkTargetForRebuild_unbuildable (env : MAKE_ENV) (ctx : MAKE_CONTEXT) (t : TargetId)
    (hrr : (ctx.Target t).RebuildRequired = false)
    (he : (ctx.Target t).ExplicitRecipeFound = false)
    (hi : (ctx.Target t).InferenceRule = none) :
    MakeMarkTargetForRebuild env ctx t = (false, { ctx with ErrorTermination := true }) ∧
    (∀ (fuel : Nat) (c : MAKE_CONTEXT) (S : Bool) (c1 : MAKE_CONTEXT),
      (c.Target t).DependenciesEvaluated = false →
      MakeDetermineDependenciesForTargetLoop
        (fun c p => MakeDetermineDependenciesForTarget env fuel c p) (fuel + 1) c t 0 false =
          some (true, S, c1) →
      ((c1.Target t).FileExists = false ∨ S = true) →
      (c1.Target t).RebuildRequired = false →
      (c1.Target t).ExplicitRecipeFound = false →
      (c1.Target t).InferenceRule = none →
      MakeDetermineDependenciesForTarget env (fuel + 1) c t =
        some (false,
          { c1.setTarget t { c1.Target t with DependenciesEvaluated := true } with
            ErrorTermination := true })) ∧
    (∀ (recurse : MAKE_CONTEXT → TargetId → Option (Bool × MAKE_CONTEXT)) (fuel : Nat)
        (c : MAKE_CONTEXT) (T : TargetId) (i : Nat) (S : Bool) (d : MAKE_TARGET_DEPENDENCY)
        (c2 : MAKE_CONTEXT), (c.Target T).ParentDependents[i]? = some d →
      recurse (MakeDetermineDependenciesPopulateParent c d.Parent).2 d.Parent = some (false, c2) →
      MakeDetermineDependenciesForTargetLoop recurse (fuel + 1) c T i S = some (false, S, c2)) ∧
    (∀ (fuel : Nat) (c : MAKE_CONTEXT) (T : TargetId) (S : Bool) (c1 : MAKE_CONTEXT),
      (c.Target T).DependenciesEvaluated = false →
      MakeDetermineDependenciesForTargetLoop
        (fun c p => MakeDetermineDependenciesForTarget env fuel c p) (fuel + 1) c T 0 false =
          some (false, S, c1) →
      MakeDetermineDependenciesForTarget env (fuel + 1) c T = some (false, c1)) ∧
    (∀ d, FreshContext ctx → Acyclic ctx → Reaches ctx d t → MustRebuild ctx d t →
      ∃ N, ∀ fuel, N ≤ fuel →
        ∃ ctx', MakeDetermineDependenciesForTarget env fuel ctx d = some (false, ctx')) ∧
    (∀ d fuel ctx', FreshContext ctx → Acyclic ctx →
      MakeDetermineDependenciesForTarget env fuel ctx d = some (true, ctx') →
      Reaches ctx' d t →
      (ctx'.Target t).DependenciesEvaluated = true ∧
      (ctx'.Target t).RebuildRequired = false ∧ ¬ Stale ctx' t ∧ ¬ MustRebuild ctx d t) := by
  have hfinal : ∀ (rank : TargetId → Nat) (d : TargetId) (ctx' : MAKE_CONTEXT),
      WalkPost rank (rank d) d ctx ctx' → (ctx'.Target t).RebuildRequired = false := by
    intro rank d ctx' W
    cases hmark : (ctx'.Target t).RebuildRequired with
    | false => rfl
    | true =>
      exfalso
      rcases W.inv.rr_build t hmark with h1 | h1
      · rw [(W.static t).2.2.1, he] at h1; cases h1
      · rw [(W.static t).2.2.2.1, hi] at h1; cases h1
  refine ⟨?_, ?_, ?_, ?_, ?_, ?_⟩
  · unfold MakeMarkTargetForRebuild
    simp [hrr, he, hi]
  · intro fuel c S c1 hE hl hS hrr1 he1 hi1
    rw [MakeDetermineDependenciesForTarget_after_loop env fuel c t S c1 hE hl]
    have hc : ((!(c1.Target t).FileExists || S) && !(c1.Target t).RebuildRequired) = true := by
      rcases hS with hS | hS <;> simp [hS, hrr1]
    rw [if_pos hc]
    unfold MakeMarkTargetForRebuild
    simp [MAKE_CONTEXT.setTarget, hrr1, he1, hi1]
  · intro recurse fuel c T i S d c2 hget hr
    exact MakeDetermineDependenciesForTargetLoop_abort recurse fuel c T i S d c2 hget hr
  · intro fuel c T S c1 hE hl
    exact MakeDetermineDependenciesForTarget_loop_failed env fuel c T S c1 hE hl
  · intro d hfresh hacyc hreach hcause
    obtain ⟨rank, hrank⟩ := hacyc
    obtain ⟨N, hN⟩ := MakeDetermineDependenciesForTarget_terminates env rank (rank d + 1) d
      (Nat.lt_succ_self _) ctx hrank
    refine ⟨N, fun fuel hf => ?_⟩
    obtain ⟨res, hres⟩ := hN fuel hf
    obtain ⟨ok, ctx'⟩ := res
    cases ok with
    | false => exact ⟨ctx', hres⟩
    | true =>
      exfalso
      have W := MakeDetermineDependenciesForTarget_fresh env rank fuel ctx ctx' d hfresh hrank hres
      have hshape := MakeDetermineDependenciesForTarget_keeps_fresh env fuel ctx ctx' d
        (WalkKeeps_shape rank (rank d) ctx) hfresh hrank trivial (fun _ => Or.inl rfl) hres
      have hmark := MustRebuild_marked hfresh W hshape t hcause (WalkPost_reaches W t hreach)
      rw [hfinal rank d ctx' W] at hmark
      cases hmark
  · intro d fuel ctx' hfresh hacyc hres hreach
    obtain ⟨rank, hrank⟩ := hacyc
    have W := MakeDetermineDependenciesForTarget_fresh env rank fuel ctx ctx' d hfresh hrank hres
    have hshape := MakeDetermineDependenciesForTarget_keeps_fresh env fuel ctx ctx' d
      (WalkKeeps_shape rank (rank d) ctx) hfresh hrank trivial (fun _ => Or.inl rfl) hres
    have hev := WalkPost_reaches_final W t hreach
    have hno := hfinal rank d ctx' W
    refine ⟨hev, hno, fun hstale => ?_, fun hcause => ?_⟩
    · have hmark := (W.inv.stale t hev).mpr hstale
      rw [hno] at hmark
      cases hmark
    · have hmark := MustRebuild_marked hfresh W hshape t hcause hev
      rw [hno] at hmark
      cases hmark

theorem ScenarioUnbuildableChain_fresh : FreshContext ScenarioUnbuildableChain := by
  refine ⟨?_, rfl, rfl⟩
  intro t
  by_cases h0 : t = 0
  · subst h0; exact ⟨rfl, rfl, rfl, rfl⟩
  · by_cases h1 : t = 1
    · subst h1; exact ⟨rfl, rfl, rfl, rfl⟩
    · by_cases h2 : t = 2
      · subst h2; exact ⟨rfl, rfl, rfl, rfl⟩
      · simp [ScenarioUnbuildableChain, h0, h1, h2, MakeInitialTarget]

theorem ScenarioUnbuildableChain_acyclic : Acyclic ScenarioUnbuildableChain := by
  refine ⟨fun t => if t = 0 then 2 else if t = 1 then 1 else 0, ?_, ?_⟩
  · intro t d hd
    by_cases h0 : t = 0
    · subst h0
      simp [ScenarioUnbuildableChain, MakeInitialTarget] at hd
      subst hd
      simp
    · by_cases h1 : t = 1
      · subst h1
        simp [ScenarioUnbuildableChain, MakeInitialTarget] at hd
        subst hd
        simp
      · by_cases h2 : t = 2
        · subst h2; simp [ScenarioUnbuildableChain, MakeInitialTarget] at hd
        · simp [ScenarioUnbuildableChain, h0, h1, h2, MakeInitialTarget] at hd
  · intro t q hq
    by_cases h0 : t = 0
    · subst h0; simp [ScenarioUnbuildableChain, MakeInitialTarget] at hq
    · by_cases h1 : t = 1
      · subst h1; simp [ScenarioUnbuildableChain, MakeInitialTarget] at hq
      · by_cases h2 : t = 2
        · subst h2; simp [ScenarioUnbuildableChain, MakeInitialTarget] at hq
        · simp [ScenarioUnbuildableChain, h0, h1, h2, MakeInitialTarget] at hq

/-- Witness of C5.  In `ScenarioUnbuildableChain` the file `gen.c` exists and
cannot be built, and its prerequisite `gen.y` is missing: the walk from `all`
marks `gen.y`, so that the loop of `gen.c` sets `SetRebuildRequired`, the mark
of `gen.c` fails and the walk from `all` fails.  In `ScenarioUnbuildable` the
file `gen.c` is missing and cannot be built, and the walk from `all` fails. -/
theorem MakeMarkTargetForRebuild_unbuildable_witness :
    ((ScenarioUnbuildableChain.Target 1).RebuildRequired = false ∧
      (ScenarioUnbuildableChain.Target 1).ExplicitRecipeFound = false ∧
      (ScenarioUnbuildableChain.Target 1).InferenceRule = none ∧
      (ScenarioUnbuildableChain.Target 1).FileExists = true ∧
      MakeMarkTargetForRebuild (ScenarioEnv []) ScenarioUnbuildableChain 1 =
        (false, { ScenarioUnbuildableChain with ErrorTermination := true }) ∧
      (∃ N, ∀ fuel, N ≤ fuel → ∃ ctx',
        MakeDetermineDependenciesForTarget (ScenarioEnv []) fuel ScenarioUnbuildableChain 0 =
          some (false, ctx')) ∧
      (MakeDetermineDependenciesForTarget (ScenarioEnv []) 4 ScenarioUnbuildableChain 0).map
          (fun r => (r.1, r.2.ErrorTermination, (r.2.Target 1).RebuildRequired,
            (r.2.Target 2).RebuildRequired, r.2.TargetsReady, r.2.TargetsWaiting)) =
        some (false, true, false, true, [2], [])) ∧
    ((ScenarioUnbuildable.Target 1).RebuildRequired = false ∧
      (ScenarioUnbuildable.Target 1).ExplicitRecipeFound = false ∧
      (ScenarioUnbuildable.Target 1).InferenceRule = none ∧
      (ScenarioUnbuildable.Target 1).FileExists = false ∧
      MakeMarkTargetForRebuild (ScenarioEnv []) ScenarioUnbuildable 1 =
        (false, { ScenarioUnbuildable with ErrorTermination := true }) ∧
      ∃ N, ∀ fuel, N ≤ fuel → ∃ ctx',
        MakeDetermineDependenciesForTarget (ScenarioEnv []) fuel ScenarioUnbuildable 0 =
          some (false, ctx')) :=
  ⟨⟨rfl, rfl, rfl, rfl,
      (MakeMarkTargetForRebuild_unbuildable (ScenarioEnv []) ScenarioUnbuildableChain 1
        rfl rfl rfl).1,
      (MakeMarkTargetForRebuild_unbuildable (ScenarioEnv []) ScenarioUnbuildableChain 1
        rfl rfl rfl).2.2.2.2.1 0 ScenarioUnbuildableChain_fresh ScenarioUnbuildableChain_acyclic
        (Relation.ReflTransGen.single
          ⟨{ Parent := 1, Child := 0 }, List.mem_singleton.mpr rfl, rfl⟩)
        (MustRebuild.parent 1 { Parent := 2, Child := 1 } (List.mem_singleton.mpr rfl)
          (MustRebuild.missing 2 rfl)),
      rfl⟩,
    ⟨rfl, rfl, rfl, rfl,
      (MakeMarkTargetForRebuild_unbuildable (ScenarioEnv []) ScenarioUnbuildable 1
        rfl rfl rfl).1,
      (MakeMarkTargetForRebuild_unbuildable (ScenarioEnv []) ScenarioUnbuildable 1
        rfl rfl rfl).2.2.2.2.1 0 ScenarioUnbuildable_fresh ScenarioUnbuildable_acyclic
        (Relation.ReflTransGen.single
          ⟨{ Parent := 1, Child := 0 }, List.mem_singleton.mpr rfl, rfl⟩)
        (MustRebuild.missing 1 rfl)⟩⟩

/-! ## The order of the appends to the queues -/

/-- Dropping the log of `MakeMarkTargetForRebuildLog` gives
`MakeMarkTargetForRebuild`. -/
theorem MakeMarkTargetForRebuildLog_erase (env : MAKE_ENV) (ctx : MAKE_CONTEXT) (t : TargetId) :
    (MakeMarkTargetForRebuildLog env ctx t).1 = MakeMarkTargetForRebuild env ctx t := by
  unfold MakeMarkTargetForRebuildLog MakeMarkTargetForRebuild
  by_cases h1 : (ctx.Target t).RebuildRequired = true
  · rw [if_pos h1, if_pos h1]
  · rw [if_neg h1, if_neg h1]
    by_cases h2 : (!(ctx.Target t).ExplicitRecipeFound && (ctx.Target t).InferenceRule.isNone) = true
    · rw [if_pos h2, if_pos h2]
    · rw [if_neg h2, if_neg h2]
      cases MakeGenerateExecScriptForTarget env ctx t with
      | mk ok c1 =>
        cases ok with
        | false => rfl
        | true =>
          simp only
          split <;> rfl

/-- The log of `MakeMarkTargetForRebuildLog` on a target that is not marked:
the target when the call succeeds, nothing when it fails. -/
theorem MakeMarkTargetForRebuildLog_log (env : MAKE_ENV) (ctx : MAKE_CONTEXT) (t : TargetId)
    (hrr : (ctx.Target t).RebuildRequired = false) :
    (MakeMarkTargetForRebuildLog env ctx t).2 =
      if (MakeMarkTargetForRebuild env ctx t).1 = true then [t] else [] := by
  have h1 : ¬ (ctx.Target t).RebuildRequired = true := by simp [hrr]
  unfold MakeMarkTargetForRebuildLog MakeMarkTargetForRebuild
  rw [if_neg h1, if_neg h1]
  by_cases h2 : (!(ctx.Target t).ExplicitRecipeFound && (ctx.Target t).InferenceRule.isNone) = true
  · rw [if_pos h2, if_pos h2]
    rfl
  · rw [if_neg h2, if_neg h2]
    cases MakeGenerateExecScriptForTarget env ctx t with
    | mk ok c1 =>
      cases ok with
      | false => rfl
      | true =>
        simp only
        split <;> rfl

/-- The logged walk of an unevaluated target after its prerequisite loop has
succeeded. -/
theorem MakeDetermineDependenciesForTargetAppends_after_loop (env : MAKE_ENV) (fuel : Nat)
    (ctx : MAKE_CONTEXT) (t : TargetId) (Sr : Bool) (ctx1 : MAKE_CONTEXT) (log : List TargetId)
    (hE : (ctx.Target t).DependenciesEvaluated = false)
    (hl : MakeDetermineDependenciesForTargetLoopLog
      (fun c p => MakeDetermineDependenciesForTargetAppends env fuel c p) (fuel + 1) ctx t 0
      false = some ((true, Sr, ctx1), log)) :
    MakeDetermineDependenciesForTargetAppends env (fuel + 1) ctx t =
      if ((!(ctx1.Target t).FileExists || Sr) && !(ctx1.Target t).RebuildRequired) = true then
        some ((MakeMarkTargetForRebuildLog env
            (ctx1.setTarget t { ctx1.Target t with DependenciesEvaluated := true }) t).1,
          log ++ (MakeMarkTargetForRebuildLog env
            (ctx1.setTarget t { ctx1.Target t with DependenciesEvaluated := true }) t).2)
      else
        some ((true, ctx1.setTarget t { ctx1.Target t with DependenciesEvaluated := true }),
          log) := by
  rw [MakeDetermineDependenciesForTargetAppends, if_neg (by simp [hE]), hl]
  simp only
  generalize MakeMarkTargetForRebuildLog env
    (ctx1.setTarget t { ctx1.Target t with DependenciesEvaluated := true }) t = m
  have e1 : ((ctx1.setTarget t
      { ctx1.Target t with DependenciesEvaluated := true }).Target t).FileExists =
      (ctx1.Target t).FileExists := by simp [MAKE_CONTEXT.setTarget]
  have e2 : ((ctx1.setTarget t
      { ctx1.Target t with DependenciesEvaluated := true }).Target t).RebuildRequired =
      (ctx1.Target t).RebuildRequired := by simp [MAKE_CONTEXT.setTarget]
  rw [e1, e2]
  rcases m with ⟨⟨_ | _, c⟩, l⟩ <;> cases (ctx1.Target t).FileExists <;> cases Sr <;>
    cases (ctx1.Target t).RebuildRequired <;> simp

/-- Dropping the log of `MakeDetermineDependenciesForTargetAppends` gives
`MakeDetermineDependenciesForTarget`. -/
theorem MakeDetermineDependenciesForTargetAppends_erase (env : MAKE_ENV) :
    ∀ (fuel : Nat) (ctx : MAKE_CONTEXT) (t : TargetId),
      (MakeDetermineDependenciesForTargetAppends env fuel ctx t).map Prod.fst =
        MakeDetermineDependenciesForTarget env fuel ctx t := by
  intro fuel
  induction fuel with
  | zero => intro ctx t; rfl
  | succ fuel ih =>
    intro ctx t
    by_cases hE : (ctx.Target t).DependenciesEvaluated = true
    · rw [MakeDetermineDependenciesForTargetAppends, MakeDetermineDependenciesForTarget,
        if_pos hE, if_pos hE]
      rfl
    · have hE' : (ctx.Target t).DependenciesEvaluated = false := by simpa using hE
      have hl := MakeDetermineDependenciesForTargetLoopLog_erase
        (fun c p => MakeDetermineDependenciesForTargetAppends env fuel c p)
        (fun c p => MakeDetermineDependenciesForTarget env fuel c p) (fun c p => ih c p)
        (fuel + 1) ctx t 0 false
      cases hll : MakeDetermineDependenciesForTargetLoopLog
          (fun c p => MakeDetermineDependenciesForTargetAppends env fuel c p) (fuel + 1) ctx t 0
          false with
      | none =>
        rw [hll] at hl
        rw [MakeDetermineDependenciesForTargetAppends, MakeDetermineDependenciesForTarget,
          if_neg hE, if_neg hE, hll, ← hl]
        rfl
      | some r =>
        obtain ⟨⟨ok, Sr, ctx1⟩, log⟩ := r
        rw [hll] at hl
        cases ok with
        | false =>
          rw [MakeDetermineDependenciesForTargetAppends, MakeDetermineDependenciesForTarget,
            if_neg hE, if_neg hE, hll, ← hl]
          rfl
        | true =>
          rw [MakeDetermineDependenciesForTargetAppends_after_loop env fuel ctx t Sr ctx1 log hE'
            hll, MakeDetermineDependenciesForTarget_after_loop env fuel ctx t Sr ctx1 hE' hl.symm]
          split
          · rw [Option.map_some', MakeMarkTargetForRebuildLog_erase]
          · rfl

/-- Dropping the log of `MakeDetermineDependenciesAppends` gives
`MakeDetermineDependencies`. -/
theorem MakeDetermineDependenciesAppends_erase (env : MAKE_ENV) (fuel : Nat)
    (ctx : MAKE_CONTEXT) :
    (MakeDetermineDependenciesAppends env fuel ctx).map Prod.fst =
      MakeDetermineDependencies env fuel ctx := by
  unfold MakeDetermineDependenciesAppends MakeDetermineDependencies
  cases MakeDetermineDependenciesFirstTarget ctx ctx.TargetsList with
  | none => rfl
  | some t => exact MakeDetermineDependenciesForTargetAppends_erase env fuel ctx t

theorem QueueLog_populate {rank : TargetId → Nat} {R : Nat} {ctx : MAKE_CONTEXT}
    {log : List TargetId} (hinv : SchedInv rank R ctx) (p : TargetId) (hR : rank p < R)
    (hlog : QueueLog ctx log) :
    QueueLog (MakeDetermineDependenciesPopulateParent ctx p).2 log := by
  have P := MakeDetermineDependenciesPopulateParent_post hinv p hR
  have Q := MakeDetermineDependenciesPopulateParent_queues ctx p
  refine QueueLog_frame hlog Q.1 Q.2 (fun x => (P.flags x).2.1) ?_
  intro x hx
  refine ⟨(P.flags x).2.2, ?_⟩
  by_cases e : x = p
  · subst e; exact P.own (hinv.rr_eval x hx)
  · exact P.lists x e

theorem QueueLog_account {rank : TargetId → Nat} {R : Nat} {ctx : MAKE_CONTEXT}
    {log : List TargetId} (hinv : SchedInv rank R ctx) (t : TargetId)
    (d : MAKE_TARGET_DEPENDENCY) (S : Bool)
    (ht : (ctx.Target t).DependenciesEvaluated = false) (hlog : QueueLog ctx log) :
    QueueLog (MakeDetermineDependenciesAccountParent ctx t d S).2 log := by
  obtain ⟨q1, q2, A2, n, A3⟩ := MakeDetermineDependenciesAccountParent_fields ctx t d S
  refine QueueLog_frame hlog q1 q2 ?_ ?_
  · intro x
    by_cases e : x = t
    · subst e; rw [A3]
    · rw [A2 x e]
  · intro x hx
    have hxt : x ≠ t := fun e => by
      subst e
      rw [hinv.rr_eval x hx] at ht; cases ht
    rw [A2 x hxt]
    exact ⟨rfl, rfl⟩

/-- Completing the evaluation of `t` extends the order of appends by `t`
exactly when `t` is marked. -/
theorem QueueLog_finish {rank : TargetId → Nat} {R : Nat} {ctx ctx' : MAKE_CONTEXT}
    {log : List TargetId} (t : TargetId) (b : Bool) (cmds : List MAKE_CMD_TO_EXEC)
    (hinv : SchedInv rank R ctx) (ht : (ctx.Target t).DependenciesEvaluated = false)
    (hT : ∀ x, x ≠ t → ctx'.Target x = ctx.Target x)
    (hTt : ctx'.Target t =
      { ctx.Target t with DependenciesEvaluated := true, ExecCmds := cmds, RebuildRequired := b })
    (hq1 : ctx'.TargetsReady =
      (if b = true ∧ (ctx.Target t).NumberParentsToBuild = 0 then ctx.TargetsReady ++ [t]
        else ctx.TargetsReady))
    (hq2 : ctx'.TargetsWaiting =
      (if b = true ∧ (ctx.Target t).NumberParentsToBuild ≠ 0 then ctx.TargetsWaiting ++ [t]
        else ctx.TargetsWaiting))
    (hlog : QueueLog ctx log) :
    QueueLog ctx' (log ++ (if b = true then [t] else [])) := by
  have hrr : (ctx.Target t).RebuildRequired = false := by
    cases hr : (ctx.Target t).RebuildRequired
    · rfl
    · rw [hinv.rr_eval t hr] at ht; cases ht
  cases b with
  | false =>
    simp only [Bool.false_eq_true, if_false, List.append_nil]
    refine QueueLog_frame hlog (by simpa using hq1) (by simpa using hq2) ?_ ?_
    · intro x
      by_cases e : x = t
      · subst e; rw [hTt, hrr]
      · rw [hT x e]
    · intro x hx
      have hxt : x ≠ t := fun e => by subst e; rw [hrr] at hx; cases hx
      rw [hT x hxt]
      exact ⟨rfl, rfl⟩
  | true =>
    simp only [if_true]
    obtain ⟨h1, h2, h3, h4, h5⟩ := hlog
    have htl : t ∉ log := fun hm => by
      have := (h4 t).mp hm
      rw [hrr] at this; cases this
    have hnp : (ctx'.Target t).NumberParentsToBuild = (ctx.Target t).NumberParentsToBuild := by
      rw [hTt]
    have hold : ∀ x ∈ log, ctx'.Target x = ctx.Target x := fun x hx =>
      hT x (fun e => htl (e ▸ hx))
    refine ⟨?_, ?_, ?_, ?_, ?_⟩
    · rw [List.nodup_append]
      refine ⟨h1, List.nodup_singleton t, ?_⟩
      intro a ha hb
      rw [List.mem_singleton] at hb
      exact htl (hb ▸ ha)
    · rw [hq1, List.filter_append, h2]
      have e1 : log.filter (fun x => decide ((ctx'.Target x).NumberParentsToBuild = 0)) =
          log.filter (fun x => decide ((ctx.Target x).NumberParentsToBuild = 0)) :=
        List.filter_congr (fun x hx => by rw [hold x hx])
      rw [e1]
      by_cases hz : (ctx.Target t).NumberParentsToBuild = 0
      · simp [hz, hnp]
      · simp [hz, hnp]
    · rw [hq2, List.filter_append, h3]
      have e1 : log.filter (fun x => decide ((ctx'.Target x).NumberParentsToBuild ≠ 0)) =
          log.filter (fun x => decide ((ctx.Target x).NumberParentsToBuild ≠ 0)) :=
        List.filter_congr (fun x hx => by rw [hold x hx])
      rw [e1]
      by_cases hz : (ctx.Target t).NumberParentsToBuild = 0
      · simp [hz, hnp]
      · simp [hz, hnp]
    · intro x
      by_cases e : x = t
      · subst e
        simp [hTt]
      · rw [hT x e, List.mem_append, List.mem_singleton]
        constructor
        · rintro (hx | hx)
          · exact (h4 x).mp hx
          · exact absurd hx e
        · intro hx; exact Or.inl ((h4 x).mpr hx)
    · intro u hu d hd hrd
      rw [List.mem_append, List.mem_singleton] at hu
      rcases hu with hu | hu
      · rw [hold u hu] at hd
        have heu : (ctx.Target u).DependenciesEvaluated = true :=
          hinv.rr_eval u ((h4 u).mp hu)
        have hpt : d.Parent ≠ t := fun e => by
          have := hinv.parents u heu d hd
          rw [e, ht] at this; cases this
        rw [hT _ hpt] at hrd
        obtain ⟨l1, l2, e1, e2⟩ := h5 u hu d hd hrd
        exact ⟨l1, l2 ++ [t], by rw [e1]; simp, e2⟩
      · subst hu
        rw [hTt] at hd
        simp only at hd
        have hpt : d.Parent ≠ u := fun e => by
          have := hinv.rankOK.1 u d hd
          rw [e] at this; exact lt_irrefl _ this
        rw [hT _ hpt] at hrd
        exact ⟨log, [], rfl, (h4 _).mpr hrd⟩

/-- The prerequisite loop with a log of appends extends an order of appends
behind the queues by its log. -/
theorem MakeDetermineDependenciesForTargetLoopLog_queue {rank : TargetId → Nat} {R : Nat}
    {recurse : MAKE_CONTEXT → TargetId → Option ((Bool × MAKE_CONTEXT) × List TargetId)}
    (hrec : WalkSpec rank R (fun c p => (recurse c p).map Prod.fst))
    (hrecQ : ∀ (ctx : MAKE_CONTEXT) (p : TargetId) (ctx' : MAKE_CONTEXT) (L log : List TargetId),
      SchedInv rank R ctx →
      (∀ x, rank x ≤ rank p → (ctx.Target x).DependenciesEvaluated = false →
        (ctx.Target x).NumberParentsToBuild = 0) →
      rank p ≤ R →
      (rank p < R → (ctx.Target p).DependenciesEvaluated = true ∨
        MakeParentNeedsInferenceDependency ctx p = false) →
      QueueLog ctx L → recurse ctx p = some ((true, ctx'), log) → QueueLog ctx' (L ++ log))
    (t : TargetId) (hR : rank t ≤ R) :
    ∀ (fuel : Nat) (ctx : MAKE_CONTEXT) (i : Nat) (S S' : Bool) (ctx' : MAKE_CONTEXT)
      (L log : List TargetId),
      SchedInv rank R ctx → (ctx.Target t).DependenciesEvaluated = false →
      (∀ x, rank x < rank t → (ctx.Target x).DependenciesEvaluated = false →
        (ctx.Target x).NumberParentsToBuild = 0) →
      LoopInv ctx t i S → QueueLog ctx L →
      MakeDetermineDependenciesForTargetLoopLog recurse fuel ctx t i S =
        some ((true, S', ctx'), log) →
      QueueLog ctx' (L ++ log) := by
  intro fuel
  induction fuel with
  | zero =>
    intro ctx i S S' ctx' L log _ _ _ _ _ h
    simp [MakeDetermineDependenciesForTargetLoopLog] at h
  | succ n ih =>
    intro ctx i S S' ctx' L log hinv ht hzero hloop hQ h
    rw [MakeDetermineDependenciesForTargetLoopLog] at h
    cases hget : (ctx.Target t).ParentDependents[i]? with
    | none =>
      rw [hget] at h
      simp only [Option.some.injEq, Prod.mk.injEq, true_and] at h
      obtain ⟨⟨_, h1⟩, h2⟩ := h
      rw [← h1, ← h2, List.append_nil]
      exact hQ
    | some d =>
      rw [hget] at h
      simp only [MakeDetermineDependenciesPopulateParent_fst, Bool.not_true, Bool.false_eq_true,
        if_false] at h
      cases hr : recurse (MakeDetermineDependenciesPopulateParent ctx d.Parent).2 d.Parent with
      | none => rw [hr] at h; cases h
      | some r =>
        obtain ⟨⟨ok, ctx2⟩, lp⟩ := r
        rw [hr] at h
        cases ok with
        | false => simp at h
        | true =>
          simp only at h
          cases hrest : MakeDetermineDependenciesForTargetLoopLog recurse n
              (MakeDetermineDependenciesAccountParent ctx2 t d S).2 t (i + 1)
              (MakeDetermineDependenciesAccountParent ctx2 t d S).1 with
          | none => rw [hrest] at h; cases h
          | some r2 =>
            obtain ⟨res2, l2⟩ := r2
            rw [hrest] at h
            simp only [Option.some.injEq, Prod.mk.injEq] at h
            obtain ⟨h1, h2⟩ := h
            rw [h1] at hrest
            have hr' : (fun c p => (recurse c p).map Prod.fst)
                (MakeDetermineDependenciesPopulateParent ctx d.Parent).2 d.Parent =
                some (true, ctx2) := by
              simp only [hr, Option.map_some']
            have Lst := MakeDetermineDependenciesForTargetLoop_step hrec t hR ctx i S d _ ctx2
              (MakeDetermineDependenciesAccountParent ctx2 t d S).2
              (MakeDetermineDependenciesAccountParent ctx2 t d S).1 hinv ht hzero hloop hget rfl
              hr' rfl
            have hpR : rank d.Parent < R := lt_of_lt_of_le Lst.below hR
            have Q1 := QueueLog_populate hinv d.Parent hpR hQ
            have Q2 := hrecQ _ d.Parent ctx2 L lp Lst.synth.inv Lst.zero (le_of_lt hpR)
              (fun _ => Lst.synth.ready) Q1 hr
            have Q3 := QueueLog_account Lst.walk.inv t d S Lst.unevaluated2 Q2
            have Q4 := ih _ (i + 1) _ S' ctx' (L ++ lp) l2 Lst.inv Lst.unevaluated Lst.zero3
              Lst.loop Q3 hrest
            rw [← h2, ← List.append_assoc]
            exact Q4

/-- The walk with a log of appends extends an order of appends behind the
queues by its log. -/
theorem MakeDetermineDependenciesForTargetAppends_queue (env : MAKE_ENV)
    {rank : TargetId → Nat} {R : Nat} :
    ∀ (fuel : Nat) (ctx : MAKE_CONTEXT) (p : TargetId) (ctx' : MAKE_CONTEXT)
      (L log : List TargetId),
      SchedInv rank R ctx →
      (∀ x, rank x ≤ rank p → (ctx.Target x).DependenciesEvaluated = false →
        (ctx.Target x).NumberParentsToBuild = 0) →
      rank p ≤ R →
      (rank p < R → (ctx.Target p).DependenciesEvaluated = true ∨
        MakeParentNeedsInferenceDependency ctx p = false) →
      QueueLog ctx L →
      MakeDetermineDependenciesForTargetAppends env fuel ctx p = some ((true, ctx'), log) →
      QueueLog ctx' (L ++ log) := by
  intro fuel
  induction fuel with
  | zero =>
    intro ctx p ctx' L log _ _ _ _ _ h
    simp [MakeDetermineDependenciesForTargetAppends] at h
  | succ n ih =>
    intro ctx p ctx' L log hinv hzero hR hns hQ h
    cases he : (ctx.Target p).DependenciesEvaluated with
    | true =>
      rw [MakeDetermineDependenciesForTargetAppends] at h
      simp only [he, if_true, Option.some.injEq, Prod.mk.injEq, true_and] at h
      obtain ⟨h1, h2⟩ := h
      rw [← h1, ← h2, List.append_nil]
      exact hQ
    | false =>
      have hw : MakeDetermineDependenciesForTarget env (n + 1) ctx p = some (true, ctx') := by
        rw [← MakeDetermineDependenciesForTargetAppends_erase env (n + 1) ctx p, h]
        rfl
      have hfun : (fun c q => (MakeDetermineDependenciesForTargetAppends env n c q).map Prod.fst) =
          (fun c q => MakeDetermineDependenciesForTarget env n c q) := by
        funext c q
        exact MakeDetermineDependenciesForTargetAppends_erase env n c q
      have hspec := MakeDetermineDependenciesForTarget_spec env rank R n
      have hspec' : WalkSpec rank R
          (fun c q => (MakeDetermineDependenciesForTargetAppends env n c q).map Prod.fst) := by
        rw [hfun]; exact hspec
      have hloop0 : LoopInv ctx p 0 false := by
        refine ⟨?_, ?_, ?_⟩
        · simpa using hzero p (le_refl _) he
        · simp
        · simp
      cases hl : MakeDetermineDependenciesForTargetLoopLog
          (fun c q => MakeDetermineDependenciesForTargetAppends env n c q) (n + 1) ctx p 0
          false with
      | none =>
        rw [MakeDetermineDependenciesForTargetAppends, if_neg (by simp [he]), hl] at h
        cases h
      | some r =>
        obtain ⟨⟨ok, S, ctx1⟩, log1⟩ := r
        cases ok with
        | false =>
          rw [MakeDetermineDependenciesForTargetAppends, if_neg (by simp [he]), hl] at h
          simp at h
        | true =>
          have hlu : MakeDetermineDependenciesForTargetLoop
              (fun c q => MakeDetermineDependenciesForTarget env n c q) (n + 1) ctx p 0 false =
              some (true, S, ctx1) := by
            rw [← MakeDetermineDependenciesForTargetLoopLog_erase
              (fun c q => MakeDetermineDependenciesForTargetAppends env n c q) _
              (fun c q => MakeDetermineDependenciesForTargetAppends_erase env n c q), hl]
            rfl
          have Q := MakeDetermineDependenciesForTargetLoop_spec hspec p hR (n + 1) ctx 0 false S
            ctx1 hinv he (fun x hx => hzero x (le_of_lt hx)) hloop0 hlu
          have Q1 := MakeDetermineDependenciesForTargetLoopLog_queue hspec'
            (fun c q c' L0 l0 a1 a2 a3 a4 a5 a6 => ih c q c' L0 l0 a1 a2 a3 a4 a5 a6) p hR (n + 1)
            ctx 0 false S ctx1 L log1 hinv he (fun x hx => hzero x (le_of_lt hx)) hloop0 hQ hl
          have hrr1 : (ctx1.Target p).RebuildRequired = false := by
            cases hr : (ctx1.Target p).RebuildRequired
            · rfl
            · have := Q.inv.rr_eval p hr
              rw [Q.unevaluated] at this; cases this
          obtain ⟨S2, ctx1b, hl2, hend⟩ :=
            MakeDetermineDependenciesForTarget_ends env n ctx ctx' p he hw
          rw [hlu] at hl2
          simp only [Option.some.injEq, Prod.mk.injEq, true_and] at hl2
          obtain ⟨hS, hc⟩ := hl2
          subst hS
          subst hc
          obtain ⟨b, cmds, hb, hT, hTt, hq1, hq2⟩ := hend hrr1
          have Qf := QueueLog_finish p b cmds Q.inv Q.unevaluated hT hTt hq1 hq2 Q1
          have hlog : log = log1 ++ (if b = true then [p] else []) := by
            rw [MakeDetermineDependenciesForTargetAppends_after_loop env n ctx p S ctx1 log1 he
              hl] at h
            by_cases hc : ((!(ctx1.Target p).FileExists || S) &&
                !(ctx1.Target p).RebuildRequired) = true
            · rw [if_pos hc] at h
              simp only [Option.some.injEq, Prod.mk.injEq] at h
              obtain ⟨h1, h2⟩ := h
              have hm : (MakeMarkTargetForRebuild env
                  (ctx1.setTarget p { ctx1.Target p with DependenciesEvaluated := true }) p).1 =
                  true := by
                rw [← MakeMarkTargetForRebuildLog_erase, h1]
              have hbt : b = true := by
                rw [hb]
                cases hfe : (ctx1.Target p).FileExists <;> cases hS : S <;> simp_all
              rw [MakeMarkTargetForRebuildLog_log env _ p (by simp [MAKE_CONTEXT.setTarget, hrr1]),
                if_pos hm] at h2
              rw [← h2, hbt]
              rfl
            · rw [if_neg hc] at h
              simp only [Option.some.injEq, Prod.mk.injEq, true_and] at h
              have hbf : b = false := by
                cases hbb : b with
                | false => rfl
                | true =>
                  exfalso
                  apply hc
                  have := hb.mp hbb
                  rcases this with h1 | h1 <;> simp [h1, hrr1]
              rw [← h.2, hbf]
              simp
          rw [hlog, ← List.append_assoc]
          exact Qf

theorem ScenarioDiamond_fresh : FreshContext ScenarioDiamond := by
  refine ⟨fun t => ?_, rfl, rfl⟩
  by_cases h0 : t = 0
  · subst h0; exact ⟨rfl, rfl, rfl, rfl⟩
  · by_cases h1 : t = 1
    · subst h1; exact ⟨rfl, rfl, rfl, rfl⟩
    · by_cases h2 : t = 2
      · subst h2; exact ⟨rfl, rfl, rfl, rfl⟩
      · by_cases h3 : t = 3
        · subst h3; exact ⟨rfl, rfl, rfl, rfl⟩
        · simp [ScenarioDiamond, h0, h1, h2, h3, MakeInitialTarget]

theorem ScenarioDiamond_schedule :
    MakeDetermineDependencies (ScenarioEnv []) 6 ScenarioDiamond =
      some (true, ScenarioDiamondResult) := by
  rfl

/-- C14: queue order.  `MakeDetermineDependenciesAppends` is
`MakeDetermineDependencies` with a log of the appends to the two queues, in
the order in which `MakeMarkTargetForRebuild` makes them.  After a successful
`MakeDetermineDependencies` from a fresh context on an acyclic graph the
logged run ends in the same context with a log `log` that holds each marked
target once and of which `TargetsReady` and `TargetsWaiting` are the sublists
of the targets with no, respectively some, prerequisite to build.  For every
dependency edge between two marked targets the prerequisite stands before the
dependent in `log`: it was appended to its queue before the dependent was
appended to its own.  Such a dependent is on `TargetsWaiting` and not on
`TargetsReady`; and on `TargetsReady`, and on `TargetsWaiting`, a prerequisite
stands before its dependent whenever both are on it. -/
theorem MakeDetermineDependencies_queue_order (env : MAKE_ENV) (fuel : Nat)
    (ctx ctx' : MAKE_CONTEXT) (hfresh : FreshContext ctx) (hacyc : Acyclic ctx)
    (h : MakeDetermineDependencies env fuel ctx = some (true, ctx')) :
    ∃ log : List TargetId,
      MakeDetermineDependenciesAppends env fuel ctx = some ((true, ctx'), log) ∧
      log.Nodup ∧
      ctx'.TargetsReady =
        log.filter (fun x => decide ((ctx'.Target x).NumberParentsToBuild = 0)) ∧
      ctx'.TargetsWaiting =
        log.filter (fun x => decide ((ctx'.Target x).NumberParentsToBuild ≠ 0)) ∧
      (∀ x, x ∈ log ↔ (ctx'.Target x).RebuildRequired = true) ∧
      (∀ t d, d ∈ (ctx'.Target t).ParentDependents →
        (ctx'.Target d.Parent).RebuildRequired = true →
        (ctx'.Target t).RebuildRequired = true →
        ∃ l1 l2, log = l1 ++ t :: l2 ∧ d.Parent ∈ l1) ∧
      (∀ t d, d ∈ (ctx'.Target t).ParentDependents →
        (ctx'.Target d.Parent).RebuildRequired = true →
        (ctx'.Target t).RebuildRequired = true →
        t ∈ ctx'.TargetsWaiting ∧ t ∉ ctx'.TargetsReady) ∧
      (∀ t d, d ∈ (ctx'.Target t).ParentDependents →
        (d.Parent ∈ ctx'.TargetsReady → t ∈ ctx'.TargetsReady →
          ∃ l1 l2, ctx'.TargetsReady = l1 ++ t :: l2 ∧ d.Parent ∈ l1) ∧
        (d.Parent ∈ ctx'.TargetsWaiting → t ∈ ctx'.TargetsWaiting →
          ∃ l1 l2, ctx'.TargetsWaiting = l1 ++ t :: l2 ∧ d.Parent ∈ l1)) := by
  obtain ⟨rank, hrank⟩ := hacyc
  have herase := MakeDetermineDependenciesAppends_erase env fuel ctx
  rw [h] at herase
  cases hA : MakeDetermineDependenciesAppends env fuel ctx with
  | none => rw [hA] at herase; cases herase
  | some r =>
    obtain ⟨res, log⟩ := r
    rw [hA] at herase
    simp only [Option.map_some', Option.some.injEq] at herase
    subst herase
    refine ⟨log, rfl, ?_⟩
    unfold MakeDetermineDependenciesAppends at hA
    unfold MakeDetermineDependencies at h
    cases hf : MakeDetermineDependenciesFirstTarget ctx ctx.TargetsList with
    | none => rw [hf] at h; simp at h
    | some root =>
      rw [hf] at hA h
      simp only at hA h
      have W := MakeDetermineDependenciesForTarget_fresh env rank fuel ctx ctx' root hfresh hrank h
      have hq0 : QueueLog ctx [] :=
        ⟨List.nodup_nil, by rw [hfresh.2.1]; rfl, by rw [hfresh.2.2]; rfl,
          fun x => by simp [(hfresh.1 x).2.1], fun t ht => by simp at ht⟩
      have hq := MakeDetermineDependenciesForTargetAppends_queue env fuel ctx root ctx' [] log
        (SchedInv_of_fresh (rank root) hfresh hrank) (fun x _ _ => (hfresh.1 x).2.2.1)
        (le_refl _) (fun hlt => absurd hlt (lt_irrefl _)) hq0 hA
      rw [List.nil_append] at hq
      obtain ⟨h1, h2, h3, h4, h5⟩ := hq
      have hord : ∀ t d, d ∈ (ctx'.Target t).ParentDependents →
          (ctx'.Target d.Parent).RebuildRequired = true →
          (ctx'.Target t).RebuildRequired = true →
          ∃ l1 l2, log = l1 ++ t :: l2 ∧ d.Parent ∈ l1 :=
        fun t d hd hp ht => h5 t ((h4 t).mpr ht) d hd hp
      refine ⟨h1, h2, h3, h4, hord, fun t d hd hp ht => ?_, fun t d hd => ⟨?_, ?_⟩⟩
      · have hcount := W.inv.counted t (W.inv.rr_eval t ht)
        have hpos : 0 < (ctx'.Target t).ParentDependents.countP
            (fun e => (ctx'.Target e.Parent).RebuildRequired) :=
          List.countP_pos_iff.mpr ⟨d, hd, hp⟩
        have hnz : (ctx'.Target t).NumberParentsToBuild ≠ 0 := by omega
        constructor
        · rw [h3, List.mem_filter]
          exact ⟨(h4 t).mpr ht, by simpa using hnz⟩
        · rw [h2, List.mem_filter]
          rintro ⟨_, hz⟩
          exact hnz (by simpa using hz)
      · intro hp ht
        have hp2 := hp
        have ht2 := ht
        rw [h2, List.mem_filter] at hp2 ht2
        obtain ⟨l1, l2, e1, e2⟩ := hord t d hd ((h4 _).mp hp2.1) ((h4 _).mp ht2.1)
        rw [h2]
        exact filter_before _ log l1 l2 d.Parent t e1 e2 hp2.2 ht2.2
      · intro hp ht
        have hp2 := hp
        have ht2 := ht
        rw [h3, List.mem_filter] at hp2 ht2
        obtain ⟨l1, l2, e1, e2⟩ := hord t d hd ((h4 _).mp hp2.1) ((h4 _).mp ht2.1)
        rw [h3]
        exact filter_before _ log l1 l2 d.Parent t e1 e2 hp2.2 ht2.2

/-- Witness of C14 on the diamond, where every target is missing: `q` is
appended to `TargetsReady` first, then `p1`, `p2` and `t` to
`TargetsWaiting`, each after its prerequisites. -/
theorem MakeDetermineDependencies_queue_order_witness :
    (∃ log : List TargetId,
      MakeDetermineDependenciesAppends (ScenarioEnv []) 6 ScenarioDiamond =
        some ((true, ScenarioDiamondResult), log) ∧
      log.Nodup ∧
      ScenarioDiamondResult.TargetsReady =
        log.filter (fun x => decide ((ScenarioDiamondResult.Target x).NumberParentsToBuild = 0)) ∧
      ScenarioDiamondResult.TargetsWaiting =
        log.filter (fun x => decide ((ScenarioDiamondResult.Target x).NumberParentsToBuild ≠ 0)) ∧
      (∀ x, x ∈ log ↔ (ScenarioDiamondResult.Target x).RebuildRequired = true) ∧
      (∀ t d, d ∈ (ScenarioDiamondResult.Target t).ParentDependents →
        (ScenarioDiamondResult.Target d.Parent).RebuildRequired = true →
        (ScenarioDiamondResult.Target t).RebuildRequired = true →
        ∃ l1 l2, log = l1 ++ t :: l2 ∧ d.Parent ∈ l1) ∧
      (∀ t d, d ∈ (ScenarioDiamondResult.Target t).ParentDependents →
        (ScenarioDiamondResult.Target d.Parent).RebuildRequired = true →
        (ScenarioDiamondResult.Target t).RebuildRequired = true →
        t ∈ ScenarioDiamondResult.TargetsWaiting ∧ t ∉ ScenarioDiamondResult.TargetsReady) ∧
      (∀ t d, d ∈ (ScenarioDiamondResult.Target t).ParentDependents →
        (d.Parent ∈ ScenarioDiamondResult.TargetsReady → t ∈ ScenarioDiamondResult.TargetsReady →
          ∃ l1 l2, ScenarioDiamondResult.TargetsReady = l1 ++ t :: l2 ∧ d.Parent ∈ l1) ∧
        (d.Parent ∈ ScenarioDiamondResult.TargetsWaiting →
          t ∈ ScenarioDiamondResult.TargetsWaiting →
          ∃ l1 l2, ScenarioDiamondResult.TargetsWaiting = l1 ++ t :: l2 ∧ d.Parent ∈ l1))) ∧
    (MakeDetermineDependenciesAppends (ScenarioEnv []) 6 ScenarioDiamond).map Prod.snd =
      some [3, 1, 2, 0] ∧
    ScenarioDiamondResult.TargetsReady = [3] ∧
    ScenarioDiamondResult.TargetsWaiting = [1, 2, 0] ∧
    (ScenarioDiamondResult.Target 0).ParentDependents =
      [{ Parent := 1, Child := 0 }, { Parent := 2, Child := 0 }] ∧
    (ScenarioDiamondResult.Target 1).ParentDependents = [{ Parent := 3, Child := 1 }] :=
  ⟨MakeDetermineDependencies_queue_order (ScenarioEnv []) 6 ScenarioDiamond ScenarioDiamondResult
    ScenarioDiamond_fresh ScenarioDiamond_acyclic ScenarioDiamond_schedule, rfl, rfl, rfl, rfl,
    rfl⟩

end Yori
